import Mathlib

/-!
Two-pass assembler for the 10-bit imaginary machine: a shallow embedding

The C modules `word`, `linked_list`, `hash_table`, `symbol_table`,
`memory_manager`, `error_handler`, `second_pass_processor`,
`first_pass_processor` and `main` are translated function by function.

Conventions of the embedding

* a `char *` string is a `List Char` (the terminating NUL is implicit); the
  input is ASCII text, so a stored character is its code point;
* an `int` returned by `getc` is an `Option Char`, `none` standing for `EOF`;
* the file-level `static` variables of a module are the fields of one record
  per module, collected in `session`; text sent to `stderr` is appended to
  the `stderr` field as a list of `diag` values; a C function that reads or
  writes these variables is a function `session → α × session`, written in
  `do` notation (type `M α`);
* a signed 10-bit bit-field holds `wrap10 v` after the assignment of `v`
  (two's complement truncation), an `int` computed from input digits is
  reduced by `wrap32`;
* `x & m` is taken on the 32-bit two's complement pattern of `x`.
-/

namespace Assembler

/-! ## word.h / word.c -/

/-- Value read back from a signed 10-bit bit-field after `v` was assigned. -/
def wrap10 (v : Int) : Int := (v + 512) % 1024 - 512

/-- Value of a 32-bit `int` after two's complement wrap-around. -/
def wrap32 (v : Int) : Int := (v + 2147483648) % 4294967296 - 2147483648

/-- The C expression `a & m` for an `int` a and a non-negative constant m. -/
def int_and (a : Int) (m : Nat) : Int := Int.ofNat (Nat.land (a % 2 ^ 32).toNat m)

/-- The C expression `a >> k` (arithmetic shift). -/
def int_shr (a : Int) (k : Nat) : Int := a / 2 ^ k

/-- The C expression `a << k`. -/
def int_shl (a : Int) (k : Nat) : Int := a * 2 ^ k

/-- `typedef struct word { int value : 10; } word;` -/
structure word where
  value : Int
deriving DecidableEq, Repr

/-- The assignment `w.value = v` into the bit-field. -/
def word_assign (v : Int) : word := ⟨wrap10 v⟩

/-- The table `encoding[]` of word.c. -/
def encoding : List Char :=
  ['!', '@', '#', '$', '%', '^', '&', '*', '<', '>', 'a', 'b', 'c', 'd', 'e', 'f',
   'g', 'h', 'i', 'j', 'k', 'l', 'm', 'n', 'o', 'p', 'q', 'r', 's', 't', 'u', 'v']

/-- Function `convert_to_awkward_base`: the two characters written to
`target[0]` and `target[1]` (`target[2]` is the terminator). -/
def convert_to_awkward_base (value : word) : List Char :=
  [encoding.getD (int_shr (int_and value.value 992) 5).toNat (Char.ofNat 0),
   encoding.getD (int_and value.value 31).toNat (Char.ofNat 0)]

/-- Function `convert_int_to_awkward_base`. -/
def convert_int_to_awkward_base (value : Int) : List Char :=
  convert_to_awkward_base (word_assign value)

/-- Inverse of the alphabet: the position of a character in `encoding`. -/
def decode_char (c : Char) : Nat := encoding.indexOf c

/-! ## symbol_table.h: payload types -/

/-- `typedef enum type {INST, REGS, EXTERN, DATA, INST_L, DIRECT} type;` -/
inductive type where
  | INST
  | REGS
  | EXTERN
  | DATA
  | INST_L
  | DIRECT
deriving DecidableEq, Repr

/-- `typedef struct instruction`: the two mode masks are 2-bit unsigned
bit-fields. -/
structure instruction where
  input : Nat
  output : Nat
  value : word
deriving DecidableEq, Repr

/-- `typedef struct regs` -/
structure regs where
  input_op : word
  output_op : word
deriving DecidableEq, Repr

/-- `typedef struct label`: `is_struct` is a 1-bit unsigned bit-field. -/
structure label where
  address : word
  is_struct : Bool
deriving DecidableEq, Repr

/-- `typedef struct directive` -/
structure directive where
  integers : Int
  string : Bool
  label : Bool
deriving DecidableEq, Repr

/-- `typedef struct line_data` of second_pass_processor.h: `line_count` is a
signed 10-bit bit-field, `is_struct` a 1-bit unsigned one. -/
structure line_data where
  line_count : Int
  is_struct : Bool
deriving DecidableEq, Repr

/-- What the `void *data` field of a node points to. -/
inductive node_data where
  | null
  | inst (d : instruction)
  | regs (d : regs)
  | label (d : label)
  | direct (d : directive)
  | line (d : line_data)
deriving DecidableEq, Repr

/-! ## linked_list.h / linked_list.c -/

/-- `typedef struct node`: `index` is a signed 10-bit bit-field; `next` is the
tail of the Lean list the node sits in. `node_construct` leaves `index`
unset; it is 0 here until assigned. -/
structure node where
  key : List Char
  type : type
  index : Int
  data : node_data
deriving DecidableEq, Repr

/-- A `linked_list`: the nodes from `head` on. -/
abbrev linked_list := List node

/-- Function `linked_list_construct`. -/
def linked_list_construct : linked_list := []

/-- Function `node_construct`. -/
def node_construct (key : List Char) (t : type) : node :=
  { key := key, type := t, index := 0, data := .null }

/-- Function `linked_list_insert`: the item becomes the new head. -/
def linked_list_insert (list : linked_list) (item : node) : linked_list := item :: list

/-- Function `reverse_list`. -/
def reverse_list (list : linked_list) : linked_list := list.reverse

/-- Function `linked_list_find`: the first node from the head whose key
compares equal under `strcmp`. -/
def linked_list_find (list : linked_list) (key : List Char) : Option node :=
  list.find? (fun n => decide (n.key = key))

/-! ## hash_table.h / hash_table.c -/

/-- `#define DEFAULT_SIZE 41` -/
def DEFAULT_SIZE : Nat := 41

/-- `typedef struct hash_table`; the `function` field always holds
`default_hash_function`. -/
structure hash_table where
  array : List linked_list
  array_size : Nat
deriving DecidableEq, Repr

/-- Function `default_hash_function`. -/
def default_hash_function (key : List Char) (array_size : Nat) : Nat :=
  (key.foldl (fun hash_value c => hash_value + c.toNat) 0) % array_size

/-- Function `hash_table_construct`. -/
def hash_table_construct (size : Nat) : hash_table :=
  { array := List.replicate size linked_list_construct, array_size := size }

/-- Function `hash_table_find`. -/
def hash_table_find (table : hash_table) (key : List Char) : Option node :=
  linked_list_find (table.array.getD (default_hash_function key table.array_size) []) key

/-- Function `hash_table_insert`: the table after the call and the value
returned (1 when the node was added, 0 when the key was present). -/
def hash_table_insert (table : hash_table) (key : List Char) (data : node_data) (t : type) :
    hash_table × Bool :=
  let i := default_hash_function key table.array_size
  let list := table.array.getD i []
  match linked_list_find list key with
  | none =>
    let item := { node_construct key t with data := data }
    ({ table with array := table.array.set i (linked_list_insert list item) }, true)
  | some _ => (table, false)

/-! ## symbol_table.c -/

/-- `#define REGISTERS_COUNT 8` -/
def REGISTERS_COUNT : Nat := 8

/-- Function `construct_instruction`. -/
def construct_instruction (input output : Nat) (word_value : Int) : instruction :=
  { input := input % 4, output := output % 4, value := word_assign (int_shl word_value 6) }

/-- The sixteen calls made by `load_instructions`, in order. -/
def instructions_table : List (String × Nat × Nat × Int) :=
  [("mov", 2, 1, 0), ("cmp", 2, 2, 1), ("add", 2, 1, 2), ("sub", 2, 1, 3),
   ("not", 0, 1, 4), ("clr", 0, 1, 5), ("lea", 1, 1, 6), ("inc", 0, 1, 7),
   ("dec", 0, 1, 8), ("jmp", 0, 1, 9), ("bne", 0, 1, 10), ("red", 0, 1, 11),
   ("prn", 0, 2, 12), ("jsr", 0, 1, 13), ("rts", 0, 0, 14), ("stop", 0, 0, 15)]

/-- Function `load_instructions`. -/
def load_instructions (symbol_table : hash_table) : hash_table :=
  instructions_table.foldl
    (fun t e => (hash_table_insert t e.1.toList
      (.inst (construct_instruction e.2.1 e.2.2.1 e.2.2.2)) .INST).1)
    symbol_table

/-- Function `load_psw_register`. -/
def load_psw_register (symbol_table : hash_table) : hash_table :=
  let temp : Int := REGISTERS_COUNT
  (hash_table_insert symbol_table "PSW".toList
    (.regs { input_op := word_assign (int_shl temp 6), output_op := word_assign (int_shl temp 2) })
    .REGS).1

/-- Function `load_registers`. -/
def load_registers (count : Nat) (symbol_table : hash_table) : hash_table :=
  load_psw_register
    ((List.range count).foldl
      (fun t i => (hash_table_insert t ['r', Char.ofNat ('0'.toNat + i)]
        (.regs { input_op := word_assign (int_shl i 6), output_op := word_assign (int_shl i 2) })
        .REGS).1)
      symbol_table)

/-- Function `construct_directive`. -/
def construct_directive (integers : Int) (string label : Bool) : directive :=
  { integers := integers, string := string, label := label }

/-- Function `load_directives`. -/
def load_directives (symbol_table : hash_table) : hash_table :=
  let t1 := (hash_table_insert symbol_table ".data".toList
    (.direct (construct_directive 1 false false)) .DIRECT).1
  let t2 := (hash_table_insert t1 ".struct".toList
    (.direct (construct_directive 1 true false)) .DIRECT).1
  let t3 := (hash_table_insert t2 ".string".toList
    (.direct (construct_directive 0 true false)) .DIRECT).1
  let t4 := (hash_table_insert t3 ".entry".toList
    (.direct (construct_directive 0 false true)) .DIRECT).1
  (hash_table_insert t4 ".extern".toList
    (.direct (construct_directive 0 false true)) .DIRECT).1

/-- Function `initialize_symbol_table`. -/
def initialize_symbol_table : hash_table :=
  load_directives (load_registers REGISTERS_COUNT
    (load_instructions (hash_table_construct DEFAULT_SIZE)))

/-- Function `symbol_table_insert_label`; the value returned by
`hash_table_insert` is dropped, as in the source. -/
def symbol_table_insert_label (symbol_table : hash_table) (symbol : List Char) (counter : Int)
    (t : type) (is_struct : Bool) : hash_table :=
  let new_word : word :=
    if t = .EXTERN then word_assign 1
    else if t = .INST_L then word_assign counter
    else word_assign counter
  (hash_table_insert symbol_table symbol
    (.label { address := new_word, is_struct := is_struct }) t).1

/-- Function `find_symbol`. -/
def find_symbol (symbol_table : hash_table) (symbol : List Char) : Option node :=
  hash_table_find symbol_table symbol

/-! ## memory_manager.h / memory_manager.c -/

/-- `#define C 100` -/
def C : Nat := 100

/-- `#define MEMORY_SIZE 256` -/
def MEMORY_SIZE : Nat := 256

/-- The static variables of memory_manager.c. The arrays are the two blocks
of `MEMORY_SIZE` words obtained from `calloc`; a store at an index outside a
block is outside the modelled array and leaves it as it is. -/
structure memory where
  instructions_array : List word
  data_array : List word
  IC : Nat
  DC : Nat
  memory_full_flag : Bool
deriving DecidableEq, Repr

/-- The static initial values (`NULL`, `NULL`, 0, 0, 0), also the state left
by `free_memory`. -/
def memory_static : memory :=
  { instructions_array := [], data_array := [], IC := 0, DC := 0, memory_full_flag := false }

/-- Function `initialize_memory`. -/
def initialize_memory (m : memory) : memory :=
  { m with instructions_array := List.replicate MEMORY_SIZE ⟨0⟩,
           data_array := List.replicate MEMORY_SIZE ⟨0⟩ }

/-- Function `free_memory`. -/
def free_memory (_m : memory) : memory := memory_static

/-- Function `instructions_array_insert`: its effect on the variables of the
memory manager (`session.instructions_array_insert` adds the line printed to
stderr). -/
def instructions_array_insert (item : word) (m : memory) : memory :=
  if m.IC + m.DC ≤ MEMORY_SIZE then
    { m with instructions_array := m.instructions_array.set m.IC item, IC := m.IC + 1 }
  else
    { m with memory_full_flag := true }

/-- Function `data_array_insert`. -/
def data_array_insert (item : word) (m : memory) : memory :=
  if m.IC + m.DC ≤ MEMORY_SIZE then
    { m with data_array := m.data_array.set m.DC item, DC := m.DC + 1 }
  else
    { m with memory_full_flag := true }

/-- Function `instructions_array_set_index`. -/
def instructions_array_set_index (index : Int) (address : Int) (m : memory) : memory :=
  { m with instructions_array := m.instructions_array.set index.toNat (word_assign address) }

/-- One call of an insert function of the memory manager. -/
inductive mem_op where
  | inst (item : word)
  | data (item : word)
deriving DecidableEq, Repr

/-- Effect of one insert call. -/
def mem_op.apply (o : mem_op) (m : memory) : memory :=
  match o with
  | .inst w => instructions_array_insert w m
  | .data w => data_array_insert w m

/-- Effect of a sequence of insert calls, first call first. -/
def run_ops (ops : List mem_op) (m : memory) : memory :=
  ops.foldl (fun acc o => o.apply acc) m

/-! ## error_handler.h / error_handler.c -/

/-- One message written to `stderr`. The numbered errors and warnings carry
the line number and the index into `errors_list` / `warnings_list`. -/
inductive diag where
  | error_string (line_count : Int) (error_number : Nat) (str : List Char)
  | error_char (line_count : Int) (error_number : Nat) (c : Option Char)
  | error (line_count : Int) (error_number : Nat)
  | warning_string (line_count : Int) (warning_number : Nat) (str : List Char)
  | warning_int (line_count : Int) (warning_number : Nat) (value : Int)
  | warning (line_count : Int) (warning_number : Nat)
  | memory_is_full
  | item_is_already_present (key : List Char)
deriving DecidableEq, Repr

/-- Whether a message is one of the numbered errors of `errors_list`. -/
def diag.is_error : diag → Bool
  | .error_string _ _ _ => true
  | .error_char _ _ _ => true
  | .error _ _ => true
  | _ => false

/-- The number of a numbered error, 0 for any other message. -/
def diag.error_number : diag → Nat
  | .error_string _ n _ => n
  | .error_char _ n _ => n
  | .error _ n => n
  | _ => 0

/-! ## The input stream of first_pass_processor.c -/

/-- The `FILE *intput_as`: the characters not read yet (a character pushed
back by `ungetc` is put in front) and the end-of-file indicator tested by
`feof`. -/
structure InFile where
  buf : List Char
  eof : Bool
deriving DecidableEq, Repr

/-- Library function `getc`: `none` is `EOF`. -/
def getc (f : InFile) : Option Char × InFile :=
  match f.buf with
  | [] => (none, { f with eof := true })
  | c :: rest => (some c, { f with buf := rest })

/-- Library function `ungetc`: pushing back `EOF` does nothing, pushing back
a character clears the end-of-file indicator. -/
def ungetc (c : Option Char) (f : InFile) : InFile :=
  match c with
  | none => f
  | some ch => { buf := ch :: f.buf, eof := false }

/-- The loop `while (test (c = getc (intput_as))) body (c);` for a test that
fails on `EOF`: the characters the body ran on, the value of c that ended the
loop, and the stream after that last `getc`. -/
def getc_while (p : Char → Bool) (eof : Bool) : List Char → List Char × Option Char × InFile
  | [] => ([], none, { buf := [], eof := true })
  | c :: rest =>
    if p c then
      let r := getc_while p eof rest
      (c :: r.1, r.2.1, r.2.2)
    else ([], some c, { buf := rest, eof := eof })

/-- Library function `isdigit` on the `int` returned by `getc`. -/
def isdigit (c : Option Char) : Bool :=
  match c with
  | none => false
  | some ch => ch.isDigit

/-- Function `skip_whites`. -/
def skip_whites (f : InFile) : Option Char × InFile :=
  let r := getc_while (fun c => c = '\t' ∨ c = ' ') f.eof f.buf
  (r.2.1, ungetc r.2.1 r.2.2)

/-- Function `skip_line`. -/
def skip_line (f : InFile) : Option Char × InFile :=
  let r := getc_while (fun c => c ≠ '\n') f.eof f.buf
  (r.2.1, r.2.2)

/-- Function `peek_next_char`. -/
def peek_next_char (f : InFile) : Option Char × InFile :=
  let f1 := (skip_whites f).2
  let r := getc f1
  (r.1, ungetc r.1 r.2)

/-- `#define MAX_BUFFER_SIZE 80` of first_pass_processor.h: the size of the
buffers `str1`, `str2`, `label`, `command`, `op1` and `op2` that hold the
tokens of a line. -/
def MAX_BUFFER_SIZE : Nat := 80

/-- The number of bytes `read_next_string` stores through `string`: one for
each character of the token (`*p++ = c`), one for the colon when a colon ended
it, and the terminating NUL (`*p = 0`). They go to `string[0]`, `string[1]`
and so on; the source has no test against the size of the buffer. -/
def read_next_string_stored (f : InFile) : Nat :=
  let r := getc_while (fun c => c ≠ ':' ∧ c ≠ '\n' ∧ c ≠ ' ' ∧ c ≠ '\t') f.eof f.buf
  r.1.length + (if r.2.1 = some ':' then 1 else 0) + 1

/-- Function `read_next_string`: the string stored with the value returned,
and the stream. The source never initialises `chars_count`; `chars_count0` is
the value the variable holds on entry. The string is stored through the
pointer given, in a buffer of `MAX_BUFFER_SIZE` bytes at every call, with no
test against that size: this is what the function does when the
`read_next_string_stored` bytes fit the buffer. With more bytes the source
writes past the end of the buffer, and what the program does after that is
not described by this definition. -/
def read_next_string (chars_count0 : Int) (f : InFile) : (List Char × Int) × InFile :=
  let r := getc_while (fun c => c ≠ ':' ∧ c ≠ '\n' ∧ c ≠ ' ' ∧ c ≠ '\t') f.eof f.buf
  let c := r.2.1
  let string := if c = some ':' then r.1 ++ [':'] else r.1
  let f1 := if c = some ':' then r.2.2 else ungetc c r.2.2
  ((string, chars_count0 + r.1.length), (skip_whites f1).2)

/-- The digit loop and the tail of `read_next_number`. -/
def read_digits (sign : Int) (f : InFile) : (Int × Int) × InFile :=
  let r := getc_while Char.isDigit f.eof f.buf
  let current_number :=
    r.1.foldl (fun n c => wrap32 (10 * n + ((c.toNat : Int) - ('0'.toNat : Int)))) 0
  ((r.1.length, wrap32 (sign * current_number)), ungetc r.2.1 r.2.2)

/-- Function `read_next_number`: the value returned with the content of
`*dest` after the call (`dest` before it when no number is read), and the
stream. -/
def read_next_number (dest : Int) (f : InFile) : (Int × Int) × InFile :=
  let r1 := getc f
  let c := r1.1
  let r2 := getc r1.2
  let next_c := r2.1
  let f3 := ungetc next_c r2.2
  if c = some '+' ∧ isdigit next_c then read_digits 1 f3
  else if c = some '-' ∧ isdigit next_c then read_digits (-1) f3
  else if ¬ isdigit c then ((0, dest), ungetc c f3)
  else read_digits 1 (ungetc c f3)

/-- Function `shorten_string`. -/
def shorten_string (string : List Char) : List Char := string.take 5 ++ "...".toList

/-- Function `remove_colon`: the string is cut at its first colon. -/
def remove_colon (src : List Char) : List Char := src.takeWhile (fun c => c ≠ ':')

/-! ## The state of one file's processing -/

/-- The file-level static variables of the modules: `symbol_table`
(symbol_table.c), the memory manager's variables, the three lists of
second_pass_processor.c, `intput_as` and `line_count`
(first_pass_processor.c), and what has been written to `stderr`.
`chars_count0` is the value found in the uninitialised local `chars_count` of
`read_next_string`. -/
structure session where
  symbol_table : hash_table
  mem : memory
  second_pass_list : linked_list
  entries_list : linked_list
  externs_list : linked_list
  intput_as : InFile
  line_count : Int
  stderr : List diag
  chars_count0 : Int
deriving DecidableEq, Repr

/-- Function `print_error_string`. -/
def print_error_string (line_count : Int) (error_number : Nat) (str : List Char)
    (s : session) : session :=
  { s with stderr := s.stderr ++ [.error_string line_count error_number str] }

/-- Function `print_error_char`. -/
def print_error_char (line_count : Int) (error_number : Nat) (c : Option Char)
    (s : session) : session :=
  { s with stderr := s.stderr ++ [.error_char line_count error_number c] }

/-- Function `print_error`. -/
def print_error (line_count : Int) (error_number : Nat) (s : session) : session :=
  { s with stderr := s.stderr ++ [.error line_count error_number] }

/-- Function `print_warning_int`. -/
def print_warning_int (line_count : Int) (warning_number : Nat) (value : Int)
    (s : session) : session :=
  { s with stderr := s.stderr ++ [.warning_int line_count warning_number value] }

/-- Function `print_warning`. -/
def print_warning (line_count : Int) (warning_number : Nat) (s : session) : session :=
  { s with stderr := s.stderr ++ [.warning line_count warning_number] }

/-- Function `instructions_array_insert` acting on the session: the memory
manager's update, and the line "Error: memory is full." on stderr when the
word is refused. -/
def session.instructions_array_insert (item : word) (s : session) : session :=
  { s with mem := Assembler.instructions_array_insert item s.mem,
           stderr := if s.mem.IC + s.mem.DC ≤ MEMORY_SIZE then s.stderr
                     else s.stderr ++ [.memory_is_full] }

/-- Function `data_array_insert` acting on the session. -/
def session.data_array_insert (item : word) (s : session) : session :=
  { s with mem := Assembler.data_array_insert item s.mem,
           stderr := if s.mem.IC + s.mem.DC ≤ MEMORY_SIZE then s.stderr
                     else s.stderr ++ [.memory_is_full] }

/-- Function `symbol_table_insert_label` acting on the session, with the line
`hash_table_insert` prints when the key is present. -/
def session.symbol_table_insert_label (symbol : List Char) (counter : Int) (t : type)
    (is_struct : Bool) (s : session) : session :=
  { s with symbol_table :=
             Assembler.symbol_table_insert_label s.symbol_table symbol counter t is_struct,
           stderr := if (find_symbol s.symbol_table symbol).isSome
                     then s.stderr ++ [.item_is_already_present symbol] else s.stderr }

/-! ## second_pass_processor.c: the lists -/

/-- Function `spl_insert`. The new node has type 0, the first value of the
enumeration. -/
def spl_insert (key : List Char) (inst_index : Int) (line_count : Int) (is_struct : Bool)
    (s : session) : session :=
  let new_node : node :=
    { node_construct key .INST with
      index := wrap10 inst_index,
      data := .line { line_count := wrap10 line_count, is_struct := is_struct } }
  { s with second_pass_list := linked_list_insert s.second_pass_list new_node }

/-- Function `ent_ext_list_insert`. -/
def ent_ext_list_insert (symbol : List Char) (is_ent : Bool) (counter : Int)
    (s : session) : session :=
  let new_node : node := { node_construct symbol .INST with index := wrap10 counter }
  if is_ent then { s with entries_list := linked_list_insert s.entries_list new_node }
  else { s with externs_list := linked_list_insert s.externs_list new_node }

/-- Function `entries_list_find`. -/
def entries_list_find (s : session) (symbol : List Char) : Option node :=
  linked_list_find s.entries_list symbol

/-- Function `extract_address`: the node's data read as a `label`. It is
called on EXTERN, DATA and INST_L nodes only, which carry a label. -/
def extract_address (symbol : node) : Int :=
  match symbol.data with
  | .label d => d.address.value
  | _ => 0

/-- The `is_struct` flag of a node of the second pass list. -/
def node.is_struct (n : node) : Bool :=
  match n.data with
  | .line d => d.is_struct
  | _ => false

/-- The `line_count` field of a node of the second pass list. -/
def node.line_count (n : node) : Int :=
  match n.data with
  | .line d => d.line_count
  | _ => 0

/-! ## Functions acting on the session -/

/-- A C function that uses the static variables: from the session before the
call to the value returned and the session after it. -/
def M (α : Type) : Type := session → α × session

/-- A function that returns `a` and touches nothing. -/
def M.pure {α : Type} (a : α) : M α := fun s => (a, s)

/-- Sequencing: `m`, then `k` on its result. -/
def M.bind {α β : Type} (m : M α) (k : α → M β) : M β := fun s => k (m s).1 (m s).2

instance : Monad M where
  pure := M.pure
  bind := M.bind

/-- Reading the static variables. -/
def query {α : Type} (g : session → α) : M α := fun s => (g s, s)

/-- Writing the static variables. -/
def update (g : session → session) : M Unit := fun s => ((), g s)

/-- A function of the input stream, run on `intput_as`. -/
def on_input {α : Type} (g : InFile → α × InFile) : M α :=
  fun s => ((g s.intput_as).1, { s with intput_as := (g s.intput_as).2 })

/-! ## first_pass_processor.c: labels and the head of a line -/

/-- `typedef enum addressing_type {IMMEDIATE, ABSOLUTE, STRUCT, REGISTER}`;
`detect_operand_type` also returns -1. -/
def IMMEDIATE : Int := 0

/-- Second value of `addressing_type`. -/
def ABSOLUTE : Int := 1

/-- Third value of `addressing_type`. -/
def STRUCT : Int := 2

/-- Fourth value of `addressing_type`. -/
def REGISTER : Int := 3

/-- The character `'\0'` read at the end of a string. -/
def NUL : Char := Char.ofNat 0

/-- The character `'"'`. -/
def QUOTE : Char := Char.ofNat 34

/-- Whether a character passes `isalpha` or `isdigit`. -/
def isalnum (c : Char) : Bool := c.isAlpha || c.isDigit

/-- Function `is_legal_label`: the value returned with the content of the
caller's buffer after the call (`shorten_string` rewrites it in place). -/
def is_legal_label (label : List Char) (is_new_label : Bool) : M (Bool × List Char) := do
  let length := label.length
  let line_count ← query (fun s => s.line_count)
  if ¬ (label.headD NUL).isAlpha then
    update (print_error_string line_count 12 label)
    pure (false, label)
  else if is_new_label ∧ label.getLastD NUL ≠ ':' then
    update (print_error_string line_count 4 label)
    pure (false, label)
  else if (¬ is_new_label ∧ length > 30) ∨ (is_new_label ∧ length > 31) then
    update (print_error_string line_count 11 (shorten_string label))
    pure (false, shorten_string label)
  else if ¬ ((label.drop 1).dropLast.all isalnum) then
    update (print_error_string line_count 13 label)
    pure (false, label)
  else if ¬ is_new_label ∧ length > 1 ∧ ¬ isalnum (label.getLastD NUL) then
    update (print_error_string line_count 13 label)
    pure (false, label)
  else pure (true, label)

/-- Function `is_comment_or_empty_line`. -/
def is_comment_or_empty_line : M Bool := do
  let c ← on_input skip_whites
  pure (c = some '\n' ∨ c = some ';')

/-- Function `is_command`: the value returned and the node stored in
`*symbol`. -/
def is_command (symbol_table : hash_table) (str : List Char) : Bool × Option node :=
  let symbol := find_symbol symbol_table str
  match symbol with
  | some n => (n.type = .INST ∨ n.type = .DIRECT, symbol)
  | none => (false, symbol)

/-- Function `pre_process_line_error_check`. -/
def pre_process_line_error_check (str1 str2 : List Char) (str2_is_command : Bool)
    (symbol : Option node) (str1_legal_label : Bool) : M Unit := do
  let line_count ← query (fun s => s.line_count)
  if symbol.isSome then update (print_error_string line_count 2 str1)
  else if str1_legal_label ∧ str2 = [] then update (print_error_string line_count 31 str1)
  else if ¬ str2_is_command ∧ str1_legal_label then
    update (print_error_string line_count 3 str2)
  else pure ()

/-- What `pre_process_line` returns and leaves in its four out-parameters. -/
structure line_head where
  status : Bool
  label : List Char
  command : List Char
  label_flag : Bool
  symbol : Option node
deriving DecidableEq, Repr

/-- The out-parameters of `pre_process_line` when it returns 0: `label` and
`command` are not assigned, `label_flag` keeps its initial 0. -/
def line_head.failed (symbol : Option node) : line_head :=
  { status := false, label := [], command := [], label_flag := false, symbol := symbol }

/-- Function `pre_process_line`. -/
def pre_process_line : M line_head := do
  let chars_count0 ← query (fun s => s.chars_count0)
  let r1 ← on_input (read_next_string chars_count0)
  let str1 := r1.1
  let c1 ← query (fun s => is_command s.symbol_table str1)
  if c1.1 then
    pure { status := true, label := [], command := str1, label_flag := false, symbol := c1.2 }
  else
    let l ← is_legal_label str1 true
    let str1_legal_label := l.1
    if str1_legal_label then
      let str1a := remove_colon l.2
      let symbol ← query (fun s => find_symbol s.symbol_table str1a)
      if symbol.isNone then
        let r2 ← on_input (read_next_string chars_count0)
        let str2 := r2.1
        let c2 ← query (fun s => is_command s.symbol_table str2)
        if c2.1 then
          pure { status := true, label := str1a, command := str2, label_flag := true,
                 symbol := c2.2 }
        else
          pre_process_line_error_check str1a str2 c2.1 c2.2 str1_legal_label
          pure (line_head.failed c2.2)
      else
        pre_process_line_error_check str1a [] false symbol str1_legal_label
        pure (line_head.failed symbol)
    else
      pre_process_line_error_check l.2 [] false c1.2 str1_legal_label
      pure (line_head.failed c1.2)

/-! ## first_pass_processor.c: directives -/

/-- Function `read_numbers_list_error_check`; `c` is the `int` of the caller
converted to `char` and compared as in the source. -/
def read_numbers_list_error_check (c : Option Char) (numbers_read : Int) : M Unit := do
  let line_count ← query (fun s => s.line_count)
  if numbers_read = 0 ∧ (c = some '\n' ∨ c = some ',') then update (print_error line_count 25)
  else if c = some '\n' then update (print_error line_count 16)
  else if isdigit c then update (print_error line_count 14)
  else if c = some '+' ∨ c = some '-' then
    let _ ← on_input getc
    let p ← on_input peek_next_char
    (if isdigit p then update (print_error line_count 14)
     else update (print_error_char line_count 15 c))
    on_input (fun f => ((), ungetc c f))
  else if ¬ isdigit c then update (print_error_char line_count 15 c)
  else pure ()

/-- What follows the `while` loop of `read_numbers_list`. -/
def read_numbers_list_end (numbers_read : Int) : M Int := do
  let p ← on_input peek_next_char
  read_numbers_list_error_check p numbers_read
  pure 0

/-- The `while` loop of `read_numbers_list` and what follows it. Every
iteration reads at least one digit, so `fuel` iterations are enough when
`fuel` is at least the number of unread characters
(`read_numbers_loop_enough_fuel`); with no fuel left the loop is taken to end
as it does when no number is read. -/
def read_numbers_loop : Nat → Int → Int → M Int
  | 0, numbers_read, number => do
    let _ ← on_input (read_next_number number)
    read_numbers_list_end numbers_read
  | fuel + 1, numbers_read, number => do
    let r ← on_input (read_next_number number)
    if r.1 ≠ 0 then
      let numbers_read := numbers_read + 1
      let number := r.2
      let line_count ← query (fun s => s.line_count)
      (if number > 511 ∨ number < -512 then update (print_warning_int line_count 3 number)
       else pure ())
      update (session.data_array_insert (word_assign number))
      let c ← on_input peek_next_char
      if c = some '\n' ∨ c = none then
        let _ ← on_input getc
        pure numbers_read
      else if c = some ',' then
        let _ ← on_input getc
        let _ ← on_input skip_whites
        read_numbers_loop fuel numbers_read number
      else read_numbers_list_end numbers_read
    else read_numbers_list_end numbers_read

/-- Function `read_numbers_list`. -/
def read_numbers_list : M Int := do
  let fuel ← query (fun s => s.intput_as.buf.length + 1)
  read_numbers_loop fuel 0 0

/-- Function `read_string_error_check`. -/
def read_string_error_check (c : Option Char) (openning_quotes_flag closing_quotes_flag
    excessive_text_flag : Bool) : M Unit := do
  let line_count ← query (fun s => s.line_count)
  if ¬ openning_quotes_flag ∧ (c = some '\n' ∨ c = none) then
    on_input (fun f => ((), ungetc c f))
    update (print_error line_count 32)
  else if ¬ openning_quotes_flag then update (print_error line_count 17)
  else if ¬ closing_quotes_flag then update (print_error line_count 18)
  else if excessive_text_flag then update (print_error line_count 19)
  else pure ()

/-- The calls of `data_array_insert` made by the loop of `read_string`, one
for each character read. -/
def insert_characters : List Char → M Unit
  | [] => pure ()
  | c :: rest => do
    update (session.data_array_insert (word_assign c.toNat))
    insert_characters rest

/-- Function `read_string`. -/
def read_string : M Bool := do
  let c0 ← on_input getc
  if c0 = some QUOTE then
    let r ← on_input (fun f =>
      let w := getc_while (fun c => c ≠ '\n' ∧ c ≠ QUOTE) f.eof f.buf
      ((w.1, w.2.1), w.2.2))
    insert_characters r.1
    let c := r.2
    (if c = some '\n' ∨ c = none then on_input (fun f => ((), ungetc c f)) else pure ())
    if c = some QUOTE then
      let p ← on_input peek_next_char
      if p = some '\n' ∨ p = none then
        update (session.data_array_insert (word_assign 0))
        let _ ← on_input skip_line
        pure true
      else
        read_string_error_check p true true true
        pure false
    else
      read_string_error_check c true false true
      pure false
  else
    read_string_error_check c0 false false false
    pure false

/-- Function `struct_error_check`: the tests of the source in their order,
`peek_next_char` being called where the short-circuit evaluation calls it. -/
def struct_error_check (number_read_flag trailing_comma_flag : Bool) : M Unit := do
  let line_count ← query (fun s => s.line_count)
  if number_read_flag then
    if ¬ trailing_comma_flag then update (print_error line_count 23)
  else
    let p1 ← on_input peek_next_char
    if p1 = some '\n' then update (print_error line_count 21)
    else if ¬ trailing_comma_flag then update (print_error line_count 22)
    else
      let p2 ← on_input peek_next_char
      if p2 ≠ some ',' then
        let p3 ← on_input peek_next_char
        update (print_error_char line_count 20 p3)

/-- Function `process_directive_struct`. -/
def process_directive_struct : M Bool := do
  let r ← on_input (read_next_number 0)
  let number_read_flag : Bool := r.1 ≠ 0
  if number_read_flag then
    update (session.data_array_insert (word_assign r.2))
    let p ← on_input peek_next_char
    let trailing_comma_flag : Bool := p = some ','
    if trailing_comma_flag then
      let _ ← on_input getc
      let _ ← on_input skip_whites
      let status ← read_string
      struct_error_check number_read_flag trailing_comma_flag
      pure status
    else
      struct_error_check number_read_flag trailing_comma_flag
      pure false
  else
    struct_error_check number_read_flag false
    pure false

/-- The end of `process_directive_ext_ent`, after the label was recorded:
nothing but the end of the line may follow. -/
def ext_ent_end_of_line : M Bool := do
  let line_count ← query (fun s => s.line_count)
  let p1 ← on_input peek_next_char
  if p1 = some '\n' then
    let _ ← on_input skip_line
    pure true
  else
    let p2 ← on_input peek_next_char
    if p2 = none then
      let _ ← on_input skip_line
      pure true
    else
      update (print_error line_count 6)
      pure false

/-- Function `process_directive_ext_ent`. -/
def process_directive_ext_ent (is_ext is_label : Bool) : M Bool := do
  let line_count ← query (fun s => s.line_count)
  (if is_label then update (print_warning line_count 2) else pure ())
  let chars_count0 ← query (fun s => s.chars_count0)
  let r ← on_input (read_next_string chars_count0)
  if r.2 ≠ 0 then
    let l ← is_legal_label r.1 false
    let label := l.2
    if l.1 then
      let found ← query (fun s => find_symbol s.symbol_table label)
      let in_entries ← query (fun s => entries_list_find s label)
      if is_ext ∧ ¬ (found.isSome ∨ in_entries.isSome) then
        let dc ← query (fun s => s.mem.DC)
        update (session.symbol_table_insert_label label dc .EXTERN false)
        ext_ent_end_of_line
      else if ¬ is_ext ∧ in_entries.isNone ∧
          (found.isNone ∨ found.map (fun n => n.type) ≠ some .EXTERN) then
        update (ent_ext_list_insert label true line_count)
        ext_ent_end_of_line
      else
        update (print_error_string line_count 24 label)
        pure false
    else pure false
  else pure false

/-- Function `process_directive`. -/
def process_directive (direct : node) (is_label : Bool) (label : List Char) : M Bool := do
  let is_struct : Bool := direct.key = ".struct".toList
  let status ←
    (if direct.key = ".entry".toList then process_directive_ext_ent false is_label
     else if direct.key = ".extern".toList then process_directive_ext_ent true is_label
     else do
       (if is_label then do
          let dc ← query (fun s => s.mem.DC)
          update (session.symbol_table_insert_label label dc .DATA is_struct)
        else pure ())
       if direct.key = ".data".toList then
         let n ← read_numbers_list
         pure (decide (n ≠ 0))
       else if direct.key = ".string".toList then read_string
       else if direct.key = ".struct".toList then process_directive_struct
       else pure true)
  if ¬ status then
    let _ ← on_input skip_line
    pure status
  else pure status

/-! ## first_pass_processor.c: instructions -/

/-- The number of bytes `detect_operand_type` stores through `dest`: one for
each character of the token and the terminating NUL, with no test against the
size of the buffer. -/
def detect_operand_type_stored (f : InFile) : Nat :=
  let r := getc_while (fun c => c ≠ '\n' ∧ c ≠ ',' ∧ c ≠ ' ' ∧ c ≠ '\t') f.eof f.buf
  r.1.length + 1

/-- Function `detect_operand_type` on the stream: the type returned with the
token stored in `dest`. For a token of fewer than two characters the source
reads `dest[length - 2]` in front of the caller's buffer; that byte is taken
to differ from `'.'`. The token is stored in a buffer of `MAX_BUFFER_SIZE`
bytes (`op1` or `op2`) with no test against that size: this is what the
function does when the `detect_operand_type_stored` bytes fit the buffer;
with more bytes the source writes past the end of the buffer, and what the
program does after that is not described by this definition. -/
def detect_operand_type (symbol_table : hash_table) (f : InFile) : (Int × List Char) × InFile :=
  let r := getc_while (fun c => c ≠ '\n' ∧ c ≠ ',' ∧ c ≠ ' ' ∧ c ≠ '\t') f.eof f.buf
  let f1 := ungetc r.2.1 r.2.2
  let dest := r.1
  let length := dest.length
  let t : Int :=
    if dest.headD NUL = '#' then IMMEDIATE
    else if 2 ≤ length ∧ dest.getD (length - 2) NUL = '.' ∧
        (dest.getD (length - 1) NUL = '1' ∨ dest.getD (length - 1) NUL = '2') then STRUCT
    else if (find_symbol symbol_table dest).map (fun n => n.type) = some .REGS then REGISTER
    else if length > 0 then ABSOLUTE
    else -1
  ((t, dest), f1)

/-- Function `detect_operands_error_check`. -/
def detect_operands_error_check (op1_type op2_type : Int) (c : Option Char)
    (comma_detected : Bool) : M Unit := do
  let line_count ← query (fun s => s.line_count)
  if op1_type = -1 ∨ op2_type = -1 then update (print_error line_count 7)
  else if ¬ comma_detected then update (print_error line_count 5)
  else if c ≠ some '\n' ∧ c ≠ none then update (print_error line_count 6)
  else pure ()

/-- What `detect_operands_and_types` returns and stores through its
pointers. -/
structure operands where
  status : Bool
  op1_type : Int
  op2_type : Int
  op1 : List Char
  op2 : List Char
deriving DecidableEq, Repr

/-- Function `detect_operands_and_types`. -/
def detect_operands_and_types (data : instruction) : M operands := do
  let symbol_table ← query (fun s => s.symbol_table)
  let d1 ← (if data.input ≠ 0 then on_input (detect_operand_type symbol_table)
            else pure (0, []))
  let comma_detected ←
    (if data.input ≠ 0 ∧ data.output ≠ 0 then do
       let _ ← on_input skip_whites
       let p ← on_input peek_next_char
       if p = some ',' then
         let _ ← on_input getc
         let _ ← on_input skip_whites
         pure true
       else pure false
     else pure true)
  let d2 ← (if data.output ≠ 0 then on_input (detect_operand_type symbol_table)
            else pure (0, []))
  if comma_detected then
    let c ← on_input peek_next_char
    if (c = some '\n' ∨ c = none) ∧ d1.1 ≠ -1 ∧ d2.1 ≠ -1 then
      let _ ← on_input skip_line
      pure { status := true, op1_type := d1.1, op2_type := d2.1, op1 := d1.2, op2 := d2.2 }
    else
      detect_operands_error_check d1.1 d2.1 c comma_detected
      pure { status := false, op1_type := d1.1, op2_type := d2.1, op1 := d1.2, op2 := d2.2 }
  else
    detect_operands_error_check d1.1 d2.1 none comma_detected
    pure { status := false, op1_type := d1.1, op2_type := d2.1, op1 := d1.2, op2 := d2.2 }

/-- Function `check_operands_types`. -/
def check_operands_types (data : instruction) (op1_type op2_type : Int) : M Bool := do
  let line_count ← query (fun s => s.line_count)
  let e1 : Bool := data.input = 1 ∧ (op1_type = IMMEDIATE ∨ op1_type = REGISTER)
  (if e1 then update (print_error line_count 8) else pure ())
  let e2 : Bool := data.output = 1 ∧ op2_type = IMMEDIATE
  (if e2 then update (print_error line_count 9) else pure ())
  let status : Bool := ¬ e1 ∧ ¬ e2
  if ¬ status then
    on_input (fun f => ((), ungetc (some '\n') f))
    pure false
  else pure true

/-- Function `create_instruction_word`: the word left in `*target`. -/
def create_instruction_word (data : instruction) (target : word) (op1_type op2_type : Int) :
    word :=
  let t1 := if data.input ≠ 0 then word_assign (target.value + int_shl op1_type 4) else target
  if data.output ≠ 0 then word_assign (t1.value + int_shl op2_type 2) else t1

/-- Function `extract_regs_value`: the node's data read as a `regs`; it is
called on names of REGS symbols only. -/
def extract_regs_value (symbol_table : hash_table) (symbol : List Char) (is_input : Bool) :
    Int :=
  match (find_symbol symbol_table symbol).map (fun n => n.data) with
  | some (node_data.regs d) => if is_input then d.input_op.value else d.output_op.value
  | _ => 0

/-- Function `is_number`. -/
def is_number (number : List Char) : Bool :=
  let first_char := number.headD NUL
  let length := number.length
  if length ≠ 0 then
    let status : Bool :=
      if length = 1 ∧ ¬ first_char.isDigit then false
      else if ¬ first_char.isDigit ∧ first_char ≠ '+' ∧ first_char ≠ '-' then false
      else true
    if (number.drop 1).all Char.isDigit then status else false
  else false

/-- Library function `isspace`. -/
def isspace (c : Char) : Bool :=
  c = ' ' ∨ c = '\t' ∨ c = '\n' ∨ c.toNat = 11 ∨ c.toNat = 12 ∨ c = '\r'

/-- Library function `atoi`: white space, an optional sign, then the longest
run of digits; the value (below 2^63 in size) is reduced to an `int`. -/
def atoi (str : List Char) : Int :=
  let t := str.dropWhile isspace
  let sign : Int := if t.head? = some '-' then -1 else 1
  let digits := if t.head? = some '-' ∨ t.head? = some '+' then t.drop 1 else t
  let value := (digits.takeWhile Char.isDigit).foldl
    (fun n c => 10 * n + ((c.toNat : Int) - ('0'.toNat : Int))) 0
  wrap32 (sign * value)

/-- Value read back from the signed 8-bit bit-field of `process_immediate`. -/
def wrap8 (v : Int) : Int := (v + 128) % 256 - 128

/-- Function `process_struct`. -/
def process_struct (op : List Char) : M Bool := do
  let length := op.length
  let index_part : Int := ((op.getD (length - 1) NUL).toNat : Int) - ('0'.toNat : Int)
  let l ← is_legal_label (op.take (length - 2)) false
  if l.1 then
    let ic ← query (fun s => s.mem.IC)
    let line_count ← query (fun s => s.line_count)
    update (spl_insert l.2 ic line_count true)
    update (session.instructions_array_insert (word_assign 0))
    update (session.instructions_array_insert (word_assign (int_shl index_part 2)))
    pure true
  else pure false

/-- Function `process_immediate`. -/
def process_immediate (op : List Char) : M Bool := do
  let op1 := op.drop 1
  let value := atoi op1
  let item := wrap8 value
  update (session.instructions_array_insert (word_assign (int_shl item 2)))
  let line_count ← query (fun s => s.line_count)
  (if value > 127 ∨ value < -128 then update (print_warning_int line_count 1 value)
   else pure ())
  if ¬ is_number op1 then
    update (print_error_string line_count 10 op1)
    pure false
  else pure true

/-- Function `process_operand`. -/
def process_operand (t : Int) (op : List Char) (is_input : Bool) : M Bool := do
  if t = REGISTER then
    let v ← query (fun s => extract_regs_value s.symbol_table op is_input)
    update (session.instructions_array_insert (word_assign v))
    pure true
  else if t = IMMEDIATE then process_immediate op
  else if t = ABSOLUTE then
    let l ← is_legal_label op false
    if l.1 then
      let ic ← query (fun s => s.mem.IC)
      let line_count ← query (fun s => s.line_count)
      update (spl_insert l.2 ic line_count false)
      update (ent_ext_list_insert l.2 false ic)
      update (session.instructions_array_insert (word_assign 0))
      pure true
    else pure false
  else if t = STRUCT then process_struct op
  else pure true

/-- Function `store_operands`. -/
def store_operands (data : instruction) (op1_type op2_type : Int) (op1 op2 : List Char) :
    M Bool := do
  if op1_type = REGISTER ∧ op2_type = REGISTER then
    let v1 ← query (fun s => extract_regs_value s.symbol_table op1 true)
    let v2 ← query (fun s => extract_regs_value s.symbol_table op2 false)
    update (session.instructions_array_insert (word_assign (0 + (v1 + v2))))
    pure true
  else
    let status ← (if data.input ≠ 0 then process_operand op1_type op1 true else pure true)
    if status ∧ data.output ≠ 0 then process_operand op2_type op2 false
    else pure status

/-- The payload of an INST node of the symbol table. -/
def node.instruction (n : node) : instruction :=
  match n.data with
  | .inst d => d
  | _ => { input := 0, output := 0, value := ⟨0⟩ }

/-- Function `process_instruction`. -/
def process_instruction (inst : node) (is_label : Bool) (label : List Char) : M Bool := do
  let data := inst.instruction
  (if is_label then do
     let ic ← query (fun s => s.mem.IC)
     update (session.symbol_table_insert_label label ic .INST_L false)
   else pure ())
  let d ← detect_operands_and_types data
  let status ← (if d.status then check_operands_types data d.op1_type d.op2_type
                else pure false)
  if ¬ status then
    let _ ← on_input skip_line
    pure false
  else
    update (session.instructions_array_insert
      (create_instruction_word data data.value d.op1_type d.op2_type))
    if data.input ≠ 0 ∨ data.output ≠ 0 then
      store_operands data d.op1_type d.op2_type d.op1 d.op2
    else pure true

/-- Function `process_line`. -/
def process_line : M Bool := do
  let e ← is_comment_or_empty_line
  let skip ← (if e then pure true
              else do
                let p ← on_input peek_next_char
                pure (decide (p = none)))
  if skip then
    let _ ← on_input skip_line
    pure true
  else
    let h ← pre_process_line
    if h.status then
      match h.symbol with
      | some symbol =>
        if symbol.type = .INST then process_instruction symbol h.label_flag h.label
        else if symbol.type = .DIRECT then process_directive symbol h.label_flag h.label
        else pure true
      | none => pure true
    else
      let _ ← on_input skip_line
      pure false

/-- The `while (!feof (intput_as))` loop of `first_pass_process`. Every
iteration with the indicator clear either takes characters off the stream or
sets the indicator, so `fuel` iterations are enough when `fuel` exceeds the
number of unread characters by two (`first_pass_loop_enough_fuel`). -/
def first_pass_loop : Nat → Bool → M Bool
  | 0, status => pure status
  | fuel + 1, status => do
    let eof ← query (fun s => s.intput_as.eof)
    if eof then pure status
    else
      update (fun s => { s with line_count := s.line_count + 1 })
      let temp_status ← process_line
      first_pass_loop fuel (if ¬ temp_status then false else status)

/-- Function `first_pass_process`, for an input file that was opened. -/
def first_pass_process : M Bool := do
  let fuel ← query (fun s => s.intput_as.buf.length + 2)
  first_pass_loop fuel true

/-! ## second_pass_processor.c: the second pass and the output files -/

/-- The `is_struct` flag of a symbol node whose data is a `label`. -/
def node.label_is_struct (n : node) : Bool :=
  match n.data with
  | .label d => d.is_struct
  | _ => false

/-- Function `instructions_array_set_index` acting on the session. -/
def session.instructions_array_set_index (index : Int) (address : Int) (s : session) :
    session :=
  { s with mem := Assembler.instructions_array_set_index index address s.mem }

/-- Function `print_second_pass_error`: the value left in `*status` is
returned. -/
def print_second_pass_error (curr : node) (error : Nat) : M Bool := do
  update (print_error_string curr.line_count error curr.key)
  pure false

/-- Function `second_pass_struct`: the value of `*status` after the call is
returned. -/
def second_pass_struct (curr symbol : node) (status : Bool) : M Bool := do
  if symbol.type = .DATA ∧ symbol.label_is_struct then
    let ic ← query (fun s => s.mem.IC)
    let address : Int := (C : Int) + (ic : Int) + extract_address symbol
    update (session.instructions_array_set_index curr.index (int_shl address 2 + 2))
    pure status
  else print_second_pass_error curr 28

/-- The body of the `while (curr)` loop of `second_pass_process` for one
node: the value of `status` after it is returned. -/
def second_pass_node (curr : node) (status : Bool) : M Bool := do
  let found ← query (fun s => find_symbol s.symbol_table curr.key)
  match found with
  | some symbol =>
    if curr.is_struct then second_pass_struct curr symbol status
    else if symbol.type = .EXTERN then
      update (session.instructions_array_set_index curr.index (extract_address symbol))
      pure status
    else if symbol.type = .DATA then
      let ic ← query (fun s => s.mem.IC)
      let address : Int := (C : Int) + (ic : Int) + extract_address symbol
      update (session.instructions_array_set_index curr.index (int_shl address 2 + 2))
      pure status
    else print_second_pass_error curr 27
  | none => print_second_pass_error curr 26

/-- The `while (curr)` loop of `second_pass_process`, from node `curr` on. -/
def second_pass_loop : List node → Bool → M Bool
  | [], status => pure status
  | curr :: next, status => do
    let status ← second_pass_node curr status
    second_pass_loop next status

/-- Function `second_pass_process`. -/
def second_pass_process : M Bool := do
  update (fun s => { s with second_pass_list := reverse_list s.second_pass_list })
  let head ← query (fun s => s.second_pass_list)
  second_pass_loop head true

/-- What `create_entries_file` keeps while it walks the list: the text
written to the file, `status` and `lines_count`. -/
structure entries_state where
  text : List Char
  status : Bool
  lines_count : Nat
deriving DecidableEq, Repr

/-- The body of the loop of `create_entries_file` for one node. -/
def entries_node (curr : node) (acc : entries_state) : M entries_state := do
  let found ← query (fun s => find_symbol s.symbol_table curr.key)
  match found with
  | some symbol =>
    let ic ← query (fun s => s.mem.IC)
    let line_data := curr.key ++ [' '] ++ convert_int_to_awkward_base
      ((C : Int) + (ic : Int) + extract_address symbol) ++ ['\n']
    let line_inst_l := curr.key ++ [' '] ++ convert_int_to_awkward_base
      ((C : Int) + extract_address symbol) ++ ['\n']
    let acc1 ←
      (if symbol.type = .DATA then pure { acc with text := acc.text ++ line_data }
       else if symbol.type = .INST_L then pure { acc with text := acc.text ++ line_inst_l }
       else do
         update (print_error_string curr.index 30 curr.key)
         pure { acc with status := false })
    pure (if acc1.status then { acc1 with lines_count := acc1.lines_count + 1 } else acc1)
  | none =>
    update (print_error_string curr.index 29 curr.key)
    pure { acc with status := false }

/-- The loop of `create_entries_file`. -/
def entries_loop : List node → entries_state → M entries_state
  | [], acc => pure acc
  | curr :: next, acc => do
    let acc1 ← entries_node curr acc
    entries_loop next acc1

/-- Function `create_entries_file`: the content of the file left on disk,
`none` when it was removed. -/
def create_entries_file : M (Option (List Char)) := do
  update (fun s => { s with entries_list := reverse_list s.entries_list })
  let head ← query (fun s => s.entries_list)
  let r ← entries_loop head { text := [], status := true, lines_count := 0 }
  pure (if ¬ r.status ∨ r.lines_count = 0 then none else some r.text)

/-- The body of the loop of `create_externs_files` for one node: the text
written and `lines_count`. -/
def externs_node (symbol_table : hash_table) (curr : node) (acc : List Char × Nat) :
    List Char × Nat :=
  match find_symbol symbol_table curr.key with
  | some symbol =>
    if symbol.type = .EXTERN then
      (acc.1 ++ curr.key ++ [' '] ++ convert_int_to_awkward_base ((C : Int) + curr.index)
        ++ ['\n'], acc.2 + 1)
    else acc
  | none => acc

/-- Function `create_externs_files`: the content of the file left on disk,
`none` when it was removed. -/
def create_externs_files : M (Option (List Char)) := do
  update (fun s => { s with externs_list := reverse_list s.externs_list })
  let head ← query (fun s => s.externs_list)
  let symbol_table ← query (fun s => s.symbol_table)
  let r := head.foldl (fun acc curr => externs_node symbol_table curr acc) ([], 0)
  pure (if r.2 = 0 then none else some r.1)

/-! ## memory_manager.c: the object file -/

/-- Function `save_memory_to_file`: the text written to the object file. -/
def save_memory_to_file (m : memory) : List Char :=
  convert_int_to_awkward_base m.IC ++ ['\t'] ++ convert_int_to_awkward_base m.DC
  ++ ((List.range m.IC).map (fun (i : Nat) =>
        ['\n'] ++ convert_int_to_awkward_base ((C : Int) + (i : Int)) ++ ['\t'] ++
        convert_to_awkward_base (m.instructions_array.getD i ⟨0⟩))).flatten
  ++ ((List.range m.DC).map (fun (i : Nat) =>
        ['\n'] ++ convert_int_to_awkward_base ((C : Int) + (i : Int) + (m.IC : Int)) ++ ['\t'] ++
        convert_to_awkward_base (m.data_array.getD i ⟨0⟩))).flatten

/-! ## main.c -/

/-- What one call of `file_process` leaves behind: the value of `status`, the
three output files (`none` for a file that does not exist afterwards) and the
session before the final calls of the `free_` functions. -/
structure file_result where
  status : Bool
  ob : Option (List Char)
  ent : Option (List Char)
  ext : Option (List Char)
  final : session
deriving DecidableEq, Repr

/-- The session after `initialize_symbol_table`, `initialize_memory` and
`initialize_second_pass_lists`, with the input file opened on `input`. -/
def session_start (chars_count0 : Int) (input : List Char) : session :=
  { symbol_table := initialize_symbol_table,
    mem := initialize_memory memory_static,
    second_pass_list := linked_list_construct,
    entries_list := linked_list_construct,
    externs_list := linked_list_construct,
    intput_as := { buf := input, eof := false },
    line_count := 0,
    stderr := [],
    chars_count0 := chars_count0 }

/-- Function `file_process` for an input file that could be opened and output
files that can be created; `input` is the text of the `.as` file. The second
pass runs only when the first pass returned 1, and the flag is read only when
both did. -/
def file_process (chars_count0 : Int) (input : List Char) : file_result :=
  let p1 := first_pass_process (session_start chars_count0 input)
  if p1.1 then
    let p2 := second_pass_process p1.2
    if p2.1 ∧ ¬ p2.2.mem.memory_full_flag then
      let ob := save_memory_to_file p2.2.mem
      let ent := create_entries_file p2.2
      let ext := create_externs_files ent.2
      { status := true, ob := some ob, ent := ent.1, ext := ext.1, final := ext.2 }
    else
      { status := false, ob := none, ent := none, ext := none, final := p2.2 }
  else
    { status := false, ob := none, ent := none, ext := none, final := p1.2 }

/-! ## Properties of a session used in the statements below -/

/-- What holds of every node of the symbol table during a run: an EXTERN
symbol holds the address 1, and the word of an instruction and the two words
of a register have their two low bits clear. -/
def node_ok (n : node) : Prop :=
  (n.type = type.EXTERN → extract_address n = 1) ∧
  (match n.data with
   | node_data.inst d => d.value.value % 4 = 0
   | node_data.regs d => d.input_op.value % 4 = 0 ∧ d.output_op.value % 4 = 0
   | _ => True)

instance node_ok_decidable (n : node) : Decidable (node_ok n) := by
  unfold node_ok
  refine @instDecidableAnd _ _ inferInstance ?_
  split <;> infer_instance

/-- The patch sites of a list built by head insertion lie at distinct code
indices below `ic`, the newest (the head) at the highest. -/
def sites_ok (l : linked_list) (ic : Nat) : Prop :=
  l.Pairwise (fun a b => b.index < a.index) ∧ ∀ n ∈ l, 0 ≤ n.index ∧ n.index < (ic : Int)

/-- The invariant of the first pass: every symbol satisfies `node_ok`;
`IC + DC` is at most `MEMORY_SIZE + 1`; every code word below IC has its two
low bits clear; and, while `memory_full_flag` is clear, the patch sites
satisfy `sites_ok`. -/
structure session_ok (s : session) : Prop where
  table : ∀ key n, find_symbol s.symbol_table key = some n → node_ok n
  bound : s.mem.IC + s.mem.DC ≤ MEMORY_SIZE + 1
  are : ∀ (i : Nat) (w : word), i < s.mem.IC → s.mem.instructions_array[i]? = some w →
    w.value % 4 = 0
  sites : s.mem.memory_full_flag = false → sites_ok s.second_pass_list s.mem.IC

/-- The numbered errors among the messages written to stderr. -/
def session.errors (s : session) : List diag := s.stderr.filter diag.is_error

/-- The function `m` keeps the property `P` of the session. -/
def preserves {α : Type} (P : session → Prop) (m : M α) : Prop :=
  ∀ s, P s → P (m s).2

/-- The function `m` keeps the property `P` of the session and returns a
value with the property `Φ`. -/
def keeps {α : Type} (P : session → Prop) (Φ : α → Prop) (m : M α) : Prop :=
  ∀ s, P s → P (m s).2 ∧ Φ (m s).1

/-- The two low bits of the code word `w` at index `i`, given the symbol
table and the patch sites: at the index of a site the site's name is a DATA
symbol and the bits are 10, or it is an EXTERN symbol, the site is no struct
site and the word is 1 (bits 01); at any other index the bits are 00. -/
def are_ok (table : hash_table) (sites : linked_list) (i : Nat) (w : word) : Prop :=
  (∀ n ∈ sites, n.index = (i : Int) →
    ∃ symbol, find_symbol table n.key = some symbol ∧
      ((symbol.type = type.DATA ∧ int_and w.value 3 = 2) ∨
       (symbol.type = type.EXTERN ∧ n.is_struct = false ∧ w = ⟨1⟩ ∧ int_and w.value 3 = 1))) ∧
  ((∀ n ∈ sites, n.index ≠ (i : Int)) → int_and w.value 3 = 0)

/-- All code words below IC satisfy `are_ok` for the sites `l`. -/
def code_are_ok (l : linked_list) (s : session) : Prop :=
  ∀ (i : Nat) (w : word), i < s.mem.IC → s.mem.instructions_array[i]? = some w →
    are_ok s.symbol_table l i w

/-- The function `m` prints no numbered error in a call whose result
satisfies `ok`. -/
def quiet {α : Type} (ok : α → Prop) (m : M α) : Prop :=
  ∀ s, ok (m s).1 → (m s).2.errors = s.errors

/-- No call of `m` has a result that satisfies `ok`. -/
def never {α : Type} (ok : α → Prop) (m : M α) : Prop :=
  ∀ s, ¬ ok (m s).1

/-- After a call of `m` at most `d` characters more are unread than before
it: `d` is 0 for a function that only reads and pushes back what it read. -/
def bounded {α : Type} (d : Nat) (m : M α) : Prop :=
  ∀ s, (m s).2.intput_as.buf.length ≤ s.intput_as.buf.length + d

/-- Progress of the loop of the first pass over one call: fewer than `n`
characters are unread, or the end of the file has been reached. -/
def advanced (n : Nat) (s : session) : Prop :=
  s.intput_as.buf.length < n ∨ s.intput_as = { buf := [], eof := true }

/-- The text of a signed decimal integer: an optional single `+` or `-`
followed by one or more decimal digits. -/
def signed_decimal (text : List Char) : Prop :=
  ∃ digits : List Char, digits ≠ [] ∧ (∀ c ∈ digits, c.isDigit = true) ∧
    (text = digits ∨ text = '+' :: digits ∨ text = '-' :: digits)

/-- The number written by a string of decimal digits. -/
def decimal_value (digits : List Char) : Int :=
  digits.foldl (fun n c => 10 * n + ((c.toNat : Int) - 48)) 0

/-- The names of the registers by code: `r0` .. `r7` for 0 .. 7, and `PSW`
for 8. -/
def register_name (r : Nat) : List Char :=
  if r = 8 then ['P', 'S', 'W'] else ['r', Char.ofNat (48 + r)]

/-- A blank: the characters `skip_whites` passes over. -/
def is_blank (c : Char) : Bool := c = '\t' ∨ c = ' '

/-- A character of an operand token: anything but a newline, a comma, a blank
and a tab. -/
def in_operand (c : Char) : Bool := c ≠ '\n' ∧ c ≠ ',' ∧ c ≠ ' ' ∧ c ≠ '\t'

/-- The first operand token of the rest of an instruction line: empty when
the instruction takes no input operand. -/
def operand1 (takes_input : Bool) (line : List Char) : List Char :=
  if takes_input then line.takeWhile in_operand else []

/-- The line after the first operand token. -/
def rest1 (takes_input : Bool) (line : List Char) : List Char :=
  if takes_input then line.dropWhile in_operand else line

/-- Whether a comma, after blanks, follows the first operand; taken to hold
when the instruction does not take two operands. -/
def comma_follows (takes_input takes_output : Bool) (line : List Char) : Bool :=
  if takes_input ∧ takes_output then
    ((rest1 takes_input line).dropWhile is_blank).head? = some ','
  else true

/-- The line from the second operand on: after the comma and the blanks
round it, or after the blanks that follow the first operand when there is no
comma. -/
def rest2 (takes_input takes_output : Bool) (line : List Char) : List Char :=
  if takes_input ∧ takes_output then
    if ((rest1 takes_input line).dropWhile is_blank).head? = some ',' then
      (((rest1 takes_input line).dropWhile is_blank).drop 1).dropWhile is_blank
    else (rest1 takes_input line).dropWhile is_blank
  else rest1 takes_input line

/-- The second operand token: empty when the instruction takes no output
operand. -/
def operand2 (takes_input takes_output : Bool) (line : List Char) : List Char :=
  if takes_output then (rest2 takes_input takes_output line).takeWhile in_operand else []

/-- The first character that is no blank after the last operand, `none` at
the end of the file. -/
def next_after_operands (takes_input takes_output : Bool) (line : List Char) : Option Char :=
  ((if takes_output then (rest2 takes_input takes_output line).dropWhile in_operand
    else rest2 takes_input takes_output line).dropWhile is_blank).head?

/-- Whether an operand the instruction takes is missing: its token is
empty. -/
def operand_missing (data : instruction) (line : List Char) : Bool :=
  (data.input ≠ 0 ∧ operand1 (data.input ≠ 0) line = []) ∨
  (data.output ≠ 0 ∧ operand2 (data.input ≠ 0) (data.output ≠ 0) line = [])

/-- The numbered error `detect_operands_and_types` reports for the rest
`line` of an instruction line, `none` when it reports none: 7 when an operand
is missing; otherwise 5 when no comma follows the first of two operands;
otherwise 6 when something other than a newline or the end of the file
follows the last operand. -/
def operands_error (data : instruction) (line : List Char) : Option Nat :=
  if operand_missing data line then some 7
  else if comma_follows (data.input ≠ 0) (data.output ≠ 0) line = false then some 5
  else if next_after_operands (data.input ≠ 0) (data.output ≠ 0) line ≠ some '\n' ∧
      next_after_operands (data.input ≠ 0) (data.output ≠ 0) line ≠ none then some 6
  else none

/-- What a call of `detect_operands_and_types` from the session `s` is to
return and leave, `r` being the value returned with the session after the
call: the two tokens; status 1 exactly when `operands_error` finds nothing;
otherwise the one error `operands_error` names, printed with the line number;
memory and symbol table as they were. -/
def operands_outcome (data : instruction) (s : session) (r : operands × session) : Prop :=
  r.1.op1 = operand1 (data.input ≠ 0) s.intput_as.buf ∧
  r.1.op2 = operand2 (data.input ≠ 0) (data.output ≠ 0) s.intput_as.buf ∧
  (r.1.status = true ↔ operands_error data s.intput_as.buf = none) ∧
  r.2.stderr = s.stderr ++
    (match operands_error data s.intput_as.buf with
     | some e => [diag.error s.line_count e]
     | none => []) ∧
  r.2.mem = s.mem ∧ r.2.symbol_table = s.symbol_table ∧
  r.2.second_pass_list = s.second_pass_list ∧ r.2.externs_list = s.externs_list ∧
  r.2.entries_list = s.entries_list ∧ r.2.line_count = s.line_count

/-- The memory after the calls `instructions_array_insert w` for the words
`ws`, first word first. -/
def append_words (ws : List word) (m : memory) : memory :=
  ws.foldl (fun acc w => instructions_array_insert w acc) m

/-- Number of operand words an operand of addressing mode `t` takes. -/
def mode_words (t : Int) : Nat := if t = STRUCT then 2 else 1

/-- Number of operand words that follow the instruction word: one for two
REGISTER operands, otherwise the words of each operand the instruction
takes. -/
def operand_words (data : instruction) (op1_type op2_type : Int) : Nat :=
  if op1_type = REGISTER ∧ op2_type = REGISTER then 1
  else (if data.input ≠ 0 then mode_words op1_type else 0) +
       (if data.output ≠ 0 then mode_words op2_type else 0)

/-- The action leaves the memory manager as it found it. -/
def mem_kept {α : Type} (m : M α) : Prop := ∀ s, (m s).2.mem = s.mem

/-- Addressing mode of an operand token, by the tests in their order:
IMMEDIATE for a token that starts with `#`, else STRUCT for one that ends in
`.1` or `.2`, else REGISTER for the name of a REGS symbol, else ABSOLUTE for
a token that is not empty, else -1. -/
def operand_mode (table : hash_table) (token : List Char) : Int :=
  if token.head? = some '#' then IMMEDIATE
  else if ['.', '1'] <:+ token ∨ ['.', '2'] <:+ token then STRUCT
  else if (find_symbol table token).map (fun n => n.type) = some type.REGS then REGISTER
  else if token ≠ [] then ABSOLUTE
  else -1

/-- The types `detect_operands_and_types` hands back from the session `s`:
the mode of the token read for an operand the instruction takes, 0 for an
operand it does not take, and no type is -1 when the status is 1. -/
def types_outcome (data : instruction) (s : session) (r : operands × session) : Prop :=
  r.1.op1_type = (if data.input ≠ 0 then operand_mode s.symbol_table r.1.op1 else 0) ∧
  r.1.op2_type = (if data.output ≠ 0 then operand_mode s.symbol_table r.1.op2 else 0) ∧
  (r.1.status = true → r.1.op1_type ≠ -1 ∧ r.1.op2_type ≠ -1)

/-- The session in which `process_instruction` reads the operands: the label
of the line, when there is one, has been put in the symbol table as an
INST_L symbol with the current IC. -/
def label_inserted (is_label : Bool) (label : List Char) (s : session) : session :=
  if is_label then s.symbol_table_insert_label label s.mem.IC type.INST_L false else s

/-- The table of the instructions: mnemonic, opcode, input mask, output
mask. -/
def instruction_set : List (String × Nat × Nat × Nat) :=
  [("mov", 0, 2, 1), ("cmp", 1, 2, 2), ("add", 2, 2, 1), ("sub", 3, 2, 1),
   ("not", 4, 0, 1), ("clr", 5, 0, 1), ("lea", 6, 1, 1), ("inc", 7, 0, 1),
   ("dec", 8, 0, 1), ("jmp", 9, 0, 1), ("bne", 10, 0, 1), ("red", 11, 0, 1),
   ("prn", 12, 0, 2), ("jsr", 13, 0, 1), ("rts", 14, 0, 0), ("stop", 15, 0, 0)]

/-- The names of the five directives. -/
def directive_names : List String := [".data", ".string", ".struct", ".entry", ".extern"]

/-- The names a new session knows: the mnemonics, the registers and the
directives. -/
def preloaded_names : List (List Char) :=
  instruction_set.map (fun e => e.1.toList) ++ (List.range 9).map register_name ++
    directive_names.map String.toList

/-- A legal label name: from 1 to 30 characters, the first a letter, every
other one a letter or a digit. -/
def legal_name (name : List Char) : Bool :=
  1 ≤ name.length ∧ name.length ≤ 30 ∧ (name.headD NUL).isAlpha ∧
    ∀ c ∈ name.drop 1, c.isAlpha ∨ c.isDigit

/-- The action leaves the part `part` of the session as it found it. -/
def kept {α β : Type} (part : session → β) (m : M α) : Prop :=
  ∀ s, part (m s).2 = part s

/-- Everything in the session but the input stream and what was printed. -/
def session.core (s : session) :
    hash_table × memory × linked_list × linked_list × linked_list × Int × Int :=
  (s.symbol_table, s.mem, s.second_pass_list, s.entries_list, s.externs_list, s.line_count,
    s.chars_count0)

/-- The symbol table, the entries list and the line number. -/
def session.names (s : session) : hash_table × linked_list × Int :=
  (s.symbol_table, s.entries_list, s.line_count)

/-- The shape of a symbol table: the array has `array_size` buckets, each
node sits in the bucket of its key, and no bucket holds a key twice. -/
def table_wf (t : hash_table) : Prop :=
  t.array.length = t.array_size ∧ 0 < t.array_size ∧
  ∀ i, i < t.array.length →
    (∀ n ∈ t.array.getD i [], default_hash_function n.key t.array_size = i) ∧
    ((t.array.getD i []).map (fun n => n.key)).Nodup

/-- At most one symbol per name: two nodes of the table with the same key
are the same node at the same place. -/
def one_per_name (t : hash_table) : Prop :=
  ∀ (i j p q : Nat) (n m : node),
    (t.array.getD i [])[p]? = some n → (t.array.getD j [])[q]? = some m →
    i < t.array.length → j < t.array.length → n.key = m.key → i = j ∧ p = q

/-- One update made by the first pass, as far as the symbol table and the
entries list go: an update that leaves both alone; the insertion of the label
of a line as a DATA or INST_L symbol; the insertion of the name of an
`.extern` line, which is in neither; the insertion of the name of an `.entry`
line in the entries list, which does not hold it and for which the table has
no EXTERN symbol. The names inserted are legal names. -/
inductive pass_step : session → session → Prop
  | other (s s1 : session) : s1.symbol_table = s.symbol_table →
      s1.entries_list = s.entries_list → pass_step s s1
  | label (s : session) (name : List Char) (counter : Int) (t : type) (is_struct : Bool) :
      legal_name name = true → (t = type.DATA ∨ t = type.INST_L) →
      pass_step s (s.symbol_table_insert_label name counter t is_struct)
  | external (s : session) (name : List Char) (counter : Int) :
      legal_name name = true → find_symbol s.symbol_table name = none →
      entries_list_find s name = none →
      pass_step s (s.symbol_table_insert_label name counter type.EXTERN false)
  | entry (s : session) (name : List Char) (line : Int) :
      legal_name name = true → entries_list_find s name = none →
      (find_symbol s.symbol_table name).map (fun n => n.type) ≠ some type.EXTERN →
      pass_step s (ent_ext_list_insert name true line s)

/-- The sessions reached from `s` by updates of the first pass. -/
def reach (s s1 : session) : Prop := Relation.ReflTransGen pass_step s s1

/-- Every call of `m` is made of updates of the first pass. -/
def steps {α : Type} (m : M α) : Prop := ∀ s, reach s (m s).2

/-- The characters of a word read by `read_next_string`. -/
def in_word (c : Char) : Bool := c ≠ ':' ∧ c ≠ '\n' ∧ c ≠ ' ' ∧ c ≠ '\t'

/-- The next token of the text: the characters up to the first colon,
newline, blank or tab, with the colon when a colon ends it. -/
def next_word (text : List Char) : List Char :=
  if (text.dropWhile in_word).head? = some ':' then text.takeWhile in_word ++ [':']
  else text.takeWhile in_word

/-- The text after the next token: the colon that ended the token and the
blanks and tabs that follow are taken too. -/
def after_word (text : List Char) : List Char :=
  (if (text.dropWhile in_word).head? = some ':' then (text.dropWhile in_word).drop 1
   else text.dropWhile in_word).dropWhile is_blank

/-- Whether the word is the name of an INST or DIRECT symbol. -/
def command_name (table : hash_table) (word : List Char) : Bool :=
  (find_symbol table word).map (fun n => n.type) = some type.INST ∨
  (find_symbol table word).map (fun n => n.type) = some type.DIRECT

/-- What a call of `pre_process_line` from the session `s` returns and
leaves, `r` being the value returned with the session after the call. -/
def head_outcome (s : session) (r : line_head × session) : Prop :=
  r.2.core = s.core ∧
  (command_name s.symbol_table (next_word s.intput_as.buf) = true →
    r.1 = { status := true, label := [], command := next_word s.intput_as.buf,
            label_flag := false,
            symbol := find_symbol s.symbol_table (next_word s.intput_as.buf) } ∧
    r.2.stderr = s.stderr ∧ r.2.intput_as.buf = after_word s.intput_as.buf) ∧
  (command_name s.symbol_table (next_word s.intput_as.buf) = false →
    (r.1.status = true ↔
      ∃ name : List Char, next_word s.intput_as.buf = name ++ [':'] ∧
        legal_name name = true ∧ find_symbol s.symbol_table name = none ∧
        command_name s.symbol_table (next_word (after_word s.intput_as.buf)) = true) ∧
    (r.1.status = true →
      ∃ name : List Char, next_word s.intput_as.buf = name ++ [':'] ∧
        legal_name name = true ∧
        r.1 = { status := true, label := name,
                command := next_word (after_word s.intput_as.buf), label_flag := true,
                symbol := find_symbol s.symbol_table
                  (next_word (after_word s.intput_as.buf)) } ∧
        r.2.stderr = s.stderr ∧
        r.2.intput_as.buf = after_word (after_word s.intput_as.buf)) ∧
    (r.1.status = false → r.1.label_flag = false ∧ r.1.label = [] ∧ r.1.command = []))

/-- The part of `process_line` that runs on a line that is neither empty nor
a comment: from the call of `pre_process_line` on. -/
def process_line_body : M Bool := do
  let h ← pre_process_line
  if h.status then
    match h.symbol with
    | some symbol =>
      if symbol.type = .INST then process_instruction symbol h.label_flag h.label
      else if symbol.type = .DIRECT then process_directive symbol h.label_flag h.label
      else pure true
    | none => pure true
  else
    let _ ← on_input skip_line
    pure false

/-- Whether a `.extern` line (`is_ext` 1) or an `.entry` line (`is_ext` 0)
with the name `name` is accepted in the session `s`: for `.extern` the name
is no symbol and no entry; for `.entry` it is no entry and no EXTERN
symbol. -/
def ext_ent_accepted (is_ext : Bool) (s : session) (name : List Char) : Prop :=
  if is_ext then find_symbol s.symbol_table name = none ∧ entries_list_find s name = none
  else entries_list_find s name = none ∧
    (find_symbol s.symbol_table name).map (fun n => n.type) ≠ some type.EXTERN

/-- What a call of `process_directive_ext_ent` from the session `s` returns
and leaves when the next token of the line is the legal name `name`: `r` is
the value returned with the session after the call. -/
def ext_ent_outcome (is_ext is_label : Bool) (s : session) (name : List Char)
    (r : Bool × session) : Prop :=
  r.2.mem = s.mem ∧ r.2.second_pass_list = s.second_pass_list ∧
  r.2.externs_list = s.externs_list ∧ r.2.line_count = s.line_count ∧
  (ext_ent_accepted is_ext s name →
    r.2.symbol_table =
      (if is_ext then symbol_table_insert_label s.symbol_table name s.mem.DC type.EXTERN false
       else s.symbol_table) ∧
    r.2.entries_list =
      (if is_ext then s.entries_list
       else { node_construct name type.INST with index := wrap10 s.line_count } ::
         s.entries_list) ∧
    r.2.stderr = s.stderr ++ (if is_label then [diag.warning s.line_count 2] else []) ++
      (if r.1 then [] else [diag.error s.line_count 6])) ∧
  (¬ ext_ent_accepted is_ext s name →
    r.1 = false ∧ r.2.symbol_table = s.symbol_table ∧ r.2.entries_list = s.entries_list ∧
    r.2.stderr = s.stderr ++ (if is_label then [diag.warning s.line_count 2] else []) ++
      [diag.error_string s.line_count 24 name])

/-- The value of the text of a signed decimal integer. -/
def number_value (text : List Char) : Int :=
  if text.head? = some '-' then - decimal_value (text.drop 1)
  else if text.head? = some '+' then decimal_value (text.drop 1)
  else decimal_value text

/-- The text of a signed decimal integer whose digits make a value that fits
an `int`. -/
def int_text (text : List Char) : Prop :=
  signed_decimal text ∧ -2147483647 ≤ number_value text ∧ number_value text ≤ 2147483647

/-- The texts of numbers, separated by single commas. -/
def numbers_text : List (List Char) → List Char
  | [] => []
  | [t] => t
  | t :: u :: rest => t ++ ',' :: numbers_text (u :: rest)

/-- What `read_numbers_list` does for the number `v`: warning 3 when it is
outside the range of a 10-bit word, then the call of `data_array_insert`. -/
def store_number (line_count : Int) (s : session) (v : Int) : session :=
  (if v > 511 ∨ v < -512 then print_warning_int line_count 3 v s else s).data_array_insert
    (word_assign v)

/-- The memory after the calls `data_array_insert w` for the words `ws`,
first word first. -/
def append_data (ws : List word) (m : memory) : memory :=
  ws.foldl (fun acc w => data_array_insert w acc) m


/-- The warnings 3 that `read_numbers_list` prints for a list of values, on
line `line_count`: one for each value outside [-512, 511], in order. -/
def range_warnings (line_count : Int) (vals : List Int) : List diag :=
  (vals.filter (fun v => v > 511 ∨ v < -512)).map (fun v => diag.warning_int line_count 3 v)

/-- The words of a string in the data array: the character codes in order,
then a word 0. -/
def string_words (str : List Char) : List word :=
  str.map (fun c => word_assign c.toNat) ++ [word_assign 0]

/-- Whether the text begins with a number as `read_next_number` reads one: a
digit, or a sign directly followed by a digit. -/
def starts_number (buf : List Char) : Bool :=
  match buf with
  | [] => false
  | c :: rest =>
    c.isDigit || ((c == '+' || c == '-') &&
      (match rest with
       | [] => false
       | d :: _ => d.isDigit))


/-- Whether the name resolves to an EXTERN symbol. -/
def is_extern_name (table : hash_table) (name : List Char) : Bool :=
  (find_symbol table name).map (fun n => n.type) = some type.EXTERN

/-- The line of the `.ext` file for one use record: the name, a blank, the
address `C + code_index` in base 32, a newline. -/
def extern_use_line (record : node) : List Char :=
  record.key ++ [' '] ++ convert_int_to_awkward_base ((C : Int) + record.index) ++ ['\n']

/-- The lines of the `.ext` file for the use records in the order of their
creation: one line for each record whose name resolves to an EXTERN symbol. -/
def extern_use_lines (table : hash_table) (records : List node) : List (List Char) :=
  (records.filter (fun r => is_extern_name table r.key)).map extern_use_line

/-- The address written to the `.ent` file for a name: `C + address` for an
INST_L symbol, `C + IC + address` for a DATA symbol, none for any other name. -/
def entry_address (table : hash_table) (ic : Nat) (name : List Char) : Option Int :=
  match find_symbol table name with
  | some symbol =>
    if symbol.type = type.INST_L then some ((C : Int) + extract_address symbol)
    else if symbol.type = type.DATA then some ((C : Int) + (ic : Int) + extract_address symbol)
    else none
  | none => none

/-- The error of an entry request: 29 for a name that is not in the symbol
table, 30 for a symbol that is neither INST_L nor DATA, none otherwise. -/
def entry_error (table : hash_table) (name : List Char) : Option Nat :=
  match find_symbol table name with
  | some symbol => if symbol.type = type.INST_L ∨ symbol.type = type.DATA then none else some 30
  | none => some 29

/-- The line of the `.ent` file for a request whose name has an address. -/
def entry_line (table : hash_table) (ic : Nat) (request : node) : List Char :=
  match entry_address table ic request.key with
  | some a => request.key ++ [' '] ++ convert_int_to_awkward_base a ++ ['\n']
  | none => []

/-- The errors `create_entries_file` reports for the requests, in their
order; a request carries the number of its line in `index`. -/
def entry_errors (table : hash_table) (requests : List node) : List diag :=
  requests.filterMap (fun r =>
    (entry_error table r.key).map (fun e => diag.error_string r.index e r.key))

/-- The two digits of `n mod 1024` in base 32, written with the alphabet
`encoding`, the high digit first. -/
def base32 (n : Nat) : List Char :=
  [encoding.getD (n / 32 % 32) (Char.ofNat 0), encoding.getD (n % 32) (Char.ofNat 0)]

/-- The base 32 form of the 10-bit pattern of an integer. -/
def encode (v : Int) : List Char := base32 (v % 1024).toNat

/-- A text made of lines: the lines with a newline between one and the
next, and none after the last. -/
def join_lines : List (List Char) → List Char
  | [] => []
  | [l] => l
  | l :: m :: rest => l ++ '\n' :: join_lines (m :: rest)

/-- The lines of the object file for a memory image: the two counts, then a
line with address and word for each code word, then one for each data
word. -/
def object_lines (m : memory) : List (List Char) :=
  (encode m.IC ++ ['\t'] ++ encode m.DC) ::
    ((List.range m.IC).map (fun (i : Nat) =>
        encode ((C : Int) + (i : Int)) ++ ['\t'] ++
          encode (m.instructions_array.getD i ⟨0⟩).value) ++
     (List.range m.DC).map (fun (j : Nat) =>
        encode ((C : Int) + (m.IC : Int) + (j : Int)) ++ ['\t'] ++
          encode (m.data_array.getD j ⟨0⟩).value))

/-- The address field of a word: its bits 9 to 2, read as an unsigned
number. -/
def address_field (w : word) : Int := w.value % 1024 / 4

/-- The line number a message carries, none for the two messages that are
printed without one. -/
def diag.line : diag → Option Int
  | .error_string l _ _ => some l
  | .error_char l _ _ => some l
  | .error l _ => some l
  | .warning_string l _ _ => some l
  | .warning_int l _ _ => some l
  | .warning l _ => some l
  | .memory_is_full => none
  | .item_is_already_present _ => none

/-- The session is at line `lc` and every message printed since stderr was
`base` carries the line number `lc`, if it carries one. -/
def stamped_with (lc : Int) (base : List diag) (s : session) : Prop :=
  s.line_count = lc ∧
  ∃ l : List diag, s.stderr = base ++ l ∧ ∀ d ∈ l, d.line = none ∨ d.line = some lc

/-- The text after the first line of a text: what follows its first
newline. -/
def after_line (text : List Char) : List Char := (text.dropWhile (fun c => c ≠ '\n')).drop 1

/-- Every DIRECT symbol of the table is one of the five directives. -/
def directs_ok (t : hash_table) : Prop :=
  ∀ (k : List Char) (n : node), find_symbol t k = some n → n.type = type.DIRECT →
    n.key ∈ directive_names.map String.toList

/-- One iteration of the loop of the first pass: the line counter goes up
by one and `process_line` is called. -/
def line_step (s : session) : session :=
  (process_line { s with line_count := s.line_count + 1 }).2

/-- The rest of the current line is still unread and the text after the line
is `A`. -/
def line_open (A : List Char) (s : session) : Prop := after_line s.intput_as.buf = A

/-- The current line has been read to its end: the unread text is `A`. -/
def line_closed (A : List Char) (s : session) : Prop := s.intput_as.buf = A

/-- The state of the line after a parser returned `ok`: read to its end when
the parser succeeded, still open when it failed. -/
def line_after (A : List Char) (ok : Bool) (s : session) : Prop :=
  (ok = true → line_closed A s) ∧ (ok = false → line_open A s)

/-- From a session with the property `P` the function `m` returns a value
and a session with the property `Q`. -/
def triple {α : Type} (P : session → Prop) (m : M α) (Q : α → session → Prop) : Prop :=
  ∀ s, P s → Q (m s).1 (m s).2

/-- The state of the line after `getc` returned `c`: at a newline the line
has been read to its end, at the end of the file nothing is left, and after
any other character the line is still open. -/
def line_read (A : List Char) (c : Option Char) (s : session) : Prop :=
  (c = some '\n' → line_closed A s) ∧
  (c = none → s.intput_as.buf = [] ∧ A = []) ∧
  (c ≠ some '\n' → c ≠ none → line_open A s)

/-- The line is open and the next unread character is `c` (none at the end
of the file). -/
def line_at (A : List Char) (c : Option Char) (s : session) : Prop :=
  line_open A s ∧ s.intput_as.buf.head? = c

/-! ## Theorems -/

theorem land_31 (n : Nat) : Nat.land n 31 = n % 32 := by
  have := Nat.and_pow_two_sub_one_eq_mod n 5
  simpa using this

theorem testBit_992 (i : Nat) : Nat.testBit 992 (i + 5) = decide (i < 5) := by
  by_cases h : i < 5
  · interval_cases i <;> decide
  · have : (992 : Nat) < 2 ^ (i + 5) := by
      calc (992 : Nat) < 2 ^ 10 := by norm_num
        _ ≤ 2 ^ (i + 5) := Nat.pow_le_pow_right (by norm_num) (by omega)
    simp [Nat.testBit_lt_two_pow this, h]

theorem land_992 (n : Nat) : Nat.land n 992 / 32 = n / 32 % 32 := by
  apply Nat.eq_of_testBit_eq
  intro i
  have h1 : Nat.land n 992 / 32 = (n &&& 992) >>> 5 := by
    rw [Nat.shiftRight_eq_div_pow]; rfl
  have h2 : n / 32 % 32 = (n >>> 5) % 2 ^ 5 := by
    rw [Nat.shiftRight_eq_div_pow]; norm_num
  rw [h1, h2, Nat.testBit_shiftRight, Nat.testBit_and, Nat.testBit_mod_two_pow,
    Nat.testBit_shiftRight, Nat.add_comm 5 i, testBit_992]
  by_cases h : i < 5 <;> simp [h]

theorem int_and_31 (a : Int) : int_and a 31 = a % 32 := by
  unfold int_and
  rw [land_31]
  simp only [Int.ofNat_eq_coe]
  omega

theorem int_and_992_shr (a : Int) : int_shr (int_and a 992) 5 = a / 32 % 32 := by
  unfold int_and int_shr
  have h := land_992 (a % 2 ^ 32).toNat
  have h5 : ((Nat.land (a % 2 ^ 32).toNat 992 : Nat) : Int) / 2 ^ 5
      = ((Nat.land (a % 2 ^ 32).toNat 992 / 32 : Nat) : Int) := by
    simp
  simp only [Int.ofNat_eq_coe]
  rw [h5, h]
  omega


theorem encoding_getD_mem : ∀ i : Nat, i < 32 →
    encoding.getD i (Char.ofNat 0) ∈ encoding ∧
    decode_char (encoding.getD i (Char.ofNat 0)) = i := by
  decide

/-- C1: for every integer v, `convert_int_to_awkward_base v` is exactly two
characters, both taken from the 32-character alphabet, and decoding them with
the inverse of the alphabet (index of the first times 32 plus index of the
second) gives `v mod 2^10`, which is the bit pattern of the signed 10-bit
word that holds v. -/
theorem c1_base32_round_trip (v : Int) :
    ∃ c0 c1 : Char, convert_int_to_awkward_base v = [c0, c1] ∧
      c0 ∈ encoding ∧ c1 ∈ encoding ∧
      ((decode_char c0 : Int) * 32 + (decode_char c1 : Int) = v % 2 ^ 10) ∧
      (word_assign v).value % 2 ^ 10 = v % 2 ^ 10 ∧
      -512 ≤ (word_assign v).value ∧ (word_assign v).value ≤ 511 := by
  have hw : (word_assign v).value = wrap10 v := rfl
  have h0 : 0 ≤ wrap10 v / 32 % 32 ∧ wrap10 v / 32 % 32 < 32 := by omega
  have h1 : 0 ≤ wrap10 v % 32 ∧ wrap10 v % 32 < 32 := by omega
  obtain ⟨m0, e0⟩ := encoding_getD_mem (wrap10 v / 32 % 32).toNat (by omega)
  obtain ⟨m1, e1⟩ := encoding_getD_mem (wrap10 v % 32).toNat (by omega)
  refine ⟨_, _, rfl, ?_, ?_, ?_, ?_, ?_, ?_⟩
  · simpa [hw, int_and_992_shr] using m0
  · simpa [hw, int_and_31] using m1
  · rw [hw, int_and_992_shr, int_and_31, e0, e1]
    unfold wrap10
    omega
  · rw [hw]; unfold wrap10; omega
  · rw [hw]; unfold wrap10; omega
  · rw [hw]; unfold wrap10; omega

set_option maxRecDepth 100000 in
/-- C2 (the code at the failing input): 257 calls of
`instructions_array_insert` after `initialize_memory` are all accepted, so
the state reached has `IC + DC = 257`, one above `MEMORY_SIZE`, with the
saturation flag still clear. -/
theorem c2_ic_plus_dc_reaches_257 :
    (run_ops (List.replicate 257 (mem_op.inst ⟨0⟩)) (initialize_memory memory_static)).IC
      + (run_ops (List.replicate 257 (mem_op.inst ⟨0⟩)) (initialize_memory memory_static)).DC
      = MEMORY_SIZE + 1 ∧
    (run_ops (List.replicate 257 (mem_op.inst ⟨0⟩))
      (initialize_memory memory_static)).memory_full_flag = false := by
  decide

set_option maxRecDepth 100000 in
/-- C3 (the code at the failing input): after 256 accepted inserts
`IC + DC` has reached `MEMORY_SIZE`; the next insert, into either array, is
not dropped (the counter grows) and does not set `memory_full_flag`. -/
theorem c3_insert_at_memory_size_is_accepted :
    (run_ops (List.replicate 256 (mem_op.inst ⟨0⟩)) (initialize_memory memory_static)).IC
      + (run_ops (List.replicate 256 (mem_op.inst ⟨0⟩)) (initialize_memory memory_static)).DC
      = MEMORY_SIZE ∧
    (instructions_array_insert ⟨5⟩ (run_ops (List.replicate 256 (mem_op.inst ⟨0⟩))
      (initialize_memory memory_static))).IC = MEMORY_SIZE + 1 ∧
    (instructions_array_insert ⟨5⟩ (run_ops (List.replicate 256 (mem_op.inst ⟨0⟩))
      (initialize_memory memory_static))).memory_full_flag = false ∧
    (data_array_insert ⟨5⟩ (run_ops (List.replicate 256 (mem_op.inst ⟨0⟩))
      (initialize_memory memory_static))).DC = 1 ∧
    (data_array_insert ⟨5⟩ (run_ops (List.replicate 256 (mem_op.inst ⟨0⟩))
      (initialize_memory memory_static))).memory_full_flag = false := by
  decide

set_option maxRecDepth 1000000 in
/-- C5 (the code at the failing inputs): the one-line source `lea #1, #2`
gets two numbered errors for line 1, #8 and #9, both from
`check_operands_types`; the one-line source `r1` gets #4 from
`is_legal_label` and then #2 from `pre_process_line_error_check`. -/
theorem c5_two_errors_on_one_line :
    (process_line { session_start 0 "lea #1, #2\n".toList with line_count := 1 }).2.stderr
      = [.error 1 8, .error 1 9] ∧
    (process_line { session_start 0 "r1\n".toList with line_count := 1 }).2.stderr
      = [.error_string 1 4 "r1".toList, .error_string 1 2 "r1".toList] := by
  decide

set_option maxRecDepth 1000000 in
/-- C6 (the code at the failing input): for the source `LOOP: inc r1`,
`jmp LOOP` the name LOOP resolves to an INST_L symbol with address 0; the
second pass reports error #27 for the site, returns failure, and leaves the
reserved word at code index 3 at 0 instead of `((100 + 0) << 2) | 2`. -/
theorem c6_inst_l_site_is_rejected :
    ((find_symbol (first_pass_process (session_start 0
        "LOOP: inc r1\njmp LOOP\n".toList)).2.symbol_table "LOOP".toList).map
        (fun n => (n.type, extract_address n)) = some (type.INST_L, 0)) ∧
    (first_pass_process (session_start 0 "LOOP: inc r1\njmp LOOP\n".toList)).1 = true ∧
    (second_pass_process (first_pass_process (session_start 0
        "LOOP: inc r1\njmp LOOP\n".toList)).2).1 = false ∧
    (second_pass_process (first_pass_process (session_start 0
        "LOOP: inc r1\njmp LOOP\n".toList)).2).2.stderr
      = [.error_string 2 27 "LOOP".toList] ∧
    (second_pass_process (first_pass_process (session_start 0
        "LOOP: inc r1\njmp LOOP\n".toList)).2).2.mem.instructions_array.get? 3
      = some ⟨0⟩ ∧
    (file_process 0 "LOOP: inc r1\njmp LOOP\n".toList).ob = none := by
  decide

/-! ### The second pass, one patch site at a time -/

theorem nat_ldiff_zero (a : Nat) : Nat.ldiff a 0 = a := by
  unfold Nat.ldiff
  simp [Nat.bitwise]

theorem int_lor_zero (a : Int) : Int.lor a 0 = a := by
  cases a with
  | ofNat n => simp [Int.lor]
  | negSucc n =>
    show Int.lor (Int.negSucc n) (Int.ofNat 0) = Int.negSucc n
    simp only [Int.lor, nat_ldiff_zero]

theorem shl2_lor (a : Int) (b c : Bool) :
    Int.lor (a * 4) (Int.bit c (Int.bit b 0)) = a * 4 + Int.bit c (Int.bit b 0) := by
  have h1 : a * 4 = Int.bit false (Int.bit false a) := by
    simp [Int.bit_val]; ring
  rw [h1, Int.lor_bit, Int.lor_bit, int_lor_zero]
  cases b <;> cases c <;> simp [Int.bit_val] <;> ring

/-- The sum `(address << 2) + 2` of the source is the bitwise or
`(address << 2) | 2`. -/
theorem shl2_lor_2 (a : Int) : Int.lor (int_shl a 2) 2 = int_shl a 2 + 2 := by
  have h := shl2_lor a true false
  have e : int_shl a 2 = a * 4 := by unfold int_shl; norm_num
  rw [e]
  simpa [Int.bit_val] using h

/-- C7: in the second pass a patch site whose name resolves to a DATA symbol
(for an `is_struct` site: a DATA symbol with `is_struct` set) is no error and
has its code word overwritten with the 10-bit word of
`((C + IC + sym.address) << 2) | 2`, IC being the instruction counter, which
the second pass never changes (so it is the count at the end of pass 1);
everything else, the other code words included, is left as it was. -/
theorem c7_data_site_patched (curr symbol : node) (status : Bool) (s : session)
    (hfind : find_symbol s.symbol_table curr.key = some symbol)
    (hdata : symbol.type = type.DATA)
    (hstruct : curr.is_struct = true → symbol.label_is_struct = true) :
    second_pass_node curr status s =
      (status, { s with
        mem := instructions_array_set_index curr.index
          (Int.lor (int_shl ((C : Int) + (s.mem.IC : Int) + extract_address symbol) 2) 2)
          s.mem }) ∧
    (second_pass_node curr status s).2.mem.IC = s.mem.IC ∧
    (∀ j : Nat, j ≠ curr.index.toNat →
      (second_pass_node curr status s).2.mem.instructions_array.get? j
        = s.mem.instructions_array.get? j) ∧
    (curr.index.toNat < s.mem.instructions_array.length →
      (second_pass_node curr status s).2.mem.instructions_array.get? curr.index.toNat
        = some (word_assign (Int.lor
            (int_shl ((C : Int) + (s.mem.IC : Int) + extract_address symbol) 2) 2))) := by
  have hne : symbol.type ≠ type.EXTERN := by rw [hdata]; decide
  have key : second_pass_node curr status s =
      (status, { s with
        mem := instructions_array_set_index curr.index
          (Int.lor (int_shl ((C : Int) + (s.mem.IC : Int) + extract_address symbol) 2) 2)
          s.mem }) := by
    rw [shl2_lor_2]
    unfold second_pass_node
    simp only [bind, M.bind, query, hfind]
    by_cases hs : curr.is_struct = true
    · simp [hs, second_pass_struct, hdata, hstruct hs, bind, M.bind, query, update, pure,
        M.pure, session.instructions_array_set_index]
    · simp [hs, hdata, bind, M.bind, query, update, pure, M.pure,
        session.instructions_array_set_index]
  rw [key]
  refine ⟨rfl, rfl, ?_, ?_⟩
  · intro j hj
    simp [instructions_array_set_index, List.getElem?_set, Ne.symm hj]
  · intro hlt
    simp [instructions_array_set_index, List.getElem?_set, hlt, shl2_lor_2]

set_option maxRecDepth 1000000 in
/-- C7 at a concrete site: the source `X: .data 5`, `prn X` has one patch
site, at code index 1, whose name resolves to the DATA symbol X. -/
theorem c7_data_site_patched_witness :
    second_pass_node (node.mk "X".toList type.INST 1 (node_data.line ⟨2, false⟩)) true
        (first_pass_process (session_start 0 "X: .data 5\nprn X\n".toList)).2
      = (true, { (first_pass_process (session_start 0 "X: .data 5\nprn X\n".toList)).2 with
          mem := instructions_array_set_index 1
            (Int.lor (int_shl ((C : Int) + (2 : Nat) + 0) 2) 2)
            (first_pass_process (session_start 0 "X: .data 5\nprn X\n".toList)).2.mem }) :=
  (c7_data_site_patched (node.mk "X".toList type.INST 1 (node_data.line ⟨2, false⟩))
    (node.mk "X".toList type.DATA 0 (node_data.label ⟨⟨0⟩, false⟩)) true
    (first_pass_process (session_start 0 "X: .data 5\nprn X\n".toList)).2
    (by decide) (by decide) (by decide)).1

set_option maxRecDepth 1000000 in
/-- C8, the claim at a concrete input: for the source `.extern K`, `jmp K`
the word after the `jmp` instruction word (code index 1) is 1, bit pattern
00000000 01, and not `(1 << 2) | 1`, bit pattern 000000 0001 01. -/
theorem c8_extern_word_is_not_5 :
    (file_process 0 ".extern K\njmp K\n".toList).status = true ∧
    (file_process 0 ".extern K\njmp K\n".toList).final.mem.instructions_array.get? 1
      = some ⟨1⟩ ∧
    (file_process 0 ".extern K\njmp K\n".toList).final.mem.instructions_array.get? 1
      ≠ some (word_assign (Int.lor (int_shl 1 2) 1)) := by
  decide

set_option maxRecDepth 1000000 in
/-- C9 (the code at the failing input): for the source `L: rts`, `jsr L`,
`prn X` the list holds the non-struct sites L, which resolves to an INST_L
symbol, and X, which is not in the symbol table; the second pass reports
error 27 for L, a site the claim counts among those without an error, then
error 26 for X, and returns failure. -/
theorem c9_error_27_for_inst_l_site :
    (first_pass_process (session_start 0 "L: rts\njsr L\nprn X\n".toList)).1 = true ∧
    ((first_pass_process (session_start 0
        "L: rts\njsr L\nprn X\n".toList)).2.second_pass_list.reverse.map
        (fun n => (n.key, n.is_struct,
          (find_symbol (first_pass_process (session_start 0
            "L: rts\njsr L\nprn X\n".toList)).2.symbol_table n.key).map (fun m => m.type)))
      = [("L".toList, false, some type.INST_L), ("X".toList, false, none)]) ∧
    (second_pass_process (first_pass_process (session_start 0
        "L: rts\njsr L\nprn X\n".toList)).2).2.stderr
      = [.error_string 2 27 "L".toList, .error_string 3 26 "X".toList] ∧
    (second_pass_process (first_pass_process (session_start 0
        "L: rts\njsr L\nprn X\n".toList)).2).1 = false := by
  decide

/-! ### Rules for `preserves` -/

theorem preserves_bind {α β : Type} {P : session → Prop} {m : M α} {k : α → M β}
    (hm : preserves P m) (hk : ∀ a, preserves P (k a)) : preserves P (m >>= k) :=
  fun s hs => hk (m s).1 (m s).2 (hm s hs)

theorem preserves_pure {α : Type} {P : session → Prop} (a : α) :
    preserves P (pure a : M α) := fun _ hs => hs

theorem preserves_ite {α : Type} {P : session → Prop} {c : Prop} [Decidable c] {a b : M α}
    (ha : preserves P a) (hb : preserves P b) : preserves P (if c then a else b) := by
  split_ifs
  · exact ha
  · exact hb

theorem preserves_query {α : Type} {P : session → Prop} (g : session → α) :
    preserves P (query g) := fun _ hs => hs

theorem preserves_update {P : session → Prop} {g : session → session}
    (h : ∀ s, P s → P (g s)) : preserves P (update g) := fun s hs => h s hs

theorem preserves_on_input {α : Type} {P : session → Prop} (g : InFile → α × InFile)
    (h : ∀ s f, P s → P { s with intput_as := f }) : preserves P (on_input g) :=
  fun s hs => h s _ hs

/-! ### The invariant `session_ok` and the primitive updates -/

theorem session_ok_input (s : session) (f : InFile) (h : session_ok s) :
    session_ok { s with intput_as := f } := ⟨h.table, h.bound, h.are, h.sites⟩

theorem session_ok_print_error_string (a : Int) (b : Nat) (c : List Char) (s : session)
    (h : session_ok s) : session_ok (print_error_string a b c s) :=
  ⟨h.table, h.bound, h.are, h.sites⟩

theorem session_ok_print_error_char (a : Int) (b : Nat) (c : Option Char) (s : session)
    (h : session_ok s) : session_ok (print_error_char a b c s) :=
  ⟨h.table, h.bound, h.are, h.sites⟩

theorem session_ok_print_error (a : Int) (b : Nat) (s : session)
    (h : session_ok s) : session_ok (print_error a b s) :=
  ⟨h.table, h.bound, h.are, h.sites⟩

theorem session_ok_print_warning_int (a : Int) (b : Nat) (c : Int) (s : session)
    (h : session_ok s) : session_ok (print_warning_int a b c s) :=
  ⟨h.table, h.bound, h.are, h.sites⟩

theorem session_ok_print_warning (a : Int) (b : Nat) (s : session)
    (h : session_ok s) : session_ok (print_warning a b s) :=
  ⟨h.table, h.bound, h.are, h.sites⟩

theorem session_ok_ent_ext_list_insert (a : List Char) (b : Bool) (c : Int) (s : session)
    (h : session_ok s) : session_ok (ent_ext_list_insert a b c s) := by
  unfold ent_ext_list_insert
  simp only
  split_ifs <;> exact ⟨h.table, h.bound, h.are, h.sites⟩

theorem session_ok_line_count (s : session) (h : session_ok s) :
    session_ok { s with line_count := s.line_count + 1 } :=
  ⟨h.table, h.bound, h.are, h.sites⟩

theorem wrap10_mod4 (v : Int) : wrap10 v % 4 = v % 4 := by
  unfold wrap10; omega

theorem wrap10_of_small (v : Int) (h0 : -512 ≤ v) (h1 : v ≤ 511) : wrap10 v = v := by
  unfold wrap10; omega

theorem int_and_3 (a : Int) : int_and a 3 = a % 4 := by
  unfold int_and
  have := Nat.and_pow_two_sub_one_eq_mod (a % 2 ^ 32).toNat 2
  have h : Nat.land (a % 2 ^ 32).toNat 3 = (a % 2 ^ 32).toNat % 4 := by simpa using this
  rw [h]
  simp only [Int.ofNat_eq_coe]
  omega

theorem sites_ok_mono (l : linked_list) (a b : Nat) (hab : a ≤ b) (h : sites_ok l a) :
    sites_ok l b := by
  refine ⟨h.1, fun n hn => ⟨(h.2 n hn).1, ?_⟩⟩
  have := (h.2 n hn).2
  omega

theorem session_ok_inst_insert (w : word) (hw : w.value % 4 = 0) (s : session)
    (h : session_ok s) : session_ok (s.instructions_array_insert w) := by
  obtain ⟨hT, hB, hA, hS⟩ := h
  unfold session.instructions_array_insert instructions_array_insert
  by_cases hc : s.mem.IC + s.mem.DC ≤ MEMORY_SIZE
  · simp only [hc, if_true]
    constructor
    · exact hT
    · simp only [MEMORY_SIZE] at hc hB ⊢; omega
    · intro i v hi hv
      simp only at hi hv
      by_cases hik : i = s.mem.IC
      · subst hik
        rw [List.getElem?_set] at hv
        simp only [if_true] at hv
        split at hv
        · cases hv; exact hw
        · cases hv
      · rw [List.getElem?_set_ne (Ne.symm hik)] at hv
        exact hA i v (by omega) hv
    · intro hf
      exact sites_ok_mono _ _ _ (Nat.le_succ _) (hS hf)
  · simp only [hc, if_false]
    exact ⟨hT, hB, hA, fun hf => by cases hf⟩

theorem session_ok_data_insert (w : word) (s : session)
    (h : session_ok s) : session_ok (s.data_array_insert w) := by
  obtain ⟨hT, hB, hA, hS⟩ := h
  unfold session.data_array_insert data_array_insert
  by_cases hc : s.mem.IC + s.mem.DC ≤ MEMORY_SIZE
  · simp only [hc, if_true]
    constructor
    · exact hT
    · simp only [MEMORY_SIZE] at hc hB ⊢; omega
    · exact hA
    · exact hS
  · simp only [hc, if_false]
    exact ⟨hT, hB, hA, fun hf => by cases hf⟩

/-! ### Lemmas on the symbol table -/

theorem hash_table_find_insert (t : hash_table) (key : List Char) (data : node_data) (ty : type)
    (k : List Char) (n : node)
    (h : hash_table_find (hash_table_insert t key data ty).1 k = some n) :
    n = { node_construct key ty with data := data } ∨ hash_table_find t k = some n := by
  unfold hash_table_insert at h
  cases hf : linked_list_find (t.array.getD (default_hash_function key t.array_size) []) key with
  | some m =>
    simp only [hf] at h
    exact Or.inr h
  | none =>
    simp only [hf] at h
    unfold hash_table_find at h ⊢
    simp only at h
    by_cases hk : default_hash_function k t.array_size = default_hash_function key t.array_size
    · rw [hk] at h ⊢
      by_cases hlen : default_hash_function key t.array_size < t.array.length
      · rw [List.getD_eq_getElem?_getD, List.getElem?_set_self hlen] at h
        simp only [Option.getD_some, linked_list_insert, linked_list_find, List.find?_cons] at h
        split at h
        · left; cases h; rfl
        · right; exact h
      · rw [List.set_eq_of_length_le (by omega)] at h
        right; exact h
    · rw [List.getD_eq_getElem?_getD, List.getElem?_set_ne (Ne.symm hk),
        ← List.getD_eq_getElem?_getD] at h
      right; exact h

theorem session_ok_insert_label (symbol : List Char) (counter : Int) (t : type)
    (is_struct : Bool) (s : session) (h : session_ok s) :
    session_ok (s.symbol_table_insert_label symbol counter t is_struct) := by
  obtain ⟨hT, hB, hA, hS⟩ := h
  constructor
  · intro key n hn
    unfold session.symbol_table_insert_label symbol_table_insert_label find_symbol at hn
    simp only at hn
    rcases hash_table_find_insert _ _ _ _ _ _ hn with h1 | h1
    · subst h1
      unfold node_ok node_construct extract_address
      simp only
      refine ⟨?_, trivial⟩
      intro ht
      simp [ht, word_assign, wrap10]
    · exact hT key n h1
  · exact hB
  · exact hA
  · exact hS

/-! ### Lemmas on the reservation of a patch site -/

theorem session_ok_reserve (key : List Char) (ln : Int) (b : Bool) (w : word)
    (hw : w.value % 4 = 0) (s t : session) (hm : t.mem = s.mem)
    (ht : t.symbol_table = s.symbol_table)
    (hl : t.second_pass_list = (spl_insert key s.mem.IC ln b s).second_pass_list)
    (h : session_ok s) : session_ok (t.instructions_array_insert w) := by
  obtain ⟨hT, hB, hA, hS⟩ := h
  simp only [MEMORY_SIZE] at hB
  have hidx : wrap10 (s.mem.IC : Int) = (s.mem.IC : Int) := by
    apply wrap10_of_small <;> omega
  unfold spl_insert linked_list_insert node_construct at hl
  simp only at hl
  unfold session.instructions_array_insert instructions_array_insert
  rw [hm]
  by_cases hc : s.mem.IC + s.mem.DC ≤ MEMORY_SIZE
  · simp only [hc, if_true]
    constructor
    · simp only [ht]; exact hT
    · simp only [MEMORY_SIZE] at hc ⊢; omega
    · intro i v hlt hv
      simp only at hlt hv
      by_cases hik : i = s.mem.IC
      · subst hik
        rw [List.getElem?_set] at hv
        simp only [if_true] at hv
        split at hv
        · cases hv; exact hw
        · cases hv
      · rw [List.getElem?_set_ne (Ne.symm hik)] at hv
        exact hA i v (by omega) hv
    · intro hf
      simp only at hf ⊢
      rw [hl]
      have hs := hS hf
      refine ⟨List.pairwise_cons.mpr ⟨?_, hs.1⟩, ?_⟩
      · intro b hb'
        simp only [hidx]
        exact (hs.2 b hb').2
      · intro n hn
        rcases List.mem_cons.mp hn with hn | hn
        · subst hn
          simp only [hidx]
          constructor <;> omega
        · have := hs.2 n hn
          constructor
          · exact this.1
          · have := this.2
            omega
  · simp only [hc, if_false]
    exact ⟨by simp only [ht]; exact hT, hB, hA, fun hf => by cases hf⟩

theorem word_assign_zero_mod4 : (word_assign 0).value % 4 = 0 := by decide

theorem word_assign_shl2_mod4 (x : Int) : (word_assign (int_shl x 2)).value % 4 = 0 := by
  show wrap10 (int_shl x 2) % 4 = 0
  rw [wrap10_mod4]
  unfold int_shl
  omega

theorem extract_regs_value_mod4 (t : hash_table)
    (hT : ∀ key n, find_symbol t key = some n → node_ok n) (op : List Char) (b : Bool) :
    extract_regs_value t op b % 4 = 0 := by
  unfold extract_regs_value
  cases hf : find_symbol t op with
  | none => simp
  | some n =>
    have hn := (hT op n hf).2
    simp only [Option.map_some']
    cases hd : n.data with
    | regs d =>
      rw [hd] at hn
      simp only at hn
      split_ifs
      · exact hn.1
      · exact hn.2
    | null => simp
    | inst d => simp
    | label d => simp
    | direct d => simp
    | line d => simp

theorem create_instruction_word_mod4 (data : instruction) (target : word) (a b : Int)
    (h : target.value % 4 = 0) : (create_instruction_word data target a b).value % 4 = 0 := by
  have h1 : ∀ v x : Int, v % 4 = 0 → (word_assign (v + int_shl x 4)).value % 4 = 0 := by
    intro v x hv
    show wrap10 _ % 4 = 0
    rw [wrap10_mod4]; unfold int_shl; omega
  have h2 : ∀ v x : Int, v % 4 = 0 → (word_assign (v + int_shl x 2)).value % 4 = 0 := by
    intro v x hv
    show wrap10 _ % 4 = 0
    rw [wrap10_mod4]; unfold int_shl; omega
  unfold create_instruction_word
  simp only
  split_ifs
  · exact h2 (word_assign (target.value + int_shl a 4)).value b (h1 target.value a h)
  · exact h2 target.value b h
  · exact h1 target.value a h
  · exact h

theorem node_instruction_mod4 (n : node) (h : node_ok n) : n.instruction.value.value % 4 = 0 := by
  unfold node.instruction
  have h2 := h.2
  cases hd : n.data with
  | inst d => rw [hd] at h2; exact h2
  | null => rfl
  | regs d => rfl
  | label d => rfl
  | direct d => rfl
  | line d => rfl

/-! ### Further rules for `preserves` -/

theorem preserves_bind_query {α β : Type} {P : session → Prop} {g : session → α}
    {k : α → M β} (Φ : α → Prop) (hg : ∀ s, P s → Φ (g s))
    (hk : ∀ a, Φ a → preserves P (k a)) : preserves P (query g >>= k) :=
  fun s hs => hk (g s) (hg s hs) s hs

theorem preserves_bind_val {α β : Type} {P : session → Prop} {m : M α}
    {k : α → M β} (Φ : α → Prop) (hm : ∀ s, P s → P (m s).2 ∧ Φ (m s).1)
    (hk : ∀ a, Φ a → preserves P (k a)) : preserves P (m >>= k) :=
  fun s hs => hk (m s).1 (hm s hs).2 (m s).2 (hm s hs).1

theorem keeps_bind {α β : Type} {P : session → Prop} {Φ : β → Prop} {m : M α} {k : α → M β}
    (hm : preserves P m) (hk : ∀ a, keeps P Φ (k a)) : keeps P Φ (m >>= k) :=
  fun s hs => hk (m s).1 (m s).2 (hm s hs)

theorem keeps_bind_query {α β : Type} {P : session → Prop} {Φ : β → Prop} {g : session → α}
    {k : α → M β} (Ψ : α → Prop) (hg : ∀ s, P s → Ψ (g s))
    (hk : ∀ a, Ψ a → keeps P Φ (k a)) : keeps P Φ (query g >>= k) :=
  fun s hs => hk (g s) (hg s hs) s hs

theorem keeps_pure {α : Type} {P : session → Prop} {Φ : α → Prop} {a : α} (h : Φ a) :
    keeps P Φ (pure a : M α) := fun _ hs => ⟨hs, h⟩

theorem keeps_ite {α : Type} {P : session → Prop} {Φ : α → Prop} {c : Prop} [Decidable c]
    {a b : M α} (ha : keeps P Φ a) (hb : keeps P Φ b) : keeps P Φ (if c then a else b) := by
  split_ifs
  · exact ha
  · exact hb

theorem preserves_bind_keeps {α β : Type} {P : session → Prop} {m : M α} {k : α → M β}
    (Ψ : α → Prop) (hm : keeps P Ψ m) (hk : ∀ a, Ψ a → preserves P (k a)) :
    preserves P (m >>= k) :=
  fun s hs => hk (m s).1 (hm s hs).2 (m s).2 (hm s hs).1

theorem is_command_node_ok (t : hash_table)
    (hT : ∀ key n, find_symbol t key = some n → node_ok n) (str : List Char) :
    ∀ n, (is_command t str).2 = some n → node_ok n := by
  intro n hn
  unfold is_command at hn
  cases hf : find_symbol t str with
  | none => simp [hf] at hn
  | some m =>
    simp only [hf] at hn
    have hmn : m = n := by simpa using hn
    rw [← hmn]
    exact hT str m hf
/-! ### The invariant along the first pass -/

theorem reserve_absolute_ok (key : List Char) (s : session) (h : session_ok s) :
    session_ok ((ent_ext_list_insert key false s.mem.IC
      (spl_insert key s.mem.IC s.line_count false s)).instructions_array_insert
        (word_assign 0)) := by
  apply session_ok_reserve key s.line_count false _ word_assign_zero_mod4 s _ _ _ _ h
  · unfold ent_ext_list_insert; rfl
  · unfold ent_ext_list_insert; rfl
  · unfold ent_ext_list_insert; rfl

theorem reserve_struct_ok (key : List Char) (x : Int) (s : session) (h : session_ok s) :
    session_ok (((spl_insert key s.mem.IC s.line_count true s).instructions_array_insert
      (word_assign 0)).instructions_array_insert (word_assign (int_shl x 2))) := by
  apply session_ok_inst_insert _ (word_assign_shl2_mod4 x)
  exact session_ok_reserve key s.line_count true _ word_assign_zero_mod4 s _ rfl rfl rfl h

section invariant

attribute [local irreducible] M.bind M.pure query update on_input

theorem is_legal_label_ok (label : List Char) (b : Bool) :
    preserves session_ok (is_legal_label label b) := by
  unfold is_legal_label
  repeat (first
    | exact preserves_pure _
    | exact preserves_query _
    | exact preserves_update (session_ok_print_error_string _ _ _)
    | apply preserves_ite
    | apply preserves_bind
    | intro _)

theorem pre_process_line_error_check_ok (a b : List Char) (c : Bool) (o : Option node)
    (d : Bool) : preserves session_ok (pre_process_line_error_check a b c o d) := by
  unfold pre_process_line_error_check
  repeat (first
    | exact preserves_pure _
    | exact preserves_query _
    | exact preserves_update (session_ok_print_error_string _ _ _)
    | apply preserves_ite
    | apply preserves_bind
    | intro _)

theorem pre_process_line_ok : preserves session_ok pre_process_line := by
  unfold pre_process_line
  repeat (first
    | exact preserves_pure _
    | exact preserves_query _
    | exact preserves_on_input _ session_ok_input
    | exact is_legal_label_ok _ _
    | exact pre_process_line_error_check_ok _ _ _ _ _
    | apply preserves_ite
    | apply preserves_bind
    | intro _)

theorem read_numbers_list_error_check_ok (c : Option Char) (n : Int) :
    preserves session_ok (read_numbers_list_error_check c n) := by
  unfold read_numbers_list_error_check
  repeat (first
    | exact preserves_pure _
    | exact preserves_query _
    | exact preserves_on_input _ session_ok_input
    | exact preserves_update (session_ok_print_error _ _)
    | exact preserves_update (session_ok_print_error_char _ _ _)
    | apply preserves_ite
    | apply preserves_bind
    | intro _)

theorem read_numbers_list_end_ok (n : Int) :
    preserves session_ok (read_numbers_list_end n) := by
  unfold read_numbers_list_end
  repeat (first
    | exact preserves_pure _
    | exact preserves_on_input _ session_ok_input
    | exact read_numbers_list_error_check_ok _ _
    | apply preserves_bind
    | intro _)

theorem read_numbers_loop_ok (fuel : Nat) (nr num : Int) :
    preserves session_ok (read_numbers_loop fuel nr num) := by
  induction fuel generalizing nr num with
  | zero =>
    unfold read_numbers_loop
    repeat (first
      | exact preserves_on_input _ session_ok_input
      | exact read_numbers_list_end_ok _
      | apply preserves_bind
      | intro _)
  | succ n ih =>
    unfold read_numbers_loop
    repeat (first
      | exact preserves_pure _
      | exact preserves_query _
      | exact preserves_on_input _ session_ok_input
      | exact read_numbers_list_end_ok _
      | exact ih _ _
      | exact preserves_update (session_ok_print_warning_int _ _ _)
      | exact preserves_update (session_ok_data_insert _)
      | apply preserves_ite
      | apply preserves_bind
      | intro _)

theorem read_numbers_list_ok : preserves session_ok read_numbers_list := by
  unfold read_numbers_list
  repeat (first
    | exact preserves_query _
    | exact read_numbers_loop_ok _ _ _
    | apply preserves_bind
    | intro _)

theorem read_string_error_check_ok (c : Option Char) (a b d : Bool) :
    preserves session_ok (read_string_error_check c a b d) := by
  unfold read_string_error_check
  repeat (first
    | exact preserves_pure _
    | exact preserves_query _
    | exact preserves_on_input _ session_ok_input
    | exact preserves_update (session_ok_print_error _ _)
    | apply preserves_ite
    | apply preserves_bind
    | intro _)

theorem insert_characters_ok (l : List Char) : preserves session_ok (insert_characters l) := by
  induction l with
  | nil =>
    unfold insert_characters
    exact preserves_pure _
  | cons c cs ih =>
    unfold insert_characters
    repeat (first
      | exact ih
      | exact preserves_update (session_ok_data_insert _)
      | apply preserves_bind
      | intro _)

theorem read_string_ok : preserves session_ok read_string := by
  unfold read_string
  repeat (first
    | exact preserves_pure _
    | exact preserves_query _
    | exact preserves_on_input _ session_ok_input
    | exact read_string_error_check_ok _ _ _ _
    | exact insert_characters_ok _
    | exact preserves_update (session_ok_data_insert _)
    | apply preserves_ite
    | apply preserves_bind
    | intro _)

theorem struct_error_check_ok (a b : Bool) :
    preserves session_ok (struct_error_check a b) := by
  unfold struct_error_check
  repeat (first
    | exact preserves_pure _
    | exact preserves_query _
    | exact preserves_on_input _ session_ok_input
    | exact preserves_update (session_ok_print_error _ _)
    | exact preserves_update (session_ok_print_error_char _ _ _)
    | apply preserves_ite
    | apply preserves_bind
    | intro _)

theorem process_directive_struct_ok : preserves session_ok process_directive_struct := by
  unfold process_directive_struct
  repeat (first
    | exact preserves_pure _
    | exact preserves_query _
    | exact preserves_on_input _ session_ok_input
    | exact read_string_ok
    | exact struct_error_check_ok _ _
    | exact preserves_update (session_ok_data_insert _)
    | apply preserves_ite
    | apply preserves_bind
    | intro _)

theorem ext_ent_end_of_line_ok : preserves session_ok ext_ent_end_of_line := by
  unfold ext_ent_end_of_line
  repeat (first
    | exact preserves_pure _
    | exact preserves_query _
    | exact preserves_on_input _ session_ok_input
    | exact preserves_update (session_ok_print_error _ _)
    | apply preserves_ite
    | apply preserves_bind
    | intro _)

theorem process_directive_ext_ent_ok (a b : Bool) :
    preserves session_ok (process_directive_ext_ent a b) := by
  unfold process_directive_ext_ent
  repeat (first
    | exact preserves_pure _
    | exact preserves_query _
    | exact preserves_on_input _ session_ok_input
    | exact is_legal_label_ok _ _
    | exact ext_ent_end_of_line_ok
    | exact preserves_update (session_ok_print_error_string _ _ _)
    | exact preserves_update (session_ok_print_warning _ _)
    | exact preserves_update (session_ok_ent_ext_list_insert _ _ _)
    | exact preserves_update (session_ok_insert_label _ _ _ _)
    | apply preserves_ite
    | apply preserves_bind
    | intro _)

theorem process_directive_ok (direct : node) (b : Bool) (label : List Char) :
    preserves session_ok (process_directive direct b label) := by
  unfold process_directive
  repeat (first
    | exact preserves_pure _
    | exact preserves_query _
    | exact preserves_on_input _ session_ok_input
    | exact process_directive_ext_ent_ok _ _
    | exact read_numbers_list_ok
    | exact read_string_ok
    | exact process_directive_struct_ok
    | exact preserves_update (session_ok_insert_label _ _ _ _)
    | apply preserves_ite
    | apply preserves_bind
    | intro _)

end invariant

section invariant_instructions

attribute [local irreducible] M.bind M.pure query update on_input

theorem detect_operands_error_check_ok (a b : Int) (c : Option Char) (d : Bool) :
    preserves session_ok (detect_operands_error_check a b c d) := by
  unfold detect_operands_error_check
  repeat (first
    | exact preserves_pure _
    | exact preserves_query _
    | exact preserves_update (session_ok_print_error _ _)
    | apply preserves_ite
    | apply preserves_bind
    | intro _)

set_option maxRecDepth 4000 in
theorem detect_operands_and_types_ok (data : instruction) :
    preserves session_ok (detect_operands_and_types data) := by
  unfold detect_operands_and_types
  repeat (first
    | exact preserves_pure _
    | exact preserves_query _
    | exact preserves_on_input _ session_ok_input
    | exact detect_operands_error_check_ok _ _ _ _
    | apply preserves_ite
    | apply preserves_bind
    | intro _)

theorem check_operands_types_ok (data : instruction) (a b : Int) :
    preserves session_ok (check_operands_types data a b) := by
  unfold check_operands_types
  repeat (first
    | exact preserves_pure _
    | exact preserves_query _
    | exact preserves_on_input _ session_ok_input
    | exact preserves_update (session_ok_print_error _ _)
    | apply preserves_ite
    | apply preserves_bind
    | intro _)

theorem process_immediate_ok (op : List Char) : preserves session_ok (process_immediate op) := by
  unfold process_immediate
  repeat (first
    | exact preserves_pure _
    | exact preserves_query _
    | exact preserves_update (session_ok_print_error_string _ _ _)
    | exact preserves_update (session_ok_print_warning_int _ _ _)
    | exact preserves_update (session_ok_inst_insert _ (word_assign_shl2_mod4 _))
    | apply preserves_ite
    | apply preserves_bind
    | intro _)

theorem process_struct_ok (op : List Char) : preserves session_ok (process_struct op) := by
  unfold process_struct
  apply preserves_bind (is_legal_label_ok _ _)
  intro l
  apply preserves_ite
  · intro s hs
    simp only [bind, M.bind, query, update, pure, M.pure]
    exact reserve_struct_ok _ _ s hs
  · exact preserves_pure _

theorem process_operand_ok (t : Int) (op : List Char) (b : Bool) :
    preserves session_ok (process_operand t op b) := by
  unfold process_operand
  apply preserves_ite
  · refine preserves_bind_query (fun v => v % 4 = 0) ?_ ?_
    · intro s hs
      exact extract_regs_value_mod4 _ hs.table _ _
    · intro v hv
      apply preserves_bind
      · apply preserves_update
        apply session_ok_inst_insert
        show wrap10 v % 4 = 0
        rw [wrap10_mod4]; exact hv
      · intro _
        exact preserves_pure _
  apply preserves_ite
  · exact process_immediate_ok _
  apply preserves_ite
  · apply preserves_bind (is_legal_label_ok _ _)
    intro l
    apply preserves_ite
    · intro s hs
      simp only [bind, M.bind, query, update, pure, M.pure]
      exact reserve_absolute_ok _ s hs
    · exact preserves_pure _
  apply preserves_ite
  · exact process_struct_ok _
  · exact preserves_pure _

theorem store_operands_ok (data : instruction) (a b : Int) (op1 op2 : List Char) :
    preserves session_ok (store_operands data a b op1 op2) := by
  unfold store_operands
  apply preserves_ite
  · refine preserves_bind_query (fun v => v % 4 = 0) ?_ ?_
    · intro s hs
      exact extract_regs_value_mod4 _ hs.table _ _
    · intro v1 hv1
      refine preserves_bind_query (fun v => v % 4 = 0) ?_ ?_
      · intro s hs
        exact extract_regs_value_mod4 _ hs.table _ _
      · intro v2 hv2
        apply preserves_bind
        · apply preserves_update
          apply session_ok_inst_insert
          show wrap10 _ % 4 = 0
          rw [wrap10_mod4]; omega
        · intro _
          exact preserves_pure _
  · repeat (first
      | exact preserves_pure _
      | exact process_operand_ok _ _ _
      | apply preserves_ite
      | apply preserves_bind
      | intro _)

theorem process_instruction_ok (inst : node) (hi : node_ok inst) (b : Bool)
    (label : List Char) : preserves session_ok (process_instruction inst b label) := by
  unfold process_instruction
  repeat (first
    | exact preserves_pure _
    | exact preserves_query _
    | exact preserves_on_input _ session_ok_input
    | exact detect_operands_and_types_ok _
    | exact check_operands_types_ok _ _ _
    | exact store_operands_ok _ _ _ _ _
    | exact preserves_update (session_ok_insert_label _ _ _ _)
    | exact preserves_update (session_ok_inst_insert _
        (create_instruction_word_mod4 _ _ _ _ (node_instruction_mod4 _ hi)))
    | apply preserves_ite
    | apply preserves_bind
    | intro _)

end invariant_instructions

section invariant_lines

attribute [local irreducible] M.bind M.pure query update on_input

theorem pre_process_line_keeps :
    keeps session_ok (fun h => ∀ n, h.symbol = some n → node_ok n) pre_process_line := by
  unfold pre_process_line
  apply keeps_bind (preserves_query _)
  intro chars_count0
  apply keeps_bind (preserves_on_input _ session_ok_input)
  intro r1
  refine keeps_bind_query (fun c => ∀ n, c.2 = some n → node_ok n) ?_ ?_
  · intro s hs
    exact is_command_node_ok _ hs.table _
  intro c1 hc1
  apply keeps_ite
  · exact keeps_pure hc1
  apply keeps_bind (is_legal_label_ok _ _)
  intro l
  apply keeps_ite
  · refine keeps_bind_query (fun c => ∀ n, c = some n → node_ok n) ?_ ?_
    · intro s hs n hn
      exact hs.table _ n hn
    intro symbol hsym
    apply keeps_ite
    · apply keeps_bind (preserves_on_input _ session_ok_input)
      intro r2
      refine keeps_bind_query (fun c => ∀ n, c.2 = some n → node_ok n) ?_ ?_
      · intro s hs
        exact is_command_node_ok _ hs.table _
      intro c2 hc2
      apply keeps_ite
      · exact keeps_pure hc2
      · apply keeps_bind (pre_process_line_error_check_ok _ _ _ _ _)
        intro _
        exact keeps_pure hc2
    · apply keeps_bind (pre_process_line_error_check_ok _ _ _ _ _)
      intro _
      exact keeps_pure hsym
  · apply keeps_bind (pre_process_line_error_check_ok _ _ _ _ _)
    intro _
    exact keeps_pure hc1

theorem is_comment_or_empty_line_ok : preserves session_ok is_comment_or_empty_line := by
  unfold is_comment_or_empty_line
  repeat (first
    | exact preserves_pure _
    | exact preserves_on_input _ session_ok_input
    | apply preserves_bind
    | intro _)

theorem process_line_ok : preserves session_ok process_line := by
  unfold process_line
  apply preserves_bind is_comment_or_empty_line_ok
  intro e
  apply preserves_bind
  · repeat (first
      | exact preserves_pure _
      | exact preserves_on_input _ session_ok_input
      | apply preserves_ite
      | apply preserves_bind
      | intro _)
  intro skip
  apply preserves_ite
  · repeat (first
      | exact preserves_pure _
      | exact preserves_on_input _ session_ok_input
      | apply preserves_bind
      | intro _)
  refine preserves_bind_keeps _ pre_process_line_keeps ?_
  intro h hh
  apply preserves_ite
  · cases hsym : h.symbol with
    | none => exact preserves_pure _
    | some symbol =>
      simp only
      apply preserves_ite
      · exact process_instruction_ok _ (hh symbol hsym) _ _
      apply preserves_ite
      · exact process_directive_ok _ _ _
      · exact preserves_pure _
  · repeat (first
      | exact preserves_pure _
      | exact preserves_on_input _ session_ok_input
      | apply preserves_bind
      | intro _)

theorem first_pass_loop_ok (fuel : Nat) (status : Bool) :
    preserves session_ok (first_pass_loop fuel status) := by
  induction fuel generalizing status with
  | zero =>
    unfold first_pass_loop
    exact preserves_pure _
  | succ n ih =>
    unfold first_pass_loop
    repeat (first
      | exact preserves_pure _
      | exact preserves_query _
      | exact process_line_ok
      | exact ih _
      | exact preserves_update session_ok_line_count
      | apply preserves_ite
      | apply preserves_bind
      | intro _)

theorem first_pass_process_ok : preserves session_ok first_pass_process := by
  unfold first_pass_process
  repeat (first
    | exact preserves_query _
    | exact first_pass_loop_ok _ _
    | apply preserves_bind
    | intro _)

end invariant_lines

/-! ### The invariant at the start of a run -/

theorem hash_table_find_mem (t : hash_table) (k : List Char) (n : node)
    (h : hash_table_find t k = some n) : ∃ b ∈ t.array, n ∈ b := by
  unfold hash_table_find linked_list_find at h
  have hm := List.mem_of_find?_eq_some h
  rw [List.getD_eq_getElem?_getD] at hm
  cases hg : t.array[default_hash_function k t.array_size]? with
  | none => rw [hg] at hm; simp at hm
  | some b =>
    rw [hg] at hm
    exact ⟨b, List.getElem?_mem hg, hm⟩

set_option maxRecDepth 100000 in
theorem initial_nodes_ok : ∀ b ∈ initialize_symbol_table.array, ∀ n ∈ b, node_ok n := by
  decide

theorem session_start_ok (chars_count0 : Int) (input : List Char) :
    session_ok (session_start chars_count0 input) := by
  constructor
  · intro key n hn
    obtain ⟨b, hb, hnb⟩ := hash_table_find_mem _ _ _ hn
    exact initial_nodes_ok b hb n hnb
  · show (0 : Nat) + 0 ≤ MEMORY_SIZE + 1
    decide
  · intro i w hi
    exact absurd hi (Nat.not_lt_zero i)
  · intro _
    exact ⟨List.Pairwise.nil, fun n hn => absurd hn (List.not_mem_nil n)⟩

theorem first_pass_ok (chars_count0 : Int) (input : List Char) :
    session_ok (first_pass_process (session_start chars_count0 input)).2 :=
  first_pass_process_ok _ (session_start_ok chars_count0 input)

/-! ### The second pass -/

/-- What one step of the loop of the second pass does: it leaves everything
but the code array and stderr alone, and when the status it returns is 1 the
status was 1 before, nothing was printed, and one word was stored at the
index of the site, chosen by the type of the symbol found. -/
theorem second_pass_node_spec (curr : node) (status : Bool) (s : session) :
    (second_pass_node curr status s).2.symbol_table = s.symbol_table ∧
    (second_pass_node curr status s).2.mem.IC = s.mem.IC ∧
    (second_pass_node curr status s).2.mem.DC = s.mem.DC ∧
    (second_pass_node curr status s).2.mem.data_array = s.mem.data_array ∧
    (second_pass_node curr status s).2.mem.memory_full_flag = s.mem.memory_full_flag ∧
    (second_pass_node curr status s).2.second_pass_list = s.second_pass_list ∧
    (second_pass_node curr status s).2.entries_list = s.entries_list ∧
    (second_pass_node curr status s).2.externs_list = s.externs_list ∧
    ((second_pass_node curr status s).1 = true →
      status = true ∧ (second_pass_node curr status s).2.stderr = s.stderr ∧
      ∃ symbol v, find_symbol s.symbol_table curr.key = some symbol ∧
        (second_pass_node curr status s).2.mem.instructions_array =
          s.mem.instructions_array.set curr.index.toNat (word_assign v) ∧
        ((symbol.type = type.DATA ∧
            v = int_shl ((C : Int) + (s.mem.IC : Int) + extract_address symbol) 2 + 2) ∨
         (symbol.type = type.EXTERN ∧ curr.is_struct = false ∧
            v = extract_address symbol))) := by
  unfold second_pass_node
  simp only [bind, M.bind, query]
  cases hf : find_symbol s.symbol_table curr.key with
  | none =>
    simp [print_second_pass_error, bind, M.bind, update, pure, M.pure, print_error_string]
  | some symbol =>
    simp only
    by_cases h1 : curr.is_struct = true
    · simp only [h1, if_true, second_pass_struct]
      by_cases h2 : symbol.type = type.DATA ∧ symbol.label_is_struct = true
      · simp [h2, bind, M.bind, query, update, pure, M.pure,
          session.instructions_array_set_index, instructions_array_set_index]
      · simp [h2, print_second_pass_error, bind, M.bind, update, pure, M.pure,
          print_error_string]
    · by_cases h3 : symbol.type = type.EXTERN
      · simp [h1, h3, bind, M.bind, update, pure, M.pure,
          session.instructions_array_set_index, instructions_array_set_index]
      · by_cases h4 : symbol.type = type.DATA
        · simp [h1, h4, bind, M.bind, query, update, pure, M.pure,
            session.instructions_array_set_index, instructions_array_set_index]
        · simp [h1, h3, h4, print_second_pass_error, bind, M.bind, update, pure, M.pure,
            print_error_string]

/-- The loop of the second pass leaves everything but the code array and
stderr alone; when it returns 1 the status was 1 at its start and nothing was
printed. -/
theorem second_pass_loop_frame (l : List node) : ∀ (status : Bool) (s : session),
    (second_pass_loop l status s).2.symbol_table = s.symbol_table ∧
    (second_pass_loop l status s).2.mem.IC = s.mem.IC ∧
    (second_pass_loop l status s).2.mem.DC = s.mem.DC ∧
    (second_pass_loop l status s).2.mem.data_array = s.mem.data_array ∧
    (second_pass_loop l status s).2.mem.memory_full_flag = s.mem.memory_full_flag ∧
    (second_pass_loop l status s).2.second_pass_list = s.second_pass_list ∧
    (second_pass_loop l status s).2.entries_list = s.entries_list ∧
    (second_pass_loop l status s).2.externs_list = s.externs_list ∧
    ((second_pass_loop l status s).1 = true →
      status = true ∧ (second_pass_loop l status s).2.stderr = s.stderr) := by
  induction l with
  | nil => intro status s; simp [second_pass_loop, pure, M.pure]
  | cons curr next ih =>
    intro status s
    have hn := second_pass_node_spec curr status s
    have hl := ih (second_pass_node curr status s).1 (second_pass_node curr status s).2
    have e : second_pass_loop (curr :: next) status s =
        second_pass_loop next (second_pass_node curr status s).1
          (second_pass_node curr status s).2 := rfl
    rw [e]
    obtain ⟨a1, a2, a3, a4, a5, a6, a7, a8, a9⟩ := hn
    obtain ⟨b1, b2, b3, b4, b5, b6, b7, b8, b9⟩ := hl
    refine ⟨b1.trans a1, b2.trans a2, b3.trans a3, b4.trans a4, b5.trans a5, b6.trans a6,
      b7.trans a7, b8.trans a8, ?_⟩
    intro h
    have h1 := b9 h
    have h2 := a9 h1.1
    exact ⟨h2.1, h1.2.trans h2.2.1⟩

/-- The word stored for a DATA symbol has the bits 10. -/
theorem word_assign_shl2_add2 (x : Int) : int_and (word_assign (int_shl x 2 + 2)).value 3 = 2 := by
  rw [int_and_3]
  show wrap10 (int_shl x 2 + 2) % 4 = 2
  rw [wrap10_mod4]
  unfold int_shl
  omega

/-- One successful step of the second pass extends `code_are_ok` by the site
it handled, provided no site handled before has the same index. -/
theorem second_pass_node_are (curr : node) (status : Bool) (s : session) (done : linked_list)
    (hT : ∀ key n, find_symbol s.symbol_table key = some n → node_ok n)
    (hidx : 0 ≤ curr.index) (hnew : ∀ m ∈ done, m.index ≠ curr.index)
    (hJ : code_are_ok done s) (hr : (second_pass_node curr status s).1 = true) :
    code_are_ok (done ++ [curr]) (second_pass_node curr status s).2 := by
  obtain ⟨a1, a2, _, _, _, _, _, _, a9⟩ := second_pass_node_spec curr status s
  obtain ⟨_, _, symbol, v, hf, harr, hv⟩ := a9 hr
  intro i w hi hw
  rw [a1]
  rw [a2] at hi
  rw [harr, List.getElem?_set] at hw
  by_cases hk : curr.index.toNat = i
  · have hci : curr.index = (i : Int) := by omega
    rw [if_pos hk] at hw
    have hw2 : w = word_assign v := by
      split_ifs at hw
      · exact (Option.some.inj hw).symm
    constructor
    · intro m hm hmi
      have hmc : m = curr := by
        rcases List.mem_append.mp hm with h | h
        · exact absurd (hmi.trans hci.symm) (hnew m h)
        · simpa using h
      subst hmc
      refine ⟨symbol, hf, ?_⟩
      rcases hv with ⟨ht, hv⟩ | ⟨ht, hs, hv⟩
      · left
        refine ⟨ht, ?_⟩
        rw [hw2, hv]
        exact word_assign_shl2_add2 _
      · right
        have h1 : extract_address symbol = 1 := (hT _ _ hf).1 ht
        have hw3 : w = ⟨1⟩ := by rw [hw2, hv, h1]; rfl
        refine ⟨ht, hs, hw3, ?_⟩
        rw [hw3]; decide
    · intro hall
      exact absurd hci (hall curr (by simp))
  · rw [if_neg hk] at hw
    have hJ2 := hJ i w hi hw
    constructor
    · intro m hm hmi
      rcases List.mem_append.mp hm with h | h
      · exact hJ2.1 m h hmi
      · have hmc : m = curr := by simpa using h
        subst hmc
        exact absurd (by omega) hk
    · intro hall
      exact hJ2.2 (fun m hm => hall m (List.mem_append.mpr (Or.inl hm)))

/-- When the loop of the second pass returns 1, `code_are_ok` holds for the
sites handled before and the sites it walked, provided these have distinct
non-negative indices. -/
theorem second_pass_loop_are (l : List node) : ∀ (status : Bool) (s : session)
    (done : linked_list),
    (∀ key n, find_symbol s.symbol_table key = some n → node_ok n) →
    (done ++ l).Pairwise (fun a b => a.index ≠ b.index) →
    (∀ n ∈ l, 0 ≤ n.index) →
    code_are_ok done s →
    (second_pass_loop l status s).1 = true →
    code_are_ok (done ++ l) (second_pass_loop l status s).2 := by
  induction l with
  | nil =>
    intro status s done _ _ _ hJ _
    simpa [second_pass_loop, pure, M.pure] using hJ
  | cons curr next ih =>
    intro status s done hT hp hidx hJ hr
    have e : second_pass_loop (curr :: next) status s =
        second_pass_loop next (second_pass_node curr status s).1
          (second_pass_node curr status s).2 := rfl
    rw [e] at hr ⊢
    have h1 := ((second_pass_loop_frame next _ _).2.2.2.2.2.2.2.2 hr).1
    have hp2 : ((done ++ [curr]) ++ next).Pairwise (fun a b => a.index ≠ b.index) := by
      simpa using hp
    have hnew : ∀ m ∈ done, m.index ≠ curr.index := by
      intro m hm
      have := List.pairwise_append.mp hp
      exact this.2.2 m hm curr (by simp)
    have hJ2 := second_pass_node_are curr status s done hT (hidx curr (by simp)) hnew hJ h1
    have hT2 : ∀ key n,
        find_symbol (second_pass_node curr status s).2.symbol_table key = some n → node_ok n := by
      rw [(second_pass_node_spec curr status s).1]; exact hT
    have := ih _ _ (done ++ [curr]) hT2 hp2 (fun n hn => hidx n (by simp [hn])) hJ2 hr
    simpa using this

/-! ### The output files leave the memory image alone -/

section frame

attribute [local irreducible] M.bind M.pure query update on_input

theorem entries_node_frame (m : memory) (t : hash_table) (l : linked_list) (curr : node)
    (acc : entries_state) :
    preserves (fun s => s.mem = m ∧ s.symbol_table = t ∧ s.second_pass_list = l)
      (entries_node curr acc) := by
  unfold entries_node
  apply preserves_bind
  · exact preserves_query _
  intro found
  cases found <;>
  repeat (first
    | exact preserves_pure _
    | exact preserves_query _
    | exact preserves_update (fun _ h => h)
    | apply preserves_ite
    | apply preserves_bind
    | intro _)

theorem entries_loop_frame (m : memory) (t : hash_table) (l : linked_list) (nodes : List node) :
    ∀ acc, preserves (fun s => s.mem = m ∧ s.symbol_table = t ∧ s.second_pass_list = l)
      (entries_loop nodes acc) := by
  induction nodes with
  | nil => intro acc; exact preserves_pure _
  | cons curr next ih =>
    intro acc
    exact preserves_bind (entries_node_frame m t l curr acc) (fun a => ih a)

theorem create_entries_file_frame (m : memory) (t : hash_table) (l : linked_list) :
    preserves (fun s => s.mem = m ∧ s.symbol_table = t ∧ s.second_pass_list = l)
      create_entries_file := by
  unfold create_entries_file
  repeat (first
    | exact preserves_pure _
    | exact preserves_query _
    | exact entries_loop_frame m t l _ _
    | exact preserves_update (fun _ h => h)
    | apply preserves_bind
    | intro _)

theorem create_externs_files_frame (m : memory) (t : hash_table) (l : linked_list) :
    preserves (fun s => s.mem = m ∧ s.symbol_table = t ∧ s.second_pass_list = l)
      create_externs_files := by
  unfold create_externs_files
  repeat (first
    | exact preserves_pure _
    | exact preserves_query _
    | exact preserves_update (fun _ h => h)
    | apply preserves_bind
    | intro _)

end frame

/-- When `second_pass_process` returns 1 after a first pass that kept the
invariant and left `memory_full_flag` clear, every code word below IC
satisfies `are_ok` for the patch sites. -/
theorem second_pass_process_are (s : session) (h : session_ok s)
    (hflag : s.mem.memory_full_flag = false) (hr : (second_pass_process s).1 = true) :
    code_are_ok (second_pass_process s).2.second_pass_list (second_pass_process s).2 := by
  have e : second_pass_process s = second_pass_loop (reverse_list s.second_pass_list) true
      { s with second_pass_list := reverse_list s.second_pass_list } := rfl
  rw [e] at hr ⊢
  have hs := h.sites hflag
  have hJ : code_are_ok [] { s with second_pass_list := reverse_list s.second_pass_list } := by
    intro i w hi hw
    refine ⟨fun n hn => absurd hn (List.not_mem_nil n), fun _ => ?_⟩
    rw [int_and_3]
    exact h.are i w hi hw
  have hp : (([] : linked_list) ++ reverse_list s.second_pass_list).Pairwise
      (fun (a b : node) => a.index ≠ b.index) := by
    rw [List.nil_append]
    unfold reverse_list
    rw [List.pairwise_reverse]
    refine List.Pairwise.imp ?_ hs.1
    intro a b hab
    exact ne_of_lt hab
  have hidx : ∀ n ∈ reverse_list s.second_pass_list, 0 ≤ n.index := by
    intro n hn
    unfold reverse_list at hn
    exact (hs.2 n (List.mem_reverse.mp hn)).1
  have := second_pass_loop_are (reverse_list s.second_pass_list) true
    { s with second_pass_list := reverse_list s.second_pass_list } [] h.table hp hidx hJ hr
  rw [List.nil_append] at this
  rw [(second_pass_loop_frame _ _ _).2.2.2.2.2.1]
  exact this

/-! ### The whole run -/

/-- The second pass leaves the symbol table, the counters and the flag as the
first pass left them. -/
theorem second_pass_process_frame (s : session) :
    (second_pass_process s).2.symbol_table = s.symbol_table ∧
    (second_pass_process s).2.mem.IC = s.mem.IC ∧
    (second_pass_process s).2.mem.DC = s.mem.DC ∧
    (second_pass_process s).2.mem.data_array = s.mem.data_array ∧
    (second_pass_process s).2.mem.memory_full_flag = s.mem.memory_full_flag ∧
    ((second_pass_process s).1 = true → (second_pass_process s).2.stderr = s.stderr) := by
  have e : second_pass_process s = second_pass_loop (reverse_list s.second_pass_list) true
      { s with second_pass_list := reverse_list s.second_pass_list } := rfl
  rw [e]
  obtain ⟨a1, a2, a3, a4, a5, _, _, _, a9⟩ := second_pass_loop_frame
    (reverse_list s.second_pass_list) true
    { s with second_pass_list := reverse_list s.second_pass_list }
  exact ⟨a1, a2, a3, a4, a5, fun h => (a9 h).2⟩

/-- A run of `file_process` that ends with status 1: both passes returned 1,
the flag is clear, the object file holds the memory image the second pass
left, and the two later files do not touch that image, the symbol table or
the patch sites. -/
theorem file_process_success (chars_count0 : Int) (input : List Char)
    (h : (file_process chars_count0 input).status = true) :
    (first_pass_process (session_start chars_count0 input)).1 = true ∧
    (second_pass_process (first_pass_process (session_start chars_count0 input)).2).1 = true ∧
    (second_pass_process (first_pass_process
      (session_start chars_count0 input)).2).2.mem.memory_full_flag = false ∧
    (file_process chars_count0 input).ob = some (save_memory_to_file
      (second_pass_process (first_pass_process (session_start chars_count0 input)).2).2.mem) ∧
    (file_process chars_count0 input).final.mem =
      (second_pass_process (first_pass_process (session_start chars_count0 input)).2).2.mem ∧
    (file_process chars_count0 input).final.symbol_table =
      (second_pass_process (first_pass_process
        (session_start chars_count0 input)).2).2.symbol_table ∧
    (file_process chars_count0 input).final.second_pass_list =
      (second_pass_process (first_pass_process
        (session_start chars_count0 input)).2).2.second_pass_list := by
  unfold file_process at h ⊢
  by_cases h1 : (first_pass_process (session_start chars_count0 input)).1 = true
  · by_cases h2 : (second_pass_process
        (first_pass_process (session_start chars_count0 input)).2).1 = true
    · by_cases h3 : (second_pass_process (first_pass_process
          (session_start chars_count0 input)).2).2.mem.memory_full_flag = true
      · simp [h1, h2, h3] at h
      · have hx := create_externs_files_frame _ _ _ _
          (create_entries_file_frame _ _ _ (second_pass_process (first_pass_process
            (session_start chars_count0 input)).2).2 ⟨rfl, rfl, rfl⟩)
        simp only [h1, h2, h3]
        simp only [Bool.not_eq_true] at h3
        simpa [h3] using hx
    · simp [h1, h2] at h
  · simp [h1] at h

/-- C8, as the code has it: in the second pass, with the symbol table left
by the first pass of any source text, a patch site that is no struct site
and whose name resolves to an EXTERN symbol is no error and has its code
word overwritten with the word stored for the symbol, which is 1: address
part `1 >> 2 = 0`, low two bits 01. The status and everything else in the
session are left as they were. -/
theorem c8_extern_site_patched_with_stored_word (chars_count0 : Int) (input : List Char)
    (curr symbol : node) (status : Bool) (s : session)
    (htable : s.symbol_table =
      (first_pass_process (session_start chars_count0 input)).2.symbol_table)
    (hfind : find_symbol s.symbol_table curr.key = some symbol)
    (hext : symbol.type = type.EXTERN)
    (hsite : curr.is_struct = false) :
    extract_address symbol = 1 ∧
    second_pass_node curr status s =
      (status, { s with mem := instructions_array_set_index curr.index 1 s.mem }) ∧
    (instructions_array_set_index curr.index 1 s.mem).instructions_array =
      s.mem.instructions_array.set curr.index.toNat ⟨1⟩ ∧
    int_shr 1 2 = 0 ∧ int_and 1 3 = 1 := by
  have hT := (first_pass_ok chars_count0 input).table
  rw [← htable] at hT
  have h1 : extract_address symbol = 1 := (hT _ _ hfind).1 hext
  refine ⟨h1, ?_, rfl, by decide, by decide⟩
  unfold second_pass_node
  simp only [bind, M.bind, query, hfind]
  simp [hsite, hext, h1, bind, M.bind, update, pure, M.pure,
    session.instructions_array_set_index]

set_option maxRecDepth 1000000 in
/-- C8 at a concrete site: the source `.extern K`, `jmp K` has one patch
site, at code index 1, whose name resolves to the EXTERN symbol K. -/
theorem c8_extern_site_patched_with_stored_word_witness :
    second_pass_node (node.mk "K".toList type.INST 1 (node_data.line ⟨2, false⟩)) true
        (first_pass_process (session_start 0 ".extern K\njmp K\n".toList)).2
      = (true, { (first_pass_process (session_start 0 ".extern K\njmp K\n".toList)).2 with
          mem := instructions_array_set_index 1 1
            (first_pass_process (session_start 0 ".extern K\njmp K\n".toList)).2.mem }) :=
  (c8_extern_site_patched_with_stored_word 0 ".extern K\njmp K\n".toList
    (node.mk "K".toList type.INST 1 (node_data.line ⟨2, false⟩))
    (node.mk "K".toList type.EXTERN 0 (node_data.label ⟨⟨1⟩, false⟩)) true
    (first_pass_process (session_start 0 ".extern K\njmp K\n".toList)).2
    rfl (by decide) (by decide) (by decide)).2.1

set_option maxRecDepth 1000000 in
/-- C10, the claim at a concrete input: the source `S: .struct 7,"hi"`,
`lea S.2, r1` assembles; its code image is 428 (`lea`, source mode STRUCT,
target mode REGISTER), 418 (the address word of the STRUCT operand), 8 (the
field word of the STRUCT operand, `2 << 2`) and 4 (register r1). The field
word is written for the STRUCT operand and its low two bits are 00, not 10;
the only patch site is the address word at index 1. -/
theorem c10_struct_field_word_has_are_00 :
    (file_process 0 "S: .struct 7,\"hi\"\nlea S.2, r1\n".toList).status = true ∧
    (file_process 0 "S: .struct 7,\"hi\"\nlea S.2, r1\n".toList).final.mem.IC = 4 ∧
    (file_process 0 "S: .struct 7,\"hi\"\nlea S.2, r1\n".toList).final.mem.instructions_array.take 4
      = [⟨428⟩, ⟨418⟩, ⟨8⟩, ⟨4⟩] ∧
    (file_process 0 "S: .struct 7,\"hi\"\nlea S.2, r1\n".toList).final.second_pass_list.map
      (fun n => (n.key, n.index, n.is_struct)) = [("S".toList, 1, true)] ∧
    int_shr (int_and 428 48) 4 = STRUCT ∧
    int_and 8 3 = 0 ∧ int_and 8 3 ≠ 2 := by
  decide

/-- C10, as the code has it: in the code image of every source text for
which `file_process` ends with status 1 (the image written to the object
file), the word at the index of a patch site, which is the address word of
an ABSOLUTE or STRUCT operand, has low two bits 10 when the name of the site
is a DATA symbol, and is the word 1, low two bits 01, when the name is an
EXTERN symbol (then the site is no struct site); every other code word below
IC, the field word of a STRUCT operand included, has low two bits 00. -/
theorem c10_are_bits_of_code_image (chars_count0 : Int) (input : List Char)
    (hstatus : (file_process chars_count0 input).status = true)
    (i : Nat) (w : word)
    (hi : i < (file_process chars_count0 input).final.mem.IC)
    (hw : (file_process chars_count0 input).final.mem.instructions_array[i]? = some w) :
    (file_process chars_count0 input).ob =
      some (save_memory_to_file (file_process chars_count0 input).final.mem) ∧
    are_ok (file_process chars_count0 input).final.symbol_table
      (file_process chars_count0 input).final.second_pass_list i w := by
  obtain ⟨h1, h2, h3, hob, hm, ht, hl⟩ := file_process_success chars_count0 input hstatus
  have hf := second_pass_process_frame (first_pass_process (session_start chars_count0 input)).2
  have hJ := second_pass_process_are _ (first_pass_ok chars_count0 input)
    (hf.2.2.2.2.1.symm.trans h3) h2
  rw [hm] at hi hw ⊢
  rw [ht, hl]
  exact ⟨hob, hJ i w hi hw⟩

set_option maxRecDepth 1000000 in
/-- C10 at a concrete input: the source `.extern K`, `X: .data 5`, `jmp K`,
`prn X`, `S: .struct 7,"hi"`, `lea S.2, r1` assembles, and the word at code
index 5, the address word of the operand `S.2`, is 438. -/
theorem c10_are_bits_of_code_image_witness :
    (file_process 0
      ".extern K\nX: .data 5\njmp K\nprn X\nS: .struct 7,\"hi\"\nlea S.2, r1\n".toList).status
      = true ∧
    are_ok
      (file_process 0
        ".extern K\nX: .data 5\njmp K\nprn X\nS: .struct 7,\"hi\"\nlea S.2, r1\n".toList
          ).final.symbol_table
      (file_process 0
        ".extern K\nX: .data 5\njmp K\nprn X\nS: .struct 7,\"hi\"\nlea S.2, r1\n".toList
          ).final.second_pass_list 5 ⟨438⟩ :=
  ⟨by decide,
   (c10_are_bits_of_code_image 0
      ".extern K\nX: .data 5\njmp K\nprn X\nS: .struct 7,\"hi\"\nlea S.2, r1\n".toList
      (by decide) 5 ⟨438⟩ (by decide) (by decide)).2⟩

/-! ### A pass that returns 1 has printed no numbered error -/

theorem never_pure {α : Type} {ok : α → Prop} {a : α} (h : ¬ ok a) :
    never ok (pure a : M α) := fun _ => h

theorem never_bind {α β : Type} {ok : β → Prop} {m : M α} {k : α → M β}
    (hk : ∀ a, never ok (k a)) : never ok (m >>= k) :=
  fun s => hk (m s).1 (m s).2

theorem never_ite {α : Type} {ok : α → Prop} {c : Prop} [Decidable c] {a b : M α}
    (ha : never ok a) (hb : never ok b) : never ok (if c then a else b) := by
  split_ifs
  · exact ha
  · exact hb

theorem quiet_of_never {α : Type} {ok : α → Prop} {m : M α} (h : never ok m) :
    quiet ok m := fun s hs => absurd hs (h s)

theorem quiet_pure {α : Type} {ok : α → Prop} (a : α) : quiet ok (pure a : M α) :=
  fun _ _ => rfl

theorem quiet_query {α : Type} {ok : α → Prop} (g : session → α) : quiet ok (query g) :=
  fun _ _ => rfl

theorem quiet_on_input {α : Type} {ok : α → Prop} (g : InFile → α × InFile) :
    quiet ok (on_input g) := fun _ _ => rfl

theorem quiet_update {ok : Unit → Prop} {g : session → session}
    (h : ∀ s, (g s).errors = s.errors) : quiet ok (update g) := fun s _ => h s

theorem quiet_ite {α : Type} {ok : α → Prop} {c : Prop} [Decidable c] {a b : M α}
    (ha : quiet ok a) (hb : quiet ok b) : quiet ok (if c then a else b) := by
  split_ifs
  · exact ha
  · exact hb

/-- The rule for `if`, each branch with what the test has established. -/
theorem quiet_ite_h {α : Type} {ok : α → Prop} {c : Prop} [Decidable c] {a b : M α}
    (ha : c → quiet ok a) (hb : ¬ c → quiet ok b) : quiet ok (if c then a else b) := by
  split_ifs with h
  · exact ha h
  · exact hb h

theorem never_ite_h {α : Type} {ok : α → Prop} {c : Prop} [Decidable c] {a b : M α}
    (ha : c → never ok a) (hb : ¬ c → never ok b) : never ok (if c then a else b) := by
  split_ifs with h
  · exact ha h
  · exact hb h

theorem never_pure_bind {α β : Type} {ok : β → Prop} {a : α} {k : α → M β}
    (h : never ok (k a)) : never ok ((pure a : M α) >>= k) := fun s => h s

theorem quiet_weaken {α : Type} {ok ok2 : α → Prop} {m : M α} (h : quiet ok2 m)
    (himp : ∀ a, ok a → ok2 a) : quiet ok m := fun s hs => h s (himp _ hs)

/-- After a function that never prints a numbered error. -/
theorem quiet_bind_silent {α β : Type} {ok : β → Prop} {m : M α} {k : α → M β}
    (hm : quiet (fun _ => True) m) (hk : ∀ a, quiet ok (k a)) : quiet ok (m >>= k) :=
  fun s hs => (hk (m s).1 (m s).2 hs).trans (hm s trivial)

/-- After a function that prints no numbered error when its result satisfies
`okm`, and whose other results make what follows fail. -/
theorem quiet_bind {α β : Type} {ok : β → Prop} {okm : α → Prop} {m : M α} {k : α → M β}
    (hm : quiet okm m) (hk : ∀ a, okm a → quiet ok (k a))
    (hn : ∀ a, ¬ okm a → never ok (k a)) : quiet ok (m >>= k) := by
  intro s hs
  by_cases ha : okm (m s).1
  · exact (hk (m s).1 ha (m s).2 hs).trans (hm s ha)
  · exact absurd hs (hn (m s).1 ha (m s).2)

/-- The rule `quiet_bind` after a function that returns a status. -/
theorem quiet_bind_bool {β : Type} {ok : β → Prop} {m : M Bool} {k : Bool → M β}
    (hm : quiet (fun r => r = true) m) (hk : ∀ a, a = true → quiet ok (k a))
    (hn : ∀ a, ¬ a = true → never ok (k a)) : quiet ok (m >>= k) :=
  quiet_bind hm hk hn

theorem errors_print_warning_int (a : Int) (b : Nat) (c : Int) (s : session) :
    (print_warning_int a b c s).errors = s.errors := by
  simp [session.errors, print_warning_int, diag.is_error]

theorem errors_print_warning (a : Int) (b : Nat) (s : session) :
    (print_warning a b s).errors = s.errors := by
  simp [session.errors, print_warning, diag.is_error]

theorem errors_inst_insert (w : word) (s : session) :
    (s.instructions_array_insert w).errors = s.errors := by
  unfold session.instructions_array_insert session.errors
  simp only
  split_ifs
  · rfl
  · simp [diag.is_error]

theorem errors_data_insert (w : word) (s : session) :
    (s.data_array_insert w).errors = s.errors := by
  unfold session.data_array_insert session.errors
  simp only
  split_ifs
  · rfl
  · simp [diag.is_error]

theorem errors_insert_label (a : List Char) (b : Int) (t : type) (c : Bool) (s : session) :
    (s.symbol_table_insert_label a b t c).errors = s.errors := by
  unfold session.symbol_table_insert_label session.errors
  simp only
  split_ifs
  · simp [diag.is_error]
  · rfl

theorem errors_spl_insert (a : List Char) (b c : Int) (d : Bool) (s : session) :
    (spl_insert a b c d s).errors = s.errors := rfl

theorem errors_ent_ext_list_insert (a : List Char) (b : Bool) (c : Int) (s : session) :
    (ent_ext_list_insert a b c s).errors = s.errors := by
  unfold ent_ext_list_insert
  simp only
  split_ifs <;> rfl

theorem check_operands_types_quiet (data : instruction) (a b : Int) :
    quiet (fun r => r = true) (check_operands_types data a b) := by
  intro s hs
  by_cases h1 : data.input = 1 ∧ (a = IMMEDIATE ∨ a = REGISTER)
  · simp [check_operands_types, h1, bind, M.bind, query, update, pure, M.pure, on_input] at hs
  · by_cases h2 : data.output = 1 ∧ b = IMMEDIATE
    · simp [check_operands_types, h1, h2, bind, M.bind, query, update, pure, M.pure,
        on_input] at hs
    · simp [check_operands_types, h1, h2, bind, M.bind, query, update, pure, M.pure]

/-- Once `status` is 0 the loop of the first pass returns 0. -/
theorem first_pass_loop_false (fuel : Nat) : ∀ s, (first_pass_loop fuel false s).1 = false := by
  induction fuel with
  | zero => intro s; rfl
  | succ n ih =>
    intro s
    unfold first_pass_loop
    simp only [bind, M.bind, query, update, pure, M.pure, ite_self]
    split_ifs
    · rfl
    · exact ih _

section quiet_rules

attribute [local irreducible] M.bind M.pure query update on_input

theorem is_legal_label_quiet (label : List Char) (b : Bool) :
    quiet (fun r => r.1 = true) (is_legal_label label b) := by
  unfold is_legal_label
  repeat (first
    | exact quiet_pure _
    | exact quiet_query _
    | focus
        apply quiet_of_never
        repeat (first
          | exact never_pure Bool.false_ne_true
          | apply never_bind
          | apply never_ite
          | intro _)
        done
    | apply quiet_ite
    | apply quiet_bind_silent
    | intro _)

theorem read_numbers_list_end_quiet (n : Int) :
    quiet (fun r => r ≠ 0) (read_numbers_list_end n) := by
  unfold read_numbers_list_end
  apply quiet_of_never
  repeat (first
    | exact never_pure (fun h => h rfl)
    | apply never_bind
    | apply never_ite
    | intro _)

theorem read_numbers_loop_quiet (fuel : Nat) : ∀ (n number : Int), 0 ≤ n →
    quiet (fun r => r ≠ 0) (read_numbers_loop fuel n number) := by
  induction fuel with
  | zero =>
    intro n number _
    unfold read_numbers_loop
    apply quiet_bind_silent
    · exact quiet_on_input _
    · intro _
      exact read_numbers_list_end_quiet _
  | succ fuel ih =>
    intro n number hn
    unfold read_numbers_loop
    repeat (first
      | exact quiet_pure _
      | exact quiet_query _
      | exact quiet_on_input _
      | exact read_numbers_list_end_quiet _
      | exact ih _ _ (by omega)
      | exact quiet_update (errors_print_warning_int _ _ _)
      | exact quiet_update (errors_data_insert _)
      | apply quiet_ite
      | apply quiet_bind_silent
      | intro _)

theorem read_numbers_list_quiet : quiet (fun r => r ≠ 0) read_numbers_list := by
  unfold read_numbers_list
  apply quiet_bind_silent
  · exact quiet_query _
  · intro _
    exact read_numbers_loop_quiet _ _ _ (le_refl 0)

theorem insert_characters_quiet (l : List Char) :
    quiet (fun _ => True) (insert_characters l) := by
  induction l with
  | nil => exact quiet_pure _
  | cons c rest ih =>
    unfold insert_characters
    apply quiet_bind_silent
    · exact quiet_update (errors_data_insert _)
    · intro _
      exact ih

theorem read_string_quiet : quiet (fun r => r = true) read_string := by
  unfold read_string
  repeat (first
    | exact quiet_pure _
    | exact quiet_query _
    | exact quiet_on_input _
    | exact insert_characters_quiet _
    | focus
        apply quiet_of_never
        repeat (first
          | exact never_pure Bool.false_ne_true
          | apply never_bind
          | apply never_ite
          | intro _)
        done
    | exact quiet_update (errors_data_insert _)
    | apply quiet_ite
    | apply quiet_bind_silent
    | intro _)

theorem struct_error_check_quiet (a b : Bool) (ha : a = true) (hb : b = true) :
    quiet (fun _ => True) (struct_error_check a b) := by
  subst ha
  subst hb
  unfold struct_error_check
  apply quiet_bind_silent
  · exact quiet_query _
  · intro _
    simp only [if_true, not_true_eq_false, if_false]
    exact quiet_pure _

theorem process_directive_struct_quiet :
    quiet (fun r => r = true) process_directive_struct := by
  unfold process_directive_struct
  apply quiet_bind_silent
  · exact quiet_on_input _
  intro r
  refine quiet_ite_h (fun h1 => ?_) (fun _ => ?_)
  · apply quiet_bind_silent
    · exact quiet_update (errors_data_insert _)
    intro _
    apply quiet_bind_silent
    · exact quiet_on_input _
    intro p
    refine quiet_ite_h (fun h2 => ?_) (fun _ => ?_)
    · apply quiet_bind_silent
      · exact quiet_on_input _
      intro _
      apply quiet_bind_silent
      · exact quiet_on_input _
      intro _
      refine quiet_bind read_string_quiet (fun a _ => ?_) (fun a ha => ?_)
      · apply quiet_bind_silent
        · exact struct_error_check_quiet _ _ h1 h2
        · intro _
          exact quiet_pure _
      · apply never_bind
        intro _
        exact never_pure ha
    · apply quiet_of_never
      apply never_bind
      intro _
      exact never_pure Bool.false_ne_true
  · apply quiet_of_never
    apply never_bind
    intro _
    exact never_pure Bool.false_ne_true

theorem ext_ent_end_of_line_quiet : quiet (fun r => r = true) ext_ent_end_of_line := by
  unfold ext_ent_end_of_line
  repeat (first
    | exact quiet_pure _
    | exact quiet_query _
    | exact quiet_on_input _
    | focus
        apply quiet_of_never
        repeat (first
          | exact never_pure Bool.false_ne_true
          | apply never_bind
          | apply never_ite
          | intro _)
        done
    | apply quiet_ite
    | apply quiet_bind_silent
    | intro _)

theorem process_directive_ext_ent_quiet (a b : Bool) :
    quiet (fun r => r = true) (process_directive_ext_ent a b) := by
  unfold process_directive_ext_ent
  apply quiet_bind_silent
  · exact quiet_query _
  intro line_count
  apply quiet_bind_silent
  · apply quiet_ite
    · exact quiet_update (errors_print_warning _ _)
    · exact quiet_pure _
  intro _
  apply quiet_bind_silent
  · exact quiet_query _
  intro _
  apply quiet_bind_silent
  · exact quiet_on_input _
  intro r
  apply quiet_ite
  · refine quiet_bind (is_legal_label_quiet _ _) (fun l hl => ?_) (fun l hl => ?_)
    · repeat (first
        | exact quiet_pure _
        | exact quiet_query _
        | exact quiet_on_input _
        | exact ext_ent_end_of_line_quiet
        | exact quiet_update (errors_insert_label _ _ _ _)
        | exact quiet_update (errors_ent_ext_list_insert _ _ _)
        | focus
            apply quiet_of_never
            repeat (first
              | exact never_pure Bool.false_ne_true
              | apply never_bind
              | apply never_ite
              | intro _)
            done
        | apply quiet_ite
        | apply quiet_bind_silent
        | intro _)
    · refine never_ite_h (fun h => absurd h hl) (fun _ => never_pure Bool.false_ne_true)
  · exact quiet_pure _

theorem process_directive_quiet (direct : node) (b : Bool) (label : List Char) :
    quiet (fun r => r = true) (process_directive direct b label) := by
  unfold process_directive
  refine quiet_bind_bool ?_ (fun a _ => ?_) (fun a ha => ?_)
  · apply quiet_ite
    · exact process_directive_ext_ent_quiet _ _
    apply quiet_ite
    · exact process_directive_ext_ent_quiet _ _
    apply quiet_bind_silent
    · repeat (first
        | exact quiet_pure _
        | exact quiet_query _
        | exact quiet_update (errors_insert_label _ _ _ _)
        | apply quiet_ite
        | apply quiet_bind_silent
        | intro _)
    intro _
    apply quiet_ite
    · refine quiet_bind read_numbers_list_quiet (fun n _ => quiet_pure _) (fun n hn => ?_)
      exact never_pure (by simpa using hn)
    apply quiet_ite
    · exact read_string_quiet
    apply quiet_ite
    · exact process_directive_struct_quiet
    · exact quiet_pure _
  · repeat (first
      | exact quiet_pure _
      | exact quiet_on_input _
      | apply quiet_ite
      | apply quiet_bind_silent
      | intro _)
  · refine never_ite_h (fun _ => ?_) (fun _ => never_pure ha)
    apply never_bind
    intro _
    exact never_pure ha

theorem detect_operands_and_types_quiet (data : instruction) :
    quiet (fun d => d.status = true) (detect_operands_and_types data) := by
  unfold detect_operands_and_types
  repeat (first
    | exact quiet_pure _
    | exact quiet_query _
    | exact quiet_on_input _
    | focus
        apply quiet_of_never
        repeat (first
          | exact never_pure Bool.false_ne_true
          | apply never_bind
          | apply never_ite
          | intro _)
        done
    | apply quiet_ite
    | apply quiet_bind_silent
    | intro _)

theorem process_immediate_quiet (op : List Char) :
    quiet (fun r => r = true) (process_immediate op) := by
  unfold process_immediate
  repeat (first
    | exact quiet_pure _
    | exact quiet_query _
    | exact quiet_update (errors_inst_insert _)
    | exact quiet_update (errors_print_warning_int _ _ _)
    | focus
        apply quiet_of_never
        repeat (first
          | exact never_pure Bool.false_ne_true
          | apply never_bind
          | apply never_ite
          | intro _)
        done
    | apply quiet_ite
    | apply quiet_bind_silent
    | intro _)

theorem process_struct_quiet (op : List Char) :
    quiet (fun r => r = true) (process_struct op) := by
  unfold process_struct
  refine quiet_bind (is_legal_label_quiet _ _) (fun l _ => ?_) (fun l hl => ?_)
  · repeat (first
      | exact quiet_pure _
      | exact quiet_query _
      | exact quiet_update (errors_inst_insert _)
      | exact quiet_update (errors_spl_insert _ _ _ _)
      | apply quiet_ite
      | apply quiet_bind_silent
      | intro _)
  · exact never_ite_h (fun h => absurd h hl) (fun _ => never_pure Bool.false_ne_true)

theorem process_operand_quiet (t : Int) (op : List Char) (b : Bool) :
    quiet (fun r => r = true) (process_operand t op b) := by
  unfold process_operand
  apply quiet_ite
  · repeat (first
      | exact quiet_pure _
      | exact quiet_query _
      | exact quiet_update (errors_inst_insert _)
      | apply quiet_bind_silent
      | intro _)
  apply quiet_ite
  · exact process_immediate_quiet _
  apply quiet_ite
  · refine quiet_bind (is_legal_label_quiet _ _) (fun l _ => ?_) (fun l hl => ?_)
    · repeat (first
        | exact quiet_pure _
        | exact quiet_query _
        | exact quiet_update (errors_inst_insert _)
        | exact quiet_update (errors_spl_insert _ _ _ _)
        | exact quiet_update (errors_ent_ext_list_insert _ _ _)
        | apply quiet_ite
        | apply quiet_bind_silent
        | intro _)
    · exact never_ite_h (fun h => absurd h hl) (fun _ => never_pure Bool.false_ne_true)
  apply quiet_ite
  · exact process_struct_quiet _
  · exact quiet_pure _

theorem store_operands_quiet (data : instruction) (a b : Int) (op1 op2 : List Char) :
    quiet (fun r => r = true) (store_operands data a b op1 op2) := by
  unfold store_operands
  apply quiet_ite
  · repeat (first
      | exact quiet_pure _
      | exact quiet_query _
      | exact quiet_update (errors_inst_insert _)
      | apply quiet_bind_silent
      | intro _)
  refine quiet_bind_bool ?_ (fun st _ => ?_) (fun st hst => ?_)
  · exact quiet_ite (process_operand_quiet _ _ _) (quiet_pure _)
  · exact quiet_ite (process_operand_quiet _ _ _) (quiet_pure _)
  · exact never_ite_h (fun h => absurd h.1 hst) (fun _ => never_pure hst)

theorem process_instruction_quiet (inst : node) (b : Bool) (label : List Char) :
    quiet (fun r => r = true) (process_instruction inst b label) := by
  unfold process_instruction
  apply quiet_bind_silent
  · repeat (first
      | exact quiet_pure _
      | exact quiet_query _
      | exact quiet_update (errors_insert_label _ _ _ _)
      | apply quiet_ite
      | apply quiet_bind_silent
      | intro _)
  intro _
  refine quiet_bind (detect_operands_and_types_quiet _) (fun d _ => ?_) (fun d hd => ?_)
  · refine quiet_bind_bool ?_ (fun st _ => ?_) (fun st hst => ?_)
    · exact quiet_ite (check_operands_types_quiet _ _ _) (quiet_pure _)
    · repeat (first
        | exact quiet_pure _
        | exact quiet_on_input _
        | exact store_operands_quiet _ _ _ _ _
        | exact quiet_update (errors_inst_insert _)
        | apply quiet_ite
        | apply quiet_bind_silent
        | intro _)
    · refine never_ite_h (fun _ => ?_) (fun h => absurd (by simpa using h) hst)
      apply never_bind
      intro _
      exact never_pure Bool.false_ne_true
  · rw [if_neg hd]
    apply never_pure_bind
    refine never_ite_h (fun _ => ?_) (fun h => absurd h (by simp))
    apply never_bind
    intro _
    exact never_pure Bool.false_ne_true

theorem pre_process_line_quiet : quiet (fun h => h.status = true) pre_process_line := by
  unfold pre_process_line
  apply quiet_bind_silent
  · exact quiet_query _
  intro _
  apply quiet_bind_silent
  · exact quiet_on_input _
  intro _
  apply quiet_bind_silent
  · exact quiet_query _
  intro _
  apply quiet_ite
  · exact quiet_pure _
  refine quiet_bind (is_legal_label_quiet _ _) (fun l _ => ?_) (fun l hl => ?_)
  · repeat (first
      | exact quiet_pure _
      | exact quiet_query _
      | exact quiet_on_input _
      | focus
          apply quiet_of_never
          repeat (first
            | exact never_pure Bool.false_ne_true
            | apply never_bind
            | apply never_ite
            | intro _)
          done
      | apply quiet_ite
      | apply quiet_bind_silent
      | intro _)
  · refine never_ite_h (fun h => absurd h hl) (fun _ => ?_)
    apply never_bind
    intro _
    exact never_pure Bool.false_ne_true

theorem process_line_quiet : quiet (fun r => r = true) process_line := by
  unfold process_line
  apply quiet_bind_silent
  · unfold is_comment_or_empty_line
    apply quiet_bind_silent
    · exact quiet_on_input _
    · intro _
      exact quiet_pure _
  intro _
  apply quiet_bind_silent
  · repeat (first
      | exact quiet_pure _
      | exact quiet_on_input _
      | apply quiet_ite
      | apply quiet_bind_silent
      | intro _)
  intro _
  apply quiet_ite
  · repeat (first
      | exact quiet_pure _
      | exact quiet_on_input _
      | apply quiet_bind_silent
      | intro _)
  refine quiet_bind pre_process_line_quiet (fun h _ => ?_) (fun h hh => ?_)
  · apply quiet_ite
    · cases h.symbol with
      | none => exact quiet_pure _
      | some symbol =>
        simp only
        apply quiet_ite
        · exact process_instruction_quiet _ _ _
        apply quiet_ite
        · exact process_directive_quiet _ _ _
        · exact quiet_pure _
    · repeat (first
        | exact quiet_pure _
        | exact quiet_on_input _
        | apply quiet_bind_silent
        | intro _)
  · refine never_ite_h (fun h => absurd h hh) (fun _ => ?_)
    apply never_bind
    intro _
    exact never_pure Bool.false_ne_true

theorem first_pass_loop_quiet (fuel : Nat) : ∀ status,
    quiet (fun r => r = true) (first_pass_loop fuel status) := by
  induction fuel with
  | zero =>
    intro status
    unfold first_pass_loop
    exact quiet_pure _
  | succ n ih =>
    intro status
    unfold first_pass_loop
    apply quiet_bind_silent
    · exact quiet_query _
    intro _
    apply quiet_ite
    · exact quiet_pure _
    apply quiet_bind_silent
    · exact quiet_update (fun _ => rfl)
    intro _
    refine quiet_bind process_line_quiet (fun t _ => ih _) (fun t ht => ?_)
    have e : (if ¬ t = true then false else status) = false := by
      rw [if_pos ht]
    rw [e]
    intro s hs
    exact absurd hs (by rw [first_pass_loop_false]; decide)

theorem first_pass_process_quiet : quiet (fun r => r = true) first_pass_process := by
  unfold first_pass_process
  apply quiet_bind_silent
  · exact quiet_query _
  · intro _
    exact first_pass_loop_quiet _ _

end quiet_rules

/-- A first pass that returns 1 has printed no numbered error. -/
theorem first_pass_no_error (chars_count0 : Int) (input : List Char)
    (h : (first_pass_process (session_start chars_count0 input)).1 = true) :
    (first_pass_process (session_start chars_count0 input)).2.errors = [] :=
  first_pass_process_quiet _ h

/-- What holds of the output files for every input, in terms of the values the
passes return: `file_process` writes the output files exactly when the first
pass returned success, the second pass returned success and `memory_full_flag`
is clear, which is also when its status is 1; in every other case none of
`.ob`, `.ent`, `.ext` is written. When the files are written no numbered error
has been printed by either pass: one such error, in pass 1 or in pass 2, is
enough to have no output file. -/
theorem outputs_iff_passes_succeed (chars_count0 : Int) (input : List Char) :
    ((file_process chars_count0 input).ob.isSome = true ↔
      ((first_pass_process (session_start chars_count0 input)).1 = true ∧
       (second_pass_process (first_pass_process (session_start chars_count0 input)).2).1
          = true ∧
       (second_pass_process (first_pass_process
          (session_start chars_count0 input)).2).2.mem.memory_full_flag = false)) ∧
    ((file_process chars_count0 input).status = (file_process chars_count0 input).ob.isSome) ∧
    ((file_process chars_count0 input).ob = none →
      (file_process chars_count0 input).ent = none ∧
      (file_process chars_count0 input).ext = none) ∧
    ((file_process chars_count0 input).ob.isSome = true →
      (second_pass_process (first_pass_process
        (session_start chars_count0 input)).2).2.errors = []) := by
  refine ⟨?_, ?_, ?_, ?_⟩
  rotate_left 3
  · intro hob
    have hst : (file_process chars_count0 input).status = true := by
      unfold file_process at hob ⊢
      by_cases h1 : (first_pass_process (session_start chars_count0 input)).1 = true
      · by_cases h2 : (second_pass_process
            (first_pass_process (session_start chars_count0 input)).2).1 = true
        · by_cases h3 : (second_pass_process (first_pass_process
              (session_start chars_count0 input)).2).2.mem.memory_full_flag = true
          · simp [h1, h2, h3] at hob
          · simp [h1, h2, h3]
        · simp [h1, h2] at hob
      · simp [h1] at hob
    obtain ⟨h1, h2, _⟩ := file_process_success chars_count0 input hst
    have hf := (second_pass_process_frame
      (first_pass_process (session_start chars_count0 input)).2).2.2.2.2.2 h2
    unfold session.errors
    rw [hf]
    exact first_pass_no_error chars_count0 input h1
  all_goals unfold file_process
  all_goals
    by_cases h1 : (first_pass_process (session_start chars_count0 input)).1 = true
    · by_cases h2 : (second_pass_process
          (first_pass_process (session_start chars_count0 input)).2).1 = true
      · by_cases h3 : (second_pass_process (first_pass_process
            (session_start chars_count0 input)).2).2.mem.memory_full_flag = true
        · simp [h1, h2, h3]
        · simp [h1, h2, h3]
      · simp [h1, h2]
    · simp [h1]


/-! ### The input stream: what the reading functions leave unread -/

/-- What `getc_while` returns: when the loop was ended by a character, that
character fails the test and the input splits into the characters taken, it,
and the rest; when it was ended by `EOF` all the input was taken. -/
theorem getc_while_spec (p : Char → Bool) (eof : Bool) (l : List Char) :
    (∀ c, (getc_while p eof l).2.1 = some c →
      p c = false ∧ l = (getc_while p eof l).1 ++ c :: (getc_while p eof l).2.2.buf ∧
      (getc_while p eof l).2.2.eof = eof) ∧
    ((getc_while p eof l).2.1 = none →
      l = (getc_while p eof l).1 ∧ (getc_while p eof l).2.2 = { buf := [], eof := true }) := by
  induction l with
  | nil => simp [getc_while]
  | cons a rest ih =>
    unfold getc_while
    by_cases h : p a = true
    · simp only [h, if_true]
      refine ⟨fun c hc => ?_, fun hn => ?_⟩
      · obtain ⟨h1, h2, h3⟩ := ih.1 c hc
        refine ⟨h1, ?_, h3⟩
        rw [List.cons_append, ← h2]
      · obtain ⟨h1, h2⟩ := ih.2 hn
        refine ⟨?_, h2⟩
        rw [← h1]
    · simp only [h, if_false]
      refine ⟨fun c hc => ?_, fun hn => ?_⟩
      · have hc2 : a = c := by simpa using hc
        subst hc2
        simp [h]
      · simp at hn

/-- After `getc_while` and `ungetc` of the character that ended the loop, no
more is unread than before. -/
theorem getc_while_ungetc_length (p : Char → Bool) (eof : Bool) (l : List Char) :
    (ungetc (getc_while p eof l).2.1 (getc_while p eof l).2.2).buf.length
      + (getc_while p eof l).1.length = l.length := by
  cases hc : (getc_while p eof l).2.1 with
  | none =>
    obtain ⟨h1, h2⟩ := (getc_while_spec p eof l).2 hc
    simp only [ungetc, h2, List.length_nil, zero_add]
    rw [← h1]
  | some c =>
    obtain ⟨_, h2, _⟩ := (getc_while_spec p eof l).1 c hc
    simp only [ungetc, List.length_cons]
    conv_rhs => rw [h2]
    simp only [List.length_append, List.length_cons]
    omega

theorem getc_while_length (p : Char → Bool) (eof : Bool) (l : List Char) :
    (getc_while p eof l).2.2.buf.length ≤ l.length := by
  cases hc : (getc_while p eof l).2.1 with
  | none =>
    obtain ⟨_, h2⟩ := (getc_while_spec p eof l).2 hc
    simp [h2]
  | some c =>
    obtain ⟨_, h2, _⟩ := (getc_while_spec p eof l).1 c hc
    conv_rhs => rw [h2]
    simp only [List.length_append, List.length_cons]
    omega

theorem getc_length (f : InFile) : (getc f).2.buf.length ≤ f.buf.length := by
  unfold getc
  cases f.buf <;> simp

theorem ungetc_getc_length (f : InFile) :
    (ungetc (getc f).1 (getc f).2).buf.length = f.buf.length := by
  unfold getc
  cases h : f.buf <;> simp [ungetc, h]

theorem skip_whites_length (f : InFile) : (skip_whites f).2.buf.length ≤ f.buf.length := by
  unfold skip_whites
  have := getc_while_ungetc_length (fun c => c = '\t' ∨ c = ' ') f.eof f.buf
  simp only
  omega

/-- After `skip_whites` the character it returns is the next one unread, and
it is no blank; when it returns `EOF` the end of the file was reached. -/
theorem skip_whites_spec (f : InFile) :
    (∀ c, (skip_whites f).1 = some c →
      c ≠ '\t' ∧ c ≠ ' ' ∧ ∃ tail, (skip_whites f).2 = { buf := c :: tail, eof := false }) ∧
    ((skip_whites f).1 = none → (skip_whites f).2 = { buf := [], eof := true }) := by
  unfold skip_whites
  simp only
  refine ⟨fun c hc => ?_, fun hn => ?_⟩
  · obtain ⟨h1, _, _⟩ := (getc_while_spec _ f.eof f.buf).1 c hc
    rw [hc]
    simp only [decide_eq_false_iff_not, not_or] at h1
    exact ⟨h1.1, h1.2, _, rfl⟩
  · rw [hn]
    exact ((getc_while_spec _ f.eof f.buf).2 hn).2

theorem skip_line_length (f : InFile) : (skip_line f).2.buf.length ≤ f.buf.length := by
  unfold skip_line
  exact getc_while_length _ _ _

/-- Function `skip_line` takes at least one character when one is unread, and
sets the end-of-file indicator when none is. -/
theorem skip_line_strict (f : InFile) :
    (f.buf ≠ [] → (skip_line f).2.buf.length < f.buf.length) ∧
    (f.buf = [] → (skip_line f).2 = { buf := [], eof := true }) := by
  unfold skip_line
  simp only
  refine ⟨fun hne => ?_, fun he => ?_⟩
  · cases hc : (getc_while (fun c => decide (c ≠ '\n')) f.eof f.buf).2.1 with
    | none =>
      obtain ⟨_, h2⟩ := (getc_while_spec _ f.eof f.buf).2 hc
      rw [h2]
      exact List.length_pos.mpr hne
    | some c =>
      obtain ⟨_, h2, _⟩ := (getc_while_spec _ f.eof f.buf).1 c hc
      conv_rhs => rw [h2]
      simp only [List.length_append, List.length_cons]
      omega
  · rw [he]
    rfl

theorem peek_next_char_eq (f : InFile) : peek_next_char f = skip_whites f := by
  unfold peek_next_char
  simp only
  cases hc : (skip_whites f).1 with
  | none =>
    have h := (skip_whites_spec f).2 hc
    apply Prod.ext
    · simp [getc, hc, h]
    · simp [getc, ungetc, h]
  | some c =>
    obtain ⟨_, _, tail, h⟩ := (skip_whites_spec f).1 c hc
    apply Prod.ext
    · simp [getc, hc, h]
    · simp [getc, ungetc, h]

theorem peek_next_char_length (f : InFile) :
    (peek_next_char f).2.buf.length ≤ f.buf.length := by
  rw [peek_next_char_eq]
  exact skip_whites_length f

/-- A second `skip_whites` finds what the first one found and changes
nothing. -/
theorem skip_whites_twice (f : InFile) : skip_whites (skip_whites f).2 = skip_whites f := by
  cases hc : (skip_whites f).1 with
  | none =>
    have h := (skip_whites_spec f).2 hc
    apply Prod.ext
    · rw [h, hc]; rfl
    · rw [h]; rfl
  | some c =>
    obtain ⟨h1, h2, tail, h⟩ := (skip_whites_spec f).1 c hc
    have e : skip_whites { buf := c :: tail, eof := false } =
        (some c, { buf := c :: tail, eof := false }) := by
      simp [skip_whites, getc_while, h1, h2, ungetc]
    apply Prod.ext
    · rw [h, hc, e]
    · rw [h, e]

theorem read_next_string_length (chars_count0 : Int) (f : InFile) :
    (read_next_string chars_count0 f).2.buf.length ≤ f.buf.length := by
  unfold read_next_string
  simp only
  refine le_trans (skip_whites_length _) ?_
  have h1 := getc_while_ungetc_length
    (fun c => decide (c ≠ ':' ∧ c ≠ '\n' ∧ c ≠ ' ' ∧ c ≠ '\t')) f.eof f.buf
  have h2 := getc_while_length
    (fun c => decide (c ≠ ':' ∧ c ≠ '\n' ∧ c ≠ ' ' ∧ c ≠ '\t')) f.eof f.buf
  split_ifs
  · exact h2
  · omega

/-- Function `read_next_string` takes at least one character when the next
one is no blank and no newline. -/
theorem read_next_string_strict (chars_count0 : Int) (f : InFile) (c : Char)
    (tail : List Char) (hf : f.buf = c :: tail) (h1 : c ≠ '\n') (h2 : c ≠ ' ')
    (h3 : c ≠ '\t') :
    (read_next_string chars_count0 f).2.buf.length < f.buf.length := by
  unfold read_next_string
  simp only
  refine lt_of_le_of_lt (skip_whites_length _) ?_
  rw [hf]
  by_cases hc : c = ':'
  · simp [getc_while, hc]
  · have hp : decide (c ≠ ':' ∧ c ≠ '\n' ∧ c ≠ ' ' ∧ c ≠ '\t') = true := by
      simp [hc, h1, h2, h3]
    have e := getc_while_ungetc_length
      (fun c => decide (c ≠ ':' ∧ c ≠ '\n' ∧ c ≠ ' ' ∧ c ≠ '\t')) f.eof tail
    have e2 := getc_while_length
      (fun c => decide (c ≠ ':' ∧ c ≠ '\n' ∧ c ≠ ' ' ∧ c ≠ '\t')) f.eof tail
    unfold getc_while
    simp only [hp, if_true, List.length_cons]
    split_ifs
    · omega
    · omega

theorem read_digits_length (sign : Int) (f : InFile) :
    (read_digits sign f).2.buf.length ≤ f.buf.length := by
  unfold read_digits
  have := getc_while_ungetc_length Char.isDigit f.eof f.buf
  simp only
  omega

theorem ungetc_length_le (c : Option Char) (f : InFile) :
    (ungetc c f).buf.length ≤ f.buf.length + 1 := by
  cases c <;> simp [ungetc]

/-- Pushing back the character `getc` returned, after anything that left as
much unread as `getc` did. -/
theorem ungetc_after_getc_length (f g : InFile) (h : g.buf.length ≤ (getc f).2.buf.length) :
    (ungetc (getc f).1 g).buf.length ≤ f.buf.length := by
  unfold getc at h ⊢
  cases hb : f.buf with
  | nil => rw [hb] at h; simpa [ungetc] using h
  | cons c rest => rw [hb] at h; simpa [ungetc] using h

theorem read_next_number_length (dest : Int) (f : InFile) :
    (read_next_number dest f).2.buf.length ≤ f.buf.length := by
  unfold read_next_number
  simp only
  have h3 : (ungetc (getc (getc f).2).1 (getc (getc f).2).2).buf.length
      = (getc f).2.buf.length := ungetc_getc_length _
  have h4 := getc_length f
  have h5 := ungetc_after_getc_length f
    (ungetc (getc (getc f).2).1 (getc (getc f).2).2) (le_of_eq h3)
  split_ifs <;>
  first
    | exact h5
    | exact le_trans (read_digits_length _ _) h5
    | exact le_trans (read_digits_length _ _) (by omega)

theorem detect_operand_type_length (t : hash_table) (f : InFile) :
    (detect_operand_type t f).2.buf.length ≤ f.buf.length := by
  unfold detect_operand_type
  have := getc_while_ungetc_length
    (fun c => decide (c ≠ '\n' ∧ c ≠ ',' ∧ c ≠ ' ' ∧ c ≠ '\t')) f.eof f.buf
  simp only
  omega

/-! ### What the functions of the first pass leave unread -/

theorem bounded_pure {α : Type} {d : Nat} (a : α) : bounded d (pure a : M α) :=
  fun _ => Nat.le_add_right _ _

theorem bounded_query {α : Type} {d : Nat} (g : session → α) : bounded d (query g) :=
  fun _ => Nat.le_add_right _ _

theorem bounded_update {d : Nat} {g : session → session}
    (h : ∀ s, (g s).intput_as = s.intput_as) : bounded d (update g) := by
  intro s
  show (g s).intput_as.buf.length ≤ _
  rw [h]
  exact Nat.le_add_right _ _

theorem bounded_on_input {α : Type} {d : Nat} {g : InFile → α × InFile}
    (h : ∀ f, (g f).2.buf.length ≤ f.buf.length) : bounded d (on_input g) :=
  fun s => le_trans (h s.intput_as) (Nat.le_add_right _ _)

theorem bounded_ite {α : Type} {d : Nat} {c : Prop} [Decidable c] {a b : M α}
    (ha : bounded d a) (hb : bounded d b) : bounded d (if c then a else b) := by
  split_ifs
  · exact ha
  · exact hb

theorem bounded_ite_h {α : Type} {d : Nat} {c : Prop} [Decidable c] {a b : M α}
    (ha : c → bounded d a) (hb : ¬ c → bounded d b) : bounded d (if c then a else b) := by
  split_ifs with h
  · exact ha h
  · exact hb h

/-- After a function that only reads. -/
theorem bounded_bind {α β : Type} {d : Nat} {m : M α} {k : α → M β}
    (hm : bounded 0 m) (hk : ∀ a, bounded d (k a)) : bounded d (m >>= k) :=
  fun s => le_trans (hk (m s).1 (m s).2) (Nat.add_le_add_right (hm s) d)

/-- Before a function that only reads. -/
theorem bounded_bind_left {α β : Type} {d : Nat} {m : M α} {k : α → M β}
    (hm : bounded d m) (hk : ∀ a, bounded 0 (k a)) : bounded d (m >>= k) :=
  fun s => le_trans (hk (m s).1 (m s).2) (hm s)

theorem bounded_mono {α : Type} {d : Nat} {m : M α} (h : bounded 0 m) : bounded d m :=
  fun s => le_trans (h s) (Nat.add_le_add_left (Nat.zero_le d) _)

/-- After a function that took as many characters as what follows may push
back: `taken a` for the result `a`. -/
theorem bounded_bind_taken {α β : Type} {m : M α} {k : α → M β} (taken : α → Nat)
    (hm : ∀ s, (m s).2.intput_as.buf.length + taken (m s).1 ≤ s.intput_as.buf.length)
    (hk : ∀ a, bounded (taken a) (k a)) : bounded 0 (m >>= k) :=
  fun s => le_trans (hk (m s).1 (m s).2) (hm s)

theorem input_print_error_string (a : Int) (b : Nat) (c : List Char) (s : session) :
    (print_error_string a b c s).intput_as = s.intput_as := rfl

theorem input_print_error_char (a : Int) (b : Nat) (c : Option Char) (s : session) :
    (print_error_char a b c s).intput_as = s.intput_as := rfl

theorem input_print_error (a : Int) (b : Nat) (s : session) :
    (print_error a b s).intput_as = s.intput_as := rfl

theorem input_print_warning_int (a : Int) (b : Nat) (c : Int) (s : session) :
    (print_warning_int a b c s).intput_as = s.intput_as := rfl

theorem input_print_warning (a : Int) (b : Nat) (s : session) :
    (print_warning a b s).intput_as = s.intput_as := rfl

theorem input_inst_insert (w : word) (s : session) :
    (s.instructions_array_insert w).intput_as = s.intput_as := rfl

theorem input_data_insert (w : word) (s : session) :
    (s.data_array_insert w).intput_as = s.intput_as := rfl

theorem input_insert_label (a : List Char) (b : Int) (t : type) (c : Bool) (s : session) :
    (s.symbol_table_insert_label a b t c).intput_as = s.intput_as := rfl

theorem input_spl_insert (a : List Char) (b c : Int) (d : Bool) (s : session) :
    (spl_insert a b c d s).intput_as = s.intput_as := rfl

theorem input_ent_ext_list_insert (a : List Char) (b : Bool) (c : Int) (s : session) :
    (ent_ext_list_insert a b c s).intput_as = s.intput_as := by
  unfold ent_ext_list_insert
  simp only
  split_ifs <;> rfl

section bounded_rules

attribute [local irreducible] M.bind M.pure query update on_input

theorem is_legal_label_bounded (label : List Char) (b : Bool) :
    bounded 0 (is_legal_label label b) := by
  unfold is_legal_label
  repeat (first
    | exact bounded_pure _
    | exact bounded_query _
    | exact bounded_update (input_print_error_string _ _ _)
    | apply bounded_ite
    | apply bounded_bind
    | intro _)

theorem pre_process_line_error_check_bounded (a b : List Char) (c : Bool) (o : Option node)
    (d : Bool) : bounded 0 (pre_process_line_error_check a b c o d) := by
  unfold pre_process_line_error_check
  repeat (first
    | exact bounded_pure _
    | exact bounded_query _
    | exact bounded_update (input_print_error_string _ _ _)
    | apply bounded_ite
    | apply bounded_bind
    | intro _)

theorem pre_process_line_bounded : bounded 0 pre_process_line := by
  unfold pre_process_line
  repeat (first
    | exact bounded_pure _
    | exact bounded_query _
    | exact bounded_on_input (read_next_string_length _)
    | exact is_legal_label_bounded _ _
    | exact pre_process_line_error_check_bounded _ _ _ _ _
    | apply bounded_ite
    | apply bounded_bind
    | intro _)

end bounded_rules

/-- In `read_numbers_list_error_check` the character pushed back is the one
`getc` has just taken, when `c` is the next character unread. -/
theorem read_numbers_list_error_check_bounded_at (c : Option Char) (n : Int) (s : session)
    (hc : ∀ ch, c = some ch → ∃ tail, s.intput_as.buf = ch :: tail) :
    ((read_numbers_list_error_check c n) s).2.intput_as.buf.length
      ≤ s.intput_as.buf.length := by
  unfold read_numbers_list_error_check
  simp only [bind, M.bind, query, update, pure, M.pure, on_input]
  split_ifs
  · exact le_refl _
  · exact le_refl _
  · exact le_refl _
  · rename_i h
    have hsome : ∃ ch, c = some ch := by
      rcases h with h | h
      · exact ⟨_, h⟩
      · exact ⟨_, h⟩
    obtain ⟨ch, hch⟩ := hsome
    obtain ⟨tail, ht⟩ := hc ch hch
    have hp := peek_next_char_length (getc s.intput_as).2
    have hg : (getc s.intput_as).2.buf = tail := by simp [getc, ht]
    rw [hg] at hp
    subst hch
    simp only [M.bind, on_input, ite_apply]
    split_ifs <;>
    · simp only [update, ungetc, List.length_cons, ht, print_error, print_error_char]
      exact Nat.succ_le_succ hp
  · exact le_refl _

theorem read_numbers_list_end_bounded (n : Int) : bounded 0 (read_numbers_list_end n) := by
  intro s
  unfold read_numbers_list_end
  simp only [bind, M.bind, pure, M.pure]
  refine le_trans (read_numbers_list_error_check_bounded_at _ n _ ?_) ?_
  · intro ch hch
    simp only [on_input] at hch ⊢
    rw [peek_next_char_eq] at hch ⊢
    obtain ⟨_, _, tail, h⟩ := (skip_whites_spec s.intput_as).1 ch hch
    exact ⟨tail, by rw [h]⟩
  · exact le_trans (peek_next_char_length s.intput_as) (Nat.le_add_right _ _)

/-- Pushing `c` back leaves one character more unread, none when `c` is
`EOF`. -/
theorem bounded_ungetc (c : Option Char) :
    bounded (if c.isSome then 1 else 0) (on_input (fun f => ((), ungetc c f))) := by
  intro s
  cases c with
  | none => exact Nat.le_add_right _ _
  | some ch => exact le_of_eq rfl

/-- Function `getc` takes one character when it returns one. -/
theorem getc_taken (s : session) :
    ((on_input getc) s).2.intput_as.buf.length
      + (if ((on_input getc) s).1.isSome then 1 else 0) ≤ s.intput_as.buf.length := by
  simp only [on_input, getc]
  by_cases hb : s.intput_as.buf = []
  · simp [hb]
  · obtain ⟨c, rest, hb⟩ := List.exists_cons_of_ne_nil hb
    simp [hb]

/-- The loop of `read_string` has taken the character that ended it. -/
theorem read_string_loop_taken (s : session) :
    ((on_input (fun f =>
        ((((getc_while (fun c => c ≠ '\n' ∧ c ≠ QUOTE) f.eof f.buf).1,
           (getc_while (fun c => c ≠ '\n' ∧ c ≠ QUOTE) f.eof f.buf).2.1) : List Char × Option Char),
          (getc_while (fun c => c ≠ '\n' ∧ c ≠ QUOTE) f.eof f.buf).2.2))) s).2.intput_as.buf.length
      + (if ((on_input (fun f =>
        ((((getc_while (fun c => c ≠ '\n' ∧ c ≠ QUOTE) f.eof f.buf).1,
           (getc_while (fun c => c ≠ '\n' ∧ c ≠ QUOTE) f.eof f.buf).2.1) : List Char × Option Char),
          (getc_while (fun c => c ≠ '\n' ∧ c ≠ QUOTE) f.eof f.buf).2.2))) s).1.2.isSome
          then 1 else 0) ≤ s.intput_as.buf.length := by
  simp only [on_input]
  have h := getc_while_ungetc_length (fun c => decide (c ≠ '\n' ∧ c ≠ QUOTE))
    s.intput_as.eof s.intput_as.buf
  rcases Option.eq_none_or_eq_some (getc_while (fun c => decide (c ≠ '\n' ∧ c ≠ QUOTE))
      s.intput_as.eof s.intput_as.buf).2.1 with hc | ⟨ch, hc⟩
  · simp only [hc, ungetc] at h ⊢
    simp only [Option.isSome_none, Bool.false_eq_true, if_false]
    omega
  · simp only [hc, ungetc, List.length_cons] at h ⊢
    simp only [Option.isSome_some, if_true]
    omega

section bounded_directives

attribute [local irreducible] M.bind M.pure query update on_input

theorem read_numbers_loop_bounded (fuel : Nat) : ∀ (n number : Int),
    bounded 0 (read_numbers_loop fuel n number) := by
  induction fuel with
  | zero =>
    intro n number
    unfold read_numbers_loop
    apply bounded_bind
    · exact bounded_on_input (read_next_number_length _)
    · intro _
      exact read_numbers_list_end_bounded _
  | succ fuel ih =>
    intro n number
    unfold read_numbers_loop
    repeat (first
      | exact bounded_pure _
      | exact bounded_query _
      | exact bounded_on_input (read_next_number_length _)
      | exact bounded_on_input peek_next_char_length
      | exact bounded_on_input skip_whites_length
      | exact bounded_on_input getc_length
      | exact read_numbers_list_end_bounded _
      | exact ih _ _
      | exact bounded_update (input_print_warning_int _ _ _)
      | exact bounded_update (input_data_insert _)
      | apply bounded_ite
      | apply bounded_bind
      | intro _)

theorem read_numbers_list_bounded : bounded 0 read_numbers_list := by
  unfold read_numbers_list
  apply bounded_bind
  · exact bounded_query _
  · intro _
    exact read_numbers_loop_bounded _ _ _

theorem insert_characters_bounded (l : List Char) : bounded 0 (insert_characters l) := by
  induction l with
  | nil => exact bounded_pure _
  | cons c rest ih =>
    unfold insert_characters
    apply bounded_bind
    · exact bounded_update (input_data_insert _)
    · intro _
      exact ih

/-- Function `read_string_error_check` pushes nothing back when the opening
quotes were seen. -/
theorem read_string_error_check_bounded_open (c : Option Char) (b d : Bool) :
    bounded 0 (read_string_error_check c true b d) := by
  unfold read_string_error_check
  apply bounded_bind
  · exact bounded_query _
  intro _
  refine bounded_ite_h (fun h => absurd h.1 (by simp)) (fun _ => ?_)
  repeat (first
    | exact bounded_pure _
    | exact bounded_update (input_print_error _ _)
    | apply bounded_ite)

/-- Function `read_string_error_check` pushes back at most `c`. -/
theorem read_string_error_check_bounded (c : Option Char) (a b d : Bool) :
    bounded (if c.isSome then 1 else 0) (read_string_error_check c a b d) := by
  unfold read_string_error_check
  apply bounded_bind
  · exact bounded_query _
  intro _
  apply bounded_ite
  · apply bounded_bind_left
    · exact bounded_ungetc c
    · intro _
      exact bounded_update (input_print_error _ _)
  · repeat (first
      | exact bounded_pure _
      | exact bounded_update (input_print_error _ _)
      | apply bounded_ite)

theorem read_string_bounded : bounded 0 read_string := by
  unfold read_string
  refine bounded_bind_taken (fun c0 => if c0.isSome then 1 else 0) getc_taken (fun c0 => ?_)
  apply bounded_ite
  · apply bounded_mono
    refine bounded_bind_taken (fun r => if r.2.isSome then 1 else 0)
      read_string_loop_taken (fun r => ?_)
    apply bounded_bind
    · exact insert_characters_bounded _
    intro _
    apply bounded_bind_left
    · apply bounded_ite
      · exact bounded_ungetc _
      · exact bounded_pure _
    intro _
    repeat (first
      | exact bounded_pure _
      | exact bounded_on_input peek_next_char_length
      | exact bounded_on_input skip_line_length
      | exact bounded_update (input_data_insert _)
      | exact read_string_error_check_bounded_open _ _ _
      | apply bounded_ite
      | apply bounded_bind
      | intro _)
  · apply bounded_bind_left
    · exact read_string_error_check_bounded _ _ _ _
    · intro _
      exact bounded_pure _

end bounded_directives

/-- Function `check_operands_types` leaves the input alone when it returns
1 and pushes a newline back when it returns 0. -/
theorem check_operands_types_input (data : instruction) (a b : Int) (s : session) :
    ((check_operands_types data a b s).1 = true ∧
      (check_operands_types data a b s).2.intput_as = s.intput_as) ∨
    ((check_operands_types data a b s).1 = false ∧
      (check_operands_types data a b s).2.intput_as = ungetc (some '\n') s.intput_as) := by
  by_cases h1 : data.input = 1 ∧ (a = IMMEDIATE ∨ a = REGISTER)
  · right
    by_cases h2 : data.output = 1 ∧ b = IMMEDIATE
    · simp [check_operands_types, h1, h2, bind, M.bind, query, update, pure, M.pure, on_input,
        print_error]
    · simp [check_operands_types, h1, h2, bind, M.bind, query, update, pure, M.pure, on_input,
        print_error]
  · by_cases h2 : data.output = 1 ∧ b = IMMEDIATE
    · right
      simp [check_operands_types, h1, h2, bind, M.bind, query, update, pure, M.pure, on_input,
        print_error]
    · left
      simp [check_operands_types, h1, h2, bind, M.bind, query, update, pure, M.pure]

/-- The newline `check_operands_types` pushes back is taken by the
`skip_line` that follows in `process_instruction`. -/
theorem check_then_skip_bounded (c : Prop) [Decidable c] (data : instruction) (a b : Int)
    (rest : M Bool) (hrest : bounded 0 rest) :
    bounded 0 ((if c then check_operands_types data a b else pure false) >>= fun status =>
      if ¬ status = true then (on_input skip_line >>= fun _ => pure false) else rest) := by
  intro s
  show (((fun status : Bool =>
      if ¬ status = true then (on_input skip_line >>= fun _ => (pure false : M Bool)) else rest)
      ((if c then check_operands_types data a b else pure false) s).1)
      ((if c then check_operands_types data a b else pure false) s).2).2.intput_as.buf.length ≤ _
  by_cases hc : c
  · simp only [hc, if_true]
    rcases check_operands_types_input data a b s with ⟨h1, h2⟩ | ⟨h1, h2⟩
    · simp only [h1, not_true_eq_false, if_false]
      refine le_trans (hrest _) ?_
      exact le_of_eq (congrArg (fun f => f.buf.length + 0) h2)
    · simp only [h1, Bool.false_eq_true, not_false_eq_true, if_true]
      show (skip_line (check_operands_types data a b s).2.intput_as).2.buf.length ≤ _
      rw [h2]
      have := (skip_line_strict (ungetc (some '\n') s.intput_as)).1 (by simp [ungetc])
      simp only [ungetc, List.length_cons] at this
      simp only [ungetc]
      omega
  · simp only [hc, if_false]
    show (skip_line s.intput_as).2.buf.length ≤ _
    exact le_trans (skip_line_length _) (Nat.le_add_right _ _)

section bounded_instructions

attribute [local irreducible] M.bind M.pure query update on_input bounded

theorem struct_error_check_bounded (a b : Bool) : bounded 0 (struct_error_check a b) := by
  unfold struct_error_check
  repeat (first
    | exact bounded_pure _
    | exact bounded_query _
    | exact bounded_on_input peek_next_char_length
    | exact bounded_update (input_print_error _ _)
    | exact bounded_update (input_print_error_char _ _ _)
    | apply bounded_ite
    | apply bounded_bind
    | intro _)

theorem process_directive_struct_bounded : bounded 0 process_directive_struct := by
  unfold process_directive_struct
  repeat (first
    | exact bounded_pure _
    | exact bounded_query _
    | exact bounded_on_input (read_next_number_length _)
    | exact bounded_on_input peek_next_char_length
    | exact bounded_on_input skip_whites_length
    | exact bounded_on_input getc_length
    | exact bounded_update (input_data_insert _)
    | exact read_string_bounded
    | exact struct_error_check_bounded _ _
    | apply bounded_ite
    | apply bounded_bind
    | intro _)

theorem ext_ent_end_of_line_bounded : bounded 0 ext_ent_end_of_line := by
  unfold ext_ent_end_of_line
  repeat (first
    | exact bounded_pure _
    | exact bounded_query _
    | exact bounded_on_input peek_next_char_length
    | exact bounded_on_input skip_line_length
    | exact bounded_update (input_print_error _ _)
    | apply bounded_ite
    | apply bounded_bind
    | intro _)

theorem process_directive_ext_ent_bounded (a b : Bool) :
    bounded 0 (process_directive_ext_ent a b) := by
  unfold process_directive_ext_ent
  repeat (first
    | exact bounded_pure _
    | exact bounded_query _
    | exact bounded_on_input (read_next_string_length _)
    | exact is_legal_label_bounded _ _
    | exact ext_ent_end_of_line_bounded
    | exact bounded_update (input_print_error_string _ _ _)
    | exact bounded_update (input_print_warning _ _)
    | exact bounded_update (input_ent_ext_list_insert _ _ _)
    | exact bounded_update (input_insert_label _ _ _ _)
    | apply bounded_ite
    | apply bounded_bind
    | intro _)

theorem process_directive_bounded (direct : node) (b : Bool) (label : List Char) :
    bounded 0 (process_directive direct b label) := by
  unfold process_directive
  repeat (first
    | exact bounded_pure _
    | exact bounded_query _
    | exact bounded_on_input skip_line_length
    | exact process_directive_ext_ent_bounded _ _
    | exact read_numbers_list_bounded
    | exact read_string_bounded
    | exact process_directive_struct_bounded
    | exact bounded_update (input_insert_label _ _ _ _)
    | apply bounded_ite
    | apply bounded_bind
    | intro _)

theorem detect_operands_error_check_bounded (a b : Int) (c : Option Char) (d : Bool) :
    bounded 0 (detect_operands_error_check a b c d) := by
  unfold detect_operands_error_check
  repeat (first
    | exact bounded_pure _
    | exact bounded_query _
    | exact bounded_update (input_print_error _ _)
    | apply bounded_ite
    | apply bounded_bind
    | intro _)

set_option maxRecDepth 4000 in
theorem detect_operands_and_types_bounded (data : instruction) :
    bounded 0 (detect_operands_and_types data) := by
  unfold detect_operands_and_types
  repeat (first
    | exact bounded_pure _
    | exact bounded_query _
    | exact bounded_on_input (detect_operand_type_length _)
    | exact bounded_on_input peek_next_char_length
    | exact bounded_on_input skip_whites_length
    | exact bounded_on_input skip_line_length
    | exact bounded_on_input getc_length
    | exact detect_operands_error_check_bounded _ _ _ _
    | apply bounded_ite
    | apply bounded_bind
    | intro _)

theorem process_immediate_bounded (op : List Char) : bounded 0 (process_immediate op) := by
  unfold process_immediate
  repeat (first
    | exact bounded_pure _
    | exact bounded_query _
    | exact bounded_update (input_print_error_string _ _ _)
    | exact bounded_update (input_print_warning_int _ _ _)
    | exact bounded_update (input_inst_insert _)
    | apply bounded_ite
    | apply bounded_bind
    | intro _)

theorem process_struct_bounded (op : List Char) : bounded 0 (process_struct op) := by
  unfold process_struct
  repeat (first
    | exact bounded_pure _
    | exact bounded_query _
    | exact is_legal_label_bounded _ _
    | exact bounded_update (input_spl_insert _ _ _ _)
    | exact bounded_update (input_inst_insert _)
    | apply bounded_ite
    | apply bounded_bind
    | intro _)

theorem process_operand_bounded (t : Int) (op : List Char) (b : Bool) :
    bounded 0 (process_operand t op b) := by
  unfold process_operand
  apply bounded_ite
  · repeat (first
      | exact bounded_pure _
      | exact bounded_query _
      | exact bounded_update (input_inst_insert _)
      | apply bounded_bind
      | intro _)
  apply bounded_ite
  · exact process_immediate_bounded _
  apply bounded_ite
  · repeat (first
      | exact bounded_pure _
      | exact bounded_query _
      | exact is_legal_label_bounded _ _
      | exact bounded_update (input_spl_insert _ _ _ _)
      | exact bounded_update (input_ent_ext_list_insert _ _ _)
      | exact bounded_update (input_inst_insert _)
      | apply bounded_ite
      | apply bounded_bind
      | intro _)
  apply bounded_ite
  · exact process_struct_bounded _
  · exact bounded_pure _

theorem store_operands_bounded (data : instruction) (a b : Int) (op1 op2 : List Char) :
    bounded 0 (store_operands data a b op1 op2) := by
  unfold store_operands
  repeat (first
    | exact bounded_pure _
    | exact bounded_query _
    | exact process_operand_bounded _ _ _
    | exact bounded_update (input_inst_insert _)
    | apply bounded_ite
    | apply bounded_bind
    | intro _)

theorem process_instruction_bounded (inst : node) (b : Bool) (label : List Char) :
    bounded 0 (process_instruction inst b label) := by
  unfold process_instruction
  apply bounded_bind
  · repeat (first
      | exact bounded_pure _
      | exact bounded_query _
      | exact bounded_update (input_insert_label _ _ _ _)
      | apply bounded_ite
      | apply bounded_bind
      | intro _)
  intro _
  apply bounded_bind
  · exact detect_operands_and_types_bounded _
  intro d
  apply check_then_skip_bounded
  repeat (first
    | exact bounded_pure _
    | exact store_operands_bounded _ _ _ _ _
    | exact bounded_update (input_inst_insert _)
    | apply bounded_ite
    | apply bounded_bind
    | intro _)

end bounded_instructions

/-! ### Every call of `process_line` advances -/

theorem apply_bind {α β : Type} (m : M α) (k : α → M β) (s : session) :
    (m >>= k) s = k (m s).1 (m s).2 := rfl

theorem apply_pure {α : Type} (a : α) (s : session) : (pure a : M α) s = (a, s) := rfl

theorem apply_query {α : Type} (g : session → α) (s : session) : query g s = (g s, s) := rfl

theorem apply_on_input {α : Type} (g : InFile → α × InFile) (s : session) :
    on_input g s = ((g s.intput_as).1, { s with intput_as := (g s.intput_as).2 }) := rfl

theorem advanced_bind {α β : Type} {m : M α} {k : α → M β} (P : α → session → Prop)
    (s : session) (n : Nat) (hm : P (m s).1 (m s).2)
    (hk : ∀ a s1, P a s1 → advanced n (k a s1).2) : advanced n ((m >>= k) s).2 :=
  hk _ _ hm

theorem advanced_of_bounded {α : Type} {m : M α} (hm : bounded 0 m) (s : session) (n : Nat)
    (h : s.intput_as.buf.length < n) : advanced n (m s).2 :=
  Or.inl (lt_of_le_of_lt (hm s) h)

theorem skip_whites_at_end : skip_whites { buf := [], eof := true }
    = (none, { buf := [], eof := true }) := rfl

theorem skip_whites_at_char (ch : Char) (tail : List Char) (h1 : ch ≠ '\t') (h2 : ch ≠ ' ') :
    skip_whites { buf := ch :: tail, eof := false }
      = (some ch, { buf := ch :: tail, eof := false }) := by
  simp [skip_whites, getc_while, h1, h2, ungetc]

/-- What `is_comment_or_empty_line` returns and leaves: at the end of the
file it returns 0; otherwise the next character unread is no blank, and it
returns 1 exactly when that character is a newline or a semicolon. -/
theorem is_comment_or_empty_line_spec (s : session) :
    ((is_comment_or_empty_line s).2.intput_as = { buf := [], eof := true } ∧
      (is_comment_or_empty_line s).1 = false) ∨
    (∃ ch tail, (is_comment_or_empty_line s).2.intput_as = { buf := ch :: tail, eof := false } ∧
      tail.length < s.intput_as.buf.length ∧ ch ≠ '\t' ∧ ch ≠ ' ' ∧
      ((is_comment_or_empty_line s).1 = true ↔ (ch = '\n' ∨ ch = ';'))) := by
  have e : is_comment_or_empty_line s =
      (decide ((skip_whites s.intput_as).1 = some '\n' ∨ (skip_whites s.intput_as).1 = some ';'),
       { s with intput_as := (skip_whites s.intput_as).2 }) := rfl
  rw [e]
  have hlen := skip_whites_length s.intput_as
  rcases Option.eq_none_or_eq_some (skip_whites s.intput_as).1 with hc | ⟨ch, hc⟩
  · left
    have h := (skip_whites_spec s.intput_as).2 hc
    simp [h, hc]
  · right
    obtain ⟨h1, h2, tail, h⟩ := (skip_whites_spec s.intput_as).1 ch hc
    refine ⟨ch, tail, h, ?_, h1, h2, ?_⟩
    · rw [h] at hlen
      simpa using hlen
    · simp [hc]

theorem bind_length_le {α β : Type} {m : M α} {k : α → M β} (s : session) (n : Nat)
    (hk : ∀ a, bounded 0 (k a)) (hm : (m s).2.intput_as.buf.length ≤ n) :
    ((m >>= k) s).2.intput_as.buf.length ≤ n :=
  le_trans (hk (m s).1 (m s).2) hm

theorem query_bind_length_le {α β : Type} {g : session → α} {k : α → M β} (s : session)
    (n : Nat) (h : (k (g s) s).2.intput_as.buf.length ≤ n) :
    ((query g >>= k) s).2.intput_as.buf.length ≤ n := h

section progress

attribute [local irreducible] M.bind M.pure query update on_input bounded

/-- Function `pre_process_line` takes at least one character when the next
one unread is no blank and no newline. -/
theorem pre_process_line_strict (s : session) (ch : Char) (tail : List Char)
    (hs : s.intput_as = { buf := ch :: tail, eof := false })
    (h1 : ch ≠ '\n') (h2 : ch ≠ ' ') (h3 : ch ≠ '\t') :
    (pre_process_line s).2.intput_as.buf.length ≤ tail.length := by
  unfold pre_process_line
  apply query_bind_length_le
  apply bind_length_le
  · intro _
    repeat (first
      | exact bounded_pure _
      | exact bounded_query _
      | exact bounded_on_input (read_next_string_length _)
      | exact is_legal_label_bounded _ _
      | exact pre_process_line_error_check_bounded _ _ _ _ _
      | apply bounded_ite
      | apply bounded_bind
      | intro _)
  · rw [apply_on_input]
    show (read_next_string s.chars_count0 s.intput_as).2.buf.length ≤ tail.length
    have := read_next_string_strict s.chars_count0 s.intput_as ch tail (by rw [hs]) h1 h2 h3
    rw [hs] at this ⊢
    simp only [List.length_cons] at this
    omega

/-- What follows `pre_process_line` in `process_line` only reads. -/
theorem process_line_rest_bounded (h : line_head) :
    bounded 0 (if h.status = true then
        match h.symbol with
        | some symbol =>
          if symbol.type = type.INST then process_instruction symbol h.label_flag h.label
          else if symbol.type = type.DIRECT then process_directive symbol h.label_flag h.label
          else pure true
        | none => pure true
      else do
        let _ ← on_input skip_line
        pure false) := by
  apply bounded_ite
  · cases h.symbol with
    | none => exact bounded_pure _
    | some symbol =>
      simp only
      apply bounded_ite
      · exact process_instruction_bounded _ _ _
      apply bounded_ite
      · exact process_directive_bounded _ _ _
      · exact bounded_pure _
  · apply bounded_bind
    · exact bounded_on_input skip_line_length
    · intro _
      exact bounded_pure _

/-- One call of `process_line` leaves fewer characters unread than it found,
or sets the end-of-file indicator with nothing unread. -/
theorem process_line_advances (s : session) :
    advanced s.intput_as.buf.length (process_line s).2 := by
  unfold process_line
  refine advanced_bind
    (fun e s1 =>
      (s1.intput_as = { buf := [], eof := true } ∧ e = false) ∨
      (∃ ch tail, s1.intput_as = { buf := ch :: tail, eof := false } ∧
        tail.length < s.intput_as.buf.length ∧ ch ≠ '\t' ∧ ch ≠ ' ' ∧
        (e = true ↔ (ch = '\n' ∨ ch = ';'))))
    s _ (is_comment_or_empty_line_spec s) (fun e s1 h1 => ?_)
  refine advanced_bind
    (fun skip s2 =>
      (s2.intput_as = { buf := [], eof := true } ∧ skip = true) ∨
      (∃ ch tail, s2.intput_as = { buf := ch :: tail, eof := false } ∧
        tail.length < s.intput_as.buf.length ∧
        (skip = false → ch ≠ '\n' ∧ ch ≠ ' ' ∧ ch ≠ '\t')))
    s1 _ ?_ (fun skip s2 h2 => ?_)
  · rcases h1 with ⟨hf, he⟩ | ⟨ch, tail, hf, hlen, hb1, hb2, he⟩
    · left
      rw [he]
      simp only [Bool.false_eq_true, if_false]
      rw [apply_bind, apply_on_input, apply_pure, peek_next_char_eq, hf, skip_whites_at_end]
      simp
    · right
      refine ⟨ch, tail, ?_, hlen, ?_⟩
      · by_cases hx : e = true
        · rw [hx]
          simp only [if_true]
          rw [apply_pure]
          exact hf
        · have hx2 : e = false := by simpa using hx
          rw [hx2]
          simp only [Bool.false_eq_true, if_false]
          rw [apply_bind, apply_on_input, apply_pure, peek_next_char_eq, hf,
            skip_whites_at_char ch tail hb1 hb2]
      · by_cases hx : e = true
        · rw [hx]
          simp only [if_true]
          rw [apply_pure]
          intro h
          exact absurd h (by simp)
        · intro _
          have hn : ¬ (ch = '\n' ∨ ch = ';') := fun h => hx (he.mpr h)
          exact ⟨fun h => hn (Or.inl h), hb2, hb1⟩
  · rcases h2 with ⟨hf, hs⟩ | ⟨ch, tail, hf, hlen, hs⟩
    · right
      rw [hs]
      simp only [if_true]
      rw [apply_bind, apply_on_input, apply_pure]
      show (skip_line s2.intput_as).2 = _
      rw [hf]
      rfl
    · left
      by_cases hx : skip = true
      · rw [hx]
        simp only [if_true]
        rw [apply_bind, apply_on_input, apply_pure]
        show (skip_line s2.intput_as).2.buf.length < _
        have := (skip_line_strict s2.intput_as).1 (by rw [hf]; simp)
        rw [hf] at this ⊢
        simp only [List.length_cons] at this
        omega
      · have hx2 : skip = false := by simpa using hx
        obtain ⟨c1, c2, c3⟩ := hs hx2
        rw [hx2]
        simp only [Bool.false_eq_true, if_false]
        refine lt_of_le_of_lt ?_ hlen
        exact bind_length_le s2 tail.length process_line_rest_bounded
          (pre_process_line_strict s2 ch tail hf c1 c2 c3)

end progress

/-! ### The fuel of the loop of the first pass is enough -/

theorem first_pass_loop_succ (fuel : Nat) (status : Bool) (s : session) :
    first_pass_loop (fuel + 1) status s =
      if s.intput_as.eof = true then (status, s)
      else first_pass_loop fuel
        (if ¬ (process_line { s with line_count := s.line_count + 1 }).1 = true then false
         else status)
        (process_line { s with line_count := s.line_count + 1 }).2 := by
  show (if s.intput_as.eof = true then (pure status : M Bool)
    else (update (fun s => { s with line_count := s.line_count + 1 }) >>= fun _ =>
      process_line >>= fun temp_status =>
        first_pass_loop fuel (if ¬ temp_status = true then false else status))) s = _
  by_cases he : s.intput_as.eof = true
  · rw [if_pos he, if_pos he]
    rfl
  · rw [if_neg he, if_neg he]
    rfl

/-- The loop of the first pass ends because the end of the file was reached,
and its result does not depend on the fuel, when the fuel is at least the
number of unread characters, plus one while the end-of-file indicator is
clear. -/
theorem first_pass_loop_enough_fuel (fuel1 : Nat) : ∀ (fuel2 : Nat) (status : Bool)
    (s : session),
    s.intput_as.buf.length + (if s.intput_as.eof = true then 0 else 1) ≤ fuel1 →
    s.intput_as.buf.length + (if s.intput_as.eof = true then 0 else 1) ≤ fuel2 →
    first_pass_loop fuel1 status s = first_pass_loop fuel2 status s ∧
    (first_pass_loop fuel1 status s).2.intput_as.eof = true := by
  induction fuel1 with
  | zero =>
    intro fuel2 status s h1 _
    have he : s.intput_as.eof = true := by
      by_contra h
      rw [if_neg h] at h1
      omega
    cases fuel2 with
    | zero => exact ⟨rfl, he⟩
    | succ n =>
      rw [first_pass_loop_succ, if_pos he]
      exact ⟨rfl, he⟩
  | succ n ih =>
    intro fuel2 status s h1 h2
    by_cases he : s.intput_as.eof = true
    · rw [first_pass_loop_succ, if_pos he]
      cases fuel2 with
      | zero => exact ⟨rfl, he⟩
      | succ k =>
        rw [first_pass_loop_succ, if_pos he]
        exact ⟨rfl, he⟩
    · rw [if_neg he] at h1 h2
      cases fuel2 with
      | zero => omega
      | succ k =>
        rw [first_pass_loop_succ, if_neg he, first_pass_loop_succ, if_neg he]
        have hadv := process_line_advances { s with line_count := s.line_count + 1 }
        have hle : ∀ m, s.intput_as.buf.length ≤ m →
            (process_line { s with line_count := s.line_count + 1 }).2.intput_as.buf.length
              + (if (process_line { s with line_count := s.line_count + 1 }).2.intput_as.eof
                  = true then 0 else 1) ≤ m := by
          intro m hm
          rcases hadv with hlt | heq
          · have hlt2 : (process_line { s with line_count := s.line_count + 1
                }).2.intput_as.buf.length < s.intput_as.buf.length := hlt
            split_ifs <;> omega
          · rw [heq]
            simp
        exact ih k _ _ (hle n (by omega)) (hle k (by omega))

/-- Function `first_pass_process` gives its loop enough fuel: the loop ends
at the end of the file, and more fuel gives the same result. -/
theorem first_pass_process_enough_fuel (s : session) (more : Nat) :
    first_pass_process s = first_pass_loop (s.intput_as.buf.length + 2 + more) true s ∧
    (first_pass_process s).2.intput_as.eof = true := by
  have e : first_pass_process s = first_pass_loop (s.intput_as.buf.length + 2) true s := rfl
  rw [e]
  have hb : s.intput_as.buf.length + (if s.intput_as.eof = true then 0 else 1)
      ≤ s.intput_as.buf.length + 2 := by
    split_ifs <;> omega
  exact first_pass_loop_enough_fuel _ _ true s hb (by
    split_ifs <;> omega)

/-! ### The fuel of the loop of `read_numbers_list` is enough -/

theorem read_digits_strict (sign : Int) (f : InFile) (h : (read_digits sign f).1.1 ≠ 0) :
    (read_digits sign f).2.buf.length < f.buf.length := by
  unfold read_digits at h ⊢
  have e := getc_while_ungetc_length Char.isDigit f.eof f.buf
  simp only at h ⊢
  have h2 : (getc_while Char.isDigit f.eof f.buf).1.length ≠ 0 := by
    intro h0
    apply h
    rw [h0]
    rfl
  omega

/-- Function `read_next_number` takes at least one character when it reads
a number. -/
theorem read_next_number_strict (dest : Int) (f : InFile)
    (h : (read_next_number dest f).1.1 ≠ 0) :
    (read_next_number dest f).2.buf.length < f.buf.length := by
  unfold read_next_number at h ⊢
  simp only at h ⊢
  have h3 : (ungetc (getc (getc f).2).1 (getc (getc f).2).2).buf.length
      = (getc f).2.buf.length := ungetc_getc_length _
  have h4 := getc_length f
  have h5 := ungetc_after_getc_length f
    (ungetc (getc (getc f).2).1 (getc (getc f).2).2) (le_of_eq h3)
  split_ifs at h ⊢ <;>
  first
    | exact absurd rfl h
    | exact lt_of_lt_of_le (read_digits_strict _ _ h) h5
    | exact lt_of_lt_of_le (read_digits_strict _ _ h) (by omega)

theorem read_numbers_loop_zero (n number : Int) (s : session) :
    read_numbers_loop 0 n number s =
      read_numbers_list_end n
        { s with intput_as := (read_next_number number s.intput_as).2 } := rfl

theorem read_numbers_loop_succ_none (fuel : Nat) (n number : Int) (s : session)
    (h : (read_next_number number s.intput_as).1.1 = 0) :
    read_numbers_loop (fuel + 1) n number s =
      read_numbers_list_end n
        { s with intput_as := (read_next_number number s.intput_as).2 } := by
  unfold read_numbers_loop
  rw [apply_bind, apply_on_input]
  simp only [h, ne_eq, not_true_eq_false, if_false]

theorem bind_congr_at {α β : Type} {m : M α} {k1 k2 : α → M β} (s : session)
    (h : k1 (m s).1 (m s).2 = k2 (m s).1 (m s).2) : (m >>= k1) s = (m >>= k2) s := h

theorem ite_congr_at {β : Type} {c : Prop} [Decidable c] {a1 a2 b1 b2 : M β} (s : session)
    (ha : c → a1 s = a2 s) (hb : ¬ c → b1 s = b2 s) :
    (if c then a1 else b1) s = (if c then a2 else b2) s := by
  split_ifs with h
  · exact ha h
  · exact hb h

theorem bounded_apply {α : Type} {m : M α} (h : bounded 0 m) (s : session) :
    (m s).2.intput_as.buf.length ≤ s.intput_as.buf.length := h s

/-- The loop of `read_numbers_list` does not depend on its fuel when the fuel
is at least the number of unread characters: every iteration that reads a
number takes a character. -/
theorem read_numbers_loop_enough_fuel (fuel1 : Nat) : ∀ (fuel2 : Nat) (n number : Int)
    (s : session), s.intput_as.buf.length ≤ fuel1 → s.intput_as.buf.length ≤ fuel2 →
    read_numbers_loop fuel1 n number s = read_numbers_loop fuel2 n number s := by
  induction fuel1 with
  | zero =>
    intro fuel2 n number s h1 _
    cases fuel2 with
    | zero => rfl
    | succ k =>
      have hz : (read_next_number number s.intput_as).1.1 = 0 := by
        by_contra hne
        have := read_next_number_strict number s.intput_as hne
        omega
      rw [read_numbers_loop_zero, read_numbers_loop_succ_none _ _ _ _ hz]
  | succ m ih =>
    intro fuel2 n number s h1 h2
    by_cases hz : (read_next_number number s.intput_as).1.1 = 0
    · rw [read_numbers_loop_succ_none _ _ _ _ hz]
      cases fuel2 with
      | zero => rw [read_numbers_loop_zero]
      | succ k => rw [read_numbers_loop_succ_none _ _ _ _ hz]
    · have hlt := read_next_number_strict number s.intput_as hz
      cases fuel2 with
      | zero => omega
      | succ k =>
        unfold read_numbers_loop
        refine bind_congr_at s ?_
        refine ite_congr_at _ (fun _ => ?_) (fun _ => rfl)
        refine bind_congr_at _ ?_
        refine bind_congr_at _ ?_
        refine bind_congr_at _ ?_
        refine bind_congr_at _ ?_
        refine ite_congr_at _ (fun _ => rfl) (fun _ => ?_)
        refine ite_congr_at _ (fun _ => ?_) (fun _ => rfl)
        refine bind_congr_at _ ?_
        refine bind_congr_at _ ?_
        refine ih k _ _ _ ?_ ?_
        all_goals
          refine le_trans (bounded_apply (bounded_on_input skip_whites_length) _) ?_
          refine le_trans (bounded_apply (bounded_on_input getc_length) _) ?_
          refine le_trans (bounded_apply (bounded_on_input peek_next_char_length) _) ?_
          refine le_trans (bounded_apply (bounded_update (input_data_insert _)) _) ?_
          refine le_trans (bounded_apply (bounded_ite
            (bounded_update (input_print_warning_int _ _ _)) (bounded_pure _)) _) ?_
          refine le_trans (bounded_apply (bounded_query _) _) ?_
          show (read_next_number number s.intput_as).2.buf.length ≤ _
          omega

/-- Function `read_numbers_list` gives its loop enough fuel: more fuel gives
the same result. -/
theorem read_numbers_list_enough_fuel (s : session) (more : Nat) :
    read_numbers_list s = read_numbers_loop (s.intput_as.buf.length + 1 + more) 0 0 s := by
  have e : read_numbers_list s = read_numbers_loop (s.intput_as.buf.length + 1) 0 0 s := rfl
  rw [e]
  exact read_numbers_loop_enough_fuel _ _ _ _ _ (by omega) (by omega)

/-! ### Instruction lines: what each function stores -/

/-- When `is_legal_label` returns 1 it has printed nothing and left the
label as it was. -/
theorem is_legal_label_true (label : List Char) (b : Bool) (s : session)
    (h : (is_legal_label label b s).1.1 = true) :
    is_legal_label label b s = ((true, label), s) := by
  unfold is_legal_label at h ⊢
  simp only [bind, M.bind, query, update, pure, M.pure, ite_apply] at h ⊢
  split_ifs at h ⊢ <;> first | rfl | simp [M.bind, update, M.pure] at h

/-- Function `process_struct` on an operand whose name part is a legal
label. -/
theorem process_struct_eq (op : List Char) (s : session)
    (h : (is_legal_label (op.take (op.length - 2)) false s).1.1 = true) :
    process_struct op s =
      (true, ((spl_insert (op.take (op.length - 2)) s.mem.IC s.line_count true
          s).instructions_array_insert (word_assign 0)).instructions_array_insert
        (word_assign (int_shl (((op.getD (op.length - 1) NUL).toNat : Int) - ('0'.toNat : Int))
          2))) := by
  unfold process_struct
  simp only [bind, M.bind, is_legal_label_true _ _ _ h, if_true, query, update, pure, M.pure]

/-- Function `process_struct` on an operand whose name part is no legal
label. -/
theorem process_struct_fail (op : List Char) (s : session)
    (h : (is_legal_label (op.take (op.length - 2)) false s).1.1 = false) :
    (process_struct op s).1 = false ∧
    process_struct op s = (false, (is_legal_label (op.take (op.length - 2)) false s).2) := by
  unfold process_struct
  simp only [bind, M.bind, h, Bool.false_eq_true, if_false, pure, M.pure, and_self]

/-- Function `process_operand` on an ABSOLUTE operand that is a legal
label. -/
theorem process_operand_absolute_eq (op : List Char) (is_input : Bool) (s : session)
    (h : (is_legal_label op false s).1.1 = true) :
    process_operand ABSOLUTE op is_input s =
      (true, (ent_ext_list_insert op false s.mem.IC
          (spl_insert op s.mem.IC s.line_count false s)).instructions_array_insert
        (word_assign 0)) := by
  unfold process_operand
  have h1 : ¬ ABSOLUTE = REGISTER := by decide
  have h2 : ¬ ABSOLUTE = IMMEDIATE := by decide
  simp only [h1, h2, if_false, if_true, bind, M.bind, is_legal_label_true _ _ _ h, query,
    update, pure, M.pure]

/-- Function `process_immediate`, whatever the operand is. -/
theorem process_immediate_eq (op : List Char) (s : session) :
    process_immediate op s =
      (is_number (op.drop 1),
       (if is_number (op.drop 1) = true then id
        else print_error_string s.line_count 10 (op.drop 1))
        ((if atoi (op.drop 1) > 127 ∨ atoi (op.drop 1) < -128
          then print_warning_int s.line_count 1 (atoi (op.drop 1)) else id)
          (s.instructions_array_insert
            (word_assign (int_shl (wrap8 (atoi (op.drop 1))) 2))))) := by
  rcases Bool.eq_false_or_eq_true (is_number (op.drop 1)) with hn | hn <;>
  by_cases hw : atoi (op.drop 1) > 127 ∨ atoi (op.drop 1) < -128 <;>
  simp only [process_immediate, bind, M.bind, query, update, pure, M.pure, hn, hw, if_true,
    if_false, not_true_eq_false, not_false_eq_true, Bool.false_eq_true, id] <;>
  rfl

/-- Function `is_number` returns 1 exactly on an optional single sign
followed by one or more digits. -/
theorem is_number_iff (text : List Char) : is_number text = true ↔ signed_decimal text := by
  cases text with
  | nil =>
    constructor
    · intro h
      simp [is_number] at h
    · rintro ⟨digits, hne, _, h | h | h⟩
      · exact absurd h.symm hne
      · simp at h
      · simp at h
  | cons c rest =>
    have key : is_number (c :: rest) = true ↔
        (rest.all Char.isDigit = true ∧
          (c.isDigit = true ∨ ((c = '+' ∨ c = '-') ∧ rest ≠ []))) := by
      unfold is_number
      by_cases hr : rest.all Char.isDigit = true
      · by_cases hc : c.isDigit = true
        · simp [hr, hc]
        · by_cases hp : c = '+'
          · subst hp
            cases rest <;> simp_all
          · by_cases hm : c = '-'
            · subst hm
              cases rest <;> simp_all
            · simp [hr, hc, hp, hm]
      · simp [hr]
    rw [key]
    constructor
    · rintro ⟨hr, hc | ⟨hs, hne⟩⟩
      · refine ⟨c :: rest, by simp, ?_, Or.inl rfl⟩
        intro x hx
        rcases List.mem_cons.mp hx with h | h
        · rw [h]; exact hc
        · exact List.all_eq_true.mp hr x h
      · refine ⟨rest, hne, fun x hx => List.all_eq_true.mp hr x hx, ?_⟩
        rcases hs with h | h
        · right; left; rw [h]
        · right; right; rw [h]
    · rintro ⟨digits, hne, hall, h | h | h⟩
      · rw [← h] at hall
        refine ⟨List.all_eq_true.mpr (fun x hx => hall x (List.mem_cons_of_mem _ hx)), ?_⟩
        left
        exact hall c (List.mem_cons_self _ _)
      · have h1 : c = '+' := (List.cons.inj h).1
        have h2 : rest = digits := (List.cons.inj h).2
        rw [h2]
        exact ⟨List.all_eq_true.mpr hall, Or.inr ⟨Or.inl h1, hne⟩⟩
      · have h1 : c = '-' := (List.cons.inj h).1
        have h2 : rest = digits := (List.cons.inj h).2
        rw [h2]
        exact ⟨List.all_eq_true.mpr hall, Or.inr ⟨Or.inr h1, hne⟩⟩

theorem digit_not_special (c : Char) (h : c.isDigit = true) :
    isspace c = false ∧ c ≠ '-' ∧ c ≠ '+' := by
  have hv : 48 ≤ c.toNat ∧ c.toNat ≤ 57 := by
    simp only [Char.isDigit, Bool.and_eq_true, decide_eq_true_eq] at h
    exact ⟨h.1, h.2⟩
  refine ⟨?_, ?_, ?_⟩
  · rcases Bool.eq_false_or_eq_true (isspace c) with hs | hs
    · unfold isspace at hs
      simp only [Bool.decide_or, Bool.or_eq_true, decide_eq_true_eq] at hs
      exfalso
      rcases hs with h | h | h | h | h | h
      all_goals first
        | omega
        | (rw [h] at hv; revert hv; decide)
    · exact hs
  · intro hc; rw [hc] at hv; revert hv; decide
  · intro hc; rw [hc] at hv; revert hv; decide

/-- Library function `atoi` on the text of a signed decimal integer. -/
theorem atoi_signed_decimal (digits : List Char) (hne : digits ≠ [])
    (hall : ∀ c ∈ digits, c.isDigit = true) :
    atoi digits = wrap32 (decimal_value digits) ∧
    atoi ('+' :: digits) = wrap32 (decimal_value digits) ∧
    atoi ('-' :: digits) = wrap32 (-(decimal_value digits)) := by
  obtain ⟨d, ds, rfl⟩ := List.exists_cons_of_ne_nil hne
  have hd := digit_not_special d (hall d (List.mem_cons_self _ _))
  have htw : List.takeWhile Char.isDigit (d :: ds) = d :: ds :=
    List.takeWhile_eq_self_iff.mpr hall
  have h48 : (('0'.toNat : Nat) : Int) = 48 := rfl
  refine ⟨?_, ?_, ?_⟩
  · unfold atoi
    simp only [List.dropWhile_cons, hd.1, Bool.false_eq_true, if_false, List.head?_cons,
      Option.some.injEq, hd.2.1, hd.2.2, or_self, htw, one_mul, h48]
    rfl
  · unfold atoi
    have hp : isspace '+' = false := by decide
    simp only [List.dropWhile_cons, hp, Bool.false_eq_true, if_false, List.head?_cons,
      Option.some.injEq, or_true, if_true, List.drop_succ_cons, List.drop_zero, htw, one_mul,
      h48, show ¬ ('+' = '-') by decide]
    rfl
  · unfold atoi
    have hp : isspace '-' = false := by decide
    simp only [List.dropWhile_cons, hp, Bool.false_eq_true, if_false, List.head?_cons,
      Option.some.injEq, true_or, if_true, List.drop_succ_cons, List.drop_zero, htw, h48]
    unfold decimal_value
    simp

/-- What `process_immediate` does when the number fits a C `int`: for an
IMMEDIATE operand `#N`, N the text of a signed decimal integer that fits,
`process_immediate` returns 1 and makes exactly one call of
`instructions_array_insert`, with the 8-bit value of N shifted left by two;
warning 1 is printed exactly when N is outside [-128, 127]; when N is inside,
nothing is printed and the word is `N << 2`, whose low two bits are 00 and
which fits the 10-bit word. -/
theorem immediate_word_and_warning (digits text : List Char) (N : Int) (s : session)
    (hne : digits ≠ []) (hall : ∀ c ∈ digits, c.isDigit = true)
    (hform : (text = digits ∧ N = decimal_value digits) ∨
      (text = '+' :: digits ∧ N = decimal_value digits) ∨
      (text = '-' :: digits ∧ N = -(decimal_value digits)))
    (hint : -2147483648 ≤ N ∧ N ≤ 2147483647) :
    process_immediate ('#' :: text) s =
      (true, (if N > 127 ∨ N < -128 then print_warning_int s.line_count 1 N else id)
        (s.instructions_array_insert (word_assign (int_shl (wrap8 N) 2)))) ∧
    (process_immediate ('#' :: text) s).2.mem =
      instructions_array_insert (word_assign (int_shl (wrap8 N) 2)) s.mem ∧
    ((N > 127 ∨ N < -128) →
      (process_immediate ('#' :: text) s).2.stderr =
        (s.instructions_array_insert (word_assign (int_shl (wrap8 N) 2))).stderr ++
          [diag.warning_int s.line_count 1 N]) ∧
    ((-128 ≤ N ∧ N ≤ 127) →
      process_immediate ('#' :: text) s = (true, s.instructions_array_insert ⟨N * 4⟩) ∧
      int_and (N * 4) 3 = 0 ∧ -512 ≤ N * 4 ∧ N * 4 ≤ 511) := by
  have hnum : is_number text = true := by
    rw [is_number_iff]
    refine ⟨digits, hne, hall, ?_⟩
    rcases hform with h | h | h
    · exact Or.inl h.1
    · exact Or.inr (Or.inl h.1)
    · exact Or.inr (Or.inr h.1)
  have hat : atoi text = N := by
    obtain ⟨a1, a2, a3⟩ := atoi_signed_decimal digits hne hall
    have hw : wrap32 N = N := by unfold wrap32; omega
    rcases hform with h | h | h
    · rw [h.1, a1, ← h.2, hw]
    · rw [h.1, a2, ← h.2, hw]
    · rw [h.1, a3, ← h.2, hw]
  have key : process_immediate ('#' :: text) s =
      (true, (if N > 127 ∨ N < -128 then print_warning_int s.line_count 1 N else id)
        (s.instructions_array_insert (word_assign (int_shl (wrap8 N) 2)))) := by
    rw [process_immediate_eq]
    simp only [List.drop_succ_cons, List.drop_zero, hnum, hat, if_true, id]
  refine ⟨key, ?_, ?_, ?_⟩
  · rw [key]
    split_ifs <;> rfl
  · intro hout
    rw [key]
    simp only [hout, if_true]
    rfl
  · intro hin
    have hout : ¬ (N > 127 ∨ N < -128) := by omega
    have hw8 : wrap8 N = N := by unfold wrap8; omega
    have hword : word_assign (int_shl (wrap8 N) 2) = ⟨N * 4⟩ := by
      rw [hw8]
      show (⟨wrap10 (int_shl N 2)⟩ : word) = ⟨N * 4⟩
      unfold int_shl wrap10
      congr 1
      omega
    refine ⟨?_, ?_, by omega, by omega⟩
    · rw [key, hword]
      simp only [hout, if_false, id]
    · rw [int_and_3]
      omega

set_option maxRecDepth 100000 in
/-- The operand `#-5` in the session a new file starts with. -/
theorem immediate_word_and_warning_witness :
    process_immediate ['#', '-', '5'] (session_start 0 []) =
      (true, (session_start 0 []).instructions_array_insert ⟨-5 * 4⟩) :=
  ((immediate_word_and_warning ['5'] ['-', '5'] (-5) (session_start 0 [])
    (by decide) (by decide) (Or.inr (Or.inr ⟨rfl, by decide⟩)) (by decide)).2.2.2
      (by decide)).1

/-- C15: `is_number` returns 1 exactly on an optional single sign followed
by one or more decimal digits; for an operand `#text`, `process_immediate`
returns 0 exactly when `text` is not of that form, and then it prints error
10 (with `text`) and no other numbered error; when `text` is of that form it
prints no numbered error. -/
theorem c15_immediate_error_10_iff_not_number (text : List Char) (s : session) :
    (is_number text = true ↔ signed_decimal text) ∧
    ((process_immediate ('#' :: text) s).1 = false ↔ ¬ signed_decimal text) ∧
    (¬ signed_decimal text →
      (process_immediate ('#' :: text) s).2.errors =
        s.errors ++ [diag.error_string s.line_count 10 text]) ∧
    (signed_decimal text → (process_immediate ('#' :: text) s).2.errors = s.errors) := by
  have hbase : ∀ (w : word),
      ((if atoi text > 127 ∨ atoi text < -128
          then print_warning_int s.line_count 1 (atoi text) else id)
        (s.instructions_array_insert w)).errors = s.errors := by
    intro w
    split_ifs
    · rw [errors_print_warning_int, errors_inst_insert]
    · exact errors_inst_insert w s
  rw [process_immediate_eq]
  simp only [List.drop_succ_cons, List.drop_zero]
  refine ⟨is_number_iff text, ?_, ?_, ?_⟩
  · rw [← is_number_iff]
    simp
  · intro h
    rw [← is_number_iff] at h
    simp only [h, if_false]
    show (List.filter diag.is_error (_ ++ [diag.error_string s.line_count 10 text])) = _
    rw [List.filter_append]
    congr 1
    exact hbase _
  · intro h
    rw [← is_number_iff] at h
    simp only [h, if_true, id]
    exact hbase _

/-- An accepted call of `instructions_array_insert`. -/
theorem instructions_array_insert_accepted (w : word) (m : memory)
    (h : m.IC + m.DC ≤ MEMORY_SIZE) :
    instructions_array_insert w m =
      { m with instructions_array := m.instructions_array.set m.IC w, IC := m.IC + 1 } := by
  unfold instructions_array_insert
  rw [if_pos h]

/-- What `process_operand` records for an ABSOLUTE operand, the line number
being the one read back from the 10-bit field: for a token that is a legal
label, `process_operand` returns 1, makes exactly one call of
`instructions_array_insert`, with the word 0 (stored at index IC when the call
is accepted), puts the patch site (token, index IC, the line number,
`is_struct` 0) at the head of the second pass list and the record (token, index
IC) at the head of the externs list, and changes nothing else; the symbol table
is not consulted. The index and the line number are held in signed 10-bit
fields. -/
theorem absolute_operand_reserves_word (op : List Char) (is_input : Bool) (s : session)
    (hlegal : (is_legal_label op false s).1.1 = true) :
    (process_operand ABSOLUTE op is_input s).1 = true ∧
    (process_operand ABSOLUTE op is_input s).2.mem =
      instructions_array_insert ⟨0⟩ s.mem ∧
    (s.mem.IC + s.mem.DC ≤ MEMORY_SIZE → s.mem.IC < s.mem.instructions_array.length →
      (process_operand ABSOLUTE op is_input s).2.mem.instructions_array[s.mem.IC]? = some ⟨0⟩ ∧
      (process_operand ABSOLUTE op is_input s).2.mem.IC = s.mem.IC + 1) ∧
    (process_operand ABSOLUTE op is_input s).2.second_pass_list =
      { key := op, type := type.INST, index := wrap10 s.mem.IC,
        data := node_data.line { line_count := wrap10 s.line_count, is_struct := false } }
        :: s.second_pass_list ∧
    (process_operand ABSOLUTE op is_input s).2.externs_list =
      { key := op, type := type.INST, index := wrap10 s.mem.IC, data := node_data.null }
        :: s.externs_list ∧
    (process_operand ABSOLUTE op is_input s).2.entries_list = s.entries_list ∧
    (process_operand ABSOLUTE op is_input s).2.symbol_table = s.symbol_table ∧
    (process_operand ABSOLUTE op is_input s).2.intput_as = s.intput_as ∧
    (process_operand ABSOLUTE op is_input s).2.errors = s.errors ∧
    (s.mem.IC ≤ 511 → wrap10 s.mem.IC = s.mem.IC) ∧
    (-512 ≤ s.line_count ∧ s.line_count ≤ 511 → wrap10 s.line_count = s.line_count) := by
  rw [process_operand_absolute_eq op is_input s hlegal]
  refine ⟨rfl, rfl, ?_, rfl, rfl, rfl, rfl, rfl, ?_, ?_, ?_⟩
  · intro hacc hlen
    show (instructions_array_insert (word_assign 0) s.mem).instructions_array[s.mem.IC]? = _ ∧
      (instructions_array_insert (word_assign 0) s.mem).IC = _
    rw [instructions_array_insert_accepted _ _ hacc]
    simp only [List.getElem?_set_self hlen, and_true]
    rfl
  · rw [errors_inst_insert]
    rfl
  · intro h
    unfold wrap10
    omega
  · intro h
    unfold wrap10
    omega

set_option maxRecDepth 100000 in
/-- The operand `X` in the session a new file starts with. -/
theorem absolute_operand_reserves_word_witness :
    (process_operand ABSOLUTE ['X'] false (session_start 0 [])).2.externs_list =
      [{ key := ['X'], type := type.INST, index := 0, data := node_data.null }] :=
  (absolute_operand_reserves_word ['X'] false (session_start 0 [])
    (by decide)).2.2.2.2.1

set_option maxRecDepth 1000000 in
/-- C17: for a STRUCT operand `NAME.F`, F one of the digits 1 and 2 and NAME
a legal label, `process_struct` returns 1 and makes exactly two calls of
`instructions_array_insert`, with the word 0 and then the word `F << 2`
(stored at the indices IC and IC + 1 when the calls are accepted); it puts
one patch site (NAME, index IC, the line number, `is_struct` 1) at the head
of the second pass list and leaves the externs list, the entries list and
the symbol table alone. For the source `S: .struct 7,"hi"`, `lea S.2, r1`
the second pass then leaves `((C + 4 + 0) << 2) | 2` at index 1, and index 2
holds `2 << 2`. -/
theorem c17_struct_operand_two_words (name : List Char) (F : Char) (s : session)
    (hF : F = '1' ∨ F = '2')
    (hlegal : (is_legal_label name false s).1.1 = true) :
    (process_struct (name ++ ['.', F]) s).1 = true ∧
    (process_struct (name ++ ['.', F]) s).2.mem =
      instructions_array_insert ⟨if F = '1' then 4 else 8⟩
        (instructions_array_insert ⟨0⟩ s.mem) ∧
    (s.mem.IC + s.mem.DC + 1 ≤ MEMORY_SIZE → s.mem.IC + 1 < s.mem.instructions_array.length →
      (process_struct (name ++ ['.', F]) s).2.mem.instructions_array[s.mem.IC]? = some ⟨0⟩ ∧
      (process_struct (name ++ ['.', F]) s).2.mem.instructions_array[s.mem.IC + 1]? =
        some ⟨if F = '1' then 4 else 8⟩ ∧
      (process_struct (name ++ ['.', F]) s).2.mem.IC = s.mem.IC + 2) ∧
    (process_struct (name ++ ['.', F]) s).2.second_pass_list =
      { key := name, type := type.INST, index := wrap10 s.mem.IC,
        data := node_data.line { line_count := wrap10 s.line_count, is_struct := true } }
        :: s.second_pass_list ∧
    (process_struct (name ++ ['.', F]) s).2.externs_list = s.externs_list ∧
    (process_struct (name ++ ['.', F]) s).2.entries_list = s.entries_list ∧
    (process_struct (name ++ ['.', F]) s).2.symbol_table = s.symbol_table ∧
    (process_struct (name ++ ['.', F]) s).2.errors = s.errors ∧
    ((file_process 0 "S: .struct 7,\"hi\"\nlea S.2, r1\n".toList).status = true ∧
      (file_process 0 "S: .struct 7,\"hi\"\nlea S.2, r1\n".toList).final.mem.IC = 4 ∧
      (first_pass_process (session_start 0
        "S: .struct 7,\"hi\"\nlea S.2, r1\n".toList)).2.mem.instructions_array.take 4
        = [⟨428⟩, ⟨0⟩, ⟨8⟩, ⟨4⟩] ∧
      (file_process 0
        "S: .struct 7,\"hi\"\nlea S.2, r1\n".toList).final.mem.instructions_array.take 4
        = [⟨428⟩, word_assign (Int.lor (int_shl ((C : Int) + 4 + 0) 2) 2), ⟨8⟩, ⟨4⟩]) := by
  have htake : (name ++ ['.', F]).take ((name ++ ['.', F]).length - 2) = name := by
    simp
  have hlast : (name ++ ['.', F]).getD ((name ++ ['.', F]).length - 1) NUL = F := by
    simp [List.getD_eq_getElem?_getD, List.getElem_append_right]
  have hl : (is_legal_label ((name ++ ['.', F]).take ((name ++ ['.', F]).length - 2))
      false s).1.1 = true := by
    rw [htake]; exact hlegal
  have hword : word_assign (int_shl (((F.toNat : Nat) : Int) - (('0'.toNat : Nat) : Int)) 2)
      = ⟨if F = '1' then 4 else 8⟩ := by
    rcases hF with h | h <;> subst h <;> decide
  rw [process_struct_eq _ s hl, htake, hlast, hword]
  refine ⟨rfl, rfl, ?_, rfl, rfl, rfl, rfl, ?_, by decide⟩
  · intro hacc hlen
    show (instructions_array_insert _ (instructions_array_insert (word_assign 0)
        s.mem)).instructions_array[s.mem.IC]? = _ ∧
      (instructions_array_insert _ (instructions_array_insert (word_assign 0)
        s.mem)).instructions_array[s.mem.IC + 1]? = _ ∧
      (instructions_array_insert _ (instructions_array_insert (word_assign 0) s.mem)).IC = _
    rw [instructions_array_insert_accepted _ s.mem (by omega)]
    rw [instructions_array_insert_accepted _ _ (by simp only; omega)]
    simp only
    refine ⟨?_, ?_, ?_⟩
    · rw [List.getElem?_set_ne (by omega), List.getElem?_set_self (by omega)]
      rfl
    · rw [List.getElem?_set_self (by simp only [List.length_set]; omega)]
    · first | rfl | trivial
  · rw [errors_inst_insert, errors_inst_insert]
    rfl

set_option maxRecDepth 100000 in
/-- C17 at a concrete operand: the token `S.2` in the session a new file
starts with. -/
theorem c17_struct_operand_two_words_witness :
    (process_struct ['S', '.', '2'] (session_start 0 [])).2.mem =
      instructions_array_insert ⟨8⟩
        (instructions_array_insert ⟨0⟩ (session_start 0 []).mem) :=
  (c17_struct_operand_two_words ['S'] '2' (session_start 0 [])
    (Or.inr rfl) (by decide)).2.1

set_option maxRecDepth 1000000 in
/-- The registers as `initialize_symbol_table` loads them: the register with
code r is a REGS symbol whose input word is `r << 6` and whose output word is
`r << 2`, as 10-bit words. -/
theorem initial_registers : ∀ r : Nat, r < 9 →
    find_symbol initialize_symbol_table (register_name r) =
      some { key := register_name r, type := type.REGS, index := 0,
             data := node_data.regs { input_op := word_assign ((r : Int) * 64),
                                      output_op := word_assign ((r : Int) * 4) } } := by
  decide

set_option maxRecDepth 1000000 in
/-- C13: when both operand types are REGISTER, `store_operands` returns 1
and makes exactly one call of `instructions_array_insert`. For the registers
with codes `r_in` and `r_out` (0 to 7 for r0 to r7, 8 for PSW), found in the
symbol table as `initialize_symbol_table` loaded them, the 10-bit pattern of
the word is `r_in << 6 | r_out << 2`, with low two bits 00. For the source
`mov r3, r5` the code is `(0 << 6) | (3 << 4) | (3 << 2)` followed by
`(3 << 6) | (5 << 2)`. -/
theorem c13_two_registers_one_word (data : instruction) (r_in r_out : Nat) (s : session)
    (hin : r_in ≤ 8) (hout : r_out ≤ 8)
    (htable : ∀ r : Nat, r ≤ 8 → find_symbol s.symbol_table (register_name r) =
      find_symbol initialize_symbol_table (register_name r)) :
    store_operands data REGISTER REGISTER (register_name r_in) (register_name r_out) s =
      (true, s.instructions_array_insert
        (word_assign ((word_assign ((r_in : Int) * 64)).value + (r_out : Int) * 4))) ∧
    (store_operands data REGISTER REGISTER (register_name r_in) (register_name r_out) s).2.mem =
      instructions_array_insert
        (word_assign ((word_assign ((r_in : Int) * 64)).value + (r_out : Int) * 4)) s.mem ∧
    ((word_assign ((word_assign ((r_in : Int) * 64)).value + (r_out : Int) * 4)).value % 1024
      = ((Nat.lor (r_in <<< 6) (r_out <<< 2) : Nat) : Int)) ∧
    int_and (word_assign ((word_assign ((r_in : Int) * 64)).value
      + (r_out : Int) * 4)).value 3 = 0 ∧
    (r_in ≤ 7 → word_assign ((word_assign ((r_in : Int) * 64)).value + (r_out : Int) * 4)
      = ⟨(r_in : Int) * 64 + (r_out : Int) * 4⟩) ∧
    ((first_pass_process (session_start 0 "mov r3, r5\n".toList)).1 = true ∧
      (first_pass_process (session_start 0 "mov r3, r5\n".toList)).2.mem.IC = 2 ∧
      (first_pass_process (session_start 0
        "mov r3, r5\n".toList)).2.mem.instructions_array.take 2
        = [⟨((Nat.lor (Nat.lor (0 <<< 6) (3 <<< 4)) (3 <<< 2) : Nat) : Int)⟩,
           ⟨((Nat.lor (3 <<< 6) (5 <<< 2) : Nat) : Int)⟩]) := by
  have e1 : extract_regs_value s.symbol_table (register_name r_in) true
      = (word_assign ((r_in : Int) * 64)).value := by
    unfold extract_regs_value
    rw [htable r_in hin, initial_registers r_in (by omega)]
    rfl
  have e2 : extract_regs_value s.symbol_table (register_name r_out) false
      = (r_out : Int) * 4 := by
    unfold extract_regs_value
    rw [htable r_out hout, initial_registers r_out (by omega)]
    show wrap10 ((r_out : Int) * 4) = _
    unfold wrap10
    omega
  have key : store_operands data REGISTER REGISTER (register_name r_in) (register_name r_out) s =
      (true, s.instructions_array_insert
        (word_assign ((word_assign ((r_in : Int) * 64)).value + (r_out : Int) * 4))) := by
    unfold store_operands
    simp only [and_self, if_true, bind, M.bind, query, update, pure, M.pure, e1, e2, zero_add]
  have hpat : ∀ a : Nat, a < 9 → ∀ b : Nat, b < 9 →
      (word_assign ((word_assign ((a : Int) * 64)).value + (b : Int) * 4)).value % 1024
        = ((Nat.lor (a <<< 6) (b <<< 2) : Nat) : Int) := by
    decide
  refine ⟨key, ?_, hpat r_in (by omega) r_out (by omega), ?_, ?_, by decide⟩
  · rw [key]
    rfl
  · rw [int_and_3]
    show wrap10 (wrap10 ((r_in : Int) * 64) + (r_out : Int) * 4) % 4 = 0
    rw [wrap10_mod4]
    have := wrap10_mod4 ((r_in : Int) * 64)
    omega
  · intro h7
    show (⟨wrap10 (wrap10 ((r_in : Int) * 64) + (r_out : Int) * 4)⟩ : word) = _
    congr 1
    unfold wrap10
    omega

set_option maxRecDepth 1000000 in
/-- C13 at concrete registers: `PSW` and `r5` in the session a new file
starts with. -/
theorem c13_two_registers_one_word_witness :
    store_operands (construct_instruction 2 1 0) REGISTER REGISTER (register_name 8)
        (register_name 5) (session_start 0 []) =
      (true, (session_start 0 []).instructions_array_insert
        (word_assign ((word_assign (((8 : Nat) : Int) * 64)).value + ((5 : Nat) : Int) * 4))) :=
  (c13_two_registers_one_word (construct_instruction 2 1 0) 8 5 (session_start 0 [])
    (by decide) (by decide) (fun _ _ => rfl)).1

/-! ### Operand tokens -/

/-- The characters `getc_while` takes are the longest prefix that passes the
test, and after `ungetc` of the character that ended the loop the rest of the
input is unread. -/
theorem getc_while_takeWhile (p : Char → Bool) (eof : Bool) (l : List Char) :
    (getc_while p eof l).1 = l.takeWhile p ∧
    (ungetc (getc_while p eof l).2.1 (getc_while p eof l).2.2).buf = l.dropWhile p := by
  induction l with
  | nil => simp [getc_while, ungetc]
  | cons a rest ih =>
    unfold getc_while
    by_cases h : p a = true
    · simp only [h, if_true, List.takeWhile_cons_of_pos, List.dropWhile_cons_of_pos]
      exact ⟨by rw [ih.1], ih.2⟩
    · simp only [h, if_false, ungetc]
      simp [List.takeWhile_cons, List.dropWhile_cons, h]

/-- A string ends in the two characters a, b exactly when it has at least
two characters and these are its last two. -/
theorem ends_in_two (l : List Char) (a b d : Char) :
    [a, b] <:+ l ↔
      (2 ≤ l.length ∧ l.getD (l.length - 2) d = a ∧ l.getD (l.length - 1) d = b) := by
  constructor
  · rintro ⟨pre, rfl⟩
    refine ⟨by simp, ?_, ?_⟩
    · simp [List.getD_eq_getElem?_getD, List.getElem_append_right]
    · simp [List.getD_eq_getElem?_getD, List.getElem_append_right]
  · rintro ⟨hlen, ha, hb⟩
    refine ⟨l.take (l.length - 2), ?_⟩
    have hd : l.drop (l.length - 2) = [a, b] := by
      apply List.ext_getElem
      · simp only [List.length_drop, List.length_cons, List.length_nil]
        omega
      · intro i h1 h2
        simp only [List.length_cons, List.length_nil] at h2
        have hi : i = 0 ∨ i = 1 := by omega
        rcases hi with h | h
        · subst h
          simp only [List.getElem_drop, add_zero, List.getElem_cons_zero]
          rw [← ha, List.getD_eq_getElem?_getD, List.getElem?_eq_getElem (by omega)]
          rfl
        · subst h
          simp only [List.getElem_drop, List.getElem_cons_succ, List.getElem_cons_zero]
          rw [← hb, List.getD_eq_getElem?_getD, List.getElem?_eq_getElem (by omega)]
          simp only [Option.getD_some]
          congr 1
          omega
    rw [← hd]
    exact List.take_append_drop _ _

theorem hash_table_find_key (t : hash_table) (k : List Char) (n : node)
    (h : hash_table_find t k = some n) : n.key = k := by
  unfold hash_table_find linked_list_find at h
  have := List.find?_some h
  simpa using this

set_option maxRecDepth 1000000 in
theorem initial_regs_nodes : ∀ b ∈ initialize_symbol_table.array, ∀ n ∈ b,
    n.type = type.REGS → ∃ r : Nat, r < 9 ∧ n.key = register_name r := by
  decide

/-- The tests of `detect_operand_type` on the token stored in `dest`, in the
words of the classification. -/
theorem detect_operand_type_tests (table : hash_table) (dest : List Char) :
    (if dest.headD NUL = '#' then IMMEDIATE
     else if 2 ≤ dest.length ∧ dest.getD (dest.length - 2) NUL = '.' ∧
        (dest.getD (dest.length - 1) NUL = '1' ∨ dest.getD (dest.length - 1) NUL = '2')
       then STRUCT
     else if (find_symbol table dest).map (fun n => n.type) = some type.REGS then REGISTER
     else if dest.length > 0 then ABSOLUTE
     else (-1 : Int)) =
    (if dest.head? = some '#' then IMMEDIATE
     else if ['.', '1'] <:+ dest ∨ ['.', '2'] <:+ dest then STRUCT
     else if ∃ n, find_symbol table dest = some n ∧ n.type = type.REGS then REGISTER
     else if dest ≠ [] then ABSOLUTE
     else -1) := by
  have ha : dest.headD NUL = '#' ↔ dest.head? = some '#' := by
    cases dest with
    | nil => simp [NUL]
    | cons c rest => simp
  have hb : (2 ≤ dest.length ∧ dest.getD (dest.length - 2) NUL = '.' ∧
      (dest.getD (dest.length - 1) NUL = '1' ∨ dest.getD (dest.length - 1) NUL = '2')) ↔
      (['.', '1'] <:+ dest ∨ ['.', '2'] <:+ dest) := by
    rw [ends_in_two dest '.' '1' NUL, ends_in_two dest '.' '2' NUL]
    tauto
  have hc : (find_symbol table dest).map (fun n => n.type) = some type.REGS ↔
      ∃ n, find_symbol table dest = some n ∧ n.type = type.REGS := by
    cases find_symbol table dest <;> simp
  have hd : dest.length > 0 ↔ dest ≠ [] := by
    cases dest <;> simp
  by_cases h1 : dest.head? = some '#'
  · rw [if_pos h1, if_pos (ha.mpr h1)]
  · rw [if_neg h1, if_neg (fun h => h1 (ha.mp h))]
    by_cases h2 : ['.', '1'] <:+ dest ∨ ['.', '2'] <:+ dest
    · rw [if_pos h2, if_pos (hb.mpr h2)]
    · rw [if_neg h2, if_neg (fun h => h2 (hb.mp h))]
      by_cases h3 : ∃ n, find_symbol table dest = some n ∧ n.type = type.REGS
      · rw [if_pos h3, if_pos (hc.mpr h3)]
      · rw [if_neg h3, if_neg (fun h => h3 (hc.mp h))]
        by_cases h4 : dest ≠ []
        · rw [if_pos h4, if_pos (hd.mpr h4)]
        · rw [if_neg h4, if_neg (fun h => h4 (hd.mp h))]

set_option maxRecDepth 1000000 in
/-- C18: `detect_operand_type` takes the characters up to the next newline,
comma, blank, tab or the end of the file as the token, pushes the character
that ended it back, and classifies the token in this order: IMMEDIATE when
it starts with `#`; else STRUCT when it ends in `.1` or `.2`; else REGISTER
when it is the name of a REGS symbol of the symbol table; else ABSOLUTE when
it is not empty; else -1. The REGS symbols `initialize_symbol_table` loads
are exactly r0 .. r7 and PSW. -/
theorem c18_operand_type_priority (table : hash_table) (f : InFile) :
    (detect_operand_type table f).1.2 =
      f.buf.takeWhile (fun c => c ≠ '\n' ∧ c ≠ ',' ∧ c ≠ ' ' ∧ c ≠ '\t') ∧
    (detect_operand_type table f).2.buf =
      f.buf.dropWhile (fun c => c ≠ '\n' ∧ c ≠ ',' ∧ c ≠ ' ' ∧ c ≠ '\t') ∧
    (detect_operand_type table f).1.1 =
      (if (detect_operand_type table f).1.2.head? = some '#' then IMMEDIATE
       else if ['.', '1'] <:+ (detect_operand_type table f).1.2 ∨
          ['.', '2'] <:+ (detect_operand_type table f).1.2 then STRUCT
       else if ∃ n, find_symbol table (detect_operand_type table f).1.2 = some n ∧
          n.type = type.REGS then REGISTER
       else if (detect_operand_type table f).1.2 ≠ [] then ABSOLUTE
       else -1) ∧
    (IMMEDIATE = 0 ∧ ABSOLUTE = 1 ∧ STRUCT = 2 ∧ REGISTER = 3) ∧
    (∀ token : List Char,
      (∃ n, find_symbol initialize_symbol_table token = some n ∧ n.type = type.REGS) ↔
        ∃ r : Nat, r < 9 ∧ token = register_name r) := by
  have htw := getc_while_takeWhile
    (fun c => decide (c ≠ '\n' ∧ c ≠ ',' ∧ c ≠ ' ' ∧ c ≠ '\t')) f.eof f.buf
  refine ⟨htw.1, htw.2, ?_, ⟨rfl, rfl, rfl, rfl⟩, ?_⟩
  · exact detect_operand_type_tests table _
  · intro token
    constructor
    · rintro ⟨n, hf, ht⟩
      obtain ⟨b, hb, hn⟩ := hash_table_find_mem _ _ _ hf
      obtain ⟨r, hr, hk⟩ := initial_regs_nodes b hb n hn ht
      exact ⟨r, hr, by rw [← hk, hash_table_find_key _ _ _ hf]⟩
    · rintro ⟨r, hr, rfl⟩
      exact ⟨_, initial_registers r hr, rfl⟩

/-- C19: for operand modes among the four addressing types,
`check_operands_types` returns 1 exactly when the modes are allowed by the
masks of the instruction: an input mask 1 allows ABSOLUTE and STRUCT only,
an output mask 1 allows ABSOLUTE, STRUCT and REGISTER, and any other mask
allows every mode. Error 8 is printed exactly when the input mode is not
allowed, error 9 exactly when the output mode is not allowed (both when both
are not), and nothing else is printed. -/
theorem c19_modes_checked_against_masks (data : instruction) (op1_type op2_type : Int)
    (s : session)
    (h1 : op1_type = IMMEDIATE ∨ op1_type = ABSOLUTE ∨ op1_type = STRUCT ∨ op1_type = REGISTER)
    (h2 : op2_type = IMMEDIATE ∨ op2_type = ABSOLUTE ∨ op2_type = STRUCT ∨ op2_type = REGISTER) :
    ((check_operands_types data op1_type op2_type s).1 = true ↔
      ((data.input = 1 → op1_type = ABSOLUTE ∨ op1_type = STRUCT) ∧
       (data.output = 1 →
          op2_type = ABSOLUTE ∨ op2_type = STRUCT ∨ op2_type = REGISTER))) ∧
    (check_operands_types data op1_type op2_type s).2.stderr =
      s.stderr ++
        (if data.input = 1 → op1_type = ABSOLUTE ∨ op1_type = STRUCT then []
         else [diag.error s.line_count 8]) ++
        (if data.output = 1 → op2_type = ABSOLUTE ∨ op2_type = STRUCT ∨ op2_type = REGISTER
         then [] else [diag.error s.line_count 9]) ∧
    (check_operands_types data op1_type op2_type s).2.mem = s.mem ∧
    (check_operands_types data op1_type op2_type s).2.symbol_table = s.symbol_table := by
  have hI : (data.input = 1 ∧ (op1_type = IMMEDIATE ∨ op1_type = REGISTER)) ↔
      ¬ (data.input = 1 → op1_type = ABSOLUTE ∨ op1_type = STRUCT) := by
    have d1 : IMMEDIATE ≠ ABSOLUTE ∧ IMMEDIATE ≠ STRUCT ∧ REGISTER ≠ ABSOLUTE ∧
      REGISTER ≠ STRUCT := by decide
    constructor
    · rintro ⟨hm, h | h⟩ hall
      · rcases hall hm with g | g
        · exact d1.1 (h.symm.trans g)
        · exact d1.2.1 (h.symm.trans g)
      · rcases hall hm with g | g
        · exact d1.2.2.1 (h.symm.trans g)
        · exact d1.2.2.2 (h.symm.trans g)
    · intro hn
      by_cases hm : data.input = 1
      · refine ⟨hm, ?_⟩
        rcases h1 with h | h | h | h
        · exact Or.inl h
        · exact absurd (fun _ => Or.inl h) hn
        · exact absurd (fun _ => Or.inr h) hn
        · exact Or.inr h
      · exact absurd (fun h => absurd h hm) hn
  have hO : (data.output = 1 ∧ op2_type = IMMEDIATE) ↔
      ¬ (data.output = 1 →
        op2_type = ABSOLUTE ∨ op2_type = STRUCT ∨ op2_type = REGISTER) := by
    have d1 : IMMEDIATE ≠ ABSOLUTE ∧ IMMEDIATE ≠ STRUCT ∧ IMMEDIATE ≠ REGISTER := by decide
    constructor
    · rintro ⟨hm, h⟩ hall
      rcases hall hm with g | g | g
      · exact d1.1 (h.symm.trans g)
      · exact d1.2.1 (h.symm.trans g)
      · exact d1.2.2 (h.symm.trans g)
    · intro hn
      by_cases hm : data.output = 1
      · refine ⟨hm, ?_⟩
        rcases h2 with h | h | h | h
        · exact h
        · exact absurd (fun _ => Or.inl h) hn
        · exact absurd (fun _ => Or.inr (Or.inl h)) hn
        · exact absurd (fun _ => Or.inr (Or.inr h)) hn
      · exact absurd (fun h => absurd h hm) hn
  by_cases e1 : data.input = 1 ∧ (op1_type = IMMEDIATE ∨ op1_type = REGISTER)
  · have n1 := hI.mp e1
    by_cases e2 : data.output = 1 ∧ op2_type = IMMEDIATE
    · have n2 := hO.mp e2
      have r1 : (check_operands_types data op1_type op2_type s).1 = false := by
        simp [check_operands_types, e1, e2, bind, M.bind, query, update, pure, M.pure, on_input]
      have r2 : (check_operands_types data op1_type op2_type s).2.stderr =
          s.stderr ++ [diag.error s.line_count 8] ++ [diag.error s.line_count 9] := by
        simp [check_operands_types, e1, e2, bind, M.bind, query, update, pure, M.pure, on_input,
          print_error]
      have r3 : (check_operands_types data op1_type op2_type s).2.mem = s.mem := by
        simp [check_operands_types, e1, e2, bind, M.bind, query, update, pure, M.pure, on_input,
          print_error]
      have r4 : (check_operands_types data op1_type op2_type s).2.symbol_table
          = s.symbol_table := by
        simp [check_operands_types, e1, e2, bind, M.bind, query, update, pure, M.pure, on_input,
          print_error]
      rw [r1, r2, if_neg n1, if_neg n2]
      exact ⟨⟨fun h => absurd h (by decide), fun h => absurd h.1 n1⟩, rfl, r3, r4⟩
    · have n2 : (data.output = 1 →
          op2_type = ABSOLUTE ∨ op2_type = STRUCT ∨ op2_type = REGISTER) := by
        by_contra hc
        exact e2 (hO.mpr hc)
      have r1 : (check_operands_types data op1_type op2_type s).1 = false := by
        simp [check_operands_types, e1, e2, bind, M.bind, query, update, pure, M.pure, on_input]
      have r2 : (check_operands_types data op1_type op2_type s).2.stderr =
          s.stderr ++ [diag.error s.line_count 8] ++ [] := by
        simp [check_operands_types, e1, e2, bind, M.bind, query, update, pure, M.pure, on_input,
          print_error]
      have r3 : (check_operands_types data op1_type op2_type s).2.mem = s.mem := by
        simp [check_operands_types, e1, e2, bind, M.bind, query, update, pure, M.pure, on_input,
          print_error]
      have r4 : (check_operands_types data op1_type op2_type s).2.symbol_table
          = s.symbol_table := by
        simp [check_operands_types, e1, e2, bind, M.bind, query, update, pure, M.pure, on_input,
          print_error]
      rw [r1, r2, if_neg n1, if_pos n2]
      exact ⟨⟨fun h => absurd h (by decide), fun h => absurd h.1 n1⟩, rfl, r3, r4⟩
  · have n1 : (data.input = 1 → op1_type = ABSOLUTE ∨ op1_type = STRUCT) := by
      by_contra hc
      exact e1 (hI.mpr hc)
    by_cases e2 : data.output = 1 ∧ op2_type = IMMEDIATE
    · have n2 := hO.mp e2
      have r1 : (check_operands_types data op1_type op2_type s).1 = false := by
        simp [check_operands_types, e1, e2, bind, M.bind, query, update, pure, M.pure, on_input]
      have r2 : (check_operands_types data op1_type op2_type s).2.stderr =
          s.stderr ++ [] ++ [diag.error s.line_count 9] := by
        simp [check_operands_types, e1, e2, bind, M.bind, query, update, pure, M.pure, on_input,
          print_error]
      have r3 : (check_operands_types data op1_type op2_type s).2.mem = s.mem := by
        simp [check_operands_types, e1, e2, bind, M.bind, query, update, pure, M.pure, on_input,
          print_error]
      have r4 : (check_operands_types data op1_type op2_type s).2.symbol_table
          = s.symbol_table := by
        simp [check_operands_types, e1, e2, bind, M.bind, query, update, pure, M.pure, on_input,
          print_error]
      rw [r1, r2, if_pos n1, if_neg n2]
      exact ⟨⟨fun h => absurd h (by decide), fun h => absurd h.2 n2⟩, rfl, r3, r4⟩
    · have n2 : (data.output = 1 →
          op2_type = ABSOLUTE ∨ op2_type = STRUCT ∨ op2_type = REGISTER) := by
        by_contra hc
        exact e2 (hO.mpr hc)
      have r0 : check_operands_types data op1_type op2_type s = (true, s) := by
        simp [check_operands_types, e1, e2, bind, M.bind, query, update, pure, M.pure]
      rw [r0, if_pos n1, if_pos n2]
      exact ⟨⟨fun _ => ⟨n1, n2⟩, fun _ => rfl⟩, by simp, rfl, rfl⟩

/-- C19 at a concrete instruction: `lea` (masks 1 and 1) with a STRUCT input
and a REGISTER output is accepted. -/
theorem c19_modes_checked_against_masks_witness :
    (check_operands_types (construct_instruction 1 1 6) STRUCT REGISTER
      (session_start 0 [])).1 = true :=
  (c19_modes_checked_against_masks (construct_instruction 1 1 6) STRUCT REGISTER
    (session_start 0 []) (Or.inr (Or.inr (Or.inl rfl))) (Or.inr (Or.inr (Or.inr rfl)))).1.mpr
    ⟨fun _ => Or.inr rfl, fun _ => Or.inr (Or.inr rfl)⟩

/-! ### The operands of an instruction line -/

theorem bind_post {α β : Type} {m : M α} {k : α → M β} (P : α → session → Prop)
    (Q : β × session → Prop) (s : session) (hm : P (m s).1 (m s).2)
    (hk : ∀ a s1, P a s1 → Q (k a s1)) : Q ((m >>= k) s) := hk _ _ hm

theorem getc_while_stop (p : Char → Bool) (eof : Bool) (l : List Char) :
    (getc_while p eof l).2.1 = (l.dropWhile p).head? := by
  induction l with
  | nil => simp [getc_while]
  | cons a rest ih =>
    unfold getc_while
    by_cases h : p a = true
    · simp only [h, if_true, List.dropWhile_cons_of_pos]
      exact ih
    · simp [List.dropWhile_cons, h]

/-- Function `skip_whites` in terms of the unread text. -/
theorem skip_whites_text (f : InFile) :
    (skip_whites f).1 = (f.buf.dropWhile is_blank).head? ∧
    (skip_whites f).2.buf = f.buf.dropWhile is_blank :=
  ⟨getc_while_stop _ _ _, (getc_while_takeWhile _ _ _).2⟩

/-- Function `detect_operand_type` in terms of the unread text; the type is
-1 exactly for an empty token when the symbol table has no REGS symbol with
the empty name. -/
theorem detect_operand_type_text (t : hash_table) (f : InFile)
    (ht : find_symbol t [] = none) :
    (detect_operand_type t f).1.2 = f.buf.takeWhile in_operand ∧
    (detect_operand_type t f).2.buf = f.buf.dropWhile in_operand ∧
    ((detect_operand_type t f).1.1 = -1 ↔ f.buf.takeWhile in_operand = []) := by
  have htw := getc_while_takeWhile in_operand f.eof f.buf
  have h1 : (detect_operand_type t f).1.2 = f.buf.takeWhile in_operand := htw.1
  refine ⟨h1, htw.2, ?_⟩
  have ht2 : (detect_operand_type t f).1.1 = _ := detect_operand_type_tests t
    (getc_while in_operand f.eof f.buf).1
  rw [ht2, htw.1]
  constructor
  · intro h
    by_contra hne
    split_ifs at h <;> exact absurd h (by decide)
  · intro he
    rw [he]
    have hs1 : ¬ ['.', '1'] <:+ ([] : List Char) := by simp
    have hs2 : ¬ ['.', '2'] <:+ ([] : List Char) := by simp
    simp [ht, hs1, hs2]

/-- Function `detect_operands_error_check` prints at most one error: 7, else
5, else 6. -/
theorem detect_operands_error_check_eq (a b : Int) (c : Option Char) (comma : Bool)
    (s : session) :
    detect_operands_error_check a b c comma s =
      ((), { s with stderr := s.stderr ++
        (if a = -1 ∨ b = -1 then [diag.error s.line_count 7]
         else if comma = false then [diag.error s.line_count 5]
         else if c ≠ some '\n' ∧ c ≠ none then [diag.error s.line_count 6]
         else []) }) := by
  unfold detect_operands_error_check
  simp only [bind, M.bind, query, ite_apply]
  by_cases h1 : a = -1 ∨ b = -1
  · simp only [h1, if_true]
    rfl
  · by_cases h2 : comma = false
    · simp only [h1, h2, if_false, if_true, Bool.false_eq_true, not_false_eq_true]
      rfl
    · have h2b : comma = true := by simpa using h2
      by_cases h3 : c ≠ some '\n' ∧ c ≠ none
      · simp only [h1, h2b, if_false, not_true_eq_false, Bool.true_eq_false]
        rw [if_pos h3, if_pos h3]
        rfl
      · simp only [h1, h2b, if_false, not_true_eq_false, Bool.true_eq_false]
        rw [if_neg h3, if_neg h3]
        simp [pure, M.pure]

/-- What `detect_operands_and_types` returns and prints, in terms of the
rest of the line. -/
theorem detect_operands_and_types_spec (data : instruction) (s : session)
    (ht : find_symbol s.symbol_table [] = none) :
    operands_outcome data s (detect_operands_and_types data s) := by
  unfold detect_operands_and_types
  refine bind_post (fun t s1 => t = s.symbol_table ∧ s1 = s) (operands_outcome data s) s ?_ ?_
  · exact ⟨rfl, rfl⟩
  rintro t s0 ⟨rfl, rfl⟩
  -- the first operand
  refine bind_post
    (fun (d1 : Int × List Char) s1 =>
      (∃ f1, s1 = { s0 with intput_as := f1 } ∧
        f1.buf = rest1 (data.input ≠ 0) s0.intput_as.buf) ∧
      d1.2 = operand1 (data.input ≠ 0) s0.intput_as.buf ∧
      (d1.1 = -1 ↔ (data.input ≠ 0 ∧ operand1 (data.input ≠ 0) s0.intput_as.buf = [])))
    (operands_outcome data s0) s0 ?_ ?_
  · by_cases hi : data.input ≠ 0
    · obtain ⟨a1, a2, a3⟩ := detect_operand_type_text s0.symbol_table s0.intput_as ht
      rw [if_pos hi]
      simp only [operand1, rest1, ne_eq, hi, not_false_eq_true, decide_True, if_true, true_and]
      rw [apply_on_input]
      exact ⟨⟨_, rfl, a2⟩, a1, a3⟩
    · rw [if_neg hi]
      simp only [operand1, rest1, hi, decide_False, false_and, iff_false,
        Bool.false_eq_true, if_false]
      rw [apply_pure]
      exact ⟨⟨_, rfl, rfl⟩, rfl, (by decide : ¬ (0 : Int) = -1)⟩
  rintro d1 s1 ⟨⟨f1, rfl, hf1⟩, hd1, hm1⟩
  -- the comma
  refine bind_post
    (fun (c : Bool) s2 =>
      (∃ f2, s2 = { s0 with intput_as := f2 } ∧
        f2.buf = rest2 (data.input ≠ 0) (data.output ≠ 0) s0.intput_as.buf) ∧
      c = comma_follows (data.input ≠ 0) (data.output ≠ 0) s0.intput_as.buf)
    (operands_outcome data s0) _ ?_ ?_
  · by_cases h2 : data.input ≠ 0 ∧ data.output ≠ 0
    · have hdi : decide (data.input ≠ 0) = true := decide_eq_true h2.1
      have hdo : decide (data.output ≠ 0) = true := decide_eq_true h2.2
      rw [if_pos h2]
      rw [hdi] at hf1
      rw [hdi, hdo]
      have hw := skip_whites_text f1
      rw [hf1] at hw
      unfold rest2 comma_follows
      simp only [eq_self, and_self, if_true]
      rw [apply_bind, apply_on_input, apply_bind, apply_on_input]
      simp only [peek_next_char_eq, skip_whites_twice]
      by_cases hc : (skip_whites f1).1 = some ','
      · rw [if_pos hc]
        rw [apply_bind, apply_on_input, apply_bind, apply_on_input, apply_pure]
        have hc2 := hc
        rw [hw.1] at hc2
        rw [if_pos hc2]
        refine ⟨⟨_, rfl, ?_⟩, (decide_eq_true hc2).symm⟩
        simp only
        rw [(skip_whites_text _).2]
        congr 1
        have hb := hw.2
        unfold getc
        cases hl : (skip_whites f1).2.buf with
        | nil =>
          rw [hl] at hb
          rw [← hb]
          rfl
        | cons a rest =>
          rw [hl] at hb
          rw [← hb]
          rfl
      · rw [if_neg hc]
        rw [apply_pure]
        have hc2 := hc
        rw [hw.1] at hc2
        rw [if_neg hc2]
        exact ⟨⟨_, rfl, hw.2⟩, (decide_eq_false hc2).symm⟩
    · have hcf : comma_follows (decide (data.input ≠ 0)) (decide (data.output ≠ 0))
          s0.intput_as.buf = true := by
        unfold comma_follows
        simp only [decide_eq_true_eq]
        rw [if_neg h2]
      have hr2 : rest2 (decide (data.input ≠ 0)) (decide (data.output ≠ 0)) s0.intput_as.buf
          = rest1 (decide (data.input ≠ 0)) s0.intput_as.buf := by
        unfold rest2
        simp only [decide_eq_true_eq]
        rw [if_neg h2]
      rw [if_neg h2, apply_pure, hcf, hr2]
      exact ⟨⟨_, rfl, hf1⟩, rfl⟩
  rintro comma s2 ⟨⟨f2, rfl, hf2⟩, hcomma⟩
  -- the second operand
  refine bind_post
    (fun (d2 : Int × List Char) s3 =>
      (∃ f3, s3 = { s0 with intput_as := f3 } ∧
        f3.buf = (if data.output ≠ 0 then
            (rest2 (data.input ≠ 0) (data.output ≠ 0) s0.intput_as.buf).dropWhile in_operand
          else rest2 (data.input ≠ 0) (data.output ≠ 0) s0.intput_as.buf)) ∧
      d2.2 = operand2 (data.input ≠ 0) (data.output ≠ 0) s0.intput_as.buf ∧
      (d2.1 = -1 ↔
        (data.output ≠ 0 ∧ operand2 (data.input ≠ 0) (data.output ≠ 0) s0.intput_as.buf = [])))
    (operands_outcome data s0) _ ?_ ?_
  · by_cases ho : data.output ≠ 0
    · obtain ⟨a1, a2, a3⟩ := detect_operand_type_text s0.symbol_table f2 ht
      have hdo : decide (data.output ≠ 0) = true := decide_eq_true ho
      rw [if_pos ho, if_pos ho]
      unfold operand2
      rw [hdo] at hf2 ⊢
      rw [if_pos rfl, ← hf2]
      rw [apply_on_input]
      exact ⟨⟨_, rfl, a2⟩, a1, by rw [a3]; exact ⟨fun h => ⟨ho, h⟩, fun h => h.2⟩⟩
    · have hdo : decide (data.output ≠ 0) = false := decide_eq_false ho
      rw [if_neg ho, if_neg ho]
      unfold operand2
      rw [hdo] at hf2 ⊢
      rw [if_neg Bool.false_ne_true, apply_pure]
      exact ⟨⟨_, rfl, hf2⟩, rfl,
        ⟨fun h => absurd h (by decide : ¬ (0 : Int) = -1), fun h => absurd h.1 ho⟩⟩
  rintro d2 s3 ⟨⟨f3, rfl, hf3⟩, hd2, hm2⟩
  -- the end of the line
  have hc : (skip_whites f3).1 =
      next_after_operands (data.input ≠ 0) (data.output ≠ 0) s0.intput_as.buf := by
    rw [(skip_whites_text f3).1, hf3]
    unfold next_after_operands
    by_cases ho : data.output ≠ 0
    · rw [if_pos ho, if_pos (decide_eq_true ho)]
    · rw [if_neg ho, if_neg (by rw [decide_eq_false ho]; exact Bool.false_ne_true)]
  have hE : operands_error data s0.intput_as.buf =
      (if d1.1 = -1 ∨ d2.1 = -1 then some 7
       else if comma = false then some 5
       else if (skip_whites f3).1 ≠ some '\n' ∧ (skip_whites f3).1 ≠ none then some 6
       else none) := by
    unfold operands_error operand_missing
    rw [hc, hcomma]
    simp only [decide_eq_true_eq, hm1, hm2]
  have hlist : ∀ (A B C : Prop) [Decidable A] [Decidable B] [Decidable C] (l : Int),
      (match (if A then some 7 else if B then some 5 else if C then some 6 else none : Option Nat)
        with
        | some e => [diag.error l e]
        | none => []) =
      (if A then [diag.error l 7] else if B then [diag.error l 5]
       else if C then [diag.error l 6] else []) := by
    intro A B C _ _ _ l
    split_ifs <;> rfl
  unfold operands_outcome
  rw [hE, hlist]
  cases comma with
  | false =>
    rw [if_neg Bool.false_ne_true, apply_bind, detect_operands_error_check_eq, apply_pure]
    refine ⟨hd1, hd2, ?_, ?_, rfl, rfl, rfl, rfl, rfl, rfl⟩
    · by_cases hA : d1.1 = -1 ∨ d2.1 = -1
      · simp [hA]
      · simp [hA]
    · by_cases hA : d1.1 = -1 ∨ d2.1 = -1
      · simp only [if_pos hA]
      · simp only [if_neg hA, if_true]
  | true =>
    rw [if_pos rfl, apply_bind, apply_on_input]
    simp only [peek_next_char_eq]
    by_cases hok : ((skip_whites f3).1 = some '\n' ∨ (skip_whites f3).1 = none) ∧
        d1.1 ≠ -1 ∧ d2.1 ≠ -1
    · rw [if_pos hok, apply_bind, apply_on_input, apply_pure]
      have hA : ¬ (d1.1 = -1 ∨ d2.1 = -1) := fun h => h.elim hok.2.1 hok.2.2
      have hC : ¬ ((skip_whites f3).1 ≠ some '\n' ∧ (skip_whites f3).1 ≠ none) :=
        fun h => hok.1.elim h.1 h.2
      refine ⟨hd1, hd2, ?_, ?_, rfl, rfl, rfl, rfl, rfl, rfl⟩
      · simp [hA, hC]
      · simp [hA, hC]
    · rw [if_neg hok, apply_bind, detect_operands_error_check_eq, apply_pure]
      refine ⟨hd1, hd2, ?_, ?_, rfl, rfl, rfl, rfl, rfl, rfl⟩
      · by_cases hA : d1.1 = -1 ∨ d2.1 = -1
        · simp [hA]
        · have hC : (skip_whites f3).1 ≠ some '\n' ∧ (skip_whites f3).1 ≠ none := by
            by_contra hC
            apply hok
            refine ⟨?_, fun h => hA (Or.inl h), fun h => hA (Or.inr h)⟩
            by_contra hn
            exact hC ⟨fun h => hn (Or.inl h), fun h => hn (Or.inr h)⟩
          simp [hA, hC]
      · rfl

set_option maxRecDepth 1000000 in
/-- C20, the claim at a concrete input: the line `mov r1` names an
instruction that takes two operands and no comma follows its first operand,
yet the call fails with error 7 alone and error 5 is not printed; the line
`mov r1 r2 r3` has no comma after the first operand and text after the last
one, and fails with error 5 alone, error 6 is not printed. -/
theorem c20_one_error_per_line_not_each :
    (construct_instruction 2 1 0).input ≠ 0 ∧ (construct_instruction 2 1 0).output ≠ 0 ∧
    comma_follows true true "r1\n".toList = false ∧
    (detect_operands_and_types (construct_instruction 2 1 0)
      { session_start 0 "r1\n".toList with line_count := 1 }).1.status = false ∧
    (detect_operands_and_types (construct_instruction 2 1 0)
      { session_start 0 "r1\n".toList with line_count := 1 }).2.stderr = [diag.error 1 7] ∧
    (first_pass_process (session_start 0 "mov r1\n".toList)).2.stderr = [diag.error 1 7] ∧
    comma_follows true true "r1 r2 r3\n".toList = false ∧
    next_after_operands true true "r1 r2 r3\n".toList = some 'r' ∧
    (first_pass_process (session_start 0 "mov r1 r2 r3\n".toList)).2.stderr
      = [diag.error 1 5] := by
  decide

/-- C20, as the code has it: with `line` the unread rest of the line at the
call and no symbol with the empty name in the table, `detect_operands_and_types`
tests three conditions in this order and prints exactly the error of the
first that holds: error 7 when an operand the instruction takes is an empty
token; otherwise error 5 when the instruction takes two operands and the
first character after the blanks that follow the first operand is no comma;
otherwise error 6 when the first character after the blanks that follow the
last operand is neither a newline nor the end of the input. It returns 1
exactly when none of the three holds, and then prints nothing. The tokens it
hands back are the operands read, and memory and symbol table are untouched. -/
theorem c20_operand_errors_in_order (data : instruction) (s : session)
    (ht : find_symbol s.symbol_table [] = none) :
    ((detect_operands_and_types data s).1.status = true ↔
      (operand_missing data s.intput_as.buf = false ∧
       comma_follows (data.input ≠ 0) (data.output ≠ 0) s.intput_as.buf = true ∧
       (next_after_operands (data.input ≠ 0) (data.output ≠ 0) s.intput_as.buf = some '\n' ∨
        next_after_operands (data.input ≠ 0) (data.output ≠ 0) s.intput_as.buf = none))) ∧
    ((detect_operands_and_types data s).1.status = true →
      (detect_operands_and_types data s).2.stderr = s.stderr) ∧
    (operand_missing data s.intput_as.buf = true →
      (detect_operands_and_types data s).2.stderr = s.stderr ++ [diag.error s.line_count 7]) ∧
    (operand_missing data s.intput_as.buf = false →
      comma_follows (data.input ≠ 0) (data.output ≠ 0) s.intput_as.buf = false →
      (detect_operands_and_types data s).2.stderr = s.stderr ++ [diag.error s.line_count 5]) ∧
    (operand_missing data s.intput_as.buf = false →
      comma_follows (data.input ≠ 0) (data.output ≠ 0) s.intput_as.buf = true →
      next_after_operands (data.input ≠ 0) (data.output ≠ 0) s.intput_as.buf ≠ some '\n' →
      next_after_operands (data.input ≠ 0) (data.output ≠ 0) s.intput_as.buf ≠ none →
      (detect_operands_and_types data s).2.stderr = s.stderr ++ [diag.error s.line_count 6]) ∧
    (detect_operands_and_types data s).1.op1 = operand1 (data.input ≠ 0) s.intput_as.buf ∧
    (detect_operands_and_types data s).1.op2 =
      operand2 (data.input ≠ 0) (data.output ≠ 0) s.intput_as.buf ∧
    (detect_operands_and_types data s).2.mem = s.mem ∧
    (detect_operands_and_types data s).2.symbol_table = s.symbol_table := by
  obtain ⟨h1, h2, h3, h4, h5, h6, -, -, -, -⟩ := detect_operands_and_types_spec data s ht
  have hE : operands_error data s.intput_as.buf =
      (if operand_missing data s.intput_as.buf then some 7
       else if comma_follows (data.input ≠ 0) (data.output ≠ 0) s.intput_as.buf = false
         then some 5
       else if next_after_operands (data.input ≠ 0) (data.output ≠ 0) s.intput_as.buf
             ≠ some '\n' ∧
           next_after_operands (data.input ≠ 0) (data.output ≠ 0) s.intput_as.buf ≠ none
         then some 6
       else none) := rfl
  rw [hE] at h3 h4
  refine ⟨?_, ?_, ?_, ?_, ?_, h1, h2, h5, h6⟩
  · rw [h3]
    constructor
    · intro h
      split_ifs at h with a b c
      refine ⟨by simpa using a, by simpa using b, ?_⟩
      by_contra hn
      exact c ⟨fun x => hn (Or.inl x), fun x => hn (Or.inr x)⟩
    · rintro ⟨a, b, c⟩
      rw [if_neg (by rw [a]; exact Bool.false_ne_true), if_neg (by rw [b]; decide),
        if_neg (fun x => c.elim x.1 x.2)]
  · intro h
    rw [h3] at h
    rw [h4, h]
    exact List.append_nil _
  · intro a
    rw [h4, if_pos a]
  · intro a b
    rw [h4, if_neg (by rw [a]; exact Bool.false_ne_true), if_pos b]
  · intro a b c d
    rw [h4, if_neg (by rw [a]; exact Bool.false_ne_true), if_neg (by rw [b]; decide),
      if_pos ⟨c, d⟩]

set_option maxRecDepth 1000000 in
/-- C20, the amended statement at the line `r1, r2 x` of a `mov`: both
operands are there and the comma is, text follows the last operand, and
error 6 is the one error printed. -/
theorem c20_operand_errors_in_order_witness :
    find_symbol (session_start 0 "r1, r2 x\n".toList).symbol_table [] = none ∧
    operand_missing (construct_instruction 2 1 0) "r1, r2 x\n".toList = false ∧
    comma_follows true true "r1, r2 x\n".toList = true ∧
    next_after_operands true true "r1, r2 x\n".toList = some 'x' ∧
    (detect_operands_and_types (construct_instruction 2 1 0)
      (session_start 0 "r1, r2 x\n".toList)).2.stderr = [diag.error 0 6] :=
  ⟨by decide, by decide, by decide, by decide,
   (c20_operand_errors_in_order (construct_instruction 2 1 0)
      (session_start 0 "r1, r2 x\n".toList) (by decide)).2.2.2.2.1
      (by decide) (by decide) (by decide) (by decide)⟩

/-! ### Words appended by an instruction line -/

theorem mem_kept_pure {α : Type} (a : α) : mem_kept (pure a : M α) := fun _ => rfl

theorem mem_kept_query {α : Type} (f : session → α) : mem_kept (query f) := fun _ => rfl

theorem mem_kept_on_input {α : Type} (g : InFile → α × InFile) : mem_kept (on_input g) :=
  fun _ => rfl

theorem mem_kept_update (f : session → session) (h : ∀ s, (f s).mem = s.mem) :
    mem_kept (update f) := fun s => h s

theorem mem_kept_bind {α β : Type} {m : M α} {k : α → M β} (hm : mem_kept m)
    (hk : ∀ a, mem_kept (k a)) : mem_kept (m >>= k) :=
  fun s => (hk _ _).trans (hm s)

theorem mem_kept_ite {α : Type} (c : Prop) [Decidable c] {m1 m2 : M α} (h1 : mem_kept m1)
    (h2 : mem_kept m2) : mem_kept (if c then m1 else m2) := by
  split_ifs
  · exact h1
  · exact h2

theorem mem_kept_print_error (l : Int) (e : Nat) : mem_kept (update (print_error l e)) :=
  fun _ => rfl

section
attribute [local irreducible] M.bind M.pure query update on_input

theorem detect_operands_error_check_mem (a b : Int) (c : Option Char) (comma : Bool) :
    mem_kept (detect_operands_error_check a b c comma) := by
  unfold detect_operands_error_check
  repeat (first
    | exact mem_kept_pure _
    | exact mem_kept_query _
    | exact mem_kept_on_input _
    | exact mem_kept_print_error _ _
    | apply mem_kept_ite
    | apply mem_kept_bind
    | intro _)

theorem detect_operands_and_types_mem (data : instruction) :
    mem_kept (detect_operands_and_types data) := by
  unfold detect_operands_and_types
  repeat (first
    | exact mem_kept_pure _
    | exact mem_kept_query _
    | exact mem_kept_on_input _
    | exact detect_operands_error_check_mem _ _ _ _
    | apply mem_kept_ite
    | apply mem_kept_bind
    | intro _)

theorem check_operands_types_mem (data : instruction) (a b : Int) :
    mem_kept (check_operands_types data a b) := by
  unfold check_operands_types
  repeat (first
    | exact mem_kept_pure _
    | exact mem_kept_query _
    | exact mem_kept_on_input _
    | exact mem_kept_print_error _ _
    | apply mem_kept_ite
    | apply mem_kept_bind
    | intro _)

end

theorem append_words_nil (m : memory) : append_words [] m = m := rfl

theorem append_words_cons (w : word) (ws : List word) (m : memory) :
    append_words (w :: ws) m = append_words ws (instructions_array_insert w m) := rfl

theorem append_words_append (ws1 ws2 : List word) (m : memory) :
    append_words (ws1 ++ ws2) m = append_words ws2 (append_words ws1 m) := by
  unfold append_words
  rw [List.foldl_append]

/-- Words appended while the guard of the memory manager lets them in: IC
grows by their number, DC and the data array stay, and the words in front of
the old IC stay. -/
theorem append_words_accepted (ws : List word) (m : memory)
    (h : m.IC + m.DC + ws.length ≤ MEMORY_SIZE + 1) :
    (append_words ws m).IC = m.IC + ws.length ∧
    (append_words ws m).DC = m.DC ∧
    (append_words ws m).data_array = m.data_array ∧
    (append_words ws m).memory_full_flag = m.memory_full_flag ∧
    (append_words ws m).instructions_array.length = m.instructions_array.length ∧
    ∀ i, i < m.IC → (append_words ws m).instructions_array[i]? = m.instructions_array[i]? := by
  induction ws generalizing m with
  | nil => exact ⟨rfl, rfl, rfl, rfl, rfl, fun _ _ => rfl⟩
  | cons w ws ih =>
    rw [append_words_cons]
    have hacc : m.IC + m.DC ≤ MEMORY_SIZE := by
      simp only [List.length_cons] at h
      omega
    rw [instructions_array_insert_accepted w m hacc]
    have h2 := ih { m with instructions_array := m.instructions_array.set m.IC w,
                           IC := m.IC + 1 } (by
      simp only [List.length_cons] at h
      simp only
      omega)
    simp only [List.length_set] at h2
    obtain ⟨a, b, c, d, e, f⟩ := h2
    refine ⟨by rw [a, List.length_cons]; omega, b, c, d, e, fun i hi => ?_⟩
    rw [f i (by omega)]
    exact List.getElem?_set_ne (by omega)

/-- Function `process_operand` on an ABSOLUTE operand that is no legal
label. -/
theorem process_operand_absolute_fail (op : List Char) (is_input : Bool) (s : session)
    (h : (is_legal_label op false s).1.1 = false) :
    (process_operand ABSOLUTE op is_input s).1 = false := by
  unfold process_operand
  have h1 : ¬ ABSOLUTE = REGISTER := by decide
  have h2 : ¬ ABSOLUTE = IMMEDIATE := by decide
  simp only [h1, h2, if_false, if_true, bind, M.bind, h, Bool.false_eq_true, pure, M.pure]

/-- The words one operand appends when `process_operand` returns 1: two for
a STRUCT operand, one for each other mode. -/
theorem process_operand_words (t : Int) (op : List Char) (is_input : Bool) (s : session)
    (ht : 0 ≤ t ∧ t ≤ 3) (hs : (process_operand t op is_input s).1 = true) :
    ∃ ws : List word, ws.length = mode_words t ∧
      (process_operand t op is_input s).2.mem = append_words ws s.mem := by
  have hcases : t = IMMEDIATE ∨ t = ABSOLUTE ∨ t = STRUCT ∨ t = REGISTER := by
    unfold IMMEDIATE ABSOLUTE STRUCT REGISTER
    omega
  rcases hcases with rfl | rfl | rfl | rfl
  · have he : process_operand IMMEDIATE op is_input = process_immediate op := by
      unfold process_operand
      rw [if_neg (by decide), if_pos rfl]
    rw [he, process_immediate_eq]
    refine ⟨[word_assign (int_shl (wrap8 (atoi (op.drop 1))) 2)], rfl, ?_⟩
    simp only
    split_ifs <;> rfl
  · by_cases hl : (is_legal_label op false s).1.1 = true
    · rw [process_operand_absolute_eq op is_input s hl]
      exact ⟨[word_assign 0], rfl, rfl⟩
    · rw [process_operand_absolute_fail op is_input s (by simpa using hl)] at hs
      exact absurd hs Bool.false_ne_true
  · have he : process_operand STRUCT op is_input = process_struct op := by
      unfold process_operand
      rw [if_neg (by decide), if_neg (by decide), if_neg (by decide), if_pos rfl]
    rw [he] at hs ⊢
    by_cases hl : (is_legal_label (op.take (op.length - 2)) false s).1.1 = true
    · rw [process_struct_eq op s hl]
      exact ⟨[word_assign 0, word_assign (int_shl
        (((op.getD (op.length - 1) NUL).toNat : Int) - ('0'.toNat : Int)) 2)], rfl, rfl⟩
    · rw [(process_struct_fail op s (by simpa using hl)).1] at hs
      exact absurd hs Bool.false_ne_true
  · refine ⟨[word_assign (extract_regs_value s.symbol_table op is_input)], rfl, ?_⟩
    unfold process_operand
    rw [if_pos rfl]
    rfl

/-- The words `store_operands` appends when it returns 1. -/
theorem store_operands_words (data : instruction) (t1 t2 : Int) (op1 op2 : List Char)
    (s : session) (ht1 : 0 ≤ t1 ∧ t1 ≤ 3) (ht2 : 0 ≤ t2 ∧ t2 ≤ 3)
    (hs : (store_operands data t1 t2 op1 op2 s).1 = true) :
    ∃ ws : List word, ws.length = operand_words data t1 t2 ∧
      (store_operands data t1 t2 op1 op2 s).2.mem = append_words ws s.mem := by
  unfold store_operands at hs ⊢
  unfold operand_words
  by_cases hr : t1 = REGISTER ∧ t2 = REGISTER
  · rw [if_pos hr, if_pos hr]
    exact ⟨[word_assign (0 + (extract_regs_value s.symbol_table op1 true +
      extract_regs_value s.symbol_table op2 false))], rfl, rfl⟩
  · rw [if_neg hr] at hs ⊢
    rw [if_neg hr]
    rw [apply_bind] at hs ⊢
    by_cases hi : data.input ≠ 0
    · simp only [if_pos hi] at hs ⊢
      by_cases h1 : (process_operand t1 op1 true s).1 = true
      · obtain ⟨ws1, hl1, hm1⟩ := process_operand_words t1 op1 true s ht1 h1
        by_cases ho : data.output ≠ 0
        · have hc : (process_operand t1 op1 true s).1 = true ∧ data.output ≠ 0 := ⟨h1, ho⟩
          simp only [if_pos hc, if_pos ho] at hs ⊢
          obtain ⟨ws2, hl2, hm2⟩ := process_operand_words t2 op2 false _ ht2 hs
          refine ⟨ws1 ++ ws2, by rw [List.length_append, hl1, hl2], ?_⟩
          rw [hm2, hm1, append_words_append]
        · have hc : ¬ ((process_operand t1 op1 true s).1 = true ∧ data.output ≠ 0) :=
            fun h => ho h.2
          simp only [if_neg hc, if_neg ho]
          rw [apply_pure]
          exact ⟨ws1, by rw [hl1]; rfl, hm1⟩
      · have hc : ¬ ((process_operand t1 op1 true s).1 = true ∧ data.output ≠ 0) :=
          fun h => h1 h.1
        rw [if_neg hc, apply_pure] at hs
        exact absurd hs h1
    · simp only [if_neg hi, apply_pure] at hs ⊢
      by_cases ho : data.output ≠ 0
      · have hc : True ∧ data.output ≠ 0 := ⟨trivial, ho⟩
        simp only [if_pos hc, if_pos ho] at hs ⊢
        obtain ⟨ws2, hl2, hm2⟩ := process_operand_words t2 op2 false _ ht2 hs
        exact ⟨ws2, by rw [hl2, Nat.zero_add], hm2⟩
      · have hc : ¬ (True ∧ data.output ≠ 0) := fun h => ho h.2
        simp only [if_neg hc, if_neg ho]
        exact ⟨[], rfl, rfl⟩

/-- The type `detect_operand_type` returns is the mode of the token it
read. -/
theorem detect_operand_type_mode (table : hash_table) (f : InFile) :
    (detect_operand_type table f).1.1 = operand_mode table (detect_operand_type table f).1.2 := by
  have h : (detect_operand_type table f).1.1 = _ :=
    detect_operand_type_tests table (detect_operand_type table f).1.2
  rw [h]
  simp only [operand_mode, Option.map_eq_some']

theorem operand_mode_range (table : hash_table) (token : List Char) :
    -1 ≤ operand_mode table token ∧ operand_mode table token ≤ 3 := by
  unfold operand_mode
  split_ifs <;> decide

/-- The types `detect_operands_and_types` hands back. -/
theorem detect_operands_and_types_types (data : instruction) (s : session) :
    types_outcome data s (detect_operands_and_types data s) := by
  unfold detect_operands_and_types
  refine bind_post (fun t s1 => t = s.symbol_table ∧ s1 = s) (types_outcome data s) s ?_ ?_
  · exact ⟨rfl, rfl⟩
  rintro t s0 ⟨rfl, rfl⟩
  refine bind_post
    (fun (d1 : Int × List Char) s1 =>
      d1.1 = (if data.input ≠ 0 then operand_mode s0.symbol_table d1.2 else 0))
    (types_outcome data s0) s0 ?_ ?_
  · by_cases hi : data.input ≠ 0
    · simp only [if_pos hi]
      rw [apply_on_input]
      exact detect_operand_type_mode _ _
    · simp only [if_neg hi]
      rfl
  rintro d1 s1 hd1
  refine bind_post (fun (_ : Bool) (_ : session) => True) (types_outcome data s0) s1 trivial ?_
  rintro comma s2 -
  refine bind_post
    (fun (d2 : Int × List Char) s3 =>
      d2.1 = (if data.output ≠ 0 then operand_mode s0.symbol_table d2.2 else 0))
    (types_outcome data s0) s2 ?_ ?_
  · by_cases ho : data.output ≠ 0
    · simp only [if_pos ho]
      rw [apply_on_input]
      exact detect_operand_type_mode _ _
    · simp only [if_neg ho]
      rfl
  rintro d2 s3 hd2
  unfold types_outcome
  cases comma with
  | false =>
    rw [if_neg Bool.false_ne_true, apply_bind, apply_pure]
    exact ⟨hd1, hd2, fun h => absurd h Bool.false_ne_true⟩
  | true =>
    rw [if_pos rfl, apply_bind]
    by_cases hok : (((on_input peek_next_char s3).1 = some '\n' ∨
        (on_input peek_next_char s3).1 = none) ∧ d1.1 ≠ -1 ∧ d2.1 ≠ -1)
    · rw [if_pos hok, apply_bind, apply_pure]
      exact ⟨hd1, hd2, fun _ => hok.2⟩
    · rw [if_neg hok, apply_bind, apply_pure]
      exact ⟨hd1, hd2, fun h => absurd h Bool.false_ne_true⟩

theorem label_inserted_mem (is_label : Bool) (label : List Char) (s : session) :
    (label_inserted is_label label s).mem = s.mem := by
  unfold label_inserted
  split_ifs <;> rfl

/-- The words a successful `process_instruction` appends: the instruction
word made from the types detected, then the operand words. -/
theorem process_instruction_emits (inst : node) (is_label : Bool) (label : List Char)
    (s : session) (hs : (process_instruction inst is_label label s).1 = true) :
    (detect_operands_and_types inst.instruction (label_inserted is_label label s)).1.status
      = true ∧
    (check_operands_types inst.instruction
      (detect_operands_and_types inst.instruction (label_inserted is_label label s)).1.op1_type
      (detect_operands_and_types inst.instruction (label_inserted is_label label s)).1.op2_type
      (detect_operands_and_types inst.instruction (label_inserted is_label label s)).2).1
      = true ∧
    ∃ ws : List word,
      ws.length = operand_words inst.instruction
        (detect_operands_and_types inst.instruction
          (label_inserted is_label label s)).1.op1_type
        (detect_operands_and_types inst.instruction
          (label_inserted is_label label s)).1.op2_type ∧
      (process_instruction inst is_label label s).2.mem =
        append_words (create_instruction_word inst.instruction inst.instruction.value
          (detect_operands_and_types inst.instruction
            (label_inserted is_label label s)).1.op1_type
          (detect_operands_and_types inst.instruction
            (label_inserted is_label label s)).1.op2_type :: ws) s.mem := by
  have hlab : ((if is_label = true then do
        let ic ← query (fun s => s.mem.IC)
        update (session.symbol_table_insert_label label ic type.INST_L false)
      else pure ()) : M Unit) s = ((), label_inserted is_label label s) := by
    unfold label_inserted
    cases is_label <;> rfl
  have hty := detect_operands_and_types_types inst.instruction (label_inserted is_label label s)
  have hm1 := detect_operands_and_types_mem inst.instruction (label_inserted is_label label s)
  rw [label_inserted_mem] at hm1
  unfold process_instruction at hs ⊢
  simp only [] at hs ⊢
  rw [apply_bind, hlab] at hs ⊢
  simp only [] at hs ⊢
  rw [apply_bind] at hs ⊢
  generalize detect_operands_and_types inst.instruction (label_inserted is_label label s) = r
    at hs hty hm1 ⊢
  obtain ⟨d, s2⟩ := r
  simp only [] at hs hty hm1 ⊢
  rw [apply_bind] at hs ⊢
  cases hst : d.status with
  | false =>
    rw [hst] at hs
    rw [if_neg Bool.false_ne_true, apply_pure] at hs
    simp only [not_false_eq_true, if_true, Bool.false_eq_true] at hs
    rw [apply_bind, apply_pure] at hs
    exact absurd hs Bool.false_ne_true
  | true =>
    rw [hst] at hs
    rw [if_pos rfl] at hs ⊢
    have hm2 := check_operands_types_mem inst.instruction d.op1_type d.op2_type s2
    rw [hm1] at hm2
    cases hck : (check_operands_types inst.instruction d.op1_type d.op2_type s2).1 with
    | false =>
      rw [hck] at hs
      simp only [not_false_eq_true, if_true, Bool.false_eq_true] at hs
      rw [apply_bind, apply_pure] at hs
      exact absurd hs Bool.false_ne_true
    | true =>
      rw [hck] at hs
      simp only [not_true_eq_false, if_false] at hs ⊢
      rw [apply_bind] at hs ⊢
      refine ⟨trivial, trivial, ?_⟩
      unfold types_outcome at hty
      simp only [] at hty
      obtain ⟨ht1, ht2, ht3⟩ := hty
      have hne := ht3 hst
      have hr1 : 0 ≤ d.op1_type ∧ d.op1_type ≤ 3 := by
        have h := hne.1
        rw [ht1] at h ⊢
        split_ifs at h ⊢
        · have := operand_mode_range (label_inserted is_label label s).symbol_table d.op1
          omega
        · omega
      have hr2 : 0 ≤ d.op2_type ∧ d.op2_type ≤ 3 := by
        have h := hne.2
        rw [ht2] at h ⊢
        split_ifs at h ⊢
        · have := operand_mode_range (label_inserted is_label label s).symbol_table d.op2
          omega
        · omega
      by_cases hio : inst.instruction.input ≠ 0 ∨ inst.instruction.output ≠ 0
      · rw [if_pos hio] at hs ⊢
        obtain ⟨ws, hl, hm⟩ := store_operands_words inst.instruction d.op1_type d.op2_type
          d.op1 d.op2 _ hr1 hr2 hs
        refine ⟨ws, hl, ?_⟩
        rw [hm, append_words_cons]
        show append_words ws (instructions_array_insert _ _) = _
        rw [hm2]
      · rw [if_neg hio, apply_pure]
        refine ⟨[], ?_, ?_⟩
        · unfold operand_words
          have hi : ¬ inst.instruction.input ≠ 0 := fun h => hio (Or.inl h)
          have ho : ¬ inst.instruction.output ≠ 0 := fun h => hio (Or.inr h)
          rw [ht1, ht2]
          simp only [if_neg hi, if_neg ho]
          decide
        · show instructions_array_insert _ _ = _
          rw [hm2]
          rfl

/-- Words appended, let in or refused: IC does not go down, the array keeps
its length, and the words in front of the old IC stay. -/
theorem append_words_below (ws : List word) (m : memory) :
    m.IC ≤ (append_words ws m).IC ∧
    (append_words ws m).instructions_array.length = m.instructions_array.length ∧
    ∀ i, i < m.IC → (append_words ws m).instructions_array[i]? = m.instructions_array[i]? := by
  induction ws generalizing m with
  | nil => exact ⟨Nat.le_refl _, rfl, fun _ _ => rfl⟩
  | cons w ws ih =>
    rw [append_words_cons]
    obtain ⟨a, b, c⟩ := ih (instructions_array_insert w m)
    unfold instructions_array_insert at a b c ⊢
    by_cases hacc : m.IC + m.DC ≤ MEMORY_SIZE
    · simp only [if_pos hacc] at a b c ⊢
      simp only [List.length_set] at b
      refine ⟨by omega, b, fun i hi => ?_⟩
      rw [c i (by omega)]
      exact List.getElem?_set_ne (by omega)
    · simp only [if_neg hacc] at a b c ⊢
      exact ⟨a, b, c⟩

/-- The first of the words appended is at the old IC afterwards, when the
guard of the memory manager lets it in. -/
theorem append_words_head (w : word) (ws : List word) (m : memory)
    (hacc : m.IC + m.DC ≤ MEMORY_SIZE) (hlen : m.IC < m.instructions_array.length) :
    (append_words (w :: ws) m).instructions_array[m.IC]? = some w := by
  rw [append_words_cons, instructions_array_insert_accepted w m hacc]
  have h := (append_words_below ws { m with
      instructions_array := m.instructions_array.set m.IC w, IC := m.IC + 1 }).2.2 m.IC
    (Nat.lt_succ_self _)
  rw [h]
  exact List.getElem?_set_eq_of_lt _ hlen

theorem operand_words_le (data : instruction) (t1 t2 : Int) : operand_words data t1 t2 ≤ 4 := by
  unfold operand_words mode_words
  split_ifs <;> omega

theorem instruction_word_fields : ∀ a : Nat, a < 16 → ∀ i : Nat, i < 4 → ∀ o : Nat, o < 4 →
    a * 64 + i * 16 + o * 4 = Nat.lor (Nat.lor (a <<< 6) (i <<< 4)) (o <<< 2) := by
  decide

/-- The 10-bit pattern of the word `create_instruction_word` makes from the
word `op << 6`: the mode of an operand the instruction does not take is 0. -/
theorem create_instruction_word_pattern (data : instruction) (op i o : Nat)
    (hop : op ≤ 15) (hi : i ≤ 3) (ho : o ≤ 3)
    (hvalue : data.value = word_assign (int_shl op 6))
    (h1 : data.input = 0 → i = 0) (h2 : data.output = 0 → o = 0) :
    (create_instruction_word data data.value i o).value % 1024 =
      ((Nat.lor (Nat.lor (op <<< 6) (i <<< 4)) (o <<< 2) : Nat) : Int) ∧
    int_and (create_instruction_word data data.value i o).value 3 = 0 := by
  rw [← instruction_word_fields op (by omega) i (by omega) o (by omega), int_and_3]
  unfold create_instruction_word
  rw [hvalue]
  simp only [word_assign, int_shl]
  by_cases hin : data.input ≠ 0
  · by_cases hout : data.output ≠ 0
    · simp only [if_pos hin, if_pos hout]
      unfold wrap10
      push_cast
      omega
    · simp only [if_pos hin, if_neg hout]
      have := h2 (by simpa using hout)
      subst this
      unfold wrap10
      push_cast
      omega
  · have := h1 (by simpa using hin)
    subst this
    by_cases hout : data.output ≠ 0
    · simp only [if_neg hin, if_pos hout]
      unfold wrap10
      push_cast
      omega
    · simp only [if_neg hin, if_neg hout]
      have := h2 (by simpa using hout)
      subst this
      unfold wrap10
      push_cast
      omega

set_option maxRecDepth 1000000 in
/-- C11: when `process_instruction` returns 1 for an instruction whose word
is `op << 6`, the first call of `instructions_array_insert` it makes appends
the word whose 10-bit pattern is `op << 6 | in_mode << 4 | out_mode << 2`,
with low two bits 00. Here `in_mode` and `out_mode` are the types
`detect_operands_and_types` handed back: the mode (0 to 3) of the token read
for an operand the instruction takes, 0 for an operand it does not take. The
word is at the old IC afterwards when the memory manager lets it in. Every
instruction `initialize_symbol_table` loads has a word `op << 6` with `op`
from 0 to 15; for the source `cmp #1, X` the word is
`1 << 6 | 0 << 4 | 1 << 2`. -/
theorem c11_instruction_word_layout (inst : node) (is_label : Bool) (label : List Char)
    (s : session) (op : Nat) (hop : op ≤ 15)
    (hvalue : inst.instruction.value = word_assign (int_shl op 6))
    (hs : (process_instruction inst is_label label s).1 = true) :
    (∃ (d : operands) (in_mode out_mode : Nat) (ws : List word),
      d = (detect_operands_and_types inst.instruction (label_inserted is_label label s)).1 ∧
      d.status = true ∧
      d.op1_type = (if inst.instruction.input ≠ 0
        then operand_mode (label_inserted is_label label s).symbol_table d.op1 else 0) ∧
      d.op2_type = (if inst.instruction.output ≠ 0
        then operand_mode (label_inserted is_label label s).symbol_table d.op2 else 0) ∧
      (in_mode : Int) = d.op1_type ∧ (out_mode : Int) = d.op2_type ∧
      in_mode ≤ 3 ∧ out_mode ≤ 3 ∧
      (process_instruction inst is_label label s).2.mem =
        append_words (create_instruction_word inst.instruction inst.instruction.value
          d.op1_type d.op2_type :: ws) s.mem ∧
      (create_instruction_word inst.instruction inst.instruction.value
          d.op1_type d.op2_type).value % 1024 =
        ((Nat.lor (Nat.lor (op <<< 6) (in_mode <<< 4)) (out_mode <<< 2) : Nat) : Int) ∧
      int_and (create_instruction_word inst.instruction inst.instruction.value
          d.op1_type d.op2_type).value 3 = 0 ∧
      (s.mem.IC + s.mem.DC ≤ MEMORY_SIZE → s.mem.IC < s.mem.instructions_array.length →
        (process_instruction inst is_label label s).2.mem.instructions_array[s.mem.IC]? =
          some (create_instruction_word inst.instruction inst.instruction.value
            d.op1_type d.op2_type))) ∧
    (∀ e ∈ instructions_table, 0 ≤ e.2.2.2 ∧ e.2.2.2 ≤ 15 ∧
      (find_symbol initialize_symbol_table e.1.toList).map (fun n => (n.type, n.instruction))
        = some (type.INST, construct_instruction e.2.1 e.2.2.1 e.2.2.2) ∧
      (construct_instruction e.2.1 e.2.2.1 e.2.2.2).value = word_assign (int_shl e.2.2.2 6)) ∧
    ((first_pass_process (session_start 0 "cmp #1, X\n".toList)).1 = true ∧
      (first_pass_process (session_start 0 "cmp #1, X\n".toList)).2.mem.instructions_array[0]?
        = some ⟨((Nat.lor (Nat.lor (1 <<< 6) (0 <<< 4)) (1 <<< 2) : Nat) : Int)⟩) := by
  obtain ⟨hst, -, ws, -, hmem⟩ := process_instruction_emits inst is_label label s hs
  obtain ⟨ht1, ht2, ht3⟩ :=
    detect_operands_and_types_types inst.instruction (label_inserted is_label label s)
  have hne := ht3 hst
  have hr1 := operand_mode_range (label_inserted is_label label s).symbol_table
    (detect_operands_and_types inst.instruction (label_inserted is_label label s)).1.op1
  have hr2 := operand_mode_range (label_inserted is_label label s).symbol_table
    (detect_operands_and_types inst.instruction (label_inserted is_label label s)).1.op2
  have hb1 : 0 ≤ (detect_operands_and_types inst.instruction
      (label_inserted is_label label s)).1.op1_type ∧
      (detect_operands_and_types inst.instruction
      (label_inserted is_label label s)).1.op1_type ≤ 3 := by
    have h := hne.1
    rw [ht1] at h ⊢
    split_ifs at h ⊢ <;> omega
  have hb2 : 0 ≤ (detect_operands_and_types inst.instruction
      (label_inserted is_label label s)).1.op2_type ∧
      (detect_operands_and_types inst.instruction
      (label_inserted is_label label s)).1.op2_type ≤ 3 := by
    have h := hne.2
    rw [ht2] at h ⊢
    split_ifs at h ⊢ <;> omega
  have hz1 : inst.instruction.input = 0 → (detect_operands_and_types inst.instruction
      (label_inserted is_label label s)).1.op1_type = 0 := by
    intro h
    rw [ht1, if_neg (by simpa using h)]
  have hz2 : inst.instruction.output = 0 → (detect_operands_and_types inst.instruction
      (label_inserted is_label label s)).1.op2_type = 0 := by
    intro h
    rw [ht2, if_neg (by simpa using h)]
  generalize (detect_operands_and_types inst.instruction
      (label_inserted is_label label s)).1 = d at *
  obtain ⟨i, hi⟩ := Int.eq_ofNat_of_zero_le hb1.1
  obtain ⟨o, ho⟩ := Int.eq_ofNat_of_zero_le hb2.1
  have hpat := create_instruction_word_pattern inst.instruction op i o hop (by omega)
    (by omega) hvalue (fun h => by have := hz1 h; omega) (fun h => by have := hz2 h; omega)
  rw [← hi, ← ho] at hpat
  refine ⟨⟨d, i, o, ws, rfl, hst, ht1, ht2, hi.symm, ho.symm, by omega, by omega, hmem,
    hpat.1, hpat.2, fun hacc hlen => ?_⟩, by decide, by decide⟩
  rw [hmem]
  exact append_words_head _ _ _ hacc hlen

set_option maxRecDepth 1000000 in
/-- C11 at the line `lea S.2, r1`: opcode 6, source mode STRUCT, target mode
REGISTER. -/
theorem c11_instruction_word_layout_witness :
    ∃ (d : operands) (in_mode out_mode : Nat) (ws : List word),
      d = (detect_operands_and_types (construct_instruction 1 1 6)
        (label_inserted false [] (session_start 0 "S.2, r1\n".toList))).1 ∧
      d.status = true ∧
      d.op1_type = (if (construct_instruction 1 1 6).input ≠ 0
        then operand_mode (label_inserted false []
          (session_start 0 "S.2, r1\n".toList)).symbol_table d.op1 else 0) ∧
      d.op2_type = (if (construct_instruction 1 1 6).output ≠ 0
        then operand_mode (label_inserted false []
          (session_start 0 "S.2, r1\n".toList)).symbol_table d.op2 else 0) ∧
      (in_mode : Int) = d.op1_type ∧ (out_mode : Int) = d.op2_type ∧
      in_mode ≤ 3 ∧ out_mode ≤ 3 ∧
      (process_instruction (node.mk "lea".toList type.INST 0
          (node_data.inst (construct_instruction 1 1 6))) false []
          (session_start 0 "S.2, r1\n".toList)).2.mem =
        append_words (create_instruction_word (construct_instruction 1 1 6)
          (construct_instruction 1 1 6).value d.op1_type d.op2_type :: ws)
          (session_start 0 "S.2, r1\n".toList).mem ∧
      (create_instruction_word (construct_instruction 1 1 6)
          (construct_instruction 1 1 6).value d.op1_type d.op2_type).value % 1024 =
        ((Nat.lor (Nat.lor (6 <<< 6) (in_mode <<< 4)) (out_mode <<< 2) : Nat) : Int) ∧
      int_and (create_instruction_word (construct_instruction 1 1 6)
          (construct_instruction 1 1 6).value d.op1_type d.op2_type).value 3 = 0 ∧
      ((session_start 0 "S.2, r1\n".toList).mem.IC +
          (session_start 0 "S.2, r1\n".toList).mem.DC ≤ MEMORY_SIZE →
        (session_start 0 "S.2, r1\n".toList).mem.IC <
          (session_start 0 "S.2, r1\n".toList).mem.instructions_array.length →
        (process_instruction (node.mk "lea".toList type.INST 0
          (node_data.inst (construct_instruction 1 1 6))) false []
          (session_start 0 "S.2, r1\n".toList)).2.mem.instructions_array[
            (session_start 0 "S.2, r1\n".toList).mem.IC]? =
          some (create_instruction_word (construct_instruction 1 1 6)
            (construct_instruction 1 1 6).value d.op1_type d.op2_type)) :=
  (c11_instruction_word_layout (node.mk "lea".toList type.INST 0
      (node_data.inst (construct_instruction 1 1 6))) false []
      (session_start 0 "S.2, r1\n".toList) 6 (by decide) (by decide) (by decide)).1

set_option maxRecDepth 1000000 in
/-- C12, the claim at a concrete input: after the line `S: .struct 7,"hi"`
IC is 0; the one instruction line `mov S.1, S.2` that follows is processed
with success and appends five words, the instruction word and two words for
each STRUCT operand, so IC grows by 5; the source assembles. The line
`lea S.2, r1` appends four words. -/
theorem c12_struct_operands_give_five_words :
    (first_pass_process (session_start 0 "S: .struct 7,\"hi\"\n".toList)).2.mem.IC = 0 ∧
    (first_pass_process
      (session_start 0 "S: .struct 7,\"hi\"\nmov S.1, S.2\n".toList)).1 = true ∧
    (first_pass_process
      (session_start 0 "S: .struct 7,\"hi\"\nmov S.1, S.2\n".toList)).2.mem.IC = 5 ∧
    (first_pass_process
      (session_start 0 "S: .struct 7,\"hi\"\nmov S.1, S.2\n".toList)).2.mem.instructions_array.take 5
      = [⟨40⟩, ⟨0⟩, ⟨4⟩, ⟨0⟩, ⟨8⟩] ∧
    (file_process 0 "S: .struct 7,\"hi\"\nmov S.1, S.2\n".toList).status = true ∧
    (process_instruction (node.mk "mov".toList type.INST 0
        (node_data.inst (construct_instruction 2 1 0))) false []
        (session_start 0 "S.1, S.2\n".toList)).1 = true ∧
    (process_instruction (node.mk "mov".toList type.INST 0
        (node_data.inst (construct_instruction 2 1 0))) false []
        (session_start 0 "S.1, S.2\n".toList)).2.mem.IC
      = (session_start 0 "S.1, S.2\n".toList).mem.IC + 5 ∧
    (first_pass_process
      (session_start 0 "S: .struct 7,\"hi\"\nlea S.2, r1\n".toList)).2.mem.IC = 4 := by
  decide

/-- C12, as the code has it: when `process_instruction` returns 1 it has
called `instructions_array_insert` for the instruction word and then for the
operand words, and for nothing else. The operand words are one word when
both operands are REGISTER; otherwise two words for each STRUCT operand and
one word for each other operand the instruction takes: from 0 to 4 words.
When the memory manager lets all of them in, IC grows by their number plus
one, at least 1 and at most 5, and DC and the data array stay. -/
theorem c12_instruction_line_words (inst : node) (is_label : Bool) (label : List Char)
    (s : session) (hs : (process_instruction inst is_label label s).1 = true) :
    ∃ (d : operands) (ws : List word),
      d = (detect_operands_and_types inst.instruction (label_inserted is_label label s)).1 ∧
      (process_instruction inst is_label label s).2.mem =
        append_words (create_instruction_word inst.instruction inst.instruction.value
          d.op1_type d.op2_type :: ws) s.mem ∧
      ws.length = operand_words inst.instruction d.op1_type d.op2_type ∧
      ws.length ≤ 4 ∧
      (inst.instruction.input ≠ 0 → 0 ≤ d.op1_type ∧ d.op1_type ≤ 3) ∧
      (inst.instruction.output ≠ 0 → 0 ≤ d.op2_type ∧ d.op2_type ≤ 3) ∧
      (inst.instruction.input = 0 → d.op1_type = 0) ∧
      (inst.instruction.output = 0 → d.op2_type = 0) ∧
      (s.mem.IC + s.mem.DC + ws.length ≤ MEMORY_SIZE →
        (process_instruction inst is_label label s).2.mem.IC = s.mem.IC + 1 + ws.length ∧
        s.mem.IC + 1 ≤ (process_instruction inst is_label label s).2.mem.IC ∧
        (process_instruction inst is_label label s).2.mem.IC ≤ s.mem.IC + 5 ∧
        (process_instruction inst is_label label s).2.mem.DC = s.mem.DC ∧
        (process_instruction inst is_label label s).2.mem.data_array = s.mem.data_array) := by
  obtain ⟨hst, -, ws, hlen, hmem⟩ := process_instruction_emits inst is_label label s hs
  obtain ⟨ht1, ht2, ht3⟩ :=
    detect_operands_and_types_types inst.instruction (label_inserted is_label label s)
  have hne := ht3 hst
  have hr1 := operand_mode_range (label_inserted is_label label s).symbol_table
    (detect_operands_and_types inst.instruction (label_inserted is_label label s)).1.op1
  have hr2 := operand_mode_range (label_inserted is_label label s).symbol_table
    (detect_operands_and_types inst.instruction (label_inserted is_label label s)).1.op2
  have hle : ws.length ≤ 4 := by
    rw [hlen]
    exact operand_words_le _ _ _
  refine ⟨_, ws, rfl, hmem, hlen, hle, fun _ => ?_, fun _ => ?_, fun h => ?_, fun h => ?_,
    fun hacc => ?_⟩
  · have h := hne.1
    rw [ht1] at h ⊢
    split_ifs at h ⊢
    omega
  · have h := hne.2
    rw [ht2] at h ⊢
    split_ifs at h ⊢
    omega
  · rw [ht1, if_neg (by simpa using h)]
  · rw [ht2, if_neg (by simpa using h)]
  · obtain ⟨a, b, c, -, -, -⟩ := append_words_accepted
      (create_instruction_word inst.instruction inst.instruction.value
        (detect_operands_and_types inst.instruction
          (label_inserted is_label label s)).1.op1_type
        (detect_operands_and_types inst.instruction
          (label_inserted is_label label s)).1.op2_type :: ws) s.mem (by
        rw [List.length_cons]
        omega)
    rw [hmem]
    rw [List.length_cons] at a
    exact ⟨by omega, by omega, by omega, b, c⟩

set_option maxRecDepth 1000000 in
/-- C12, the amended statement at the line `mov S.1, S.2` in the session a
new file starts with: four operand words follow the instruction word. -/
theorem c12_instruction_line_words_witness :
    ∃ (d : operands) (ws : List word),
      d = (detect_operands_and_types (construct_instruction 2 1 0)
        (label_inserted false [] (session_start 0 "S.1, S.2\n".toList))).1 ∧
      (process_instruction (node.mk "mov".toList type.INST 0
          (node_data.inst (construct_instruction 2 1 0))) false []
          (session_start 0 "S.1, S.2\n".toList)).2.mem =
        append_words (create_instruction_word (construct_instruction 2 1 0)
          (construct_instruction 2 1 0).value d.op1_type d.op2_type :: ws)
          (session_start 0 "S.1, S.2\n".toList).mem ∧
      ws.length = operand_words (construct_instruction 2 1 0) d.op1_type d.op2_type ∧
      ws.length ≤ 4 :=
  match c12_instruction_line_words (node.mk "mov".toList type.INST 0
      (node_data.inst (construct_instruction 2 1 0))) false []
      (session_start 0 "S.1, S.2\n".toList) (by decide) with
  | ⟨d, ws, h1, h2, h3, h4, _⟩ => ⟨d, ws, h1, h2, h3, h4⟩

set_option maxRecDepth 1000000 in
theorem initial_keys : ∀ b ∈ initialize_symbol_table.array, ∀ n ∈ b, n.key ∈ preloaded_names := by
  decide

set_option maxRecDepth 1000000 in
/-- C21: in the table `initialize_symbol_table` makes, each of the 16
mnemonics is an INST symbol whose masks are those of the table of
instructions and whose word has the 10-bit pattern `opcode << 6`; each of
r0 .. r7 (codes 0 .. 7) and PSW (code 8) is a REGS symbol whose input word
has the pattern `code << 6` and whose output word is `code << 2`; each of
the five directive names is a DIRECT symbol; and `find_symbol` finds nothing
for any other name. -/
theorem c21_initial_symbol_table :
    (∀ e ∈ instruction_set,
      find_symbol initialize_symbol_table e.1.toList =
        some { key := e.1.toList, type := type.INST, index := 0,
               data := node_data.inst { input := e.2.2.1, output := e.2.2.2,
                                        value := word_assign (int_shl e.2.1 6) } } ∧
      (word_assign (int_shl e.2.1 6)).value % 1024 = ((e.2.1 <<< 6 : Nat) : Int)) ∧
    (∀ r : Nat, r < 9 →
      find_symbol initialize_symbol_table (register_name r) =
        some { key := register_name r, type := type.REGS, index := 0,
               data := node_data.regs { input_op := word_assign (int_shl r 6),
                                        output_op := ⟨((r <<< 2 : Nat) : Int)⟩ } } ∧
      (word_assign (int_shl r 6)).value % 1024 = ((r <<< 6 : Nat) : Int)) ∧
    (register_name 0 = "r0".toList ∧ register_name 7 = "r7".toList ∧
      register_name 8 = "PSW".toList) ∧
    (∀ d ∈ directive_names,
      (find_symbol initialize_symbol_table d.toList).map (fun n => (n.key, n.type))
        = some (d.toList, type.DIRECT)) ∧
    (∀ name : List Char, name ∉ preloaded_names →
      find_symbol initialize_symbol_table name = none) := by
  refine ⟨by decide, by decide, by decide, by decide, fun name hname => ?_⟩
  rcases Option.eq_none_or_eq_some (find_symbol initialize_symbol_table name) with h | ⟨n, h⟩
  · exact h
  · exfalso
    obtain ⟨b, hb, hn⟩ := hash_table_find_mem _ _ _ h
    have hk := initial_keys b hb n hn
    rw [hash_table_find_key _ _ _ h] at hk
    exact hname hk

/-- Function `is_legal_label`: the value returned is 1 exactly when none of
its five tests fires; the session is left as it was then, and otherwise one
error with the label is printed. -/
theorem is_legal_label_result (label : List Char) (b : Bool) (s : session) :
    ((is_legal_label label b s).1.1 = true ↔
      ((label.headD NUL).isAlpha = true ∧
       ¬ (b = true ∧ label.getLastD NUL ≠ ':') ∧
       ¬ ((b = false ∧ label.length > 30) ∨ (b = true ∧ label.length > 31)) ∧
       (label.drop 1).dropLast.all isalnum = true ∧
       ¬ (b = false ∧ label.length > 1 ∧ isalnum (label.getLastD NUL) = false))) ∧
    ((is_legal_label label b s).1.1 = true → is_legal_label label b s = ((true, label), s)) ∧
    ((is_legal_label label b s).1.1 = false →
      ∃ (e : Nat) (text : List Char), (e = 12 ∨ e = 4 ∨ e = 11 ∨ e = 13) ∧
        (is_legal_label label b s).2 = print_error_string s.line_count e text s) := by
  refine ⟨?_, is_legal_label_true label b s, ?_⟩
  · unfold is_legal_label
    simp only [bind, M.bind, query, update, pure, M.pure, ite_apply]
    cases b <;> split_ifs <;> simp_all [M.bind, update, M.pure]
  · unfold is_legal_label
    simp only [bind, M.bind, query, update, pure, M.pure, ite_apply]
    intro h
    split_ifs at h ⊢ <;> first
      | exact ⟨12, _, Or.inl rfl, rfl⟩
      | exact ⟨4, _, Or.inr (Or.inl rfl), rfl⟩
      | exact ⟨11, _, Or.inr (Or.inr (Or.inl rfl)), rfl⟩
      | exact ⟨13, _, Or.inr (Or.inr (Or.inr rfl)), rfl⟩
      | exact Bool.noConfusion h

theorem legal_name_cons (a : Char) (rest : List Char) :
    legal_name (a :: rest) = true ↔
      (rest.length + 1 ≤ 30 ∧ a.isAlpha = true ∧ rest.all isalnum = true) := by
  unfold legal_name isalnum
  simp

theorem legal_name_nil : legal_name [] = false := by
  decide

/-- The tests of `is_legal_label` on the name of an operand. -/
theorem is_legal_label_old (label : List Char) (s : session) :
    (is_legal_label label false s).1.1 = true ↔
      ((label.headD NUL).isAlpha = true ∧ label.length ≤ 30 ∧
       (label.drop 1).dropLast.all isalnum = true ∧
       (1 < label.length → isalnum (label.getLastD NUL) = true)) := by
  rw [(is_legal_label_result label false s).1]
  constructor
  · rintro ⟨h1, -, h3, h4, h5⟩
    refine ⟨h1, ?_, h4, fun hlen => ?_⟩
    · by_contra hc
      exact h3 (Or.inl ⟨rfl, by omega⟩)
    · rcases Bool.eq_false_or_eq_true (isalnum (label.getLastD NUL)) with h | h
      · exact h
      · exact absurd ⟨rfl, hlen, h⟩ h5
  · rintro ⟨h1, h2, h3, h4⟩
    refine ⟨h1, fun h => Bool.noConfusion h.1, ?_, h3, ?_⟩
    · rintro (⟨-, h⟩ | ⟨h, -⟩)
      · omega
      · exact Bool.noConfusion h
    · rintro ⟨-, hlen, h⟩
      rw [h4 hlen] at h
      exact Bool.noConfusion h

/-- The tests of `is_legal_label` on the label that opens a line. -/
theorem is_legal_label_new (label : List Char) (s : session) :
    (is_legal_label label true s).1.1 = true ↔
      ((label.headD NUL).isAlpha = true ∧ label.getLastD NUL = ':' ∧ label.length ≤ 31 ∧
       (label.drop 1).dropLast.all isalnum = true) := by
  rw [(is_legal_label_result label true s).1]
  constructor
  · rintro ⟨h1, h2, h3, h4, -⟩
    refine ⟨h1, ?_, ?_, h4⟩
    · by_contra hc
      exact h2 ⟨rfl, hc⟩
    · by_contra hc
      exact h3 (Or.inr ⟨rfl, by omega⟩)
  · rintro ⟨h1, h2, h3, h4⟩
    refine ⟨h1, fun h => h.2 h2, ?_, h4, fun h => Bool.noConfusion h.1⟩
    rintro (⟨h, -⟩ | ⟨-, h⟩)
    · exact Bool.noConfusion h
    · omega

theorem getLastD_cons_append (a l d : Char) (init : List Char) :
    (a :: (init ++ [l])).getLastD d = l := by
  simp [List.getLastD]

/-- With `is_new_label` 0 the names accepted are the legal names. -/
theorem is_legal_label_old_iff (label : List Char) (s : session) :
    (is_legal_label label false s).1.1 = true ↔ legal_name label = true := by
  rw [is_legal_label_old]
  cases label with
  | nil => simp [legal_name_nil, NUL]
  | cons a rest =>
    rw [legal_name_cons]
    rcases List.eq_nil_or_concat rest with rfl | ⟨init, l, rfl⟩
    · simp
    · rw [List.concat_eq_append, getLastD_cons_append]
      simp only [List.headD_cons, List.drop_succ_cons, List.drop_zero, List.dropLast_concat,
        List.length_cons, List.length_append, List.length_singleton, List.all_append,
        List.all_cons, List.all_nil, Bool.and_true, Bool.and_eq_true]
      constructor
      · rintro ⟨h1, h2, h3, h4⟩
        exact ⟨h2, h1, h3, h4 (by omega)⟩
      · rintro ⟨h1, h2, h3, h4⟩
        exact ⟨h2, h1, h3, fun _ => h4⟩

/-- With `is_new_label` 1 the strings accepted are the legal names followed
by a colon. -/
theorem is_legal_label_new_iff (label : List Char) (s : session) :
    (is_legal_label label true s).1.1 = true ↔
      ∃ name : List Char, label = name ++ [':'] ∧ legal_name name = true := by
  rw [is_legal_label_new]
  cases label with
  | nil =>
    constructor
    · rintro ⟨h, -⟩
      exact absurd h (by decide)
    · rintro ⟨name, h, -⟩
      exact absurd h (by simp)
  | cons a rest =>
    rcases List.eq_nil_or_concat rest with rfl | ⟨init, l, rfl⟩
    · constructor
      · rintro ⟨h1, h2, -⟩
        exfalso
        have h3 : a = ':' := by simpa [List.getLastD] using h2
        rw [h3] at h1
        exact absurd h1 (by decide)
      · rintro ⟨name, h, hn⟩
        exfalso
        cases name with
        | nil => exact absurd hn (by decide)
        | cons x xs =>
          have := congrArg List.length h
          simp at this
    · rw [List.concat_eq_append, getLastD_cons_append]
      simp only [List.headD_cons, List.drop_succ_cons, List.drop_zero, List.dropLast_concat,
        List.length_cons, List.length_append, List.length_singleton]
      constructor
      · rintro ⟨h1, h2, h3, h4⟩
        refine ⟨a :: init, by rw [h2]; rfl, ?_⟩
        rw [legal_name_cons]
        exact ⟨by omega, h1, h4⟩
      · rintro ⟨name, h, hn⟩
        have h2 : a :: init = name ∧ [l] = [':'] := by
          apply List.append_inj
          · exact h
          · have := congrArg List.length h
            simp only [List.length_cons, List.length_append, List.length_singleton] at this
            simp only [List.length_cons]
            omega
        obtain ⟨rfl, h3⟩ := h2
        have h4 : l = ':' := by simpa using h3
        rw [legal_name_cons] at hn
        exact ⟨hn.2.1, h4, by have := hn.1; simp only [List.length_nil]; omega, hn.2.2⟩

/-- C23: `is_legal_label` with `is_new_label` 0 returns 1 exactly for a
string of 1 to 30 characters whose first character is a letter and whose
other characters are letters or digits; with `is_new_label` 1 it returns 1
exactly for such a string of 1 to 30 characters followed by a colon (at most
31 characters in all). When it returns 1 it prints nothing and leaves the
session as it was; when it returns 0 it prints exactly one error (12, 4, 11
or 13) and changes nothing else. -/
theorem c23_legal_label (label : List Char) (s : session) :
    ((is_legal_label label false s).1.1 = true ↔ legal_name label = true) ∧
    (legal_name label = true ↔
      (1 ≤ label.length ∧ label.length ≤ 30 ∧ (label.headD NUL).isAlpha = true ∧
        ∀ c ∈ label.drop 1, c.isAlpha = true ∨ c.isDigit = true)) ∧
    ((is_legal_label label true s).1.1 = true ↔
      ∃ name : List Char, label = name ++ [':'] ∧ legal_name name = true) ∧
    (∀ b : Bool,
      ((is_legal_label label b s).1.1 = true → (is_legal_label label b s).2 = s) ∧
      ((is_legal_label label b s).1.1 = false →
        ∃ (e : Nat) (text : List Char), (e = 12 ∨ e = 4 ∨ e = 11 ∨ e = 13) ∧
          (is_legal_label label b s).2 =
            { s with stderr := s.stderr ++ [diag.error_string s.line_count e text] } ∧
          (is_legal_label label b s).2.errors =
            s.errors ++ [diag.error_string s.line_count e text])) := by
  refine ⟨is_legal_label_old_iff label s, ?_, is_legal_label_new_iff label s,
    fun b => ⟨fun h => ?_, fun h => ?_⟩⟩
  · unfold legal_name
    simp
  · rw [(is_legal_label_result label b s).2.1 h]
  · obtain ⟨e, text, he, hs⟩ := (is_legal_label_result label b s).2.2 h
    refine ⟨e, text, he, hs, ?_⟩
    rw [hs]
    unfold session.errors print_error_string
    simp [diag.is_error]

/-! ### Parts of the session a function leaves alone -/

theorem kept_pure {α β : Type} (part : session → β) (a : α) : kept part (pure a : M α) :=
  fun _ => rfl

theorem kept_query {α β : Type} (part : session → β) (f : session → α) :
    kept part (query f) := fun _ => rfl

theorem kept_on_input {α β : Type} (part : session → β) (g : InFile → α × InFile)
    (h : ∀ s f, part { s with intput_as := f } = part s) : kept part (on_input g) :=
  fun s => h s _

theorem kept_update {β : Type} (part : session → β) (f : session → session)
    (h : ∀ s, part (f s) = part s) : kept part (update f) := fun s => h s

theorem kept_bind {α β γ : Type} {part : session → γ} {m : M α} {k : α → M β}
    (hm : kept part m) (hk : ∀ a, kept part (k a)) : kept part (m >>= k) :=
  fun s => (hk _ _).trans (hm s)

theorem kept_ite {α β : Type} {part : session → β} (c : Prop) [Decidable c] {m1 m2 : M α}
    (h1 : kept part m1) (h2 : kept part m2) : kept part (if c then m1 else m2) := by
  split_ifs
  · exact h1
  · exact h2

theorem kept_names_of_core {α : Type} {m : M α} (h : kept session.core m) :
    kept session.names m := by
  intro s
  have := h s
  unfold session.core at this
  unfold session.names
  simp only [Prod.mk.injEq] at this ⊢
  exact ⟨this.1, this.2.2.2.1, this.2.2.2.2.2.1⟩

section
attribute [local irreducible] M.bind M.pure query update on_input kept

theorem is_legal_label_core (label : List Char) (b : Bool) :
    kept session.core (is_legal_label label b) := by
  unfold is_legal_label
  repeat (first
    | exact kept_pure _ _
    | exact kept_query _ _
    | exact kept_on_input _ _ (fun _ _ => rfl)
    | exact kept_update _ _ (fun _ => rfl)
    | apply kept_ite
    | apply kept_bind
    | intro _)

theorem pre_process_line_error_check_core (a b : List Char) (c : Bool) (o : Option node)
    (d : Bool) : kept session.core (pre_process_line_error_check a b c o d) := by
  unfold pre_process_line_error_check
  repeat (first
    | exact kept_pure _ _
    | exact kept_query _ _
    | exact kept_on_input _ _ (fun _ _ => rfl)
    | exact kept_update _ _ (fun _ => rfl)
    | apply kept_ite
    | apply kept_bind
    | intro _)

theorem pre_process_line_core : kept session.core pre_process_line := by
  unfold pre_process_line
  repeat (first
    | exact kept_pure _ _
    | exact kept_query _ _
    | exact kept_on_input _ _ (fun _ _ => rfl)
    | exact kept_update _ _ (fun _ => rfl)
    | exact is_legal_label_core _ _
    | exact pre_process_line_error_check_core _ _ _ _ _
    | apply kept_ite
    | apply kept_bind
    | intro _)

theorem is_comment_or_empty_line_core : kept session.core is_comment_or_empty_line := by
  unfold is_comment_or_empty_line
  repeat (first
    | exact kept_pure _ _
    | exact kept_on_input _ _ (fun _ _ => rfl)
    | apply kept_bind
    | intro _)

theorem detect_operands_error_check_core (a b : Int) (c : Option Char) (comma : Bool) :
    kept session.core (detect_operands_error_check a b c comma) := by
  unfold detect_operands_error_check
  repeat (first
    | exact kept_pure _ _
    | exact kept_query _ _
    | exact kept_update _ _ (fun _ => rfl)
    | apply kept_ite
    | apply kept_bind
    | intro _)

theorem detect_operands_and_types_core (data : instruction) :
    kept session.core (detect_operands_and_types data) := by
  unfold detect_operands_and_types
  repeat (first
    | exact kept_pure _ _
    | exact kept_query _ _
    | exact kept_on_input _ _ (fun _ _ => rfl)
    | exact detect_operands_error_check_core _ _ _ _
    | apply kept_ite
    | apply kept_bind
    | intro _)

theorem check_operands_types_core (data : instruction) (a b : Int) :
    kept session.core (check_operands_types data a b) := by
  unfold check_operands_types
  repeat (first
    | exact kept_pure _ _
    | exact kept_query _ _
    | exact kept_on_input _ _ (fun _ _ => rfl)
    | exact kept_update _ _ (fun _ => rfl)
    | apply kept_ite
    | apply kept_bind
    | intro _)

theorem read_numbers_list_error_check_core (c : Option Char) (n : Int) :
    kept session.core (read_numbers_list_error_check c n) := by
  unfold read_numbers_list_error_check
  repeat (first
    | exact kept_pure _ _
    | exact kept_query _ _
    | exact kept_on_input _ _ (fun _ _ => rfl)
    | exact kept_update _ _ (fun _ => rfl)
    | apply kept_ite
    | apply kept_bind
    | intro _)

theorem read_numbers_list_end_core (n : Int) :
    kept session.core (read_numbers_list_end n) := by
  unfold read_numbers_list_end
  repeat (first
    | exact kept_pure _ _
    | exact kept_on_input _ _ (fun _ _ => rfl)
    | exact read_numbers_list_error_check_core _ _
    | apply kept_bind
    | intro _)

theorem read_string_error_check_core (c : Option Char) (a b d : Bool) :
    kept session.core (read_string_error_check c a b d) := by
  unfold read_string_error_check
  repeat (first
    | exact kept_pure _ _
    | exact kept_query _ _
    | exact kept_on_input _ _ (fun _ _ => rfl)
    | exact kept_update _ _ (fun _ => rfl)
    | apply kept_ite
    | apply kept_bind
    | intro _)

theorem struct_error_check_core (a b : Bool) :
    kept session.core (struct_error_check a b) := by
  unfold struct_error_check
  repeat (first
    | exact kept_pure _ _
    | exact kept_query _ _
    | exact kept_on_input _ _ (fun _ _ => rfl)
    | exact kept_update _ _ (fun _ => rfl)
    | apply kept_ite
    | apply kept_bind
    | intro _)

theorem ext_ent_end_of_line_core : kept session.core ext_ent_end_of_line := by
  unfold ext_ent_end_of_line
  repeat (first
    | exact kept_pure _ _
    | exact kept_query _ _
    | exact kept_on_input _ _ (fun _ _ => rfl)
    | exact kept_update _ _ (fun _ => rfl)
    | apply kept_ite
    | apply kept_bind
    | intro _)

theorem read_numbers_loop_names (fuel : Nat) (nr num : Int) :
    kept session.names (read_numbers_loop fuel nr num) := by
  induction fuel generalizing nr num with
  | zero =>
    unfold read_numbers_loop
    repeat (first
      | exact kept_on_input _ _ (fun _ _ => rfl)
      | exact kept_names_of_core (read_numbers_list_end_core _)
      | apply kept_bind
      | intro _)
  | succ n ih =>
    unfold read_numbers_loop
    repeat (first
      | exact kept_pure _ _
      | exact kept_query _ _
      | exact kept_on_input _ _ (fun _ _ => rfl)
      | exact kept_names_of_core (read_numbers_list_end_core _)
      | exact ih _ _
      | exact kept_update _ _ (fun _ => rfl)
      | apply kept_ite
      | apply kept_bind
      | intro _)

theorem read_numbers_list_names : kept session.names read_numbers_list := by
  unfold read_numbers_list
  repeat (first
    | exact kept_query _ _
    | exact read_numbers_loop_names _ _ _
    | apply kept_bind
    | intro _)

theorem insert_characters_names (l : List Char) : kept session.names (insert_characters l) := by
  induction l with
  | nil =>
    unfold insert_characters
    exact kept_pure _ _
  | cons c cs ih =>
    unfold insert_characters
    repeat (first
      | exact ih
      | exact kept_update _ _ (fun _ => rfl)
      | apply kept_bind
      | intro _)

theorem read_string_names : kept session.names read_string := by
  unfold read_string
  repeat (first
    | exact kept_pure _ _
    | exact kept_query _ _
    | exact kept_on_input _ _ (fun _ _ => rfl)
    | exact kept_names_of_core (read_string_error_check_core _ _ _ _)
    | exact insert_characters_names _
    | exact kept_update _ _ (fun _ => rfl)
    | apply kept_ite
    | apply kept_bind
    | intro _)

theorem process_directive_struct_names : kept session.names process_directive_struct := by
  unfold process_directive_struct
  repeat (first
    | exact kept_pure _ _
    | exact kept_query _ _
    | exact kept_on_input _ _ (fun _ _ => rfl)
    | exact kept_names_of_core (struct_error_check_core _ _)
    | exact read_string_names
    | exact kept_update _ _ (fun _ => rfl)
    | apply kept_ite
    | apply kept_bind
    | intro _)

theorem process_immediate_names (op : List Char) : kept session.names (process_immediate op) := by
  unfold process_immediate
  repeat (first
    | exact kept_pure _ _
    | exact kept_query _ _
    | exact kept_update _ _ (fun _ => rfl)
    | apply kept_ite
    | apply kept_bind
    | intro _)

theorem process_struct_names (op : List Char) : kept session.names (process_struct op) := by
  unfold process_struct
  repeat (first
    | exact kept_pure _ _
    | exact kept_query _ _
    | exact kept_names_of_core (is_legal_label_core _ _)
    | exact kept_update _ _ (fun _ => rfl)
    | apply kept_ite
    | apply kept_bind
    | intro _)

theorem process_operand_names (t : Int) (op : List Char) (b : Bool) :
    kept session.names (process_operand t op b) := by
  unfold process_operand
  apply kept_ite
  · repeat (first
      | exact kept_pure _ _
      | exact kept_query _ _
      | exact kept_update _ _ (fun _ => rfl)
      | apply kept_bind
      | intro _)
  apply kept_ite
  · exact process_immediate_names _
  apply kept_ite
  · repeat (first
      | exact kept_pure _ _
      | exact kept_query _ _
      | exact kept_names_of_core (is_legal_label_core _ _)
      | exact kept_update _ _ (fun _ => rfl)
      | apply kept_ite
      | apply kept_bind
      | intro _)
  apply kept_ite
  · exact process_struct_names _
  · exact kept_pure _ _

theorem store_operands_names (data : instruction) (t1 t2 : Int) (op1 op2 : List Char) :
    kept session.names (store_operands data t1 t2 op1 op2) := by
  unfold store_operands
  repeat (first
    | exact kept_pure _ _
    | exact kept_query _ _
    | exact process_operand_names _ _ _
    | exact kept_update _ _ (fun _ => rfl)
    | apply kept_ite
    | apply kept_bind
    | intro _)

end

/-! ### The symbol table: one symbol per name -/

set_option maxRecDepth 1000000 in
theorem initial_table_wf : table_wf initialize_symbol_table := by
  unfold table_wf
  decide

theorem hash_lt (key : List Char) (t : hash_table) (h : table_wf t) :
    default_hash_function key t.array_size < t.array.length := by
  rw [h.1]
  unfold default_hash_function
  exact Nat.mod_lt _ h.2.1

/-- Inserting a key that is present: 0 is returned and the table stays. -/
theorem hash_table_insert_present (t : hash_table) (key : List Char) (data : node_data)
    (ty : type) (n : node) (h : hash_table_find t key = some n) :
    hash_table_insert t key data ty = (t, false) := by
  unfold hash_table_find at h
  unfold hash_table_insert
  simp only [h]

/-- Inserting a key that is absent: 1 is returned and the new node is the
head of the bucket of the key. -/
theorem hash_table_insert_absent (t : hash_table) (key : List Char) (data : node_data)
    (ty : type) (h : hash_table_find t key = none) :
    hash_table_insert t key data ty =
      ({ t with
          array := t.array.set (default_hash_function key t.array_size)
                    ({ node_construct key ty with data := data } ::
                      t.array.getD (default_hash_function key t.array_size) []) }, true) := by
  unfold hash_table_find at h
  unfold hash_table_insert
  simp only [h]
  rfl

/-- An insertion does not change what is found for another key. -/
theorem hash_table_find_insert_ne (t : hash_table) (key : List Char) (data : node_data)
    (ty : type) (k : List Char) (hk : k ≠ key) :
    hash_table_find (hash_table_insert t key data ty).1 k = hash_table_find t k := by
  rcases Option.eq_none_or_eq_some (hash_table_find t key) with h | ⟨n, h⟩
  · rw [hash_table_insert_absent t key data ty h]
    unfold hash_table_find
    simp only
    by_cases hi : default_hash_function k t.array_size = default_hash_function key t.array_size
    · rw [hi]
      by_cases hlen : default_hash_function key t.array_size < t.array.length
      · rw [List.getD_eq_getElem?_getD, List.getElem?_set_self hlen]
        simp only [Option.getD_some, linked_list_find, List.find?_cons]
        have : decide (key = k) = false := by
          simp only [decide_eq_false_iff_not]
          exact fun e => hk e.symm
        simp only [node_construct, this]
      · rw [List.set_eq_of_length_le (by omega)]
    · rw [List.getD_eq_getElem?_getD, List.getElem?_set_ne (Ne.symm hi),
        ← List.getD_eq_getElem?_getD]
  · rw [hash_table_insert_present t key data ty n h]

/-- A key that is found is found as before after any insertion. -/
theorem hash_table_find_insert_keeps (t : hash_table) (key : List Char) (data : node_data)
    (ty : type) (k : List Char) (n : node) (h : hash_table_find t k = some n) :
    hash_table_find (hash_table_insert t key data ty).1 k = some n := by
  by_cases hk : k = key
  · subst hk
    rw [hash_table_insert_present t k data ty n h]
    exact h
  · rw [hash_table_find_insert_ne t key data ty k hk]
    exact h

/-- A key that was absent is found with the node made for it. -/
theorem hash_table_find_insert_new (t : hash_table) (key : List Char) (data : node_data)
    (ty : type) (hwf : table_wf t) (h : hash_table_find t key = none) :
    hash_table_find (hash_table_insert t key data ty).1 key =
      some { node_construct key ty with data := data } := by
  rw [hash_table_insert_absent t key data ty h]
  unfold hash_table_find
  simp only
  rw [List.getD_eq_getElem?_getD, List.getElem?_set_self (hash_lt key t hwf)]
  simp [linked_list_find, node_construct]

/-- An insertion keeps the shape of the table. -/
theorem table_wf_insert (t : hash_table) (key : List Char) (data : node_data) (ty : type)
    (hwf : table_wf t) : table_wf (hash_table_insert t key data ty).1 := by
  rcases Option.eq_none_or_eq_some (hash_table_find t key) with h | ⟨n, h⟩
  · rw [hash_table_insert_absent t key data ty h]
    obtain ⟨h1, h2, h3⟩ := hwf
    refine ⟨by simpa using h1, h2, ?_⟩
    intro i hi
    simp only [List.length_set] at hi
    simp only
    by_cases hik : i = default_hash_function key t.array_size
    · subst hik
      rw [List.getD_eq_getElem?_getD, List.getElem?_set_self hi]
      simp only [Option.getD_some, List.mem_cons, List.map_cons, List.nodup_cons]
      refine ⟨?_, ?_, (h3 _ hi).2⟩
      · rintro m (rfl | hm)
        · rfl
        · exact (h3 _ hi).1 m hm
      · intro hmem
        obtain ⟨m, hm, hmk⟩ := List.mem_map.mp hmem
        unfold hash_table_find linked_list_find at h
        have := List.find?_eq_none.mp h m hm
        simp only [node_construct] at hmk
        simp [hmk] at this
    · rw [List.getD_eq_getElem?_getD, List.getElem?_set_ne (Ne.symm hik),
        ← List.getD_eq_getElem?_getD]
      exact h3 i hi
  · rw [hash_table_insert_present t key data ty n h]
    exact hwf

/-- In a table of the right shape no name has two symbols. -/
theorem one_per_name_of_wf (t : hash_table) (hwf : table_wf t) : one_per_name t := by
  intro i j p q n m hn hm hi hj hkey
  have h1 := (hwf.2.2 i hi).1 n (List.getElem?_mem hn)
  have h2 := (hwf.2.2 j hj).1 m (List.getElem?_mem hm)
  have hij : i = j := by rw [← h1, ← h2, hkey]
  subst hij
  refine ⟨rfl, ?_⟩
  have hnd := (hwf.2.2 i hi).2
  have hp : p < (List.getD t.array i []).length := by
    by_contra hc
    rw [List.getElem?_eq_none (by omega)] at hn
    cases hn
  have hq : q < (List.getD t.array i []).length := by
    by_contra hc
    rw [List.getElem?_eq_none (by omega)] at hm
    cases hm
  have e1 : ((t.array.getD i []).map (fun n => n.key))[p]? = some n.key := by
    rw [List.getElem?_map, hn]
    rfl
  have e2 : ((t.array.getD i []).map (fun n => n.key))[q]? = some m.key := by
    rw [List.getElem?_map, hm]
    rfl
  rw [hkey] at e1
  have hp2 : p < ((t.array.getD i []).map (fun n => n.key)).length := by
    rw [List.length_map]
    exact hp
  have hq2 : q < ((t.array.getD i []).map (fun n => n.key)).length := by
    rw [List.length_map]
    exact hq
  rw [List.getElem?_eq_getElem hp2] at e1
  rw [List.getElem?_eq_getElem hq2] at e2
  exact (List.Nodup.getElem_inj_iff hnd).mp (Option.some.inj (e1.trans e2.symm))

/-! ### Sessions reached by the first pass -/

theorem reach_refl (s : session) : reach s s := Relation.ReflTransGen.refl

theorem reach_trans {a b c : session} (h1 : reach a b) (h2 : reach b c) : reach a c :=
  Relation.ReflTransGen.trans h1 h2

theorem reach_step {a b : session} (h : pass_step a b) : reach a b :=
  Relation.ReflTransGen.single h

theorem reach_other {s s1 : session} (h1 : s1.symbol_table = s.symbol_table)
    (h2 : s1.entries_list = s.entries_list) : reach s s1 :=
  reach_step (pass_step.other s s1 h1 h2)

theorem steps_pure {α : Type} (a : α) : steps (pure a : M α) := fun s => reach_refl s

theorem steps_bind {α β : Type} {m : M α} {k : α → M β} (hm : steps m)
    (hk : ∀ a, steps (k a)) : steps (m >>= k) :=
  fun s => reach_trans (hm s) (hk _ _)

theorem steps_bind_post {α β : Type} {m : M α} {k : α → M β} (Φ : α → Prop)
    (hm : steps m) (hv : ∀ s, Φ (m s).1) (hk : ∀ a, Φ a → steps (k a)) :
    steps (m >>= k) :=
  fun s => reach_trans (hm s) (hk _ (hv s) _)

theorem steps_ite {α : Type} (c : Prop) [Decidable c] {m1 m2 : M α} (h1 : steps m1)
    (h2 : steps m2) : steps (if c then m1 else m2) := by
  split_ifs
  · exact h1
  · exact h2

theorem steps_of_names {α : Type} {m : M α} (h : kept session.names m) : steps m := by
  intro s
  have := h s
  unfold session.names at this
  simp only [Prod.mk.injEq] at this
  exact reach_other this.1 this.2.1

theorem steps_of_core {α : Type} {m : M α} (h : kept session.core m) : steps m :=
  steps_of_names (kept_names_of_core h)

theorem steps_query {α : Type} (f : session → α) : steps (query f) :=
  steps_of_names (kept_query _ f)

theorem steps_on_input {α : Type} (g : InFile → α × InFile) : steps (on_input g) :=
  steps_of_names (kept_on_input _ g (fun _ _ => rfl))

theorem steps_update (f : session → session) (h : ∀ s, reach s (f s)) : steps (update f) :=
  fun s => h s

/-- What is found in the table stays found in every session reached. -/
theorem reach_found {s s1 : session} (h : reach s s1) (k : List Char) (n : node)
    (hk : find_symbol s.symbol_table k = some n) : find_symbol s1.symbol_table k = some n := by
  induction h with
  | refl => exact hk
  | tail _ hstep ih =>
    cases hstep with
    | other _ h1 _ => rw [h1]; exact ih
    | label name counter t is_struct _ _ =>
      exact hash_table_find_insert_keeps _ _ _ _ _ _ ih
    | external name counter _ _ _ =>
      exact hash_table_find_insert_keeps _ _ _ _ _ _ ih
    | entry name line _ _ _ =>
      unfold ent_ext_list_insert
      exact ih

/-- The shape of the table is kept in every session reached. -/
theorem reach_table_wf {s s1 : session} (h : reach s s1) (hwf : table_wf s.symbol_table) :
    table_wf s1.symbol_table := by
  induction h with
  | refl => exact hwf
  | tail _ hstep ih =>
    cases hstep with
    | other _ h1 _ => rw [h1]; exact ih
    | label name counter t is_struct _ _ => exact table_wf_insert _ _ _ _ ih
    | external name counter _ _ _ => exact table_wf_insert _ _ _ _ ih
    | entry name line _ _ _ =>
      unfold ent_ext_list_insert
      exact ih

/-- The names of the entries list stay distinct in every session reached. -/
theorem reach_entries_nodup {s s1 : session} (h : reach s s1)
    (hnd : (s.entries_list.map (fun n => n.key)).Nodup) :
    (s1.entries_list.map (fun n => n.key)).Nodup := by
  induction h with
  | refl => exact hnd
  | tail _ hstep ih =>
    cases hstep with
    | other _ _ h2 => rw [h2]; exact ih
    | label name counter t is_struct _ _ => exact ih
    | external name counter _ _ _ => exact ih
    | entry name line _ hfind _ =>
      unfold ent_ext_list_insert
      simp only [if_true, linked_list_insert, List.map_cons, List.nodup_cons]
      refine ⟨?_, ih⟩
      intro hmem
      obtain ⟨m, hm, hmk⟩ := List.mem_map.mp hmem
      unfold entries_list_find linked_list_find at hfind
      have := List.find?_eq_none.mp hfind m hm
      simp only [node_construct] at hmk
      simp [hmk] at this

/-- The names in the table are the preloaded ones and legal names, in every
session reached. -/
theorem reach_names_legal {s s1 : session} (h : reach s s1)
    (hl : ∀ k n, find_symbol s.symbol_table k = some n →
      k ∈ preloaded_names ∨ legal_name k = true) :
    ∀ k n, find_symbol s1.symbol_table k = some n →
      k ∈ preloaded_names ∨ legal_name k = true := by
  induction h with
  | refl => exact hl
  | tail _ hstep ih =>
    cases hstep with
    | other _ h1 _ => rw [h1]; exact ih
    | label name counter t is_struct hname _ =>
      intro k n hk
      by_cases hkn : k = name
      · right; rw [hkn]; exact hname
      · unfold session.symbol_table_insert_label symbol_table_insert_label find_symbol at hk
        simp only at hk
        rw [hash_table_find_insert_ne _ _ _ _ _ hkn] at hk
        exact ih k n hk
    | external name counter hname _ _ =>
      intro k n hk
      by_cases hkn : k = name
      · right; rw [hkn]; exact hname
      · unfold session.symbol_table_insert_label symbol_table_insert_label find_symbol at hk
        simp only at hk
        rw [hash_table_find_insert_ne _ _ _ _ _ hkn] at hk
        exact ih k n hk
    | entry name line _ _ _ =>
      unfold ent_ext_list_insert
      exact ih

/-! ### The head of a line -/

/-- Function `read_next_string` in terms of the unread text. -/
theorem read_next_string_text (c0 : Int) (f : InFile) :
    (read_next_string c0 f).1.1 = next_word f.buf ∧
    (read_next_string c0 f).1.2 = c0 + (f.buf.takeWhile in_word).length ∧
    (read_next_string c0 f).2.buf = after_word f.buf := by
  have htw := getc_while_takeWhile in_word f.eof f.buf
  have hst := getc_while_stop in_word f.eof f.buf
  have e : read_next_string c0 f =
      ((if (getc_while in_word f.eof f.buf).2.1 = some ':'
          then (getc_while in_word f.eof f.buf).1 ++ [':']
          else (getc_while in_word f.eof f.buf).1,
        c0 + (getc_while in_word f.eof f.buf).1.length),
       (skip_whites (if (getc_while in_word f.eof f.buf).2.1 = some ':'
          then (getc_while in_word f.eof f.buf).2.2
          else ungetc (getc_while in_word f.eof f.buf).2.1
            (getc_while in_word f.eof f.buf).2.2)).2) := rfl
  rw [e]
  unfold next_word after_word
  simp only
  rw [hst, htw.1]
  refine ⟨rfl, rfl, ?_⟩
  rw [(skip_whites_text _).2]
  congr 1
  by_cases hc : (f.buf.dropWhile in_word).head? = some ':'
  · rw [if_pos hc, if_pos hc]
    have h2 := htw.2
    rw [hst, hc] at h2
    rw [← h2]
    rfl
  · rw [if_neg hc, if_neg hc]
    rw [← hst]
    exact htw.2

theorem is_command_eq (t : hash_table) (str : List Char) :
    is_command t str = (command_name t str, find_symbol t str) := by
  unfold is_command command_name
  cases find_symbol t str with
  | none => simp
  | some n => simp

theorem legal_name_no_colon (name : List Char) (h : legal_name name = true) :
    ∀ c ∈ name, c ≠ ':' := by
  cases name with
  | nil => exact fun _ hc => absurd hc (List.not_mem_nil _)
  | cons a rest =>
    rw [legal_name_cons] at h
    intro c hc
    rcases List.mem_cons.mp hc with rfl | hc
    · intro e
      rw [e] at h
      exact absurd h.2.1 (by decide)
    · have := List.all_eq_true.mp h.2.2 c hc
      intro e
      rw [e] at this
      exact absurd this (by decide)

theorem remove_colon_legal (name : List Char) (h : legal_name name = true) :
    remove_colon (name ++ [':']) = name := by
  unfold remove_colon
  rw [List.takeWhile_append_of_pos]
  · simp
  · intro c hc
    simpa using legal_name_no_colon name h c hc

theorem pre_process_line_error_check_stderr (a b : List Char) (c : Bool) (o : Option node)
    (d : Bool) (s : session) :
    (pre_process_line_error_check a b c o d s).2.core = s.core :=
  pre_process_line_error_check_core a b c o d s

/-- What `pre_process_line` returns and leaves, in terms of the unread
text. -/
theorem pre_process_line_spec (s : session) : head_outcome s (pre_process_line s) := by
  unfold pre_process_line
  refine bind_post (fun _ s1 => s1 = s) (head_outcome s) s rfl ?_
  rintro c0 s0 rfl
  refine bind_post
    (fun (r1 : List Char × Int) s1 => r1.1 = next_word s0.intput_as.buf ∧
      ∃ f, s1 = { s0 with intput_as := f } ∧ f.buf = after_word s0.intput_as.buf)
    (head_outcome s0) s0 ?_ ?_
  · rw [apply_on_input]
    exact ⟨(read_next_string_text _ _).1, _, rfl, (read_next_string_text _ _).2.2⟩
  rintro r1 s1 ⟨hw1, f1, rfl, hf1⟩
  refine bind_post
    (fun (c1 : Bool × Option node) s2 =>
      c1 = (command_name s0.symbol_table (next_word s0.intput_as.buf),
            find_symbol s0.symbol_table (next_word s0.intput_as.buf)) ∧
      s2 = { s0 with intput_as := f1 })
    (head_outcome s0) _ ?_ ?_
  · rw [apply_query, is_command_eq, hw1]
    exact ⟨rfl, rfl⟩
  rintro c1 s2 ⟨rfl, rfl⟩
  simp only []
  by_cases hcmd : command_name s0.symbol_table (next_word s0.intput_as.buf) = true
  · rw [if_pos hcmd, apply_pure]
    refine ⟨rfl, fun _ => ⟨by rw [hw1], rfl, hf1⟩, fun h => ?_⟩
    rw [h] at hcmd
    exact absurd hcmd Bool.false_ne_true
  rw [if_neg hcmd]
  have hcmd2 : command_name s0.symbol_table (next_word s0.intput_as.buf) = false := by
    simpa using hcmd
  rw [apply_bind]
  by_cases hl : (is_legal_label r1.1 true { s0 with intput_as := f1 }).1.1 = true
  · rw [is_legal_label_true _ _ _ hl]
    simp only []
    rw [if_pos trivial]
    obtain ⟨name, hname, hlegal⟩ := (is_legal_label_new_iff _ _).mp hl
    have hrc : remove_colon r1.1 = name := by
      rw [hname]
      exact remove_colon_legal name hlegal
    rw [hrc, apply_bind, apply_query]
    simp only []
    have hname2 : next_word s0.intput_as.buf = name ++ [':'] := by rw [← hw1, hname]
    by_cases hfound : find_symbol s0.symbol_table name = none
    · rw [if_pos (by rw [hfound]; rfl)]
      rw [apply_bind, apply_on_input]
      simp only []
      rw [apply_bind, apply_query, is_command_eq]
      simp only []
      have hw2 := (read_next_string_text c0 f1).1
      have hb2 := (read_next_string_text c0 f1).2.2
      rw [hf1] at hw2 hb2
      rw [hw2]
      by_cases hc2 : command_name s0.symbol_table
          (next_word (after_word s0.intput_as.buf)) = true
      · rw [if_pos hc2, apply_pure]
        refine ⟨rfl, fun h => ?_, fun _ => ⟨?_, ?_, ?_⟩⟩
        · rw [hcmd2] at h
          exact absurd h Bool.false_ne_true
        · exact ⟨fun _ => ⟨name, hname2, hlegal, hfound, hc2⟩, fun _ => rfl⟩
        · intro _
          exact ⟨name, hname2, hlegal, rfl, rfl, hb2⟩
        · intro h
          exact absurd h (by simp)
      · rw [if_neg hc2, apply_bind, apply_pure]
        refine ⟨?_, fun h => ?_, fun _ => ⟨?_, ?_, ?_⟩⟩
        · exact pre_process_line_error_check_core _ _ _ _ _ _
        · rw [hcmd2] at h
          exact absurd h Bool.false_ne_true
        · constructor
          · intro h
            exact absurd h (by simp [line_head.failed])
          · rintro ⟨name2, hn2, -, -, hc⟩
            exact absurd hc hc2
        · intro h
          exact absurd h (by simp [line_head.failed])
        · intro _
          exact ⟨rfl, rfl, rfl⟩
    · rw [if_neg (by
        rcases Option.eq_none_or_eq_some (find_symbol s0.symbol_table name) with h | ⟨n, h⟩
        · exact absurd h hfound
        · rw [h]; simp)]
      rw [apply_bind, apply_pure]
      refine ⟨?_, fun h => ?_, fun _ => ⟨?_, ?_, ?_⟩⟩
      · exact pre_process_line_error_check_core _ _ _ _ _ _
      · rw [hcmd2] at h
        exact absurd h Bool.false_ne_true
      · constructor
        · intro h
          exact absurd h (by simp [line_head.failed])
        · rintro ⟨name2, hn2, hl2, hf2, -⟩
          exfalso
          rw [hname2] at hn2
          have : name = name2 := (List.append_inj' hn2 rfl).1
          rw [← this] at hf2
          exact hfound hf2
      · intro h
        exact absurd h (by simp [line_head.failed])
      · intro _
        exact ⟨rfl, rfl, rfl⟩
  · have hl2 : (is_legal_label r1.1 true { s0 with intput_as := f1 }).1.1 = false := by
      simpa using hl
    rw [hl2]
    simp only [Bool.false_eq_true, if_false]
    rw [apply_bind, apply_pure]
    refine ⟨?_, fun h => ?_, fun _ => ⟨?_, ?_, ?_⟩⟩
    · exact (pre_process_line_error_check_core _ _ _ _ _ _).trans
        (is_legal_label_core _ _ _)
    · rw [hcmd2] at h
      exact absurd h Bool.false_ne_true
    · constructor
      · intro h
        exact absurd h (by simp [line_head.failed])
      · rintro ⟨name2, hn2, hlg, -, -⟩
        exfalso
        rw [← hw1] at hn2
        have := (is_legal_label_new_iff r1.1 { s0 with intput_as := f1 }).mpr ⟨name2, hn2, hlg⟩
        exact hl this
    · intro h
      exact absurd h (by simp [line_head.failed])
    · intro _
      exact ⟨rfl, rfl, rfl⟩

/-- On a line whose first character after the blanks is neither a newline
nor a semicolon, `process_line` runs `process_line_body` on the text from
that character on. -/
theorem process_line_head (s : session) (ch : Char) (tail : List Char)
    (htext : s.intput_as.buf.dropWhile is_blank = ch :: tail)
    (h1 : ch ≠ '\n') (h2 : ch ≠ ';') :
    process_line s =
      process_line_body { s with intput_as := { buf := ch :: tail, eof := false } } := by
  have hw := skip_whites_text s.intput_as
  rw [htext] at hw
  have hc : (skip_whites s.intput_as).1 = some ch := by rw [hw.1]; rfl
  obtain ⟨hb1, hb2, tail2, hf⟩ := (skip_whites_spec s.intput_as).1 ch hc
  have ht : tail2 = tail := by
    have := hw.2
    rw [hf] at this
    simpa using this
  subst ht
  have e1 : is_comment_or_empty_line s =
      (decide ((skip_whites s.intput_as).1 = some '\n' ∨ (skip_whites s.intput_as).1 = some ';'),
       { s with intput_as := (skip_whites s.intput_as).2 }) := rfl
  have e2 : decide ((skip_whites s.intput_as).1 = some '\n' ∨
      (skip_whites s.intput_as).1 = some ';') = false := by
    rw [hc]
    simp [h1, h2]
  have e3 : peek_next_char { buf := ch :: tail2, eof := false } =
      (some ch, { buf := ch :: tail2, eof := false }) := by
    rw [peek_next_char_eq, skip_whites_at_char ch tail2 hb1 hb2]
  unfold process_line
  rw [apply_bind, e1, e2, hf]
  simp only [Bool.false_eq_true, if_false]
  rw [apply_bind, apply_bind, apply_on_input]
  simp only []
  rw [e3]
  simp only [apply_pure]
  rfl

/-- When `pre_process_line` returns 0, `process_line_body` returns 0 after
skipping the line, and nothing but the input stream and the messages has
changed. -/
theorem process_line_body_failed (s : session) (h : (pre_process_line s).1.status = false) :
    (process_line_body s).1 = false ∧ (process_line_body s).2.core = s.core := by
  unfold process_line_body
  rw [apply_bind, h]
  simp only [Bool.false_eq_true, if_false]
  rw [apply_bind, apply_on_input, apply_pure]
  exact ⟨rfl, pre_process_line_core s⟩

set_option maxRecDepth 1000000 in
/-- C24: with `word` the first token of the unread text and `rest` the text
after it, `pre_process_line` returns 1 with no label when `word` is the name
of an INST or DIRECT symbol; otherwise it returns 1 exactly when `word` is a
legal name followed by a colon, the name is not in the symbol table, and the
first token of `rest` is the name of an INST or DIRECT symbol, and then the
label is the name without the colon and the label flag is set. It never
touches the memory, the symbol table or the lists. When it returns 0 on a
line that is neither empty nor a comment, `process_line` returns 0 and has
stored no word and defined no symbol. For the line `mov:` and for the line
`r1: stop` the call fails with error 2. -/
theorem c24_line_head (s : session) :
    head_outcome s (pre_process_line s) ∧
    (∀ (ch : Char) (tail : List Char),
      s.intput_as.buf.dropWhile is_blank = ch :: tail → ch ≠ '\n' → ch ≠ ';' →
      (pre_process_line { s with intput_as := { buf := ch :: tail, eof := false } }).1.status
        = false →
      (process_line s).1 = false ∧ (process_line s).2.mem = s.mem ∧
      (process_line s).2.symbol_table = s.symbol_table ∧
      (process_line s).2.second_pass_list = s.second_pass_list ∧
      (process_line s).2.entries_list = s.entries_list ∧
      (process_line s).2.externs_list = s.externs_list) ∧
    ((pre_process_line (session_start 0 "mov: r1, r2\n".toList)).1.status = false ∧
      (pre_process_line (session_start 0 "mov: r1, r2\n".toList)).2.stderr
        = [diag.error_string 0 2 "mov".toList] ∧
      (pre_process_line (session_start 0 "r1: stop\n".toList)).2.stderr
        = [diag.error_string 0 2 "r1".toList] ∧
      (pre_process_line (session_start 0 "L: stop\n".toList)).1
        = { status := true, label := "L".toList, command := "stop".toList, label_flag := true,
            symbol := find_symbol initialize_symbol_table "stop".toList }) := by
  refine ⟨pre_process_line_spec s, ?_, by decide⟩
  intro ch tail htext h1 h2 hfail
  rw [process_line_head s ch tail htext h1 h2]
  obtain ⟨a, b⟩ := process_line_body_failed _ hfail
  unfold session.core at b
  simp only [Prod.mk.injEq] at b
  exact ⟨a, b.2.1, b.1, b.2.2.1, b.2.2.2.1, b.2.2.2.2.1⟩

/-! ### The directives .entry and .extern -/

/-- Function `ext_ent_end_of_line`: it prints error 6 exactly when it
returns 0, and touches nothing but the input stream. -/
theorem ext_ent_end_of_line_spec (s : session) :
    (ext_ent_end_of_line s).2.core = s.core ∧
    (ext_ent_end_of_line s).2.stderr =
      s.stderr ++ (if (ext_ent_end_of_line s).1 = true then []
        else [diag.error s.line_count 6]) := by
  refine ⟨ext_ent_end_of_line_core s, ?_⟩
  unfold ext_ent_end_of_line
  rw [apply_bind, apply_query]
  simp only []
  rw [apply_bind, apply_on_input]
  simp only []
  by_cases h1 : (peek_next_char s.intput_as).1 = some '\n'
  · rw [if_pos h1, apply_bind, apply_on_input, apply_pure]
    simp
  · rw [if_neg h1, apply_bind, apply_on_input]
    simp only []
    by_cases h2 : (peek_next_char (peek_next_char s.intput_as).2).1 = none
    · rw [if_pos h2, apply_bind, apply_on_input, apply_pure]
      simp
    · rw [if_neg h2, apply_bind, apply_pure]
      simp [update, print_error]

/-- What `process_directive_ext_ent` does when the next token is a legal
name and the counter of `read_next_string` does not come out as 0. -/
theorem process_directive_ext_ent_spec (is_ext is_label : Bool) (s : session)
    (hcount : s.chars_count0 + ((s.intput_as.buf.takeWhile in_word).length : Int) ≠ 0)
    (hlegal : legal_name (next_word s.intput_as.buf) = true) :
    ext_ent_outcome is_ext is_label s (next_word s.intput_as.buf)
      (process_directive_ext_ent is_ext is_label s) := by
  unfold process_directive_ext_ent
  refine bind_post (fun lc s1 => lc = s.line_count ∧ s1 = s)
    (ext_ent_outcome is_ext is_label s (next_word s.intput_as.buf)) s ⟨rfl, rfl⟩ ?_
  rintro lc s0 ⟨rfl, rfl⟩
  refine bind_post
    (fun (_ : Unit) s1 => s1 = { s0 with stderr := s0.stderr ++
      (if is_label then [diag.warning s0.line_count 2] else []) })
    (ext_ent_outcome is_ext is_label s0 (next_word s0.intput_as.buf)) s0 ?_ ?_
  · cases is_label
    · simp [apply_pure]
    · simp only [if_true]
      rfl
  rintro - s1 rfl
  refine bind_post (fun c s2 => c = s0.chars_count0 ∧ s2 = { s0 with stderr := s0.stderr ++
      (if is_label then [diag.warning s0.line_count 2] else []) })
    (ext_ent_outcome is_ext is_label s0 (next_word s0.intput_as.buf)) _ ⟨rfl, rfl⟩ ?_
  rintro c0 s2 ⟨rfl, rfl⟩
  refine bind_post
    (fun (r : List Char × Int) s3 => r.1 = next_word s0.intput_as.buf ∧
      r.2 = s0.chars_count0 + ((s0.intput_as.buf.takeWhile in_word).length : Int) ∧
      ∃ f, s3 = { s0 with stderr := s0.stderr ++
        (if is_label then [diag.warning s0.line_count 2] else []), intput_as := f })
    (ext_ent_outcome is_ext is_label s0 (next_word s0.intput_as.buf)) _ ?_ ?_
  · rw [apply_on_input]
    exact ⟨(read_next_string_text _ _).1, (read_next_string_text _ _).2.1, _, rfl⟩
  rintro r s3 ⟨hr1, hr2, f, rfl⟩
  rw [if_pos (by rw [hr2]; exact hcount), apply_bind]
  have hl : (is_legal_label r.1 false { s0 with stderr := s0.stderr ++
        (if is_label then [diag.warning s0.line_count 2] else []), intput_as := f }).1.1
      = true := by
    rw [is_legal_label_old_iff, hr1]
    exact hlegal
  rw [is_legal_label_true _ _ _ hl]
  simp only []
  rw [if_pos trivial, apply_bind, apply_query]
  simp only []
  rw [apply_bind, apply_query]
  simp only []
  rw [hr1]
  have hfind : entries_list_find { s0 with stderr := s0.stderr ++
        (if is_label then [diag.warning s0.line_count 2] else []), intput_as := f }
      (next_word s0.intput_as.buf) = entries_list_find s0 (next_word s0.intput_as.buf) := rfl
  rw [hfind]
  generalize next_word s0.intput_as.buf = name
  generalize hfd : find_symbol s0.symbol_table name = found
  generalize hen : entries_list_find s0 name = in_entries
  unfold ext_ent_outcome ext_ent_accepted
  rw [hfd, hen]
  cases is_ext with
  | true =>
    simp only [if_true, true_and, Bool.true_eq_false, false_and, if_false, not_true_eq_false]
    by_cases hacc : found = none ∧ in_entries = none
    · have hcond : ¬ (found.isSome = true ∨ in_entries.isSome = true) := by
        rw [hacc.1, hacc.2]
        simp
      rw [if_pos hcond]
      rw [apply_bind, apply_query]
      simp only []
      rw [apply_bind]
      obtain ⟨e1, e2⟩ := ext_ent_end_of_line_spec (update (session.symbol_table_insert_label
        name s0.mem.DC type.EXTERN false) { s0 with stderr := s0.stderr ++
        (if is_label then [diag.warning s0.line_count 2] else []), intput_as := f }).2
      unfold session.core at e1
      simp only [Prod.mk.injEq] at e1
      obtain ⟨c1, c2, c3, c4, c5, c6, -⟩ := e1
      refine ⟨c2, c3, c5, c6, fun _ => ⟨?_, ?_, ?_⟩, fun h => absurd hacc h⟩
      · rw [c1]
        rfl
      · rw [c4]
        rfl
      · rw [e2]
        simp only [update, session.symbol_table_insert_label, hfd, hacc.1, Option.isSome_none,
          Bool.false_eq_true, if_false]
    · have hcond : ¬ ¬ (found.isSome = true ∨ in_entries.isSome = true) := by
        intro h
        apply hacc
        constructor
        · cases found with
          | none => rfl
          | some n => exact absurd (Or.inl rfl) h
        · cases in_entries with
          | none => rfl
          | some n => exact absurd (Or.inr rfl) h
      rw [if_neg hcond]
      rw [apply_bind, apply_pure]
      exact ⟨rfl, rfl, rfl, rfl, fun h => absurd h hacc, fun _ => ⟨rfl, rfl, rfl, rfl⟩⟩
  | false =>
    simp only [Bool.false_eq_true, false_and, if_false, not_false_eq_true, true_and]
    by_cases hacc : in_entries = none ∧ found.map (fun n => n.type) ≠ some type.EXTERN
    · rw [if_pos (by
        refine ⟨by rw [hacc.1]; rfl, ?_⟩
        cases found with
        | none => exact Or.inl rfl
        | some n => exact Or.inr hacc.2)]
      rw [apply_bind]
      obtain ⟨e1, e2⟩ := ext_ent_end_of_line_spec (update (ent_ext_list_insert
        name true s0.line_count) { s0 with stderr := s0.stderr ++
        (if is_label then [diag.warning s0.line_count 2] else []), intput_as := f }).2
      unfold session.core at e1
      simp only [Prod.mk.injEq] at e1
      obtain ⟨c1, c2, c3, c4, c5, c6, -⟩ := e1
      refine ⟨c2, c3, c5, c6, fun _ => ⟨?_, ?_, ?_⟩, fun h => absurd hacc h⟩
      · rw [c1]
        rfl
      · rw [c4]
        rfl
      · rw [e2]
        rfl
    · rw [if_neg (by
        rintro ⟨h1, h2⟩
        apply hacc
        constructor
        · cases in_entries with
          | none => rfl
          | some n => exact absurd h1 (by simp)
        · rcases h2 with h2 | h2
          · cases found with
            | none => simp
            | some n => exact absurd h2 (by simp)
          · exact h2)]
      rw [apply_bind, apply_pure]
      exact ⟨rfl, rfl, rfl, rfl, fun h => absurd h hacc, fun _ => ⟨rfl, rfl, rfl, rfl⟩⟩

/-! ### The first pass is made of its updates -/

theorem is_legal_label_value (label : List Char) (s : session) :
    (is_legal_label label false s).1.1 = true →
      legal_name (is_legal_label label false s).1.2 = true := by
  intro h
  rw [is_legal_label_true _ _ _ h]
  exact (is_legal_label_old_iff label s).mp h

/-- The part of `process_directive_ext_ent` that records a legal name. -/
theorem ext_ent_record_steps (is_ext : Bool) (label : List Char) (lc : Int)
    (hlegal : legal_name label = true) :
    steps (do
      let found ← query (fun s => find_symbol s.symbol_table label)
      let in_entries ← query (fun s => entries_list_find s label)
      if is_ext ∧ ¬ (found.isSome ∨ in_entries.isSome) then
        let dc ← query (fun s => s.mem.DC)
        update (session.symbol_table_insert_label label dc .EXTERN false)
        ext_ent_end_of_line
      else if ¬ is_ext ∧ in_entries.isNone ∧
          (found.isNone ∨ found.map (fun n => n.type) ≠ some .EXTERN) then
        update (ent_ext_list_insert label true lc)
        ext_ent_end_of_line
      else
        update (print_error_string lc 24 label)
        pure false) := by
  intro s
  rw [apply_bind, apply_query]
  simp only []
  rw [apply_bind, apply_query]
  simp only []
  by_cases c1 : is_ext = true ∧ ¬ ((find_symbol s.symbol_table label).isSome = true ∨
      (entries_list_find s label).isSome = true)
  · rw [if_pos c1, apply_bind, apply_query]
    simp only []
    rw [apply_bind]
    refine reach_trans (reach_step (pass_step.external s label _ hlegal ?_ ?_))
      (steps_of_core ext_ent_end_of_line_core _)
    · rcases Option.eq_none_or_eq_some (find_symbol s.symbol_table label) with h | ⟨n, h⟩
      · exact h
      · exact absurd (Or.inl (by rw [h]; rfl)) c1.2
    · rcases Option.eq_none_or_eq_some (entries_list_find s label) with h | ⟨n, h⟩
      · exact h
      · exact absurd (Or.inr (by rw [h]; rfl)) c1.2
  · rw [if_neg c1]
    by_cases c2 : ¬ is_ext = true ∧ (entries_list_find s label).isNone = true ∧
        ((find_symbol s.symbol_table label).isNone = true ∨
          (find_symbol s.symbol_table label).map (fun n => n.type) ≠ some type.EXTERN)
    · rw [if_pos c2, apply_bind]
      refine reach_trans (reach_step (pass_step.entry s label lc hlegal ?_ ?_))
        (steps_of_core ext_ent_end_of_line_core _)
      · rcases Option.eq_none_or_eq_some (entries_list_find s label) with h | ⟨n, h⟩
        · exact h
        · have := c2.2.1
          rw [h] at this
          exact absurd this (by simp)
      · rcases c2.2.2 with h | h
        · rcases Option.eq_none_or_eq_some (find_symbol s.symbol_table label) with h2 | ⟨n, h2⟩
          · rw [h2]
            simp
          · rw [h2] at h
            exact absurd h (by simp)
        · exact h
    · rw [if_neg c2, apply_bind, apply_pure]
      exact reach_other rfl rfl

section
attribute [local irreducible] M.bind M.pure query update on_input kept steps

theorem process_directive_ext_ent_steps (is_ext is_label : Bool) :
    steps (process_directive_ext_ent is_ext is_label) := by
  unfold process_directive_ext_ent
  apply steps_bind (steps_query _)
  intro lc
  apply steps_bind
  · apply steps_ite
    · exact steps_update _ (fun _ => reach_other rfl rfl)
    · exact steps_pure _
  intro _
  apply steps_bind (steps_query _)
  intro c0
  apply steps_bind (steps_on_input _)
  intro r
  apply steps_ite
  · refine steps_bind_post (fun l => l.1 = true → legal_name l.2 = true)
      (steps_of_core (is_legal_label_core _ _)) (fun s => is_legal_label_value _ s) ?_
    intro l hl
    by_cases hl1 : l.1 = true
    · rw [if_pos hl1]
      exact ext_ent_record_steps is_ext l.2 lc (hl hl1)
    · rw [if_neg hl1]
      exact steps_pure _
  · exact steps_pure _

theorem process_directive_steps (direct : node) (is_label : Bool) (label : List Char)
    (hlabel : is_label = true → legal_name label = true) :
    steps (process_directive direct is_label label) := by
  unfold process_directive
  apply steps_bind
  · apply steps_ite
    · exact process_directive_ext_ent_steps _ _
    apply steps_ite
    · exact process_directive_ext_ent_steps _ _
    apply steps_bind
    · by_cases hl : is_label = true
      · rw [if_pos hl]
        apply steps_bind (steps_query _)
        intro dc
        exact steps_update _ (fun s => reach_step
          (pass_step.label s label dc type.DATA _ (hlabel hl) (Or.inl rfl)))
      · rw [if_neg hl]
        exact steps_pure _
    intro _
    apply steps_ite
    · apply steps_bind (steps_of_names read_numbers_list_names)
      intro _
      exact steps_pure _
    apply steps_ite
    · exact steps_of_names read_string_names
    apply steps_ite
    · exact steps_of_names process_directive_struct_names
    · exact steps_pure _
  intro status
  apply steps_ite
  · apply steps_bind (steps_on_input _)
    intro _
    exact steps_pure _
  · exact steps_pure _

theorem process_instruction_steps (inst : node) (is_label : Bool) (label : List Char)
    (hlabel : is_label = true → legal_name label = true) :
    steps (process_instruction inst is_label label) := by
  unfold process_instruction
  simp only []
  apply steps_bind
  · by_cases hl : is_label = true
    · rw [if_pos hl]
      apply steps_bind (steps_query _)
      intro ic
      exact steps_update _ (fun s => reach_step
        (pass_step.label s label ic type.INST_L _ (hlabel hl) (Or.inr rfl)))
    · rw [if_neg hl]
      exact steps_pure _
  intro _
  apply steps_bind (steps_of_core (detect_operands_and_types_core _))
  intro d
  apply steps_bind
  · apply steps_ite
    · exact steps_of_core (check_operands_types_core _ _ _)
    · exact steps_pure _
  intro status
  apply steps_ite
  · apply steps_bind (steps_on_input _)
    intro _
    exact steps_pure _
  apply steps_bind
  · exact steps_update _ (fun _ => reach_other rfl rfl)
  intro _
  apply steps_ite
  · exact steps_of_names (store_operands_names _ _ _ _ _)
  · exact steps_pure _

end

/-- The label `pre_process_line` hands back with the label flag set is a
legal name. -/
theorem pre_process_line_label (s : session) :
    (pre_process_line s).1.label_flag = true →
      legal_name (pre_process_line s).1.label = true := by
  intro hflag
  obtain ⟨-, h1, h2⟩ := pre_process_line_spec s
  rcases Bool.eq_false_or_eq_true
    (command_name s.symbol_table (next_word s.intput_as.buf)) with hc | hc
  · rw [(h1 hc).1] at hflag
    exact absurd hflag Bool.false_ne_true
  · obtain ⟨-, h3, h4⟩ := h2 hc
    rcases Bool.eq_false_or_eq_true (pre_process_line s).1.status with hs | hs
    · obtain ⟨name, -, hlegal, hr, -⟩ := h3 hs
      rw [hr]
      exact hlegal
    · rw [(h4 hs).1] at hflag
      exact absurd hflag Bool.false_ne_true

section
attribute [local irreducible] M.bind M.pure query update on_input kept steps

theorem process_line_steps : steps process_line := by
  unfold process_line
  apply steps_bind (steps_of_core is_comment_or_empty_line_core)
  intro e
  apply steps_bind
  · apply steps_ite
    · exact steps_pure _
    · apply steps_bind (steps_on_input _)
      intro _
      exact steps_pure _
  intro skip
  apply steps_ite
  · apply steps_bind (steps_on_input _)
    intro _
    exact steps_pure _
  refine steps_bind_post (fun h => h.label_flag = true → legal_name h.label = true)
    (steps_of_core pre_process_line_core) pre_process_line_label ?_
  intro h hh
  apply steps_ite
  · cases hsym : h.symbol with
    | none => exact steps_pure _
    | some symbol =>
      simp only
      apply steps_ite
      · exact process_instruction_steps _ _ _ hh
      apply steps_ite
      · exact process_directive_steps _ _ _ hh
      · exact steps_pure _
  · apply steps_bind (steps_on_input _)
    intro _
    exact steps_pure _

theorem first_pass_loop_steps (fuel : Nat) (status : Bool) :
    steps (first_pass_loop fuel status) := by
  induction fuel generalizing status with
  | zero =>
    unfold first_pass_loop
    exact steps_pure _
  | succ n ih =>
    unfold first_pass_loop
    apply steps_bind (steps_query _)
    intro eof
    apply steps_ite
    · exact steps_pure _
    apply steps_bind
    · exact steps_update _ (fun _ => reach_other rfl rfl)
    intro _
    apply steps_bind process_line_steps
    intro _
    exact ih _

theorem first_pass_process_steps : steps first_pass_process := by
  unfold first_pass_process
  apply steps_bind (steps_query _)
  intro _
  exact first_pass_loop_steps _ _

end

/-- The session after the second pass and the writing of the output files
holds the symbol table the first pass left. -/
theorem file_process_table (chars_count0 : Int) (input : List Char) :
    (file_process chars_count0 input).final.symbol_table =
      (first_pass_process (session_start chars_count0 input)).2.symbol_table := by
  unfold file_process
  simp only
  split_ifs with h1 h2
  · simp only
    have h3 := create_entries_file_frame _ _ _
      (second_pass_process (first_pass_process (session_start chars_count0 input)).2).2
      ⟨rfl, rfl, rfl⟩
    have h4 := create_externs_files_frame _ _ _ _ h3
    rw [h4.2.1]
    exact (second_pass_process_frame _).1
  · exact (second_pass_process_frame _).1
  · rfl

set_option maxRecDepth 1000000 in
/-- C22: `hash_table_insert` of a key that is found returns 0 and leaves
the table as it is, so what is found stays found with its type and data; an
insertion does not change what is found for another key, and a key that was
absent is found with the node made for it. In every session reached from the
start of a file by the updates of the first pass, which `process_line` and
`first_pass_process` are made of, the table has at most one symbol for a
name, and what is found there is found unchanged in every session reached
later; the same holds of the table `file_process` ends with. -/
theorem c22_one_symbol_per_name :
    (∀ (t : hash_table) (key : List Char) (data : node_data) (ty : type) (n : node),
      hash_table_find t key = some n →
        hash_table_insert t key data ty = (t, false) ∧
        find_symbol (hash_table_insert t key data ty).1 key = some n) ∧
    (∀ (t : hash_table) (key : List Char) (data : node_data) (ty : type) (k : List Char),
      k ≠ key →
        find_symbol (hash_table_insert t key data ty).1 k = find_symbol t k) ∧
    (∀ (t : hash_table) (key : List Char) (data : node_data) (ty : type),
      table_wf t → hash_table_find t key = none →
        (hash_table_insert t key data ty).2 = true ∧
        find_symbol (hash_table_insert t key data ty).1 key =
          some { key := key, type := ty, index := 0, data := data }) ∧
    (∀ (chars_count0 : Int) (input : List Char) (s1 : session),
      reach (session_start chars_count0 input) s1 →
        one_per_name s1.symbol_table ∧
        ∀ s2 : session, reach s1 s2 → ∀ (k : List Char) (n : node),
          find_symbol s1.symbol_table k = some n → find_symbol s2.symbol_table k = some n) ∧
    (steps process_line ∧ steps first_pass_process) ∧
    (∀ (chars_count0 : Int) (input : List Char),
      reach (session_start chars_count0 input)
        (first_pass_process (session_start chars_count0 input)).2 ∧
      one_per_name (file_process chars_count0 input).final.symbol_table) := by
  refine ⟨?_, ?_, ?_, ?_, ⟨process_line_steps, first_pass_process_steps⟩, ?_⟩
  · intro t key data ty n h
    refine ⟨hash_table_insert_present t key data ty n h, ?_⟩
    rw [hash_table_insert_present t key data ty n h]
    exact h
  · intro t key data ty k hk
    exact hash_table_find_insert_ne t key data ty k hk
  · intro t key data ty hwf h
    refine ⟨?_, hash_table_find_insert_new t key data ty hwf h⟩
    rw [hash_table_insert_absent t key data ty h]
  · intro c input s1 h1
    refine ⟨one_per_name_of_wf _ (reach_table_wf h1 initial_table_wf), ?_⟩
    intro s2 h2 k n hk
    exact reach_found h2 k n hk
  · intro c input
    refine ⟨first_pass_process_steps _, ?_⟩
    rw [file_process_table]
    exact one_per_name_of_wf _ (reach_table_wf (first_pass_process_steps _) initial_table_wf)

/-! ### The label of a line -/

section
attribute [local irreducible] M.bind M.pure query update on_input kept

theorem directive_body_names (direct : node) :
    kept session.names
      (if direct.key = ".data".toList then do
         let n ← read_numbers_list
         pure (decide (n ≠ 0))
       else if direct.key = ".string".toList then read_string
       else if direct.key = ".struct".toList then process_directive_struct
       else pure true) := by
  apply kept_ite
  · apply kept_bind read_numbers_list_names
    intro _
    exact kept_pure _ _
  apply kept_ite
  · exact read_string_names
  apply kept_ite
  · exact process_directive_struct_names
  · exact kept_pure _ _

theorem directive_end_names (status : Bool) :
    kept session.names
      (if ¬ status = true then do
         let _ ← on_input skip_line
         pure status
       else pure status) := by
  apply kept_ite
  · apply kept_bind (kept_on_input session.names _ (fun _ _ => rfl))
    intro _
    exact kept_pure _ _
  · exact kept_pure _ _

theorem instruction_body_names (data : instruction) :
    kept session.names (do
      let d ← detect_operands_and_types data
      let status ← (if d.status then check_operands_types data d.op1_type d.op2_type
                    else pure false)
      if ¬ status then
        let _ ← on_input skip_line
        pure false
      else
        update (session.instructions_array_insert
          (create_instruction_word data data.value d.op1_type d.op2_type))
        if data.input ≠ 0 ∨ data.output ≠ 0 then
          store_operands data d.op1_type d.op2_type d.op1 d.op2
        else pure true) := by
  apply kept_bind (kept_names_of_core (detect_operands_and_types_core _))
  intro d
  apply kept_bind
  · apply kept_ite
    · exact kept_names_of_core (check_operands_types_core _ _ _)
    · exact kept_pure _ _
  intro status
  apply kept_ite
  · apply kept_bind (kept_on_input session.names _ (fun _ _ => rfl))
    intro _
    exact kept_pure _ _
  apply kept_bind
  · exact kept_update _ _ (fun _ => rfl)
  intro _
  apply kept_ite
  · exact store_operands_names _ _ _ _ _
  · exact kept_pure _ _

end

/-- The symbol table after `process_directive` for `.data`, `.string` or
`.struct`: the label of the line, when there is one, has been inserted as a
DATA symbol with the DC of before the call; nothing else has changed in the
table, and the entries list is as it was. -/
theorem process_directive_table (direct : node) (is_label : Bool) (label : List Char)
    (s : session) (h1 : direct.key ≠ ".entry".toList) (h2 : direct.key ≠ ".extern".toList) :
    (process_directive direct is_label label s).2.symbol_table =
      (if is_label then symbol_table_insert_label s.symbol_table label s.mem.DC type.DATA
        (decide (direct.key = ".struct".toList)) else s.symbol_table) ∧
    (process_directive direct is_label label s).2.entries_list = s.entries_list := by
  unfold process_directive
  simp only []
  rw [apply_bind, if_neg h1, if_neg h2, apply_bind]
  have ha := directive_end_names
    ((do
      (if is_label = true then do
        let dc ← query (fun s => s.mem.DC)
        update (session.symbol_table_insert_label label dc type.DATA
          (decide (direct.key = ".struct".toList)))
       else pure ())
      (if direct.key = ".data".toList then do
         let n ← read_numbers_list
         pure (decide (n ≠ 0))
       else if direct.key = ".string".toList then read_string
       else if direct.key = ".struct".toList then process_directive_struct
       else pure true) : M Bool) s).1
  have hb := directive_body_names direct
    ((if is_label = true then do
        let dc ← query (fun s => s.mem.DC)
        update (session.symbol_table_insert_label label dc type.DATA
          (decide (direct.key = ".struct".toList)))
       else pure () : M Unit) s).2
  unfold kept session.names at ha hb
  simp only [Prod.mk.injEq] at ha hb
  rw [apply_bind] at ha
  rw [(ha _).1, (ha _).2.1, hb.1, hb.2.1]
  cases is_label with
  | true => exact ⟨rfl, rfl⟩
  | false => exact ⟨rfl, rfl⟩

/-- The symbol table after `process_instruction`: the label of the line,
when there is one, has been inserted as an INST_L symbol with the IC of
before the call; nothing else has changed in the table, and the entries list
is as it was. -/
theorem process_instruction_table (inst : node) (is_label : Bool) (label : List Char)
    (s : session) :
    (process_instruction inst is_label label s).2.symbol_table =
      (if is_label then symbol_table_insert_label s.symbol_table label s.mem.IC type.INST_L
        false else s.symbol_table) ∧
    (process_instruction inst is_label label s).2.entries_list = s.entries_list := by
  unfold process_instruction
  simp only []
  rw [apply_bind]
  have hb := instruction_body_names inst.instruction
    ((if is_label = true then do
        let ic ← query (fun s => s.mem.IC)
        update (session.symbol_table_insert_label label ic type.INST_L false)
       else pure () : M Unit) s).2
  unfold kept session.names at hb
  simp only [Prod.mk.injEq] at hb
  rw [hb.1, hb.2.1]
  cases is_label with
  | true => exact ⟨rfl, rfl⟩
  | false => exact ⟨rfl, rfl⟩

theorem wrap10_of_counter (n : Nat) (h : n ≤ 511) : (word_assign (n : Int)).value = n := by
  show wrap10 (n : Int) = n
  unfold wrap10
  omega

/-- The label `pre_process_line` hands back is not in the symbol table. -/
theorem pre_process_line_fresh (s : session)
    (hflag : (pre_process_line s).1.label_flag = true) :
    find_symbol (pre_process_line s).2.symbol_table (pre_process_line s).1.label = none := by
  obtain ⟨hcore, h1, h2⟩ := pre_process_line_spec s
  have htab : (pre_process_line s).2.symbol_table = s.symbol_table := by
    unfold session.core at hcore
    simp only [Prod.mk.injEq] at hcore
    exact hcore.1
  rw [htab]
  rcases Bool.eq_false_or_eq_true
    (command_name s.symbol_table (next_word s.intput_as.buf)) with hc | hc
  · rw [(h1 hc).1] at hflag
    exact absurd hflag Bool.false_ne_true
  · obtain ⟨h3, h4, h5⟩ := h2 hc
    rcases Bool.eq_false_or_eq_true (pre_process_line s).1.status with hs | hs
    · obtain ⟨name, hn, -, hr, -⟩ := h4 hs
      obtain ⟨name2, hn2, -, hf, -⟩ := h3.mp hs
      rw [hr]
      simp only
      rw [hn] at hn2
      have : name = name2 := (List.append_inj' hn2 rfl).1
      rw [this]
      exact hf
    · rw [(h5 hs).1] at hflag
      exact absurd hflag Bool.false_ne_true

set_option maxRecDepth 1000000 in
/-- C25: called with a label that is not in the table, `process_directive`
for `.data`, `.string` or `.struct` leaves the table with just one more
symbol, the label as a DATA symbol whose address is the DC of before the
call, that is before any word of the line is stored, and whose `is_struct`
is 1 exactly for `.struct`; `process_instruction` leaves it with the label as
an INST_L symbol whose address is the IC of before the call. The label
`pre_process_line` hands to them is never in the table. In the source
`A: .data 1,2`, `B: .struct 3,"x"`, `L: inc r1`, `M: stop` the symbols get
the addresses 0, 2, 0 and 2. -/
theorem c25_label_of_line (direct inst : node) (label : List Char) (s : session)
    (hwf : table_wf s.symbol_table) (hfresh : find_symbol s.symbol_table label = none)
    (hkey : direct.key = ".data".toList ∨ direct.key = ".string".toList ∨
      direct.key = ".struct".toList) :
    ((process_directive direct true label s).2.symbol_table =
        symbol_table_insert_label s.symbol_table label s.mem.DC type.DATA
          (decide (direct.key = ".struct".toList)) ∧
      find_symbol (process_directive direct true label s).2.symbol_table label =
        some { key := label, type := type.DATA, index := 0,
               data := node_data.label
                 { address := word_assign s.mem.DC,
                   is_struct := decide (direct.key = ".struct".toList) } } ∧
      (∀ k : List Char, k ≠ label →
        find_symbol (process_directive direct true label s).2.symbol_table k =
          find_symbol s.symbol_table k) ∧
      (s.mem.DC ≤ 511 → (word_assign s.mem.DC).value = s.mem.DC)) ∧
    ((process_instruction inst true label s).2.symbol_table =
        symbol_table_insert_label s.symbol_table label s.mem.IC type.INST_L false ∧
      find_symbol (process_instruction inst true label s).2.symbol_table label =
        some { key := label, type := type.INST_L, index := 0,
               data := node_data.label
                 { address := word_assign s.mem.IC, is_struct := false } } ∧
      (∀ k : List Char, k ≠ label →
        find_symbol (process_instruction inst true label s).2.symbol_table k =
          find_symbol s.symbol_table k) ∧
      (s.mem.IC ≤ 511 → (word_assign s.mem.IC).value = s.mem.IC)) ∧
    (∀ s0 : session, (pre_process_line s0).1.label_flag = true →
      find_symbol (pre_process_line s0).2.symbol_table (pre_process_line s0).1.label = none) ∧
    ((first_pass_process (session_start 0
        "A: .data 1,2\nB: .struct 3,\"x\"\nL: inc r1\nM: stop\n".toList)).1 = true ∧
      (["A", "B", "L", "M"].map (fun (name : String) =>
        (find_symbol (first_pass_process (session_start 0
          "A: .data 1,2\nB: .struct 3,\"x\"\nL: inc r1\nM: stop\n".toList)).2.symbol_table
          name.toList).map (fun n => (n.type, n.data)))) =
        [some (type.DATA, node_data.label { address := ⟨0⟩, is_struct := false }),
         some (type.DATA, node_data.label { address := ⟨2⟩, is_struct := true }),
         some (type.INST_L, node_data.label { address := ⟨0⟩, is_struct := false }),
         some (type.INST_L, node_data.label { address := ⟨2⟩, is_struct := false })]) := by
  have hk1 : direct.key ≠ ".entry".toList := by
    rcases hkey with h | h | h <;> rw [h] <;> decide
  have hk2 : direct.key ≠ ".extern".toList := by
    rcases hkey with h | h | h <;> rw [h] <;> decide
  have hd := (process_directive_table direct true label s hk1 hk2).1
  have hi := (process_instruction_table inst true label s).1
  rw [if_pos rfl] at hd hi
  refine ⟨⟨hd, ?_, ?_, wrap10_of_counter _⟩, ⟨hi, ?_, ?_, wrap10_of_counter _⟩,
    pre_process_line_fresh, by decide⟩
  · rw [hd]
    exact hash_table_find_insert_new _ _ _ _ hwf hfresh
  · intro k hk
    rw [hd]
    exact hash_table_find_insert_ne _ _ _ _ _ hk
  · rw [hi]
    exact hash_table_find_insert_new _ _ _ _ hwf hfresh
  · intro k hk
    rw [hi]
    exact hash_table_find_insert_ne _ _ _ _ _ hk

set_option maxRecDepth 1000000 in
/-- C25 at the line `A: .data 5` of a new file. -/
theorem c25_label_of_line_witness :
    find_symbol (process_directive (node.mk ".data".toList type.DIRECT 0
        (node_data.direct (construct_directive 1 false false))) true "A".toList
        (session_start 0 "5\n".toList)).2.symbol_table "A".toList =
      some { key := "A".toList, type := type.DATA, index := 0,
             data := node_data.label
               { address := word_assign (session_start 0 "5\n".toList).mem.DC,
                 is_struct := decide (".data".toList = ".struct".toList) } } :=
  (c25_label_of_line (node.mk ".data".toList type.DIRECT 0
      (node_data.direct (construct_directive 1 false false)))
    (node.mk "stop".toList type.INST 0 (node_data.inst (construct_instruction 0 0 15)))
    "A".toList (session_start 0 "5\n".toList) initial_table_wf (by decide)
    (Or.inl rfl)).1.2.1

section
attribute [local irreducible] M.bind M.pure query update on_input kept

/-- An `.entry` line leaves the symbol table alone. -/
theorem entry_line_table (is_label : Bool) :
    kept (fun s => s.symbol_table) (process_directive_ext_ent false is_label) := by
  unfold process_directive_ext_ent
  apply kept_bind (kept_query _ _)
  intro lc
  apply kept_bind
  · apply kept_ite
    · exact kept_update _ _ (fun _ => rfl)
    · exact kept_pure _ _
  intro _
  apply kept_bind (kept_query _ _)
  intro c0
  apply kept_bind (kept_on_input (fun s => s.symbol_table) _ (fun _ _ => rfl))
  intro r
  apply kept_ite
  · apply kept_bind
    · repeat (first
        | exact kept_pure _ _
        | exact kept_query _ _
        | exact kept_update _ _ (fun _ => rfl)
        | apply kept_ite
        | apply kept_bind
        | intro _)
    intro l
    apply kept_ite
    · apply kept_bind (kept_query _ _)
      intro found
      apply kept_bind (kept_query _ _)
      intro in_entries
      rw [if_neg (fun h => Bool.false_ne_true h.1)]
      apply kept_ite
      · apply kept_bind
        · exact kept_update _ _ (fun _ => rfl)
        intro _
        unfold ext_ent_end_of_line
        repeat (first
          | exact kept_pure _ _
          | exact kept_query _ _
          | exact kept_on_input _ _ (fun _ _ => rfl)
          | exact kept_update _ _ (fun _ => rfl)
          | apply kept_ite
          | apply kept_bind
          | intro _)
      · apply kept_bind
        · exact kept_update _ _ (fun _ => rfl)
        intro _
        exact kept_pure _ _
    · exact kept_pure _ _
  · exact kept_pure _ _

/-- An `.extern` line leaves the entries list alone. -/
theorem extern_line_entries (is_label : Bool) :
    kept (fun s => s.entries_list) (process_directive_ext_ent true is_label) := by
  unfold process_directive_ext_ent
  apply kept_bind (kept_query _ _)
  intro lc
  apply kept_bind
  · apply kept_ite
    · exact kept_update _ _ (fun _ => rfl)
    · exact kept_pure _ _
  intro _
  apply kept_bind (kept_query _ _)
  intro c0
  apply kept_bind (kept_on_input (fun s => s.entries_list) _ (fun _ _ => rfl))
  intro r
  apply kept_ite
  · apply kept_bind
    · unfold is_legal_label
      repeat (first
        | exact kept_pure _ _
        | exact kept_query _ _
        | exact kept_update _ _ (fun _ => rfl)
        | apply kept_ite
        | apply kept_bind
        | intro _)
    intro l
    apply kept_ite
    · apply kept_bind (kept_query _ _)
      intro found
      apply kept_bind (kept_query _ _)
      intro in_entries
      apply kept_ite
      · apply kept_bind (kept_query _ _)
        intro dc
        apply kept_bind
        · exact kept_update _ _ (fun _ => rfl)
        intro _
        unfold ext_ent_end_of_line
        repeat (first
          | exact kept_pure _ _
          | exact kept_query _ _
          | exact kept_on_input _ _ (fun _ _ => rfl)
          | exact kept_update _ _ (fun _ => rfl)
          | apply kept_ite
          | apply kept_bind
          | intro _)
      rw [if_neg (fun h => h.1 rfl)]
      apply kept_bind
      · exact kept_update _ _ (fun _ => rfl)
      intro _
      exact kept_pure _ _
    · exact kept_pure _ _
  · exact kept_pure _ _

end

/-- The symbol table after `process_directive` on an `.entry` line is the
one before it, whether the line has a label or not. -/
theorem process_directive_entry_table (direct : node) (is_label : Bool) (label : List Char)
    (s : session) (hkey : direct.key = ".entry".toList) :
    (process_directive direct is_label label s).2.symbol_table = s.symbol_table := by
  unfold process_directive
  simp only []
  rw [apply_bind, if_pos hkey]
  have h1 := entry_line_table is_label s
  have h2 : ∀ (status : Bool) (s1 : session),
      ((if ¬ status = true then do
          let _ ← on_input skip_line
          pure status
        else pure status : M Bool) s1).2.symbol_table = s1.symbol_table := by
    intro status s1
    cases status <;> rfl
  rw [h2]
  exact h1

set_option maxRecDepth 1000000 in
/-- What `process_directive_ext_ent` records for an `.entry` line, the line
number being the one read back from the 10-bit field: when the next token is
the legal name NAME (and for which the counter of `read_next_string` does not
come out as 0), `process_directive_ext_ent` puts the request (NAME, line
number) at the head of the entries list exactly when NAME is not in the list
and is no EXTERN symbol, and does not print error 24 then; otherwise it returns
0, prints error 24 with NAME and leaves the list as it was. Either way the
symbol table is untouched, also when the line has a label, for which warning 2
is printed first. The names of the entries list are distinct in every session
reached by the updates of the first pass. -/
theorem entry_request_recorded (is_label : Bool) (s : session)
    (hcount : s.chars_count0 + ((s.intput_as.buf.takeWhile in_word).length : Int) ≠ 0)
    (hlegal : legal_name (next_word s.intput_as.buf) = true) :
    ((entries_list_find s (next_word s.intput_as.buf) = none ∧
        (find_symbol s.symbol_table (next_word s.intput_as.buf)).map (fun n => n.type)
          ≠ some type.EXTERN) →
      (process_directive_ext_ent false is_label s).2.entries_list =
        { key := next_word s.intput_as.buf, type := type.INST, index := wrap10 s.line_count,
          data := node_data.null } :: s.entries_list ∧
      (process_directive_ext_ent false is_label s).2.stderr =
        s.stderr ++ (if is_label then [diag.warning s.line_count 2] else []) ++
          (if (process_directive_ext_ent false is_label s).1 = true then []
           else [diag.error s.line_count 6])) ∧
    (¬ (entries_list_find s (next_word s.intput_as.buf) = none ∧
        (find_symbol s.symbol_table (next_word s.intput_as.buf)).map (fun n => n.type)
          ≠ some type.EXTERN) →
      (process_directive_ext_ent false is_label s).1 = false ∧
      (process_directive_ext_ent false is_label s).2.entries_list = s.entries_list ∧
      (process_directive_ext_ent false is_label s).2.stderr =
        s.stderr ++ (if is_label then [diag.warning s.line_count 2] else []) ++
          [diag.error_string s.line_count 24 (next_word s.intput_as.buf)]) ∧
    (process_directive_ext_ent false is_label s).2.symbol_table = s.symbol_table ∧
    (∀ (direct : node) (label : List Char) (s0 : session), direct.key = ".entry".toList →
      (process_directive direct is_label label s0).2.symbol_table = s0.symbol_table) ∧
    (∀ (chars_count0 : Int) (input : List Char) (s1 : session),
      reach (session_start chars_count0 input) s1 →
        (s1.entries_list.map (fun n => n.key)).Nodup) ∧
    (∀ (chars_count0 : Int) (input : List Char),
      ((first_pass_process (session_start chars_count0 input)).2.entries_list.map
        (fun n => n.key)).Nodup) := by
  obtain ⟨-, -, -, -, hacc, hrej⟩ := process_directive_ext_ent_spec false is_label s hcount hlegal
  unfold ext_ent_accepted at hacc hrej
  simp only [Bool.false_eq_true, if_false] at hacc hrej
  refine ⟨fun h => ⟨(hacc h).2.1, (hacc h).2.2⟩, fun h => ⟨(hrej h).1, (hrej h).2.2.1,
    (hrej h).2.2.2⟩, entry_line_table is_label s, ?_, ?_, ?_⟩
  · intro direct label s0 hkey
    exact process_directive_entry_table direct is_label label s0 hkey
  · intro c input s1 h
    exact reach_entries_nodup h List.nodup_nil
  · intro c input
    exact reach_entries_nodup (first_pass_process_steps _) List.nodup_nil

set_option maxRecDepth 1000000 in
/-- The line `.entry X` of a new file, with the counter starting from 0. -/
theorem entry_request_recorded_witness :
    (process_directive_ext_ent false false (session_start 0 "X\n".toList)).2.entries_list =
      { key := next_word (session_start 0 "X\n".toList).intput_as.buf, type := type.INST,
        index := wrap10 (session_start 0 "X\n".toList).line_count,
        data := node_data.null } :: (session_start 0 "X\n".toList).entries_list :=
  ((entry_request_recorded false (session_start 0 "X\n".toList) (by decide) (by decide)).1
    ⟨by decide, by decide⟩).1

set_option maxRecDepth 1000000 in
/-- C30: on an `.extern` line whose next token is the legal name NAME (and
for which the counter of `read_next_string` does not come out as 0),
`process_directive_ext_ent` inserts NAME in the symbol table exactly when
NAME is no symbol and no entry: it is then found as an EXTERN symbol with
address 1, nothing else has changed in the table and error 24 is not printed;
otherwise 0 is returned, error 24 is printed with NAME and the table is as it
was. The entries list is untouched. What is found in the table before a line
is found unchanged after it and after any number of further lines, so a DATA
or INST_L symbol never becomes EXTERN and an EXTERN symbol is never
redefined. -/
theorem c30_extern_symbol (is_label : Bool) (s : session)
    (hcount : s.chars_count0 + ((s.intput_as.buf.takeWhile in_word).length : Int) ≠ 0)
    (hlegal : legal_name (next_word s.intput_as.buf) = true)
    (hwf : table_wf s.symbol_table) :
    ((find_symbol s.symbol_table (next_word s.intput_as.buf) = none ∧
        entries_list_find s (next_word s.intput_as.buf) = none) →
      (process_directive_ext_ent true is_label s).2.symbol_table =
        symbol_table_insert_label s.symbol_table (next_word s.intput_as.buf) s.mem.DC
          type.EXTERN false ∧
      find_symbol (process_directive_ext_ent true is_label s).2.symbol_table
          (next_word s.intput_as.buf) =
        some { key := next_word s.intput_as.buf, type := type.EXTERN, index := 0,
               data := node_data.label { address := ⟨1⟩, is_struct := false } } ∧
      (∀ k : List Char, k ≠ next_word s.intput_as.buf →
        find_symbol (process_directive_ext_ent true is_label s).2.symbol_table k =
          find_symbol s.symbol_table k) ∧
      (process_directive_ext_ent true is_label s).2.stderr =
        s.stderr ++ (if is_label then [diag.warning s.line_count 2] else []) ++
          (if (process_directive_ext_ent true is_label s).1 = true then []
           else [diag.error s.line_count 6])) ∧
    (¬ (find_symbol s.symbol_table (next_word s.intput_as.buf) = none ∧
        entries_list_find s (next_word s.intput_as.buf) = none) →
      (process_directive_ext_ent true is_label s).1 = false ∧
      (process_directive_ext_ent true is_label s).2.symbol_table = s.symbol_table ∧
      (process_directive_ext_ent true is_label s).2.stderr =
        s.stderr ++ (if is_label then [diag.warning s.line_count 2] else []) ++
          [diag.error_string s.line_count 24 (next_word s.intput_as.buf)]) ∧
    (process_directive_ext_ent true is_label s).2.entries_list = s.entries_list ∧
    (∀ (s1 : session) (k : List Char) (n : node), find_symbol s1.symbol_table k = some n →
      find_symbol (process_line s1).2.symbol_table k = some n ∧
      ∀ (fuel : Nat) (status : Bool),
        find_symbol (first_pass_loop fuel status s1).2.symbol_table k = some n) := by
  obtain ⟨-, -, -, -, hacc, hrej⟩ := process_directive_ext_ent_spec true is_label s hcount hlegal
  unfold ext_ent_accepted at hacc hrej
  simp only [if_true] at hacc hrej
  refine ⟨fun h => ?_, fun h => ⟨(hrej h).1, (hrej h).2.1, (hrej h).2.2.2⟩,
    extern_line_entries is_label s, ?_⟩
  · obtain ⟨h1, -, h3⟩ := hacc h
    refine ⟨h1, ?_, ?_, h3⟩
    · rw [h1]
      exact hash_table_find_insert_new _ _ _ _ hwf h.1
    · intro k hk
      rw [h1]
      exact hash_table_find_insert_ne _ _ _ _ _ hk
  · intro s1 k n hk
    exact ⟨reach_found (process_line_steps s1) k n hk,
      fun fuel status => reach_found (first_pass_loop_steps fuel status s1) k n hk⟩

set_option maxRecDepth 1000000 in
/-- C30 at the line `.extern K` of a new file, with the counter starting
from 0. -/
theorem c30_extern_symbol_witness :
    find_symbol (process_directive_ext_ent true false
        (session_start 0 "K\n".toList)).2.symbol_table
        (next_word (session_start 0 "K\n".toList).intput_as.buf) =
      some { key := next_word (session_start 0 "K\n".toList).intput_as.buf,
             type := type.EXTERN, index := 0,
             data := node_data.label { address := ⟨1⟩, is_struct := false } } :=
  ((c30_extern_symbol false (session_start 0 "K\n".toList) (by decide) (by decide)
    initial_table_wf).1 ⟨by decide, by decide⟩).2.1

/-! ### Numbers in the text -/

theorem digit_value (c : Char) (h : c.isDigit = true) :
    0 ≤ (c.toNat : Int) - 48 ∧ (c.toNat : Int) - 48 ≤ 9 := by
  simp only [Char.isDigit, Bool.and_eq_true, decide_eq_true_eq] at h
  have h1 : (48 : Nat) ≤ c.toNat := h.1
  have h2 : c.toNat ≤ (57 : Nat) := h.2
  omega

theorem plain_fold_ge (digits : List Char) (hall : ∀ c ∈ digits, c.isDigit = true) (a : Int)
    (ha : 0 ≤ a) :
    a ≤ digits.foldl (fun n c => 10 * n + ((c.toNat : Int) - 48)) a := by
  induction digits generalizing a with
  | nil => exact le_refl _
  | cons d ds ih =>
    simp only [List.foldl_cons]
    have hd := digit_value d (hall d (List.mem_cons_self _ _))
    have := ih (fun c hc => hall c (List.mem_cons_of_mem _ hc)) (10 * a + ((d.toNat : Int) - 48))
      (by omega)
    omega

/-- The digit loop of `read_next_number` computes the value of the digits
when that value fits an `int`. -/
theorem wrapped_fold (digits : List Char) (hall : ∀ c ∈ digits, c.isDigit = true) (a : Int)
    (ha : 0 ≤ a)
    (hfit : digits.foldl (fun n c => 10 * n + ((c.toNat : Int) - 48)) a ≤ 2147483647) :
    digits.foldl (fun n c => wrap32 (10 * n + ((c.toNat : Int) - ('0'.toNat : Int)))) a =
      digits.foldl (fun n c => 10 * n + ((c.toNat : Int) - 48)) a := by
  induction digits generalizing a with
  | nil => rfl
  | cons d ds ih =>
    simp only [List.foldl_cons] at hfit ⊢
    have hd := digit_value d (hall d (List.mem_cons_self _ _))
    have hall2 : ∀ c ∈ ds, c.isDigit = true := fun c hc => hall c (List.mem_cons_of_mem _ hc)
    have hge := plain_fold_ge ds hall2 (10 * a + ((d.toNat : Int) - 48)) (by omega)
    have h48 : (('0'.toNat : Nat) : Int) = 48 := rfl
    have hw : wrap32 (10 * a + ((d.toNat : Int) - ('0'.toNat : Int))) =
        10 * a + ((d.toNat : Int) - 48) := by
      rw [h48]
      unfold wrap32
      omega
    rw [hw]
    exact ih hall2 _ (by omega) hfit

theorem decimal_value_nonneg (digits : List Char) (hall : ∀ c ∈ digits, c.isDigit = true) :
    0 ≤ decimal_value digits :=
  plain_fold_ge digits hall 0 (le_refl _)

theorem takeWhile_digits (digits rest : List Char) (hall : ∀ c ∈ digits, c.isDigit = true)
    (hrest : ∀ c, rest.head? = some c → c.isDigit = false) :
    (digits ++ rest).takeWhile Char.isDigit = digits ∧
    (digits ++ rest).dropWhile Char.isDigit = rest := by
  induction digits with
  | nil =>
    cases rest with
    | nil => exact ⟨rfl, rfl⟩
    | cons r rs =>
      have := hrest r rfl
      simp [List.takeWhile_cons, List.dropWhile_cons, this]
  | cons d ds ih =>
    have hd := hall d (List.mem_cons_self _ _)
    have := ih (fun c hc => hall c (List.mem_cons_of_mem _ hc))
    simp only [List.cons_append, List.takeWhile_cons, List.dropWhile_cons, hd, if_true]
    exact ⟨by rw [this.1], this.2⟩

/-- Function `read_digits` on digits followed by something that is no
digit. -/
theorem read_digits_text (sign : Int) (digits rest : List Char) (eof : Bool)
    (hall : ∀ c ∈ digits, c.isDigit = true)
    (hrest : ∀ c, rest.head? = some c → c.isDigit = false)
    (hfit : decimal_value digits ≤ 2147483647) (hsign : sign = 1 ∨ sign = -1) :
    (read_digits sign { buf := digits ++ rest, eof := eof }).1 =
      ((digits.length : Int), sign * decimal_value digits) ∧
    (read_digits sign { buf := digits ++ rest, eof := eof }).2.buf = rest := by
  have htw := getc_while_takeWhile Char.isDigit eof (digits ++ rest)
  have htd := takeWhile_digits digits rest hall hrest
  rw [htd.1, htd.2] at htw
  have hnn := decimal_value_nonneg digits hall
  unfold read_digits
  simp only
  rw [htw.1]
  refine ⟨?_, htw.2⟩
  have hw := wrapped_fold digits hall 0 (le_refl _) hfit
  rw [hw]
  have hv : wrap32 (sign * decimal_value digits) = sign * decimal_value digits := by
    unfold wrap32
    rcases hsign with h | h <;> rw [h] <;> omega
  show ((digits.length : Int), wrap32 (sign * decimal_value digits)) = _
  rw [hv]

theorem read_digits_at (sign : Int) (f : InFile) (digits rest : List Char)
    (hf : f.buf = digits ++ rest)
    (hall : ∀ c ∈ digits, c.isDigit = true)
    (hrest : ∀ c, rest.head? = some c → c.isDigit = false)
    (hfit : decimal_value digits ≤ 2147483647) (hsign : sign = 1 ∨ sign = -1) :
    (read_digits sign f).1 = ((digits.length : Int), sign * decimal_value digits) ∧
    (read_digits sign f).2.buf = rest := by
  obtain ⟨buf, eof⟩ := f
  simp only at hf
  subst hf
  exact read_digits_text sign digits rest eof hall hrest hfit hsign

theorem ungetc_getc_buf (f : InFile) : (ungetc (getc f).1 (getc f).2).buf = f.buf := by
  unfold getc ungetc
  cases h : f.buf with
  | nil => simp [h]
  | cons a rest => simp

theorem getc_cons (c : Char) (rest : List Char) (eof : Bool) :
    getc { buf := c :: rest, eof := eof } = (some c, { buf := rest, eof := eof }) := rfl

/-- Function `read_next_number` on the text of a number that is followed by
something that is no digit: the number is read and its text is taken. -/
theorem read_next_number_text (t rest : List Char) (dest : Int) (eof : Bool)
    (ht : int_text t) (hrest : ∀ c, rest.head? = some c → c.isDigit = false) :
    (read_next_number dest { buf := t ++ rest, eof := eof }).1.1 ≠ 0 ∧
    (read_next_number dest { buf := t ++ rest, eof := eof }).1.2 = number_value t ∧
    (read_next_number dest { buf := t ++ rest, eof := eof }).2.buf = rest := by
  obtain ⟨⟨digits, hne, hall, hform⟩, hlo, hhi⟩ := ht
  obtain ⟨d, ds, rfl⟩ := List.exists_cons_of_ne_nil hne
  have hd := hall d (List.mem_cons_self _ _)
  have hds := digit_not_special d hd
  have hnn := decimal_value_nonneg (d :: ds) hall
  have hlen : ((d :: ds).length : Int) ≠ 0 := by
    simp only [List.length_cons]
    omega
  rcases hform with rfl | rfl | rfl
  · have hval : number_value (d :: ds) = decimal_value (d :: ds) := by
      unfold number_value
      simp [hds.2.1, hds.2.2]
    rw [hval] at hlo hhi ⊢
    unfold read_next_number
    simp only [List.cons_append, getc_cons]
    have c1 : ¬ (some d = some '+' ∧ isdigit (getc { buf := ds ++ rest, eof := eof }).1 = true) :=
      fun h => hds.2.2 (Option.some.inj h.1)
    have c2 : ¬ (some d = some '-' ∧ isdigit (getc { buf := ds ++ rest, eof := eof }).1 = true) :=
      fun h => hds.2.1 (Option.some.inj h.1)
    have c3 : ¬ ¬ isdigit (some d) = true := by
      simp [isdigit, hd]
    rw [if_neg c1, if_neg c2, if_neg c3]
    have hb : (ungetc (some d) (ungetc (getc { buf := ds ++ rest, eof := eof }).1
        (getc { buf := ds ++ rest, eof := eof }).2)).buf = (d :: ds) ++ rest := by
      show d :: (ungetc (getc { buf := ds ++ rest, eof := eof }).1
        (getc { buf := ds ++ rest, eof := eof }).2).buf = _
      rw [ungetc_getc_buf]
      rfl
    obtain ⟨e1, e2⟩ := read_digits_at 1 _ (d :: ds) rest hb hall hrest hhi (Or.inl rfl)
    rw [e1]
    exact ⟨hlen, by simp, e2⟩
  · have hval : number_value ('+' :: d :: ds) = decimal_value (d :: ds) := by
      unfold number_value
      simp
    rw [hval] at hlo hhi ⊢
    unfold read_next_number
    simp only [List.cons_append, getc_cons]
    have c1 : True ∧ isdigit (some d) = true := ⟨trivial, by simp [isdigit, hd]⟩
    rw [if_pos c1]
    have hb : (ungetc (some d) { buf := ds ++ rest, eof := eof }).buf = (d :: ds) ++ rest := rfl
    obtain ⟨e1, e2⟩ := read_digits_at 1 _ (d :: ds) rest hb hall hrest hhi (Or.inl rfl)
    rw [e1]
    exact ⟨hlen, by simp, e2⟩
  · have hval : number_value ('-' :: d :: ds) = - decimal_value (d :: ds) := by
      unfold number_value
      simp
    rw [hval] at hlo hhi ⊢
    unfold read_next_number
    simp only [List.cons_append, getc_cons]
    have c1 : ¬ (some '-' = some '+' ∧ isdigit (some d) = true) :=
      fun h => absurd h.1 (by decide)
    have c2 : True ∧ isdigit (some d) = true := ⟨trivial, by simp [isdigit, hd]⟩
    rw [if_pos c2, if_neg c1]
    have hb : (ungetc (some d) { buf := ds ++ rest, eof := eof }).buf = (d :: ds) ++ rest := rfl
    obtain ⟨e1, e2⟩ := read_digits_at (-1) _ (d :: ds) rest hb hall hrest (by omega)
      (Or.inr rfl)
    rw [e1]
    exact ⟨hlen, by simp, e2⟩

theorem apply_update (g : session → session) (s : session) : update g s = ((), g s) := rfl

theorem read_next_number_at (t rest : List Char) (dest : Int) (f : InFile)
    (hf : f.buf = t ++ rest) (ht : int_text t)
    (hrest : ∀ c, rest.head? = some c → c.isDigit = false) :
    (read_next_number dest f).1.1 ≠ 0 ∧
    (read_next_number dest f).1.2 = number_value t ∧
    (read_next_number dest f).2.buf = rest := by
  obtain ⟨buf, eof⟩ := f
  simp only at hf
  subst hf
  exact read_next_number_text t rest dest eof ht hrest

theorem peek_next_char_at (f : InFile) (c : Char) (rest : List Char) (hf : f.buf = c :: rest)
    (hc : is_blank c = false) :
    (peek_next_char f).1 = some c ∧ (peek_next_char f).2.buf = c :: rest := by
  rw [peek_next_char_eq]
  obtain ⟨h1, h2⟩ := skip_whites_text f
  rw [h1, h2, hf, List.dropWhile_cons_of_neg (by simp [hc])]
  exact ⟨rfl, rfl⟩

theorem peek_next_char_at_end (f : InFile) (hf : f.buf = []) :
    (peek_next_char f).1 = none ∧ (peek_next_char f).2.buf = [] := by
  rw [peek_next_char_eq]
  obtain ⟨h1, h2⟩ := skip_whites_text f
  rw [h1, h2, hf]
  exact ⟨rfl, rfl⟩

theorem getc_buf (f : InFile) : (getc f).1 = f.buf.head? ∧ (getc f).2.buf = f.buf.drop 1 := by
  unfold getc
  cases h : f.buf with
  | nil => simp [h]
  | cons a rest => simp

theorem skip_whites_at (f : InFile) (c : Char) (rest : List Char) (hf : f.buf = c :: rest)
    (hc : is_blank c = false) : (skip_whites f).2.buf = c :: rest := by
  rw [(skip_whites_text f).2, hf, List.dropWhile_cons_of_neg (by simp [hc])]

theorem read_numbers_loop_succ (fuel : Nat) (numbers_read number : Int) :
    read_numbers_loop (fuel + 1) numbers_read number = (do
      let r ← on_input (read_next_number number)
      if r.1 ≠ 0 then
        let numbers_read := numbers_read + 1
        let number := r.2
        let line_count ← query (fun s => s.line_count)
        (if number > 511 ∨ number < -512 then update (print_warning_int line_count 3 number)
         else pure ())
        update (session.data_array_insert (word_assign number))
        let c ← on_input peek_next_char
        if c = some '\n' ∨ c = none then
          let _ ← on_input getc
          pure numbers_read
        else if c = some ',' then
          let _ ← on_input getc
          let _ ← on_input skip_whites
          read_numbers_loop fuel numbers_read number
        else read_numbers_list_end numbers_read
      else read_numbers_list_end numbers_read) := rfl

/-- One round of the loop of `read_numbers_list` in which a number is read. -/
theorem read_numbers_loop_succ_some (fuel : Nat) (n number : Int) (s : session)
    (h : (read_next_number number s.intput_as).1.1 ≠ 0) :
    read_numbers_loop (fuel + 1) n number s =
      (if (peek_next_char (read_next_number number s.intput_as).2).1 = some '\n' ∨
          (peek_next_char (read_next_number number s.intput_as).2).1 = none then
        (n + 1, { store_number s.line_count s (read_next_number number s.intput_as).1.2 with
          intput_as := (getc (peek_next_char (read_next_number number s.intput_as).2).2).2 })
      else if (peek_next_char (read_next_number number s.intput_as).2).1 = some ',' then
        read_numbers_loop fuel (n + 1) (read_next_number number s.intput_as).1.2
          { store_number s.line_count s (read_next_number number s.intput_as).1.2 with
            intput_as := (skip_whites (getc (peek_next_char
              (read_next_number number s.intput_as).2).2).2).2 }
      else
        read_numbers_list_end (n + 1)
          { store_number s.line_count s (read_next_number number s.intput_as).1.2 with
            intput_as := (peek_next_char (read_next_number number s.intput_as).2).2 }) := by
  rw [read_numbers_loop_succ, apply_bind, apply_on_input]
  simp only [h, ne_eq, not_false_eq_true, if_true]
  rw [apply_bind, apply_query]
  simp only []
  unfold store_number
  by_cases hw : (read_next_number number s.intput_as).1.2 > 511 ∨
      (read_next_number number s.intput_as).1.2 < -512
  · simp only [if_pos hw]
    rw [apply_bind, apply_update, apply_bind, apply_update, apply_bind, apply_on_input]
    simp only [session.data_array_insert, print_warning_int]
    split_ifs <;> rfl
  · simp only [if_neg hw]
    rw [apply_bind, apply_pure, apply_bind, apply_update, apply_bind, apply_on_input]
    simp only [session.data_array_insert]
    split_ifs <;> rfl

theorem store_number_input (lc : Int) (s : session) (f : InFile) (v : Int) :
    store_number lc { s with intput_as := f } v =
      { store_number lc s v with intput_as := f } := by
  unfold store_number
  split_ifs <;> rfl

theorem store_numbers_input (lc : Int) (f : InFile) (vals : List Int) : ∀ s : session,
    vals.foldl (store_number lc) { s with intput_as := f } =
      { vals.foldl (store_number lc) s with intput_as := f } := by
  induction vals with
  | nil => intro s; rfl
  | cons v vals ih =>
    intro s
    rw [List.foldl_cons, List.foldl_cons, store_number_input, ih]

theorem store_number_line_count (lc : Int) (s : session) (v : Int) :
    (store_number lc s v).line_count = s.line_count := by
  unfold store_number
  split_ifs <;> rfl

theorem int_text_head (t : List Char) (ht : int_text t) :
    ∃ c r, t = c :: r ∧ is_blank c = false ∧ c ≠ '\n' ∧ c ≠ ',' ∧ c ≠ QUOTE := by
  obtain ⟨⟨digits, hne, hall, hform⟩, _, _⟩ := ht
  obtain ⟨d, ds, rfl⟩ := List.exists_cons_of_ne_nil hne
  have hd := hall d (List.mem_cons_self _ _)
  have hv : 48 ≤ d.toNat ∧ d.toNat ≤ 57 := by
    simp only [Char.isDigit, Bool.and_eq_true, decide_eq_true_eq] at hd
    exact ⟨hd.1, hd.2⟩
  have hdig : is_blank d = false ∧ d ≠ '\n' ∧ d ≠ ',' ∧ d ≠ QUOTE := by
    refine ⟨?_, ?_, ?_, ?_⟩
    · unfold is_blank
      simp only [decide_eq_false_iff_not, not_or]
      constructor <;> (intro h; rw [h] at hv; revert hv; decide)
    all_goals (intro h; rw [h] at hv; revert hv; decide)
  rcases hform with rfl | rfl | rfl
  · exact ⟨d, ds, rfl, hdig⟩
  · exact ⟨'+', d :: ds, rfl, by decide, by decide, by decide, by decide⟩
  · exact ⟨'-', d :: ds, rfl, by decide, by decide, by decide, by decide⟩

/-- The loop of `read_numbers_list` on a list of numbers separated by single
commas and followed by the end of the line or of the file: every number is
read and stored, and the end of the line is taken. -/
theorem read_numbers_loop_texts (tail : List Char) (lc : Int)
    (htail : tail = [] ∨ tail.head? = some '\n') :
    ∀ (texts : List (List Char)) (fuel : Nat) (n number : Int) (s : session),
      texts ≠ [] → (∀ t ∈ texts, int_text t) → texts.length ≤ fuel → s.line_count = lc →
      s.intput_as.buf = numbers_text texts ++ tail →
      (read_numbers_loop fuel n number s).1 = n + texts.length ∧
      (read_numbers_loop fuel n number s).2 =
        { (texts.map number_value).foldl (store_number lc) s with
          intput_as := (read_numbers_loop fuel n number s).2.intput_as } ∧
      (read_numbers_loop fuel n number s).2.intput_as.buf = tail.drop 1 := by
  intro texts
  induction texts with
  | nil => intro _ _ _ _ h; exact absurd rfl h
  | cons t rest ih =>
    intro fuel n number s _ hall hfuel hlc hbuf
    have ht := hall t (List.mem_cons_self _ _)
    cases fuel with
    | zero => simp at hfuel
    | succ fuel =>
      cases rest with
      | nil =>
        have hrest : ∀ c, tail.head? = some c → c.isDigit = false := by
          intro c hc
          rcases htail with h | h
          · rw [h] at hc
            exact absurd hc (by simp)
          · rw [h] at hc
            rw [← Option.some.inj hc]
            decide
        obtain ⟨h1, h2, h3⟩ := read_next_number_at t tail number s.intput_as hbuf ht hrest
        have hp : (peek_next_char (read_next_number number s.intput_as).2).1 = some '\n' ∨
            (peek_next_char (read_next_number number s.intput_as).2).1 = none := by
          rcases htail with h | h
          · exact Or.inr (peek_next_char_at_end _ (h3.trans h)).1
          · obtain ⟨c, r, hcr⟩ : ∃ c r, tail = c :: r := by
              cases tail with
              | nil => simp at h
              | cons c r => exact ⟨c, r, rfl⟩
            rw [hcr] at h
            simp only [List.head?_cons, Option.some.injEq] at h
            subst h
            exact Or.inl (peek_next_char_at _ '\n' r (h3.trans hcr) (by decide)).1
        have hpb : (peek_next_char (read_next_number number s.intput_as).2).2.buf = tail := by
          rcases htail with h | h
          · rw [(peek_next_char_at_end _ (h3.trans h)).2, h]
          · obtain ⟨c, r, hcr⟩ : ∃ c r, tail = c :: r := by
              cases tail with
              | nil => simp at h
              | cons c r => exact ⟨c, r, rfl⟩
            rw [hcr] at h
            simp only [List.head?_cons, Option.some.injEq] at h
            subst h
            rw [(peek_next_char_at _ '\n' r (h3.trans hcr) (by decide)).2, hcr]
        rw [read_numbers_loop_succ_some _ _ _ _ h1, if_pos hp, h2, hlc]
        refine ⟨by simp, rfl, ?_⟩
        show (getc _).2.buf = _
        rw [(getc_buf _).2, hpb]
      | cons u us =>
        have hu := hall u (List.mem_cons_of_mem _ (List.mem_cons_self _ _))
        have hbuf2 : s.intput_as.buf = t ++ (',' :: (numbers_text (u :: us) ++ tail)) := by
          rw [hbuf]
          simp [numbers_text]
        have hrest : ∀ c, (',' :: (numbers_text (u :: us) ++ tail)).head? = some c →
            c.isDigit = false := by
          intro c hc
          simp only [List.head?_cons, Option.some.injEq] at hc
          rw [← hc]
          decide
        obtain ⟨h1, h2, h3⟩ := read_next_number_at t _ number s.intput_as hbuf2 ht hrest
        obtain ⟨hp1, hp2⟩ := peek_next_char_at _ ',' _ h3 (by decide)
        have c1 : ¬ ((peek_next_char (read_next_number number s.intput_as).2).1 = some '\n' ∨
            (peek_next_char (read_next_number number s.intput_as).2).1 = none) := by
          rw [hp1]
          simp
        obtain ⟨c, r, hcr, hcb, _⟩ : ∃ c r, numbers_text (u :: us) ++ tail = c :: r ∧
            is_blank c = false ∧ True := by
          obtain ⟨c, r, hu1, hu2, _⟩ := int_text_head u hu
          subst hu1
          cases us with
          | nil => exact ⟨c, r ++ tail, rfl, hu2, trivial⟩
          | cons w ws => exact ⟨c, _, rfl, hu2, trivial⟩
        have hg : (getc (peek_next_char (read_next_number number s.intput_as).2).2).2.buf =
            numbers_text (u :: us) ++ tail := by
          rw [(getc_buf _).2, hp2]
          rfl
        have hsk := skip_whites_at _ c r (hg.trans hcr) hcb
        have hl : (store_number lc s (number_value t)).line_count = lc :=
          (store_number_line_count _ _ _).trans hlc
        rw [read_numbers_loop_succ_some _ _ _ _ h1, if_neg c1, if_pos hp1, h2, hlc]
        obtain ⟨i1, i2, i3⟩ := ih fuel (n + 1) (number_value t)
          { store_number lc s (number_value t) with
            intput_as := (skip_whites (getc (peek_next_char
              (read_next_number number s.intput_as).2).2).2).2 }
          (List.cons_ne_nil _ _) (fun x hx => hall x (List.mem_cons_of_mem _ hx))
          (by simpa using hfuel) hl (hsk.trans hcr.symm)
        refine ⟨?_, i2.trans ?_, i3⟩
        · rw [i1]
          simp only [List.length_cons]
          push_cast
          ring
        · rw [store_numbers_input]
          rfl

theorem append_data_cons (w : word) (ws : List word) (m : memory) :
    append_data (w :: ws) m = append_data ws (data_array_insert w m) := rfl

theorem append_data_append (ws1 ws2 : List word) (m : memory) :
    append_data (ws1 ++ ws2) m = append_data ws2 (append_data ws1 m) := by
  unfold append_data
  rw [List.foldl_append]

theorem data_array_insert_accepted (w : word) (m : memory) (h : m.IC + m.DC ≤ MEMORY_SIZE) :
    data_array_insert w m =
      { m with data_array := m.data_array.set m.DC w, DC := m.DC + 1 } := by
  unfold data_array_insert
  rw [if_pos h]

/-- Words appended to the data array while the guard of the memory manager
lets them in: DC grows by their number, the words are stored from the old DC
on in their order, and everything else stays. -/
theorem append_data_accepted (ws : List word) (m : memory)
    (h : m.IC + m.DC + ws.length ≤ MEMORY_SIZE + 1) :
    (append_data ws m).DC = m.DC + ws.length ∧
    (append_data ws m).IC = m.IC ∧
    (append_data ws m).instructions_array = m.instructions_array ∧
    (append_data ws m).memory_full_flag = m.memory_full_flag ∧
    (append_data ws m).data_array.length = m.data_array.length ∧
    (∀ i, i < m.DC → (append_data ws m).data_array[i]? = m.data_array[i]?) ∧
    (m.DC + ws.length ≤ m.data_array.length →
      ∀ i, i < ws.length → (append_data ws m).data_array[m.DC + i]? = ws[i]?) := by
  induction ws generalizing m with
  | nil =>
    exact ⟨rfl, rfl, rfl, rfl, rfl, fun _ _ => rfl, fun _ i hi => absurd hi (Nat.not_lt_zero i)⟩
  | cons w ws ih =>
    rw [append_data_cons]
    simp only [List.length_cons] at h ⊢
    have hacc : m.IC + m.DC ≤ MEMORY_SIZE := by omega
    rw [data_array_insert_accepted w m hacc]
    obtain ⟨a, b, c, d, e, f, g⟩ := ih
      { m with data_array := m.data_array.set m.DC w, DC := m.DC + 1 }
      (by simp only; omega)
    simp only [List.length_set] at a b c d e f g
    refine ⟨by rw [a]; omega, b, c, d, e, ?_, ?_⟩
    · intro i hi
      rw [f i (by omega), List.getElem?_set_ne (by omega)]
    · intro hlen i hi
      cases i with
      | zero =>
        rw [List.getElem?_cons_zero,
          ← List.getElem?_set_eq_of_lt w (by omega : m.DC < m.data_array.length)]
        exact f m.DC (Nat.lt_succ_self _)
      | succ i =>
        have := g (by omega) i (by omega)
        rw [List.getElem?_cons_succ, ← this]
        congr 1
        omega

theorem store_number_accepted (lc : Int) (s : session) (v : Int)
    (h : s.mem.IC + s.mem.DC ≤ MEMORY_SIZE) :
    store_number lc s v =
      { s with mem := data_array_insert (word_assign v) s.mem,
               stderr := s.stderr ++ range_warnings lc [v] } := by
  unfold store_number range_warnings session.data_array_insert print_warning_int
  by_cases hw : v > 511 ∨ v < -512
  · simp [hw, h]
  · simp [hw, h]

/-- The calls of `read_numbers_list` for a list of values while the memory
has room: the words go to the data array and the warnings to stderr. -/
theorem store_numbers_accepted (lc : Int) (vals : List Int) : ∀ s : session,
    s.mem.IC + s.mem.DC + vals.length ≤ MEMORY_SIZE + 1 →
    vals.foldl (store_number lc) s =
      { s with mem := append_data (vals.map word_assign) s.mem,
               stderr := s.stderr ++ range_warnings lc vals } := by
  induction vals with
  | nil =>
    intro s _
    simp [append_data, range_warnings]
  | cons v vals ih =>
    intro s h
    simp only [List.length_cons] at h
    have hacc : s.mem.IC + s.mem.DC ≤ MEMORY_SIZE := by omega
    rw [List.foldl_cons, store_number_accepted lc s v hacc, ih]
    · simp only [List.map_cons, append_data_cons, List.append_assoc]
      have e : range_warnings lc [v] ++ range_warnings lc vals = range_warnings lc (v :: vals) := by
        unfold range_warnings
        rw [← List.map_append, ← List.filter_append]
        rfl
      rw [e]
    · simp only
      rw [data_array_insert_accepted _ _ hacc]
      simp only
      omega

theorem mem_range_warnings (lc : Int) (vals : List Int) (d : diag) :
    d ∈ range_warnings lc vals ↔
      ∃ v, v ∈ vals ∧ (v > 511 ∨ v < -512) ∧ d = diag.warning_int lc 3 v := by
  unfold range_warnings
  simp only [List.mem_map, List.mem_filter, decide_eq_true_eq]
  constructor
  · rintro ⟨v, ⟨h1, h2⟩, rfl⟩
    exact ⟨v, h1, h2, rfl⟩
  · rintro ⟨v, h1, h2, rfl⟩
    exact ⟨v, ⟨h1, h2⟩, rfl⟩

theorem numbers_text_length : ∀ texts : List (List Char),
    texts.length ≤ (numbers_text texts).length + 1
  | [] => Nat.zero_le _
  | [_] => by simp
  | t :: u :: rest => by
    have ih := numbers_text_length (u :: rest)
    simp only [numbers_text, List.length_cons, List.length_append] at ih ⊢
    omega

theorem wrap10_range (v : Int) :
    -512 ≤ wrap10 v ∧ wrap10 v ≤ 511 ∧ wrap10 v % 1024 = v % 1024 := by
  unfold wrap10
  omega

theorem read_numbers_list_eq (s : session) :
    read_numbers_list s = read_numbers_loop (s.intput_as.buf.length + 1) 0 0 s := rfl

set_option maxRecDepth 1000000 in
/-- What `read_numbers_list` does when every number fits a C `int`: on a list
of n ≥ 1 signed integers separated by single commas and followed by the end of
the line (or of the file), `read_numbers_list` returns n and takes the line;
while the memory has room it stores exactly n words from the old DC on, in the
order of the source, each the value cut to a signed 10-bit word (the value
itself when it is within [-512, 511]), and nothing else changes but stderr:
there warning 3 is added for a value exactly when the value is outside [-512,
511]. The line `.data 5,-3,600` stores 5, -3 and the word whose ten bits are
600, with one warning. -/
theorem data_numbers_stored (texts : List (List Char)) (tail : List Char) (s : session)
    (hne : texts ≠ []) (hall : ∀ t ∈ texts, int_text t)
    (htail : tail = [] ∨ tail.head? = some '\n')
    (hbuf : s.intput_as.buf = numbers_text texts ++ tail)
    (hroom : s.mem.IC + s.mem.DC + texts.length ≤ MEMORY_SIZE + 1)
    (hlen : s.mem.DC + texts.length ≤ s.mem.data_array.length) :
    (read_numbers_list s).1 = texts.length ∧
    (read_numbers_list s).2 =
      { s with mem := append_data (texts.map (fun t => word_assign (number_value t))) s.mem,
               stderr := s.stderr ++ range_warnings s.line_count (texts.map number_value),
               intput_as := (read_numbers_list s).2.intput_as } ∧
    (read_numbers_list s).2.intput_as.buf = tail.drop 1 ∧
    (read_numbers_list s).2.mem.DC = s.mem.DC + texts.length ∧
    (∀ i, i < texts.length → (read_numbers_list s).2.mem.data_array[s.mem.DC + i]? =
      texts[i]?.map (fun t => word_assign (number_value t))) ∧
    (∀ i, i < s.mem.DC →
      (read_numbers_list s).2.mem.data_array[i]? = s.mem.data_array[i]?) ∧
    (∀ d, d ∈ (read_numbers_list s).2.stderr ↔ d ∈ s.stderr ∨
      ∃ t, t ∈ texts ∧ (number_value t > 511 ∨ number_value t < -512) ∧
        d = diag.warning_int s.line_count 3 (number_value t)) ∧
    (∀ t, t ∈ texts → -512 ≤ (word_assign (number_value t)).value ∧
      (word_assign (number_value t)).value ≤ 511 ∧
      (word_assign (number_value t)).value % 1024 = number_value t % 1024 ∧
      (-512 ≤ number_value t → number_value t ≤ 511 →
        (word_assign (number_value t)).value = number_value t)) ∧
    ((read_numbers_list (session_start 0 "5,-3,600\n".toList)).1 = 3 ∧
      (read_numbers_list (session_start 0 "5,-3,600\n".toList)).2.mem.DC = 3 ∧
      (read_numbers_list (session_start 0 "5,-3,600\n".toList)).2.mem.data_array.take 3 =
        [⟨5⟩, ⟨-3⟩, ⟨600 - 1024⟩] ∧
      (read_numbers_list (session_start 0 "5,-3,600\n".toList)).2.stderr =
        [diag.warning_int 0 3 600]) := by
  have hfuel : texts.length ≤ s.intput_as.buf.length + 1 := by
    rw [hbuf, List.length_append]
    have := numbers_text_length texts
    omega
  obtain ⟨h1, h2, h3⟩ := read_numbers_loop_texts tail s.line_count htail texts
    (s.intput_as.buf.length + 1) 0 0 s hne hall hfuel rfl hbuf
  rw [← read_numbers_list_eq] at h1 h2 h3
  have hroom2 : s.mem.IC + s.mem.DC + (texts.map number_value).length ≤ MEMORY_SIZE + 1 := by
    rw [List.length_map]
    exact hroom
  rw [store_numbers_accepted s.line_count _ s hroom2, List.map_map] at h2
  have hw : (texts.map (fun t => word_assign (number_value t))).length = texts.length :=
    List.length_map _ _
  obtain ⟨a, _, _, _, _, f, g⟩ := append_data_accepted
    (texts.map (fun t => word_assign (number_value t))) s.mem (by rw [hw]; exact hroom)
  rw [hw] at a g
  have hmem : (read_numbers_list s).2.mem =
      append_data (texts.map (fun t => word_assign (number_value t))) s.mem := by
    rw [h2]
    rfl
  have herr : (read_numbers_list s).2.stderr =
      s.stderr ++ range_warnings s.line_count (texts.map number_value) := by
    rw [h2]
  refine ⟨by rw [h1]; simp, h2, h3, by rw [hmem, a], ?_, ?_, ?_, ?_, ?_⟩
  · intro i hi
    rw [hmem, g hlen i hi, List.getElem?_map]
  · intro i hi
    rw [hmem, f i hi]
  · intro d
    rw [herr, List.mem_append, mem_range_warnings]
    constructor
    · rintro (h | ⟨v, hv, hr, rfl⟩)
      · exact Or.inl h
      · obtain ⟨t, ht, rfl⟩ := List.mem_map.mp hv
        exact Or.inr ⟨t, ht, hr, rfl⟩
    · rintro (h | ⟨t, ht, hr, rfl⟩)
      · exact Or.inl h
      · exact Or.inr ⟨_, List.mem_map.mpr ⟨t, ht, rfl⟩, hr, rfl⟩
  · intro t _
    obtain ⟨r1, r2, r3⟩ := wrap10_range (number_value t)
    exact ⟨r1, r2, r3, fun h0 h1 => wrap10_of_small _ h0 h1⟩
  · decide

set_option maxRecDepth 1000000 in
/-- The line `.data 5,-3,600` of a new file. -/
theorem data_numbers_stored_witness :
    (read_numbers_list (session_start 0 "5,-3,600\n".toList)).2.intput_as.buf = [] ∧
    (read_numbers_list (session_start 0 "5,-3,600\n".toList)).2.mem.DC =
      (session_start 0 "5,-3,600\n".toList).mem.DC +
        ["5".toList, "-3".toList, "600".toList].length :=
  have h := data_numbers_stored ["5".toList, "-3".toList, "600".toList] "\n".toList
    (session_start 0 "5,-3,600\n".toList) (by decide)
    (by
      intro t ht
      simp only [List.mem_cons, List.mem_singleton, List.not_mem_nil, or_false] at ht
      rcases ht with rfl | rfl | rfl
      · exact ⟨⟨"5".toList, by decide, by decide, Or.inl rfl⟩, by decide, by decide⟩
      · exact ⟨⟨"3".toList, by decide, by decide, Or.inr (Or.inr rfl)⟩, by decide, by decide⟩
      · exact ⟨⟨"600".toList, by decide, by decide, Or.inl rfl⟩, by decide, by decide⟩)
    (Or.inr rfl) rfl (by decide) (by decide)
  ⟨h.2.2.1, h.2.2.2.1⟩

theorem getc_while_split (p : Char → Bool) (eof : Bool) (c : Char) (l2 : List Char)
    (hc : p c = false) : ∀ l1 : List Char, (∀ x ∈ l1, p x = true) →
    getc_while p eof (l1 ++ c :: l2) = (l1, some c, { buf := l2, eof := eof })
  | [], _ => by simp [getc_while, hc]
  | x :: l1, h => by
    have hx := h x (List.mem_cons_self _ _)
    have ih := getc_while_split p eof c l2 hc l1 (fun y hy => h y (List.mem_cons_of_mem _ hy))
    rw [List.cons_append, getc_while, if_pos hx, ih]

theorem session_data_array_insert_accepted (w : word) (s : session)
    (h : s.mem.IC + s.mem.DC ≤ MEMORY_SIZE) :
    session.data_array_insert w s = { s with mem := data_array_insert w s.mem } := by
  unfold session.data_array_insert
  rw [if_pos h]

/-- The calls of `data_array_insert` for the characters of a string while the
memory has room. -/
theorem insert_characters_accepted : ∀ (str : List Char) (s : session),
    s.mem.IC + s.mem.DC + str.length ≤ MEMORY_SIZE + 1 →
    insert_characters str s =
      ((), { s with mem := append_data (str.map (fun c => word_assign c.toNat)) s.mem })
  | [], s, _ => rfl
  | c :: str, s, h => by
    simp only [List.length_cons] at h
    have hacc : s.mem.IC + s.mem.DC ≤ MEMORY_SIZE := by omega
    unfold insert_characters
    rw [apply_bind, apply_update, session_data_array_insert_accepted _ _ hacc,
      insert_characters_accepted str]
    · rfl
    · simp only
      rw [data_array_insert_accepted _ _ hacc]
      simp only
      omega

theorem skip_line_at (f : InFile) (tail : List Char)
    (htail : tail = [] ∨ tail.head? = some '\n') (hf : f.buf = tail) :
    (skip_line f).2.buf = tail.drop 1 := by
  unfold skip_line
  simp only
  rw [hf]
  rcases htail with h | h
  · subst h
    rfl
  · cases tail with
    | nil => simp at h
    | cons c r =>
      simp only [List.head?_cons, Option.some.injEq] at h
      subst h
      simp [getc_while]

theorem dropWhile_blanks (tail : List Char)
    (htail : ∀ c, tail.head? = some c → is_blank c = false) : ∀ blanks : List Char,
    (∀ c ∈ blanks, is_blank c = true) → (blanks ++ tail).dropWhile is_blank = tail
  | [], _ => by
    cases tail with
    | nil => rfl
    | cons c r =>
      have := htail c rfl
      simp [List.dropWhile_cons, this]
  | b :: bs, h => by
    have hb := h b (List.mem_cons_self _ _)
    simp only [List.cons_append, List.dropWhile_cons, hb, if_true]
    exact dropWhile_blanks tail htail bs (fun c hc => h c (List.mem_cons_of_mem _ hc))

theorem peek_next_char_blanks (f : InFile) (blanks tail : List Char)
    (hblanks : ∀ c ∈ blanks, is_blank c = true)
    (htail : ∀ c, tail.head? = some c → is_blank c = false)
    (hf : f.buf = blanks ++ tail) :
    (peek_next_char f).1 = tail.head? ∧ (peek_next_char f).2.buf = tail := by
  rw [peek_next_char_eq]
  obtain ⟨h1, h2⟩ := skip_whites_text f
  have hd := dropWhile_blanks tail htail blanks hblanks
  rw [h1, h2, hf, hd]
  exact ⟨rfl, rfl⟩

/-- Function `read_string` on a string between double quotes that is followed
by blanks and the end of the line (or of the file), while the memory has
room. -/
theorem read_string_text (str blanks tail : List Char) (s : session)
    (hstr : ∀ c ∈ str, c ≠ '\n' ∧ c ≠ QUOTE)
    (hblanks : ∀ c ∈ blanks, is_blank c = true)
    (htail : tail = [] ∨ tail.head? = some '\n')
    (hbuf : s.intput_as.buf = QUOTE :: (str ++ QUOTE :: (blanks ++ tail)))
    (hroom : s.mem.IC + s.mem.DC + (str.length + 1) ≤ MEMORY_SIZE + 1) :
    (read_string s).1 = true ∧
    (read_string s).2 =
      { s with mem := append_data (string_words str) s.mem,
               intput_as := (read_string s).2.intput_as } ∧
    (read_string s).2.intput_as.buf = tail.drop 1 := by
  have hg1 : (getc s.intput_as).1 = some QUOTE := by
    rw [(getc_buf _).1, hbuf]
    rfl
  have hg2 : (getc s.intput_as).2.buf = str ++ QUOTE :: (blanks ++ tail) := by
    rw [(getc_buf _).2, hbuf]
    rfl
  have hw := getc_while_split (fun c => decide (c ≠ '\n' ∧ c ≠ QUOTE))
    (getc s.intput_as).2.eof QUOTE (blanks ++ tail) (by decide) str
    (fun x hx => decide_eq_true (hstr x hx))
  rw [← hg2] at hw
  have htail2 : ∀ c, tail.head? = some c → is_blank c = false := by
    intro c hc
    rcases htail with h | h
    · rw [h] at hc
      exact absurd hc (by simp)
    · rw [h] at hc
      rw [← Option.some.inj hc]
      decide
  obtain ⟨hp1, hp2⟩ := peek_next_char_blanks
    { buf := blanks ++ tail, eof := (getc s.intput_as).2.eof } blanks tail hblanks htail2 rfl
  have hp : tail.head? = some '\n' ∨ tail.head? = none := by
    rcases htail with h | h
    · exact Or.inr (by rw [h]; rfl)
    · exact Or.inl h
  have hsk := skip_line_at (peek_next_char
    { buf := blanks ++ tail, eof := (getc s.intput_as).2.eof }).2 tail htail hp2
  have hroom1 : s.mem.IC + s.mem.DC + str.length ≤ MEMORY_SIZE + 1 := by omega
  obtain ⟨a, b, _⟩ := append_data_accepted (str.map (fun c => word_assign c.toNat)) s.mem
    (by rw [List.length_map]; exact hroom1)
  rw [List.length_map] at a
  unfold read_string
  rw [apply_bind, apply_on_input]
  simp only [hg1, if_true]
  rw [apply_bind, apply_on_input]
  simp only [hw]
  rw [apply_bind, insert_characters_accepted str _ (by exact hroom1)]
  simp only []
  rw [apply_bind]
  simp only [(by decide : ¬ (some QUOTE = some '\n' ∨ some QUOTE = none)), if_false, apply_pure,
    if_true]
  rw [apply_bind, apply_on_input]
  simp only [hp1, hp, if_true]
  rw [apply_bind, apply_update, apply_bind, apply_on_input, apply_pure,
    session_data_array_insert_accepted]
  · refine ⟨rfl, ?_, hsk⟩
    simp only [string_words, append_data_append]
    rfl
  · simp only [a, b]
    omega

theorem string_words_length (str : List Char) : (string_words str).length = str.length + 1 := by
  simp [string_words]

theorem string_words_get (str : List Char) :
    (∀ i, i < str.length →
      (string_words str)[i]? = str[i]?.map (fun c => word_assign c.toNat)) ∧
    (string_words str)[str.length]? = some (word_assign 0) := by
  unfold string_words
  constructor
  · intro i hi
    rw [List.getElem?_append_left (by rw [List.length_map]; exact hi), List.getElem?_map]
  · rw [List.getElem?_append_right (by rw [List.length_map])]
    simp

set_option maxRecDepth 1000000 in
/-- C27: on a string between double quotes, with no newline and no quote
inside, followed only by blanks up to the end of the line (or of the file),
`read_string` returns 1 and takes the line; while the memory has room it
stores exactly len + 1 words from the old DC on: the character codes in
order, then a word 0; nothing else changes and nothing is printed. -/
theorem c27_string_characters (str blanks tail : List Char) (s : session)
    (hstr : ∀ c ∈ str, c ≠ '\n' ∧ c ≠ QUOTE)
    (hblanks : ∀ c ∈ blanks, is_blank c = true)
    (htail : tail = [] ∨ tail.head? = some '\n')
    (hbuf : s.intput_as.buf = QUOTE :: (str ++ QUOTE :: (blanks ++ tail)))
    (hroom : s.mem.IC + s.mem.DC + (str.length + 1) ≤ MEMORY_SIZE + 1)
    (hlen : s.mem.DC + (str.length + 1) ≤ s.mem.data_array.length) :
    (read_string s).1 = true ∧
    (read_string s).2 =
      { s with mem := append_data (string_words str) s.mem,
               intput_as := (read_string s).2.intput_as } ∧
    (read_string s).2.intput_as.buf = tail.drop 1 ∧
    (read_string s).2.mem.DC = s.mem.DC + (str.length + 1) ∧
    (∀ i, i < str.length → (read_string s).2.mem.data_array[s.mem.DC + i]? =
      str[i]?.map (fun c => word_assign c.toNat)) ∧
    (read_string s).2.mem.data_array[s.mem.DC + str.length]? = some (word_assign 0) ∧
    (∀ i, i < s.mem.DC → (read_string s).2.mem.data_array[i]? = s.mem.data_array[i]?) ∧
    (read_string s).2.stderr = s.stderr ∧
    (∀ c, c ∈ str → c.toNat ≤ 511 → (word_assign c.toNat).value = c.toNat) ∧
    (word_assign 0).value = 0 ∧
    ((read_string (session_start 0 "\"ab\" \n".toList)).1 = true ∧
      (read_string (session_start 0 "\"ab\" \n".toList)).2.mem.DC = 3 ∧
      (read_string (session_start 0 "\"ab\" \n".toList)).2.mem.data_array.take 3 =
        [⟨97⟩, ⟨98⟩, ⟨0⟩]) := by
  obtain ⟨h1, h2, h3⟩ := read_string_text str blanks tail s hstr hblanks htail hbuf hroom
  obtain ⟨a, _, _, _, _, f, g⟩ := append_data_accepted (string_words str) s.mem
    (by rw [string_words_length]; exact hroom)
  rw [string_words_length] at a g
  have hmem : (read_string s).2.mem = append_data (string_words str) s.mem := by
    rw [h2]
  have herr : (read_string s).2.stderr = s.stderr := by
    rw [h2]
  obtain ⟨w1, w2⟩ := string_words_get str
  refine ⟨h1, h2, h3, by rw [hmem, a], ?_, ?_, ?_, herr, ?_, by decide, by decide⟩
  · intro i hi
    rw [hmem, g hlen i (by omega), w1 i hi]
  · rw [hmem, g hlen str.length (by omega), w2]
  · intro i hi
    rw [hmem, f i hi]
  · intro c _ hc
    exact wrap10_of_small _ (by omega) (by omega)

set_option maxRecDepth 1000000 in
/-- C27 at the line `.string "ab"` of a new file. -/
theorem c27_string_characters_witness :
    (read_string (session_start 0 "\"ab\" \n".toList)).1 = true ∧
    (read_string (session_start 0 "\"ab\" \n".toList)).2.mem.DC =
      (session_start 0 "\"ab\" \n".toList).mem.DC + ("ab".toList.length + 1) :=
  have h := c27_string_characters "ab".toList " ".toList "\n".toList
    (session_start 0 "\"ab\" \n".toList) (by decide) (by decide) (Or.inr rfl) rfl
    (by decide) (by decide)
  ⟨h.1, h.2.2.2.1⟩

/-- Function `read_next_number` on a text that does not begin with a number:
it returns 0 and the text stays unread. -/
theorem read_next_number_none (dest : Int) (f : InFile) (h : starts_number f.buf = false) :
    (read_next_number dest f).1.1 = 0 ∧ (read_next_number dest f).2.buf = f.buf := by
  obtain ⟨buf, eof⟩ := f
  simp only at h ⊢
  cases buf with
  | nil => simp [read_next_number, getc, ungetc, isdigit]
  | cons c rest =>
    cases rest with
    | nil =>
      simp only [starts_number, Bool.and_false, Bool.or_false] at h
      simp [read_next_number, getc, ungetc, isdigit, h]
    | cons d rest =>
      simp only [starts_number, Bool.or_eq_false_iff, Bool.and_eq_false_iff, beq_eq_false_iff_ne,
        ne_eq] at h
      obtain ⟨hc, h2⟩ := h
      unfold read_next_number
      simp only [getc_cons, isdigit, ungetc]
      by_cases hd : d.isDigit = true
      · have hn : c ≠ '+' ∧ c ≠ '-' := by
          rcases h2 with h2 | h2
          · exact h2
          · rw [hd] at h2
            exact absurd h2 (by decide)
        simp [hn.1, hn.2, hc]
      · simp [hd, hc]

theorem read_next_number_some (dest : Int) (f : InFile)
    (h : (read_next_number dest f).1.1 ≠ 0) : starts_number f.buf = true := by
  rcases Bool.eq_false_or_eq_true (starts_number f.buf) with h1 | h1
  · exact h1
  · exact absurd (read_next_number_none dest f h1).1 h

theorem struct_error_check_read_comma (s : session) :
    struct_error_check true true s = ((), s) := by
  unfold struct_error_check
  rw [apply_bind, apply_query]
  simp only [if_true, not_true_eq_false, if_false]
  rfl

theorem struct_error_check_no_comma (s : session) :
    struct_error_check true false s = ((), print_error s.line_count 23 s) := by
  unfold struct_error_check
  rw [apply_bind, apply_query]
  simp only [if_true, Bool.false_eq_true, not_false_eq_true]
  rfl

theorem struct_error_check_no_number (s : session) :
    struct_error_check false false s =
      ((), print_error s.line_count
        (if (peek_next_char s.intput_as).1 = some '\n' then 21 else 22)
        { s with intput_as := (peek_next_char s.intput_as).2 }) := by
  unfold struct_error_check
  rw [apply_bind, apply_query]
  simp only [Bool.false_eq_true, if_false]
  rw [apply_bind, apply_on_input]
  simp only [not_false_eq_true, if_true]
  split_ifs <;> rfl

theorem process_directive_struct_eq (s : session) :
    process_directive_struct s =
      (if (read_next_number 0 s.intput_as).1.1 ≠ 0 then
        (if (peek_next_char (read_next_number 0 s.intput_as).2).1 = some ',' then
          (read_string
            { session.data_array_insert (word_assign (read_next_number 0 s.intput_as).1.2) s with
              intput_as := (skip_whites (getc (peek_next_char
                (read_next_number 0 s.intput_as).2).2).2).2 }).1
        else false,
        if (peek_next_char (read_next_number 0 s.intput_as).2).1 = some ',' then
          (read_string
            { session.data_array_insert (word_assign (read_next_number 0 s.intput_as).1.2) s with
              intput_as := (skip_whites (getc (peek_next_char
                (read_next_number 0 s.intput_as).2).2).2).2 }).2
        else
          print_error s.line_count 23
            { session.data_array_insert (word_assign (read_next_number 0 s.intput_as).1.2) s with
              intput_as := (peek_next_char (read_next_number 0 s.intput_as).2).2 })
      else
        (false, print_error s.line_count
          (if (peek_next_char (read_next_number 0 s.intput_as).2).1 = some '\n' then 21 else 22)
          { s with intput_as := (peek_next_char (read_next_number 0 s.intput_as).2).2 })) := by
  unfold process_directive_struct
  rw [apply_bind, apply_on_input]
  by_cases h : (read_next_number 0 s.intput_as).1.1 ≠ 0
  · have hd : decide ((read_next_number 0 s.intput_as).1.1 ≠ 0) = true := decide_eq_true h
    rw [if_pos h]
    simp only [hd, if_true]
    rw [apply_bind, apply_update, apply_bind, apply_on_input]
    simp only [session.data_array_insert]
    by_cases hp : (peek_next_char (read_next_number 0 s.intput_as).2).1 = some ','
    · have hpd : decide ((peek_next_char (read_next_number 0 s.intput_as).2).1 = some ',') = true :=
        decide_eq_true hp
      simp only [hp, decide_True, if_true]
      rw [apply_bind, apply_on_input, apply_bind, apply_on_input, apply_bind]
      simp only [struct_error_check_read_comma, apply_bind, apply_pure]
    · have hpd : decide ((peek_next_char (read_next_number 0 s.intput_as).2).1 = some ',') = false :=
        decide_eq_false hp
      simp only [hp, decide_False, if_false, Bool.false_eq_true]
      rw [apply_bind, struct_error_check_no_comma]
      rfl
  · have hd : decide ((read_next_number 0 s.intput_as).1.1 ≠ 0) = false := decide_eq_false h
    rw [if_neg h]
    simp only [hd, if_false, Bool.false_eq_true]
    rw [apply_bind, struct_error_check_no_number]
    rfl

theorem extern_use_lines_cons (table : hash_table) (r : node) (rest : List node) :
    extern_use_lines table (r :: rest) =
      if is_extern_name table r.key = true then extern_use_line r :: extern_use_lines table rest
      else extern_use_lines table rest := by
  unfold extern_use_lines
  by_cases h : is_extern_name table r.key = true
  · simp [List.filter_cons, h]
  · simp [List.filter_cons, h]

theorem externs_node_eq (table : hash_table) (r : node) (acc : List Char × Nat) :
    externs_node table r acc =
      if is_extern_name table r.key = true then (acc.1 ++ extern_use_line r, acc.2 + 1)
      else acc := by
  unfold externs_node is_extern_name extern_use_line
  rcases Option.eq_none_or_eq_some (find_symbol table r.key) with hn | ⟨n, hn⟩
  · simp [hn]
  · by_cases ht : n.type = type.EXTERN
    · simp [hn, ht]
    · simp [hn, ht]

theorem externs_fold (table : hash_table) (records : List node) : ∀ acc : List Char × Nat,
    records.foldl (fun acc curr => externs_node table curr acc) acc =
      (acc.1 ++ (extern_use_lines table records).flatten,
        acc.2 + (extern_use_lines table records).length) := by
  induction records with
  | nil =>
    intro acc
    simp [extern_use_lines]
  | cons r rest ih =>
    intro acc
    rw [List.foldl_cons, ih, externs_node_eq, extern_use_lines_cons]
    by_cases h : is_extern_name table r.key = true
    · simp only [if_pos h, List.flatten_cons, List.length_cons, List.append_assoc]
      refine Prod.ext rfl ?_
      simp only
      omega
    · simp only [if_neg h]

theorem create_externs_files_eq (s : session) :
    create_externs_files s =
      (if (extern_use_lines s.symbol_table s.externs_list.reverse).length = 0 then none
       else some (extern_use_lines s.symbol_table s.externs_list.reverse).flatten,
       { s with externs_list := s.externs_list.reverse }) := by
  show (if (List.foldl (fun acc curr => externs_node s.symbol_table curr acc) ([], 0)
      (reverse_list s.externs_list)).2 = 0 then none
    else some (List.foldl (fun acc curr => externs_node s.symbol_table curr acc) ([], 0)
      (reverse_list s.externs_list)).1,
    ({ s with externs_list := reverse_list s.externs_list } : session)) = _
  rw [externs_fold]
  simp only [List.nil_append, Nat.zero_add, reverse_list]

/-! ### The file of the entries -/

theorem entries_node_eq (curr : node) (acc : entries_state) (s : session) :
    entries_node curr acc s =
      (match entry_error s.symbol_table curr.key with
       | none =>
         ({ text := acc.text ++ entry_line s.symbol_table s.mem.IC curr, status := acc.status,
            lines_count := if acc.status = true then acc.lines_count + 1 else acc.lines_count },
          s)
       | some e => ({ acc with status := false }, print_error_string curr.index e curr.key s)) := by
  unfold entries_node entry_error entry_line entry_address
  rw [apply_bind, apply_query]
  rcases Option.eq_none_or_eq_some (find_symbol s.symbol_table curr.key) with hn | ⟨n, hn⟩
  · simp only [hn]
    rfl
  · simp only [hn]
    rw [apply_bind, apply_query]
    by_cases h1 : n.type = type.DATA
    · have h2 : ¬ n.type = type.INST_L := by rw [h1]; decide
      simp only [h1, if_true, or_true, if_neg (by decide : ¬ type.DATA = type.INST_L)]
      rw [apply_bind, apply_pure, apply_pure]
      cases hst : acc.status <;> simp [hst]
    · by_cases h2 : n.type = type.INST_L
      · simp only [h2, if_true, true_or, if_neg (by decide : ¬ type.INST_L = type.DATA)]
        rw [apply_bind, apply_pure, apply_pure]
        cases hst : acc.status <;> simp [hst]
      · simp only [h1, h2, if_false, or_self]
        rw [apply_bind, apply_bind, apply_update, apply_pure, apply_pure]
        simp

theorem entry_errors_cons (table : hash_table) (r : node) (rest : List node) :
    entry_errors table (r :: rest) =
      (match entry_error table r.key with
       | none => entry_errors table rest
       | some e => diag.error_string r.index e r.key :: entry_errors table rest) := by
  unfold entry_errors
  cases h : entry_error table r.key <;> simp [List.filterMap_cons, h]

/-- The loop of `create_entries_file`: the errors printed, the status, and
the text written when the status stays 1. -/
theorem entries_loop_spec (table : hash_table) (ic : Nat) (l : List node) :
    ∀ (acc : entries_state) (s : session), s.symbol_table = table → s.mem.IC = ic →
    (entries_loop l acc s).2 = { s with stderr := s.stderr ++ entry_errors table l } ∧
    ((entries_loop l acc s).1.status = true ↔
      acc.status = true ∧ ∀ r ∈ l, entry_error table r.key = none) ∧
    ((entries_loop l acc s).1.status = true →
      (entries_loop l acc s).1.text = acc.text ++ (l.map (entry_line table ic)).flatten ∧
      (entries_loop l acc s).1.lines_count = acc.lines_count + l.length) := by
  induction l with
  | nil =>
    intro acc s _ _
    refine ⟨?_, ?_, ?_⟩
    · show s = _
      simp [entry_errors]
    · show acc.status = true ↔ _
      simp
    · intro _
      show acc.text = _ ∧ acc.lines_count = _
      simp
  | cons r rest ih =>
    intro acc s ht hic
    have e : entries_loop (r :: rest) acc s =
        entries_loop rest (entries_node r acc s).1 (entries_node r acc s).2 := rfl
    subst ht
    subst hic
    rw [e, entries_node_eq, entry_errors_cons]
    cases herr : entry_error s.symbol_table r.key with
    | none =>
      simp only []
      obtain ⟨a, b, c⟩ := ih
        { text := acc.text ++ entry_line s.symbol_table s.mem.IC r, status := acc.status,
          lines_count := if acc.status = true then acc.lines_count + 1 else acc.lines_count }
        s rfl rfl
      refine ⟨a, ?_, ?_⟩
      · rw [b]
        simp only [List.mem_cons, forall_eq_or_imp, herr, true_and]
      · intro h
        obtain ⟨c1, c2⟩ := c h
        have hs : acc.status = true := (b.mp h).1
        rw [c1, c2]
        simp only [hs, if_true, List.map_cons, List.flatten_cons, List.append_assoc,
          List.length_cons, true_and]
        omega
    | some e =>
      simp only []
      obtain ⟨a, b, c⟩ := ih { acc with status := false }
        (print_error_string r.index e r.key s) rfl rfl
      refine ⟨?_, ?_, ?_⟩
      · rw [a]
        unfold print_error_string
        simp
      · rw [b]
        simp [herr]
      · intro h
        exact absurd (b.mp h).1 (by simp)

theorem create_entries_file_eq (s : session) :
    (create_entries_file s).1 =
      (if (∀ r ∈ s.entries_list.reverse, entry_error s.symbol_table r.key = none) ∧
          s.entries_list ≠ [] then
        some ((s.entries_list.reverse.map (entry_line s.symbol_table s.mem.IC)).flatten)
       else none) ∧
    (create_entries_file s).2 =
      { s with entries_list := s.entries_list.reverse,
               stderr := s.stderr ++ entry_errors s.symbol_table s.entries_list.reverse } := by
  obtain ⟨a, b, c⟩ := entries_loop_spec s.symbol_table s.mem.IC s.entries_list.reverse
    { text := [], status := true, lines_count := 0 }
    { s with entries_list := s.entries_list.reverse } rfl rfl
  have e : create_entries_file s =
      (if ¬ (entries_loop s.entries_list.reverse { text := [], status := true, lines_count := 0 }
            { s with entries_list := s.entries_list.reverse }).1.status = true ∨
          (entries_loop s.entries_list.reverse { text := [], status := true, lines_count := 0 }
            { s with entries_list := s.entries_list.reverse }).1.lines_count = 0 then none
        else some (entries_loop s.entries_list.reverse
          { text := [], status := true, lines_count := 0 }
          { s with entries_list := s.entries_list.reverse }).1.text,
       (entries_loop s.entries_list.reverse { text := [], status := true, lines_count := 0 }
          { s with entries_list := s.entries_list.reverse }).2) := rfl
  rw [e]
  refine ⟨?_, a⟩
  simp only []
  by_cases hst : (entries_loop s.entries_list.reverse
      { text := [], status := true, lines_count := 0 }
      { s with entries_list := s.entries_list.reverse }).1.status = true
  · obtain ⟨c1, c2⟩ := c hst
    have hall := (b.mp hst).2
    rw [c1, c2]
    simp only [hst, not_true_eq_false, false_or, List.nil_append, Nat.zero_add,
      List.length_reverse]
    by_cases hne : s.entries_list = []
    · simp [hne]
    · have hl : s.entries_list.length ≠ 0 := fun h => hne (List.length_eq_zero.mp h)
      rw [if_neg hl, if_pos ⟨hall, hne⟩]
  · have hnall : ¬ ∀ r ∈ s.entries_list.reverse, entry_error s.symbol_table r.key = none :=
      fun h => hst (b.mpr ⟨rfl, h⟩)
    rw [if_pos (Or.inl hst), if_neg (fun h => hnall h.1)]

theorem second_pass_process_lists (s : session) :
    (second_pass_process s).2.entries_list = s.entries_list ∧
    (second_pass_process s).2.externs_list = s.externs_list := by
  have e : second_pass_process s = second_pass_loop (reverse_list s.second_pass_list) true
      { s with second_pass_list := reverse_list s.second_pass_list } := rfl
  rw [e]
  obtain ⟨_, _, _, _, _, _, a7, a8, _⟩ := second_pass_loop_frame
    (reverse_list s.second_pass_list) true
    { s with second_pass_list := reverse_list s.second_pass_list }
  exact ⟨a7, a8⟩

theorem outputs_of_sessions (p1 p2 : session) (ht : p2.symbol_table = p1.symbol_table)
    (hic : p2.mem.IC = p1.mem.IC) (hent : p2.entries_list = p1.entries_list)
    (hext : p2.externs_list = p1.externs_list) (herr : p2.stderr = p1.stderr) :
    (create_entries_file p2).1 =
      (if (∀ r ∈ p1.entries_list.reverse, entry_error p1.symbol_table r.key = none) ∧
          p1.entries_list ≠ [] then
        some ((p1.entries_list.reverse.map (entry_line p1.symbol_table p1.mem.IC)).flatten)
       else none) ∧
    (create_externs_files (create_entries_file p2).2).1 =
      (if (extern_use_lines p1.symbol_table p1.externs_list.reverse).length = 0 then none
       else some (extern_use_lines p1.symbol_table p1.externs_list.reverse).flatten) ∧
    (create_externs_files (create_entries_file p2).2).2.stderr =
      p1.stderr ++ entry_errors p1.symbol_table p1.entries_list.reverse := by
  obtain ⟨e1, e2⟩ := create_entries_file_eq p2
  have hx := create_externs_files_eq (create_entries_file p2).2
  rw [ht, hic, hent] at e1
  rw [ht, hent, herr] at e2
  refine ⟨e1, ?_, ?_⟩
  · rw [hx, e2]
    simp only [ht, hext]
  · rw [hx, e2]

theorem file_process_files (chars_count0 : Int) (input : List Char)
    (h : (file_process chars_count0 input).status = true) :
    (file_process chars_count0 input).ent = (create_entries_file
      (second_pass_process (first_pass_process (session_start chars_count0 input)).2).2).1 ∧
    (file_process chars_count0 input).ext = (create_externs_files (create_entries_file
      (second_pass_process (first_pass_process (session_start chars_count0 input)).2).2).2).1 ∧
    (file_process chars_count0 input).final = (create_externs_files (create_entries_file
      (second_pass_process (first_pass_process (session_start chars_count0 input)).2).2).2).2 := by
  obtain ⟨h1, h2, h3, _⟩ := file_process_success chars_count0 input h
  unfold file_process
  simp only [h1, h2, h3, if_true, Bool.false_eq_true, not_false_eq_true, and_self]

/-- The three output files of a run that succeeds, in terms of the session
the first pass leaves and the memory the second pass leaves. -/
theorem file_process_outputs (chars_count0 : Int) (input : List Char)
    (h : (file_process chars_count0 input).status = true) :
    (file_process chars_count0 input).ob = some (save_memory_to_file
      (second_pass_process (first_pass_process (session_start chars_count0 input)).2).2.mem) ∧
    (file_process chars_count0 input).ent =
      (if (∀ r ∈ (first_pass_process (session_start chars_count0 input)).2.entries_list.reverse,
            entry_error (first_pass_process (session_start chars_count0 input)).2.symbol_table
              r.key = none) ∧
          (first_pass_process (session_start chars_count0 input)).2.entries_list ≠ [] then
        some (((first_pass_process (session_start chars_count0 input)).2.entries_list.reverse.map
          (entry_line (first_pass_process (session_start chars_count0 input)).2.symbol_table
            (first_pass_process (session_start chars_count0 input)).2.mem.IC)).flatten)
       else none) ∧
    (file_process chars_count0 input).ext =
      (if (extern_use_lines (first_pass_process (session_start chars_count0 input)).2.symbol_table
            (first_pass_process (session_start chars_count0 input)).2.externs_list.reverse).length
            = 0 then none
       else some (extern_use_lines
         (first_pass_process (session_start chars_count0 input)).2.symbol_table
         (first_pass_process (session_start chars_count0 input)).2.externs_list.reverse).flatten) ∧
    (file_process chars_count0 input).final.stderr =
      (first_pass_process (session_start chars_count0 input)).2.stderr ++
        entry_errors (first_pass_process (session_start chars_count0 input)).2.symbol_table
          (first_pass_process (session_start chars_count0 input)).2.entries_list.reverse := by
  obtain ⟨h1, h2, h3, hob, _⟩ := file_process_success chars_count0 input h
  obtain ⟨t1, t2, _, _, _, t6⟩ := second_pass_process_frame
    (first_pass_process (session_start chars_count0 input)).2
  obtain ⟨l1, l2⟩ := second_pass_process_lists
    (first_pass_process (session_start chars_count0 input)).2
  obtain ⟨o1, o2, o3⟩ := outputs_of_sessions
    (first_pass_process (session_start chars_count0 input)).2
    (second_pass_process (first_pass_process (session_start chars_count0 input)).2).2
    t1 t2 l1 l2 (t6 h2)
  obtain ⟨f1, f2, f3⟩ := file_process_files chars_count0 input h
  refine ⟨hob, ?_, ?_, ?_⟩
  · rw [f1]
    exact o1
  · rw [f2]
    exact o2
  · rw [f3]
    exact o3

set_option maxRecDepth 1000000 in
/-- C31: `create_externs_files` writes, for the use records in the order of
their creation (the list is built by insertion at the head and reversed
first), one line `NAME ADDR` for each record whose name resolves to an EXTERN
symbol, ADDR being `C + code_index` in base 32, and nothing for any other
record; the file is removed exactly when no line was written. Nothing else
changes in the session but the order of the list. In a run that succeeds the
`.ext` file is this text for the table and the records the first pass left.
For `.extern K`, `jmp K`, `L: .data 1`, `prn L`, `prn K` the file holds the
lines `K $^` and `K $>`. -/
theorem c31_externs_file (s : session) :
    (create_externs_files s).1 =
      (if extern_use_lines s.symbol_table s.externs_list.reverse = [] then none
       else some (extern_use_lines s.symbol_table s.externs_list.reverse).flatten) ∧
    (create_externs_files s).2 = { s with externs_list := s.externs_list.reverse } ∧
    extern_use_lines s.symbol_table s.externs_list.reverse =
      (s.externs_list.reverse.filter (fun r =>
        decide ((find_symbol s.symbol_table r.key).map (fun n => n.type) = some type.EXTERN))).map
        (fun r => r.key ++ [' '] ++ convert_int_to_awkward_base ((C : Int) + r.index) ++ ['\n']) ∧
    (∀ (name : List Char) (ic : Int) (s0 : session),
      (ent_ext_list_insert name false ic s0).externs_list.reverse =
        s0.externs_list.reverse ++ [{ node_construct name type.INST with index := wrap10 ic }]) ∧
    (∀ ic : Int, 0 ≤ ic → ic ≤ 511 → wrap10 ic = ic) ∧
    (∀ (c : Int) (input : List Char), (file_process c input).status = true →
      (file_process c input).ext =
        (if extern_use_lines (first_pass_process (session_start c input)).2.symbol_table
            (first_pass_process (session_start c input)).2.externs_list.reverse = [] then none
         else some (extern_use_lines (first_pass_process (session_start c input)).2.symbol_table
           (first_pass_process (session_start c input)).2.externs_list.reverse).flatten)) ∧
    ((file_process 0 ".extern K\njmp K\nL: .data 1\nprn L\nprn K\n".toList).ext =
        some "K $^\nK $>\n".toList ∧
      (file_process 0 "L: .data 1\nprn L\n".toList).status = true ∧
      (file_process 0 "L: .data 1\nprn L\n".toList).ext = none) := by
  have hlen : ∀ l : List (List Char), (l.length = 0) = (l = []) := fun l =>
    propext List.length_eq_zero
  refine ⟨?_, ?_, rfl, ?_, ?_, ?_, by decide⟩
  · rw [create_externs_files_eq]
    simp only [hlen]
  · rw [create_externs_files_eq]
  · intro name ic s0
    unfold ent_ext_list_insert linked_list_insert
    simp
  · intro ic h0 h1
    exact wrap10_of_small ic (by omega) h1
  · intro c input h
    rw [(file_process_outputs c input h).2.2.1]
    simp only [hlen]

set_option maxRecDepth 1000000 in
/-- C32: `create_entries_file` takes the requests in the order of the source
(the list is built by insertion at the head and reversed first): a name that
resolves to an INST_L symbol gives the line `NAME ADDR` with ADDR the base 32
form of `C + address`, a DATA symbol gives `C + IC + address`, a symbol of
any other type gives error 30 and a name that is no symbol error 29, each
with the line number kept in the request. The file is kept exactly when no
request had an error and there was at least one request; its text is then
the lines of all requests. Only stderr and the order of the list change in
the session, and in a run that succeeds `.ob` and `.ext` are what they are
without regard to these errors. -/
theorem c32_entries_file (s : session) :
    (create_entries_file s).1 =
      (if (∀ r ∈ s.entries_list.reverse, entry_error s.symbol_table r.key = none) ∧
          s.entries_list ≠ [] then
        some ((s.entries_list.reverse.map (entry_line s.symbol_table s.mem.IC)).flatten)
       else none) ∧
    (create_entries_file s).2 =
      { s with entries_list := s.entries_list.reverse,
               stderr := s.stderr ++ entry_errors s.symbol_table s.entries_list.reverse } ∧
    (∀ (r symbol : node), find_symbol s.symbol_table r.key = some symbol →
      (symbol.type = type.INST_L →
        entry_error s.symbol_table r.key = none ∧
        entry_line s.symbol_table s.mem.IC r = r.key ++ [' '] ++
          convert_int_to_awkward_base ((C : Int) + extract_address symbol) ++ ['\n']) ∧
      (symbol.type = type.DATA →
        entry_error s.symbol_table r.key = none ∧
        entry_line s.symbol_table s.mem.IC r = r.key ++ [' '] ++
          convert_int_to_awkward_base ((C : Int) + (s.mem.IC : Int) + extract_address symbol)
            ++ ['\n']) ∧
      (symbol.type ≠ type.INST_L → symbol.type ≠ type.DATA →
        entry_error s.symbol_table r.key = some 30)) ∧
    (∀ r : node, find_symbol s.symbol_table r.key = none →
      entry_error s.symbol_table r.key = some 29) ∧
    (∀ requests : List node, entry_errors s.symbol_table requests =
      requests.filterMap (fun r => (entry_error s.symbol_table r.key).map
        (fun e => diag.error_string r.index e r.key))) ∧
    (∀ (name : List Char) (line : Int) (s0 : session),
      (ent_ext_list_insert name true line s0).entries_list.reverse =
        s0.entries_list.reverse ++ [{ node_construct name type.INST with index := wrap10 line }]) ∧
    (∀ (c : Int) (input : List Char), (file_process c input).status = true →
      (file_process c input).ob = some (save_memory_to_file
        (second_pass_process (first_pass_process (session_start c input)).2).2.mem) ∧
      (file_process c input).ext =
        (create_externs_files (first_pass_process (session_start c input)).2).1 ∧
      (file_process c input).ent =
        (create_entries_file (first_pass_process (session_start c input)).2).1) ∧
    ((file_process 0 ".entry L\n.entry M\nM: inc r1\nL: .data 1\nprn L\n".toList).ent =
        some "L $<\nM $%\n".toList ∧
      (file_process 0
        ".entry L\n.entry mov\n.entry Q\n.extern K\nM: inc K\nL: .data 1\nprn L\n".toList).ent
        = none ∧
      (file_process 0
        ".entry L\n.entry mov\n.entry Q\n.extern K\nM: inc K\nL: .data 1\nprn L\n".toList
        ).final.stderr =
        [diag.error_string 2 30 "mov".toList, diag.error_string 3 29 "Q".toList] ∧
      (file_process 0
        ".entry L\n.entry mov\n.entry Q\n.extern K\nM: inc K\nL: .data 1\nprn L\n".toList).ob
        = some "!%\t!@\n$%\te%\n$^\t!@\n$&\to%\n$*\td#\n$<\t!@".toList ∧
      (file_process 0
        ".entry L\n.entry mov\n.entry Q\n.extern K\nM: inc K\nL: .data 1\nprn L\n".toList).ext
        = some "K $^\n".toList) := by
  refine ⟨(create_entries_file_eq s).1, (create_entries_file_eq s).2, ?_, ?_, fun _ => rfl, ?_,
    ?_, by decide⟩
  · intro r symbol hf
    refine ⟨fun h => ?_, fun h => ?_, fun h1 h2 => ?_⟩
    · unfold entry_error entry_line entry_address
      simp [hf, h]
    · unfold entry_error entry_line entry_address
      simp [hf, h]
    · unfold entry_error
      simp [hf, h1, h2]
  · intro r hf
    unfold entry_error
    simp [hf]
  · intro name line s0
    unfold ent_ext_list_insert linked_list_insert
    simp
  · intro c input h
    obtain ⟨o1, o2, o3, _⟩ := file_process_outputs c input h
    refine ⟨o1, ?_, ?_⟩
    · rw [o3, create_externs_files_eq]
    · rw [o2]
      exact (create_entries_file_eq (first_pass_process (session_start c input)).2).1.symm

/-! ### The object file -/

theorem convert_to_awkward_base_eq (w : word) : convert_to_awkward_base w = encode w.value := by
  unfold convert_to_awkward_base encode base32
  rw [int_and_992_shr, int_and_31]
  have h : (((w.value % 1024).toNat : Nat) : Int) = w.value % 1024 :=
    Int.toNat_of_nonneg (by omega)
  have h1 : w.value / 32 % 32 = (((w.value % 1024).toNat / 32 % 32 : Nat) : Int) := by
    push_cast
    omega
  have h2 : w.value % 32 = (((w.value % 1024).toNat % 32 : Nat) : Int) := by
    push_cast
    omega
  rw [h1, h2, Int.toNat_ofNat, Int.toNat_ofNat]

theorem convert_int_to_awkward_base_eq (v : Int) : convert_int_to_awkward_base v = encode v := by
  unfold convert_int_to_awkward_base
  rw [convert_to_awkward_base_eq]
  unfold encode
  have : (word_assign v).value % 1024 = v % 1024 := by
    show wrap10 v % 1024 = v % 1024
    unfold wrap10
    omega
  rw [this]

theorem encode_chars (v : Int) :
    ∃ c0 c1 : Char, encode v = [c0, c1] ∧ c0 ∈ encoding ∧ c1 ∈ encoding ∧
      (decode_char c0 : Int) * 32 + (decode_char c1 : Int) = v % 1024 := by
  have h : (((v % 1024).toNat : Nat) : Int) = v % 1024 := Int.toNat_of_nonneg (by omega)
  obtain ⟨m0, e0⟩ := encoding_getD_mem ((v % 1024).toNat / 32 % 32) (by omega)
  obtain ⟨m1, e1⟩ := encoding_getD_mem ((v % 1024).toNat % 32) (by omega)
  refine ⟨_, _, rfl, m0, m1, ?_⟩
  rw [e0, e1]
  push_cast
  omega

theorem encoding_no_newline : ∀ c ∈ encoding, c ≠ '\n' ∧ c ≠ '\t' := by decide

theorem join_lines_cons (h : List Char) (t : List (List Char)) :
    join_lines (h :: t) = h ++ (t.map (fun l => '\n' :: l)).flatten := by
  induction t generalizing h with
  | nil => simp [join_lines]
  | cons m rest ih =>
    show h ++ '\n' :: join_lines (m :: rest) = _
    rw [ih]
    simp

theorem save_memory_to_file_eq (m : memory) :
    save_memory_to_file m = join_lines (object_lines m) := by
  unfold save_memory_to_file object_lines
  rw [join_lines_cons]
  simp only [convert_int_to_awkward_base_eq, convert_to_awkward_base_eq, List.map_append,
    List.map_map, List.flatten_append, List.append_assoc]
  have e : ∀ (i : Nat), (C : Int) + (i : Int) + (m.IC : Int) = (C : Int) + (m.IC : Int) + (i : Int) :=
    fun i => by ring
  simp only [e]
  rfl

theorem object_lines_length (m : memory) : (object_lines m).length = 1 + m.IC + m.DC := by
  unfold object_lines
  simp only [List.length_cons, List.length_append, List.length_map, List.length_range]
  omega

theorem encode_length (v : Int) : (encode v).length = 2 := rfl

theorem encode_line (a b : Int) :
    (encode a ++ ['\t'] ++ encode b).length = 5 ∧ '\n' ∉ (encode a ++ ['\t'] ++ encode b) := by
  obtain ⟨a0, a1, ea, ha0, ha1, _⟩ := encode_chars a
  obtain ⟨b0, b1, eb, hb0, hb1, _⟩ := encode_chars b
  rw [ea, eb]
  refine ⟨rfl, ?_⟩
  simp only [List.cons_append, List.nil_append, List.mem_cons, List.not_mem_nil, or_false,
    not_or]
  exact ⟨fun h => (encoding_no_newline a0 ha0).1 h.symm,
    fun h => (encoding_no_newline a1 ha1).1 h.symm, by decide,
    fun h => (encoding_no_newline b0 hb0).1 h.symm,
    fun h => (encoding_no_newline b1 hb1).1 h.symm⟩

set_option maxRecDepth 1000000 in
/-- C33: the text `save_memory_to_file` writes is made of exactly
`1 + IC + DC` lines, joined by newlines: the first is the base 32 form of IC,
a tab, that of DC; line `1 + i`, for `i < IC`, is the base 32 form of
`C + i`, a tab, that of the code word `i`; line `1 + IC + j`, for `j < DC`,
is the base 32 form of `C + IC + j`, a tab, that of the data word `j`. The
base 32 form is the one of `convert_int_to_awkward_base`: two characters of
the alphabet that stand for the 10-bit pattern; and C is 100. -/
theorem c33_object_file (m : memory) :
    save_memory_to_file m = join_lines (object_lines m) ∧
    (object_lines m).length = 1 + m.IC + m.DC ∧
    (∀ l ∈ object_lines m, l.length = 5 ∧ '\n' ∉ l) ∧
    (object_lines m)[0]? = some (encode m.IC ++ ['\t'] ++ encode m.DC) ∧
    (∀ i, i < m.IC → (object_lines m)[1 + i]? =
      some (encode ((C : Int) + (i : Int)) ++ ['\t'] ++
        encode (m.instructions_array.getD i ⟨0⟩).value)) ∧
    (∀ j, j < m.DC → (object_lines m)[1 + m.IC + j]? =
      some (encode ((C : Int) + (m.IC : Int) + (j : Int)) ++ ['\t'] ++
        encode (m.data_array.getD j ⟨0⟩).value)) ∧
    (∀ (i : Nat) (w : word), m.instructions_array[i]? = some w →
      m.instructions_array.getD i ⟨0⟩ = w) ∧
    (∀ (j : Nat) (w : word), m.data_array[j]? = some w → m.data_array.getD j ⟨0⟩ = w) ∧
    (∀ v : Int, convert_int_to_awkward_base v = encode v ∧
      ∃ c0 c1 : Char, encode v = [c0, c1] ∧ c0 ∈ encoding ∧ c1 ∈ encoding ∧
        (decode_char c0 : Int) * 32 + (decode_char c1 : Int) = v % 1024) ∧
    (∀ w : word, convert_to_awkward_base w = encode w.value) ∧
    C = 100 ∧
    save_memory_to_file (file_process 0 "L: .data 7\nprn L\n".toList).final.mem =
      "!#\t!@\n$%\to%\n$^\tcq\n$&\t!*".toList := by
  refine ⟨save_memory_to_file_eq m, object_lines_length m, ?_, ?_, ?_, ?_, ?_, ?_, ?_,
    convert_to_awkward_base_eq, rfl, by decide⟩
  · intro l hl
    unfold object_lines at hl
    simp only [List.mem_cons, List.mem_append, List.mem_map, List.mem_range] at hl
    rcases hl with rfl | ⟨i, _, rfl⟩ | ⟨j, _, rfl⟩
    · exact encode_line _ _
    · exact encode_line _ _
    · exact encode_line _ _
  · unfold object_lines
    exact List.getElem?_cons_zero
  · intro i hi
    unfold object_lines
    rw [Nat.add_comm 1 i, List.getElem?_cons_succ,
      List.getElem?_append_left (by rw [List.length_map, List.length_range]; exact hi),
      List.getElem?_map, List.getElem?_range hi]
    rfl
  · intro j hj
    unfold object_lines
    have e : 1 + m.IC + j = (m.IC + j) + 1 := by omega
    rw [e, List.getElem?_cons_succ,
      List.getElem?_append_right (by rw [List.length_map, List.length_range]; omega),
      List.length_map, List.length_range, Nat.add_sub_cancel_left,
      List.getElem?_map, List.getElem?_range hj]
    rfl
  · intro i w h
    simp [List.getD, h]
  · intro j w h
    simp [List.getD, h]
  · intro v
    exact ⟨convert_int_to_awkward_base_eq v, encode_chars v⟩

set_option maxRecDepth 1000000 in
/-- C34, as amended: for the source made of the one line `MAIN: mov r3, r5`
(with or without a final newline) the run succeeds with IC = 2 and DC = 0:
the instruction word and the word of the two registers. The first line of
the object file is `!#`, a tab, `!!`; the second line is the address
`C + 0 = 100`, written `$%`, a tab and the word 60 = `(3<<4)|(3<<2)`, written
`@s`; the third is `$^`, a tab and the word 212 = `(3<<6)|(5<<2)`, written
`&k`. -/
theorem c34_object_file_of_one_mov :
    (file_process 0 "MAIN: mov r3, r5".toList).ob = some "!#\t!!\n$%\t@s\n$^\t&k".toList ∧
    (file_process 0 "MAIN: mov r3, r5\n".toList).ob = some "!#\t!!\n$%\t@s\n$^\t&k".toList ∧
    (file_process 0 "MAIN: mov r3, r5".toList).final.mem.IC = 2 ∧
    (file_process 0 "MAIN: mov r3, r5".toList).final.mem.DC = 0 ∧
    object_lines (file_process 0 "MAIN: mov r3, r5".toList).final.mem =
      ["!#\t!!".toList, "$%\t@s".toList, "$^\t&k".toList] ∧
    (file_process 0 "MAIN: mov r3, r5".toList).final.mem.instructions_array.take 2 =
      [⟨60⟩, ⟨212⟩] ∧
    encode 2 = "!#".toList ∧ encode 0 = "!!".toList ∧ encode ((C : Int) + 0) = "$%".toList ∧
    encode 60 = "@s".toList ∧ encode 212 = "&k".toList ∧
    (60 : Int) = int_shl 0 6 + int_shl 3 4 + int_shl 3 2 ∧
    (212 : Int) = int_shl 3 6 + int_shl 5 2 := by
  decide

set_option maxRecDepth 1000000 in
/-- C34, the case that fails: for the source `MAIN: mov r3, r5` IC is 2 and
not 1, the first line of the object file is not `!e`, a tab, `!!`, and the
address 100 is not written `$!`: `!e` stands for 14 and `$!` for 96, while 1
is written `!@` and 100 is written `$%`. -/
theorem c34_counts_are_not_as_claimed :
    (file_process 0 "MAIN: mov r3, r5".toList).final.mem.IC ≠ 1 ∧
    (object_lines (file_process 0 "MAIN: mov r3, r5".toList).final.mem)[0]? ≠
      some "!e\t!!".toList ∧
    (object_lines (file_process 0 "MAIN: mov r3, r5".toList).final.mem)[1]?.map (List.take 2) ≠
      some "$!".toList ∧
    encode 14 = "!e".toList ∧ encode 1 = "!@".toList ∧
    encode 96 = "$!".toList ∧ encode ((C : Int) + 0) ≠ "$!".toList := by
  decide

/-! ### A label that is already a symbol -/

/-- Function `pre_process_line` on a line whose first token is a legal name
with a colon, the name being a symbol already: error 2 with the name. -/
theorem pre_process_line_duplicate (name : List Char) (n : node) (s : session)
    (hw : next_word s.intput_as.buf = name ++ [':']) (hlegal : legal_name name = true)
    (hcolon : find_symbol s.symbol_table (name ++ [':']) = none)
    (hfound : find_symbol s.symbol_table name = some n) :
    pre_process_line s =
      (line_head.failed (some n),
        print_error_string s.line_count 2 name
          { s with intput_as := (read_next_string s.chars_count0 s.intput_as).2 }) := by
  have hr := (read_next_string_text s.chars_count0 s.intput_as).1
  rw [hw] at hr
  have hl : (is_legal_label (name ++ [':']) true
      { s with intput_as := (read_next_string s.chars_count0 s.intput_as).2 }).1.1 = true :=
    (is_legal_label_new_iff _ _).mpr ⟨name, rfl, hlegal⟩
  have hcmd : command_name s.symbol_table (name ++ [':']) = false := by
    unfold command_name
    rw [hcolon]
    rfl
  unfold pre_process_line
  rw [apply_bind, apply_query, apply_bind, apply_on_input]
  simp only [hr]
  rw [apply_bind, apply_query, is_command_eq]
  simp only [hcmd, Bool.false_eq_true, if_false]
  rw [apply_bind, is_legal_label_true _ _ _ hl]
  simp only [if_true, remove_colon_legal name hlegal]
  rw [apply_bind, apply_query]
  simp only [hfound, Option.isNone_some, Bool.false_eq_true, if_false]
  rw [apply_bind]
  unfold pre_process_line_error_check
  rw [apply_bind, apply_query]
  simp only [Option.isSome_some, if_true]
  rfl

theorem next_word_head (x name : List Char) (hlegal : legal_name name = true)
    (hw : next_word x = name ++ [':']) :
    ∃ ch tail, x = ch :: tail ∧ ch ≠ '\n' ∧ ch ≠ ';' := by
  cases x with
  | nil =>
    exfalso
    cases name <;> simp [next_word] at hw
  | cons ch tail =>
    refine ⟨ch, tail, rfl, ?_⟩
    cases name with
    | nil => rw [legal_name_nil] at hlegal; exact absurd hlegal Bool.false_ne_true
    | cons a rest =>
      rw [legal_name_cons] at hlegal
      by_cases hin : in_word ch = true
      · have hh : (next_word (ch :: tail)).head? = some ch := by
          unfold next_word
          split_ifs <;> simp [List.takeWhile_cons, hin]
        rw [hw] at hh
        simp only [List.cons_append, List.head?_cons, Option.some.injEq] at hh
        subst hh
        constructor
        · intro e
          rw [e] at hlegal
          exact absurd hlegal.2.1 (by decide)
        · intro e
          rw [e] at hlegal
          exact absurd hlegal.2.1 (by decide)
      · exfalso
        have h1 : (ch :: tail).takeWhile in_word = [] := by simp [List.takeWhile_cons, hin]
        unfold next_word at hw
        rw [h1] at hw
        split_ifs at hw <;> simp at hw

set_option maxRecDepth 1000000 in
theorem preloaded_no_colon : ∀ k ∈ preloaded_names, ':' ∉ k := by decide

theorem initial_names (k : List Char) (n : node)
    (h : find_symbol initialize_symbol_table k = some n) : k ∈ preloaded_names := by
  obtain ⟨b, hb, hn⟩ := hash_table_find_mem _ _ _ h
  have hk := initial_keys b hb n hn
  rw [hash_table_find_key _ _ _ h] at hk
  exact hk

theorem session_start_table (chars_count0 : Int) (input : List Char) :
    (session_start chars_count0 input).symbol_table = initialize_symbol_table := by
  simp only [session_start]

/-- No key of the symbol table ends in a colon, in every session reached
from the start of a file. -/
theorem reach_no_colon {chars_count0 : Int} {input : List Char} {s : session}
    (h : reach (session_start chars_count0 input) s) (name : List Char) :
    find_symbol s.symbol_table (name ++ [':']) = none := by
  rcases Option.eq_none_or_eq_some (find_symbol s.symbol_table (name ++ [':'])) with hn | ⟨n, hn⟩
  · exact hn
  · exfalso
    have hm : ':' ∈ name ++ [':'] := by simp
    have hl : ∀ k n, find_symbol (session_start chars_count0 input).symbol_table k = some n →
        k ∈ preloaded_names ∨ legal_name k = true := by
      intro k n hk
      rw [session_start_table] at hk
      exact Or.inl (initial_names k n hk)
    rcases reach_names_legal h hl _ n hn with h1 | h1
    · exact preloaded_no_colon _ h1 hm
    · exact legal_name_no_colon _ h1 ':' hm rfl

/-- Function `process_line` on a line whose label is a symbol already. -/
theorem process_line_duplicate (name : List Char) (n : node) (s : session)
    (hlegal : legal_name name = true)
    (hfound : find_symbol s.symbol_table name = some n)
    (hline : next_word (s.intput_as.buf.dropWhile is_blank) = name ++ [':'])
    (hcolon : find_symbol s.symbol_table (name ++ [':']) = none) :
    (process_line s).1 = false ∧
    (process_line s).2 =
      { s with stderr := s.stderr ++ [diag.error_string s.line_count 2 name],
               intput_as := (process_line s).2.intput_as } := by
  obtain ⟨ch, tail, htext, h1, h2⟩ := next_word_head _ name hlegal hline
  rw [htext] at hline
  have hp := pre_process_line_duplicate name n
    { s with intput_as := { buf := ch :: tail, eof := false } } hline hlegal hcolon hfound
  rw [process_line_head s ch tail htext h1 h2]
  unfold process_line_body
  rw [apply_bind, hp]
  simp only [line_head.failed, Bool.false_eq_true, if_false]
  rw [apply_bind, apply_on_input, apply_pure]
  exact ⟨rfl, rfl⟩

theorem file_process_first_pass_failed (chars_count0 : Int) (input : List Char)
    (h : (first_pass_process (session_start chars_count0 input)).1 = false) :
    (file_process chars_count0 input).status = false ∧
    (file_process chars_count0 input).ob = none ∧
    (file_process chars_count0 input).ent = none ∧
    (file_process chars_count0 input).ext = none := by
  unfold file_process
  simp only [h, Bool.false_eq_true, if_false, and_self]

theorem first_pass_loop_line_failed (fuel : Nat) (status : Bool) (s0 : session)
    (heof : s0.intput_as.eof = false)
    (h : (process_line { s0 with line_count := s0.line_count + 1 }).1 = false) :
    (first_pass_loop (fuel + 1) status s0).1 = false := by
  rw [first_pass_loop_succ, if_neg (by rw [heof]; exact Bool.false_ne_true), h]
  simp only [Bool.false_eq_true, not_false_eq_true, if_true]
  exact first_pass_loop_false _ _

set_option maxRecDepth 1000000 in
/-- C35, as amended: a line whose first token is a legal name with a colon,
the name being in the symbol table already (an earlier label, or the name of
an instruction or of a register), makes `process_line` return 0 with
exactly error 2 for the name; no word is stored and the symbol table and the
lists stay as they were. The first pass then returns 0 and no output file is
written. The names of the instructions and of the registers are legal names;
the names of the directives are not, since they begin with a dot, so such a
label gets error 12 from `is_legal_label` instead. For `L: .data 1`,
`L: .data 2` the second line gets error 2 and nothing is written. -/
theorem c35_duplicate_label (name : List Char) (n : node) (s : session)
    (hlegal : legal_name name = true)
    (hfound : find_symbol s.symbol_table name = some n)
    (hline : next_word (s.intput_as.buf.dropWhile is_blank) = name ++ [':'])
    (hcolon : find_symbol s.symbol_table (name ++ [':']) = none) :
    (process_line s).1 = false ∧
    (process_line s).2.stderr = s.stderr ++ [diag.error_string s.line_count 2 name] ∧
    (process_line s).2.mem = s.mem ∧
    (process_line s).2.symbol_table = s.symbol_table ∧
    (process_line s).2.second_pass_list = s.second_pass_list ∧
    (process_line s).2.entries_list = s.entries_list ∧
    (process_line s).2.externs_list = s.externs_list ∧
    (∀ (fuel : Nat) (status : Bool) (s0 : session), s0.intput_as.eof = false →
      s = { s0 with line_count := s0.line_count + 1 } →
      (first_pass_loop (fuel + 1) status s0).1 = false) ∧
    (∀ (c : Int) (input : List Char), (first_pass_process (session_start c input)).1 = false →
      (file_process c input).status = false ∧ (file_process c input).ob = none ∧
      (file_process c input).ent = none ∧ (file_process c input).ext = none) ∧
    (∀ (c : Int) (input : List Char) (s1 : session) (k : List Char),
      reach (session_start c input) s1 → find_symbol s1.symbol_table (k ++ [':']) = none) ∧
    ((∀ e ∈ instruction_set, legal_name e.1.toList = true) ∧
      (∀ r : Nat, r < 9 → legal_name (register_name r) = true) ∧
      (∀ d ∈ directive_names, legal_name d.toList = false)) ∧
    ((file_process 0 "L: .data 1\nL: .data 2\n".toList).final.stderr =
        [diag.error_string 2 2 "L".toList] ∧
      (file_process 0 "L: .data 1\nL: .data 2\n".toList).status = false ∧
      (file_process 0 "L: .data 1\nL: .data 2\n".toList).ob = none ∧
      (file_process 0 "L: .data 1\nL: .data 2\n".toList).final.mem.DC = 1 ∧
      (file_process 0 "mov: .data 2\n".toList).final.stderr =
        [diag.error_string 1 2 "mov".toList] ∧
      (file_process 0 "r1: .data 2\n".toList).final.stderr =
        [diag.error_string 1 2 "r1".toList]) := by
  obtain ⟨h1, h2⟩ := process_line_duplicate name n s hlegal hfound hline hcolon
  refine ⟨h1, by rw [h2], by rw [h2], by rw [h2], by rw [h2], by rw [h2], by rw [h2], ?_,
    file_process_first_pass_failed, ?_, by decide, by decide⟩
  · intro fuel status s0 heof hs
    subst hs
    exact first_pass_loop_line_failed fuel status s0 heof h1
  · intro c input s1 k hr
    exact reach_no_colon hr k

set_option maxRecDepth 1000000 in
/-- C35 at the second line of `L: .data 1`, `L: .data 2`. -/
theorem c35_duplicate_label_witness :
    (process_line { (process_line { session_start 0 "L: .data 1\nL: .data 2\n".toList with
        line_count := 1 }).2 with line_count := 2 }).1 = false ∧
    (process_line { (process_line { session_start 0 "L: .data 1\nL: .data 2\n".toList with
        line_count := 1 }).2 with line_count := 2 }).2.stderr =
      { (process_line { session_start 0 "L: .data 1\nL: .data 2\n".toList with
        line_count := 1 }).2 with line_count := 2 }.stderr ++
        [diag.error_string 2 2 "L".toList] :=
  have h := c35_duplicate_label "L".toList
    { key := "L".toList, type := type.DATA, index := 0,
      data := node_data.label { address := ⟨0⟩, is_struct := false } }
    { (process_line { session_start 0 "L: .data 1\nL: .data 2\n".toList with
        line_count := 1 }).2 with line_count := 2 }
    (by decide) (by decide) (by decide) (by decide)
  ⟨h.1, h.2.1⟩

set_option maxRecDepth 1000000 in
/-- C35, the case that fails: the name of a directive is in the symbol table
from the start, and a line that puts it as a label, `.data: .data 2`, does
not get error 2: `is_legal_label` rejects the token with error 12, and that
is the only error of the line. -/
theorem c35_directive_name_gets_error_12 :
    (find_symbol initialize_symbol_table ".data".toList).map (fun n => n.type) =
      some type.DIRECT ∧
    (process_line { session_start 0 ".data: .data 2\n".toList with line_count := 1 }).1 = false ∧
    (process_line { session_start 0 ".data: .data 2\n".toList with line_count := 1 }).2.stderr =
      [diag.error_string 1 12 ".data:".toList] ∧
    (file_process 0 ".data: .data 2\n".toList).final.stderr =
      [diag.error_string 1 12 ".data:".toList] ∧
    (file_process 0 ".extern: .data 2\n".toList).final.stderr =
      [diag.error_string 1 12 ".extern:".toList] := by
  decide

/-! ### A string without its closing quote -/

theorem getc_while_all (p : Char → Bool) (eof : Bool) : ∀ l : List Char,
    (∀ x ∈ l, p x = true) → getc_while p eof l = (l, none, { buf := [], eof := true })
  | [], _ => rfl
  | x :: l, h => by
    have hx := h x (List.mem_cons_self _ _)
    have ih := getc_while_all p eof l (fun y hy => h y (List.mem_cons_of_mem _ hy))
    rw [getc_while, if_pos hx, ih]

theorem insert_characters_frame (l : List Char) (s : session) :
    (insert_characters l s).2.intput_as = s.intput_as ∧
    (insert_characters l s).2.line_count = s.line_count ∧
    (insert_characters l s).2.errors = s.errors ∧
    (insert_characters l s).2.symbol_table = s.symbol_table := by
  induction l generalizing s with
  | nil => exact ⟨rfl, rfl, rfl, rfl⟩
  | cons c rest ih =>
    have e : insert_characters (c :: rest) s =
        insert_characters rest (s.data_array_insert (word_assign c.toNat)) := rfl
    rw [e]
    obtain ⟨a, b, c1, d⟩ := ih (s.data_array_insert (word_assign c.toNat))
    exact ⟨a, b, c1.trans (errors_data_insert _ _), d⟩

theorem insert_characters_input : ∀ (l : List Char) (s : session) (f : InFile),
    insert_characters l { s with intput_as := f } =
      ((), { (insert_characters l s).2 with intput_as := f })
  | [], _, _ => rfl
  | x :: rest, s, f => by
    have e : ∀ s1, insert_characters (x :: rest) s1 =
        insert_characters rest (s1.data_array_insert (word_assign x.toNat)) := fun _ => rfl
    rw [e, e]
    exact insert_characters_input rest (s.data_array_insert (word_assign x.toNat)) f

theorem errors_print_error (lc : Int) (e : Nat) (s : session) :
    (print_error lc e s).errors = s.errors ++ [diag.error lc e] := by
  unfold print_error session.errors
  simp [diag.is_error]

/-- Function `read_string` on an opening double quote that is not closed
before the end of the line (or of the file): the characters are stored, error
18 is printed and 0 is returned, with the end of the line left unread. -/
theorem read_string_unclosed (str tail : List Char) (s : session)
    (hstr : ∀ c ∈ str, c ≠ '\n' ∧ c ≠ QUOTE)
    (htail : tail = [] ∨ tail.head? = some '\n')
    (hbuf : s.intput_as.buf = QUOTE :: (str ++ tail)) :
    (read_string s).1 = false ∧
    (∃ f, (read_string s).2 =
      print_error s.line_count 18 { (insert_characters str s).2 with intput_as := f } ∧
      f.buf = tail) := by
  have hg1 : (getc s.intput_as).1 = some QUOTE := by
    rw [(getc_buf _).1, hbuf]
    rfl
  have hg2 : (getc s.intput_as).2.buf = str ++ tail := by
    rw [(getc_buf _).2, hbuf]
    rfl
  have hlc := (insert_characters_frame str s).2.1
  have hw : ∃ c f, getc_while (fun c => decide (c ≠ '\n' ∧ c ≠ QUOTE))
      (getc s.intput_as).2.eof (getc s.intput_as).2.buf = (str, c, f) ∧
      (c = some '\n' ∨ c = none) ∧ (ungetc c f).buf = tail := by
    rw [hg2]
    rcases htail with h | h
    · subst h
      rw [List.append_nil, getc_while_all _ _ str (fun x hx => decide_eq_true (hstr x hx))]
      exact ⟨none, _, rfl, Or.inr rfl, rfl⟩
    · cases tail with
      | nil => simp at h
      | cons c r =>
        simp only [List.head?_cons, Option.some.injEq] at h
        subst h
        rw [getc_while_split _ _ '\n' r (by decide) str
          (fun x hx => decide_eq_true (hstr x hx))]
        exact ⟨some '\n', _, rfl, Or.inl rfl, rfl⟩
  obtain ⟨c, f, hgw, hc, hf⟩ := hw
  have hcq : c ≠ some QUOTE := by
    rcases hc with h | h <;> rw [h] <;> decide
  have hins := insert_characters_input str s f
  unfold read_string
  rw [apply_bind, apply_on_input]
  simp only [hg1, if_true]
  rw [apply_bind, apply_on_input]
  simp only [hgw]
  rw [apply_bind, hins]
  simp only []
  rw [apply_bind]
  simp only [hc, if_true, hcq, if_false]
  rw [apply_on_input]
  simp only []
  rw [apply_bind]
  unfold read_string_error_check
  rw [apply_bind, apply_query]
  simp only [not_true_eq_false, false_and, if_false, not_false_eq_true, if_true,
    Bool.false_eq_true]
  rw [apply_update, apply_pure]
  simp only [hlc]
  exact ⟨trivial, _, rfl, hf⟩

theorem process_directive_string (direct : node) (is_label : Bool) (label : List Char)
    (s : session) (hkey : direct.key = ".string".toList) :
    (process_directive direct is_label label s).1 =
      (read_string (if is_label = true
        then s.symbol_table_insert_label label s.mem.DC type.DATA false else s)).1 ∧
    (process_directive direct is_label label s).2.errors =
      (read_string (if is_label = true
        then s.symbol_table_insert_label label s.mem.DC type.DATA false else s)).2.errors := by
  have e : process_directive direct is_label label s =
      (if ¬ (read_string (if is_label = true
          then s.symbol_table_insert_label label s.mem.DC type.DATA false else s)).1 = true then
        ((read_string (if is_label = true
          then s.symbol_table_insert_label label s.mem.DC type.DATA false else s)).1,
         { (read_string (if is_label = true
            then s.symbol_table_insert_label label s.mem.DC type.DATA false else s)).2 with
           intput_as := (skip_line (read_string (if is_label = true
            then s.symbol_table_insert_label label s.mem.DC type.DATA false else s)).2.intput_as).2 })
       else read_string (if is_label = true
          then s.symbol_table_insert_label label s.mem.DC type.DATA false else s)) := by
    unfold process_directive
    simp only [hkey, (by decide : ¬ ".string".toList = ".entry".toList),
      (by decide : ¬ ".string".toList = ".extern".toList),
      (by decide : ¬ ".string".toList = ".data".toList),
      (by decide : ¬ ".string".toList = ".struct".toList), if_false, if_true, decide_False]
    cases is_label
    · simp only [Bool.false_eq_true, if_false]
      rw [apply_bind, apply_bind]
      simp only [apply_pure]
      split_ifs <;> rfl
    · simp only [if_true]
      rw [apply_bind, apply_bind, apply_bind]
      simp only [apply_query, apply_update]
      split_ifs <;> rfl
  rw [e]
  split_ifs <;> exact ⟨rfl, rfl⟩

set_option maxRecDepth 1000000 in
/-- C36: on a double quote followed by characters with no closing double
quote before the end of the line (or of the file), `read_string` returns 0
and the one numbered error it prints is 18; nothing else is printed while the
memory has room for the characters, which are stored all the same, and the end
of the line stays unread. The same holds of the string part of a `.struct`
line. `process_directive` returns what `read_string` returns, a line for
which `process_line` returns 0 makes the first pass return 0, and then no
file is written. -/
theorem c36_unclosed_string (str tail : List Char) (s : session)
    (hstr : ∀ c ∈ str, c ≠ '\n' ∧ c ≠ QUOTE)
    (htail : tail = [] ∨ tail.head? = some '\n')
    (hbuf : s.intput_as.buf = QUOTE :: (str ++ tail)) :
    (read_string s).1 = false ∧
    (read_string s).2.errors = s.errors ++ [diag.error s.line_count 18] ∧
    (s.mem.IC + s.mem.DC + str.length ≤ MEMORY_SIZE + 1 →
      (read_string s).2.stderr = s.stderr ++ [diag.error s.line_count 18]) ∧
    (read_string s).2.intput_as.buf = tail ∧
    (∀ (direct : node) (is_label : Bool) (label : List Char) (s0 : session),
      direct.key = ".string".toList →
      s = (if is_label = true
        then s0.symbol_table_insert_label label s0.mem.DC type.DATA false else s0) →
      (process_directive direct is_label label s0).1 = false ∧
      (process_directive direct is_label label s0).2.errors =
        s0.errors ++ [diag.error s0.line_count 18]) ∧
    (∀ (t : List Char) (s0 : session), int_text t →
      s0.intput_as.buf = t ++ ',' :: s.intput_as.buf →
      (process_directive_struct s0).1 = false ∧
      (process_directive_struct s0).2.errors = s0.errors ++ [diag.error s0.line_count 18]) ∧
    (∀ (fuel : Nat) (status : Bool) (s0 : session), s0.intput_as.eof = false →
      (process_line { s0 with line_count := s0.line_count + 1 }).1 = false →
      (first_pass_loop (fuel + 1) status s0).1 = false) ∧
    ((file_process 0 ".string \"abc\n".toList).final.stderr = [diag.error 1 18] ∧
      (file_process 0 ".string \"abc".toList).final.stderr = [diag.error 1 18] ∧
      (file_process 0 "S: .struct 4,\"abc\n".toList).final.stderr = [diag.error 1 18] ∧
      (first_pass_process (session_start 0 ".string \"abc\nstop\n".toList)).1 = false ∧
      (file_process 0 ".string \"abc\nstop\n".toList).ob = none ∧
      (file_process 0 ".string \"abc\nstop\n".toList).final.stderr = [diag.error 1 18]) := by
  obtain ⟨h1, f, h2, h3⟩ := read_string_unclosed str tail s hstr htail hbuf
  obtain ⟨_, hlc, herr, _⟩ := insert_characters_frame str s
  have he : (read_string s).2.errors = s.errors ++ [diag.error s.line_count 18] := by
    rw [h2, errors_print_error]
    show (insert_characters str s).2.errors ++ _ = _
    rw [herr]
  refine ⟨h1, he, ?_, ?_, ?_, ?_, first_pass_loop_line_failed, by decide⟩
  · intro hroom
    rw [h2, insert_characters_accepted str s hroom]
    rfl
  · rw [h2]
    exact h3
  · intro direct is_label label s0 hkey hs
    obtain ⟨p1, p2⟩ := process_directive_string direct is_label label s0 hkey
    rw [← hs] at p1 p2
    refine ⟨p1.trans h1, ?_⟩
    rw [p2, he, hs]
    cases is_label
    · rfl
    · simp only [if_true]
      rw [errors_insert_label]
      rfl
  · intro t s0 ht hb0
    have hrest : ∀ c, (',' :: s.intput_as.buf).head? = some c → c.isDigit = false := by
      intro c hc
      simp only [List.head?_cons, Option.some.injEq] at hc
      rw [← hc]
      decide
    obtain ⟨n1, n2, n3⟩ := read_next_number_at t _ 0 s0.intput_as hb0 ht hrest
    obtain ⟨hp1, hp2⟩ := peek_next_char_at _ ',' _ n3 (by decide)
    have hg : (getc (peek_next_char (read_next_number 0 s0.intput_as).2).2).2.buf =
        QUOTE :: (str ++ tail) := by
      rw [(getc_buf _).2, hp2, ← hbuf]
      rfl
    have hsk := skip_whites_at _ QUOTE _ hg (by decide)
    obtain ⟨r1, g, r2, _⟩ := read_string_unclosed str tail
      { session.data_array_insert (word_assign (read_next_number 0 s0.intput_as).1.2) s0 with
        intput_as := (skip_whites (getc (peek_next_char
          (read_next_number 0 s0.intput_as).2).2).2).2 }
      hstr htail hsk
    obtain ⟨_, _, herr2, _⟩ := insert_characters_frame str
      { session.data_array_insert (word_assign (read_next_number 0 s0.intput_as).1.2) s0 with
        intput_as := (skip_whites (getc (peek_next_char
          (read_next_number 0 s0.intput_as).2).2).2).2 }
    have herr3 : (session.data_array_insert
        (word_assign (read_next_number 0 s0.intput_as).1.2) s0).errors = s0.errors :=
      errors_data_insert _ _
    rw [process_directive_struct_eq, if_pos n1]
    simp only [if_pos hp1]
    refine ⟨r1, ?_⟩
    rw [r2, errors_print_error]
    show (insert_characters str _).2.errors ++ _ = _
    rw [herr2]
    exact congrArg₂ (fun a b => a ++ b) herr3 rfl

set_option maxRecDepth 1000000 in
/-- C36 at the operand of the line `.string "abc`. -/
theorem c36_unclosed_string_witness :
    (read_string (session_start 0 "\"abc\n".toList)).1 = false ∧
    (read_string (session_start 0 "\"abc\n".toList)).2.errors =
      (session_start 0 "\"abc\n".toList).errors ++
        [diag.error (session_start 0 "\"abc\n".toList).line_count 18] :=
  have h := c36_unclosed_string "abc".toList "\n".toList (session_start 0 "\"abc\n".toList)
    (by decide) (Or.inr rfl) rfl
  ⟨h.1, h.2.1⟩

/-! ### The bounds of the memory image -/

theorem address_field_patched (a : Int) :
    address_field (word_assign (int_shl a 2 + 2)) = a % 256 := by
  unfold address_field word_assign wrap10 int_shl
  simp only
  omega

set_option maxRecDepth 1000000 in
/-- C37 (the code at the failing input): the two arrays have `MEMORY_SIZE`
words, an insert is accepted whenever `IC + DC ≤ MEMORY_SIZE` and then writes
at the index IC (or DC). For the one-line source `.string` with 256
characters the first pass succeeds with the flag clear and DC = 257: the
257th word was written at the index 256 of the data array, which is outside
it, and the run writes its files. For 85 lines `cmp #1, #2` and two lines
`stop` the same happens in the code array: IC = 257 with the flag clear. With `X: .string` of 254
characters and two lines `jmp X`, the words of the last line are refused, the
first pass still returns 1 with IC = 2, and the second pass patches the site
of X at the index 2, which is the final IC. What does hold of the patch
sites: after every first pass that leaves the flag clear each site has an
index from 0 up to, and not including, the final IC. -/
theorem c37_insert_writes_at_index_256 :
    (initialize_memory memory_static).instructions_array.length = MEMORY_SIZE ∧
    (initialize_memory memory_static).data_array.length = MEMORY_SIZE ∧
    (∀ (w : word) (m : memory), m.IC + m.DC ≤ MEMORY_SIZE →
      instructions_array_insert w m =
        { m with instructions_array := m.instructions_array.set m.IC w, IC := m.IC + 1 } ∧
      data_array_insert w m =
        { m with data_array := m.data_array.set m.DC w, DC := m.DC + 1 }) ∧
    ((first_pass_process (session_start 0
        (".string \"".toList ++ List.replicate 256 'a' ++ "\"\n".toList))).1 = true ∧
      (first_pass_process (session_start 0
        (".string \"".toList ++ List.replicate 256 'a' ++ "\"\n".toList))).2.mem.DC =
        MEMORY_SIZE + 1 ∧
      (first_pass_process (session_start 0
        (".string \"".toList ++ List.replicate 256 'a' ++ "\"\n".toList))).2.mem.memory_full_flag =
        false ∧
      (first_pass_process (session_start 0
        (".string \"".toList ++ List.replicate 256 'a' ++ "\"\n".toList))).2.stderr = [] ∧
      (file_process 0
        (".string \"".toList ++ List.replicate 256 'a' ++ "\"\n".toList)).status = true) ∧
    ((first_pass_process (session_start 0
        ((List.replicate 85 "cmp #1, #2\n".toList).flatten ++ "stop\nstop\n".toList))).1 = true ∧
      (first_pass_process (session_start 0
        ((List.replicate 85 "cmp #1, #2\n".toList).flatten ++ "stop\nstop\n".toList))).2.mem.IC =
        MEMORY_SIZE + 1 ∧
      (first_pass_process (session_start 0
        ((List.replicate 85 "cmp #1, #2\n".toList).flatten ++
          "stop\nstop\n".toList))).2.mem.memory_full_flag = false ∧
      (first_pass_process (session_start 0
        ((List.replicate 85 "cmp #1, #2\n".toList).flatten ++ "stop\nstop\n".toList))).2.stderr =
        []) ∧
    ((first_pass_process (session_start 0 ("X: .string \"".toList ++ List.replicate 254 'a' ++
        "\"\njmp X\njmp X\n".toList))).1 = true ∧
      (first_pass_process (session_start 0 ("X: .string \"".toList ++ List.replicate 254 'a' ++
        "\"\njmp X\njmp X\n".toList))).2.mem.IC = 2 ∧
      (first_pass_process (session_start 0 ("X: .string \"".toList ++ List.replicate 254 'a' ++
        "\"\njmp X\njmp X\n".toList))).2.mem.memory_full_flag = true ∧
      (first_pass_process (session_start 0 ("X: .string \"".toList ++ List.replicate 254 'a' ++
        "\"\njmp X\njmp X\n".toList))).2.second_pass_list.map
          (fun n => (n.key, n.index)) = [("X".toList, 2), ("X".toList, 1)] ∧
      (second_pass_process (first_pass_process (session_start 0 ("X: .string \"".toList ++
        List.replicate 254 'a' ++ "\"\njmp X\njmp X\n".toList))).2).1 = true ∧
      (second_pass_process (first_pass_process (session_start 0 ("X: .string \"".toList ++
        List.replicate 254 'a' ++ "\"\njmp X\njmp X\n".toList))).2).2.mem.IC = 2 ∧
      (second_pass_process (first_pass_process (session_start 0 ("X: .string \"".toList ++
        List.replicate 254 'a' ++ "\"\njmp X\njmp X\n".toList))).2).2.mem.instructions_array[2]? =
        some ⟨410⟩) ∧
    (∀ (c : Int) (input : List Char),
      (first_pass_process (session_start c input)).2.mem.memory_full_flag = false →
      ∀ n ∈ (first_pass_process (session_start c input)).2.second_pass_list,
        0 ≤ n.index ∧ n.index < ((second_pass_process
          (first_pass_process (session_start c input)).2).2.mem.IC : Int)) := by
  refine ⟨rfl, rfl, ?_, by decide!, by decide!, by decide!, ?_⟩
  · intro w m h
    exact ⟨instructions_array_insert_accepted w m h, data_array_insert_accepted w m h⟩
  · intro c input hflag n hn
    rw [(second_pass_process_frame _).2.1]
    exact ((first_pass_ok c input).sites hflag).2 n hn

set_option maxRecDepth 1000000 in
/-- C38 (the code at the failing input): the word stored for a DATA symbol
is `(address << 2) + 2` cut to 10 bits, so its address field, the bits 9 to
2, holds the address modulo 256. For the source `jmp X`, then `.string` with
153 characters, then `X: .data 1`, the run succeeds with the flag clear, IC = 2
and DC = 155; X is a DATA symbol with address 154, the site is the code word
1, the address `C + 2 + 154` is 256, and the word stored is 2: its address
field is 0. -/
theorem c38_address_field_wraps :
    (∀ a : Int, address_field (word_assign (int_shl a 2 + 2)) = a % 256) ∧
    (∀ a : Int, 0 ≤ a → a ≤ 255 → address_field (word_assign (int_shl a 2 + 2)) = a) ∧
    ((file_process 0 ("jmp X\n.string \"".toList ++ List.replicate 153 'a' ++
        "\"\nX: .data 1\n".toList)).status = true ∧
      (file_process 0 ("jmp X\n.string \"".toList ++ List.replicate 153 'a' ++
        "\"\nX: .data 1\n".toList)).final.mem.memory_full_flag = false ∧
      (file_process 0 ("jmp X\n.string \"".toList ++ List.replicate 153 'a' ++
        "\"\nX: .data 1\n".toList)).final.stderr = [] ∧
      (file_process 0 ("jmp X\n.string \"".toList ++ List.replicate 153 'a' ++
        "\"\nX: .data 1\n".toList)).final.mem.IC = 2 ∧
      (file_process 0 ("jmp X\n.string \"".toList ++ List.replicate 153 'a' ++
        "\"\nX: .data 1\n".toList)).final.mem.DC = 155 ∧
      (find_symbol (file_process 0 ("jmp X\n.string \"".toList ++ List.replicate 153 'a' ++
        "\"\nX: .data 1\n".toList)).final.symbol_table "X".toList).map
          (fun n => (n.type, extract_address n)) = some (type.DATA, 154) ∧
      (file_process 0 ("jmp X\n.string \"".toList ++ List.replicate 153 'a' ++
        "\"\nX: .data 1\n".toList)).final.second_pass_list.map (fun n => (n.key, n.index)) =
        [("X".toList, 1)] ∧
      (file_process 0 ("jmp X\n.string \"".toList ++ List.replicate 153 'a' ++
        "\"\nX: .data 1\n".toList)).final.mem.instructions_array[1]? = some ⟨2⟩ ∧
      address_field (⟨2⟩ : word) = 0 ∧
      (C : Int) + 2 + 154 = 256) := by
  refine ⟨address_field_patched, ?_, by decide!⟩
  intro a h0 h1
  rw [address_field_patched]
  omega

set_option maxRecDepth 1000000 in
/-- C40 (the code at the failing input): with the counter of
`read_next_string` starting from 0, the line `.extern` with nothing after the
keyword makes `process_line` return 0 and nothing at all is printed; the same
for `.entry`, and with a label in front only warning 2 is printed. The run
fails with no message that tells why. -/
theorem c40_silent_failure :
    (process_line { session_start 0 ".extern\n".toList with line_count := 1 }).1 = false ∧
    (process_line { session_start 0 ".extern\n".toList with line_count := 1 }).2.stderr = [] ∧
    (process_line { session_start 0 ".entry\n".toList with line_count := 1 }).1 = false ∧
    (process_line { session_start 0 ".entry\n".toList with line_count := 1 }).2.stderr = [] ∧
    (process_line { session_start 0 "X: .entry  \n".toList with line_count := 1 }).1 = false ∧
    (process_line { session_start 0 "X: .entry  \n".toList with line_count := 1 }).2.stderr =
      [diag.warning 1 2] ∧
    (file_process 0 "stop\n.extern\n".toList).status = false ∧
    (file_process 0 "stop\n.extern\n".toList).ob = none ∧
    (file_process 0 "stop\n.extern\n".toList).final.stderr = [] := by
  decide

/-! ### The line number of the messages of the first pass -/

theorem stamped_add (lc : Int) (base : List diag) (s s1 : session) (d : diag)
    (hd : d.line = none ∨ d.line = some lc) (hl : s1.line_count = s.line_count)
    (he : s1.stderr = s.stderr ++ [d]) (h : stamped_with lc base s) :
    stamped_with lc base s1 := by
  obtain ⟨h1, l, h2, h3⟩ := h
  refine ⟨hl.trans h1, l ++ [d], ?_, ?_⟩
  · rw [he, h2, List.append_assoc]
  · intro x hx
    rcases List.mem_append.mp hx with hx | hx
    · exact h3 x hx
    · rw [List.mem_singleton.mp hx]
      exact hd

theorem stamped_same (lc : Int) (base : List diag) (s s1 : session)
    (hl : s1.line_count = s.line_count) (he : s1.stderr = s.stderr)
    (h : stamped_with lc base s) : stamped_with lc base s1 := by
  obtain ⟨h1, l, h2, h3⟩ := h
  exact ⟨hl.trans h1, l, he.trans h2, h3⟩

theorem stamped_print_error_string (lc : Int) (base : List diag) (e : Nat) (str : List Char) :
    ∀ s, stamped_with lc base s → stamped_with lc base (print_error_string lc e str s) :=
  fun s h => stamped_add lc base s _ (.error_string lc e str) (Or.inr rfl) rfl rfl h

theorem stamped_print_error_char (lc : Int) (base : List diag) (e : Nat) (c : Option Char) :
    ∀ s, stamped_with lc base s → stamped_with lc base (print_error_char lc e c s) :=
  fun s h => stamped_add lc base s _ (.error_char lc e c) (Or.inr rfl) rfl rfl h

theorem stamped_print_error (lc : Int) (base : List diag) (e : Nat) :
    ∀ s, stamped_with lc base s → stamped_with lc base (print_error lc e s) :=
  fun s h => stamped_add lc base s _ (.error lc e) (Or.inr rfl) rfl rfl h

theorem stamped_print_warning_int (lc : Int) (base : List diag) (e : Nat) (v : Int) :
    ∀ s, stamped_with lc base s → stamped_with lc base (print_warning_int lc e v s) :=
  fun s h => stamped_add lc base s _ (.warning_int lc e v) (Or.inr rfl) rfl rfl h

theorem stamped_print_warning (lc : Int) (base : List diag) (e : Nat) :
    ∀ s, stamped_with lc base s → stamped_with lc base (print_warning lc e s) :=
  fun s h => stamped_add lc base s _ (.warning lc e) (Or.inr rfl) rfl rfl h

theorem stamped_inst_insert (lc : Int) (base : List diag) (w : word) :
    ∀ s, stamped_with lc base s →
      stamped_with lc base (session.instructions_array_insert w s) := by
  intro s h
  by_cases hc : s.mem.IC + s.mem.DC ≤ MEMORY_SIZE
  · refine stamped_same lc base s _ rfl ?_ h
    unfold session.instructions_array_insert
    simp [hc]
  · refine stamped_add lc base s _ .memory_is_full (Or.inl rfl) rfl ?_ h
    unfold session.instructions_array_insert
    simp [hc]

theorem stamped_data_insert (lc : Int) (base : List diag) (w : word) :
    ∀ s, stamped_with lc base s → stamped_with lc base (session.data_array_insert w s) := by
  intro s h
  by_cases hc : s.mem.IC + s.mem.DC ≤ MEMORY_SIZE
  · refine stamped_same lc base s _ rfl ?_ h
    unfold session.data_array_insert
    simp [hc]
  · refine stamped_add lc base s _ .memory_is_full (Or.inl rfl) rfl ?_ h
    unfold session.data_array_insert
    simp [hc]

theorem stamped_insert_label (lc : Int) (base : List diag) (a : List Char) (b : Int) (t : type)
    (c : Bool) :
    ∀ s, stamped_with lc base s →
      stamped_with lc base (session.symbol_table_insert_label a b t c s) := by
  intro s h
  by_cases hc : (find_symbol s.symbol_table a).isSome = true
  · refine stamped_add lc base s _ (.item_is_already_present a) (Or.inl rfl) rfl ?_ h
    unfold session.symbol_table_insert_label
    simp [hc]
  · refine stamped_same lc base s _ rfl ?_ h
    unfold session.symbol_table_insert_label
    simp [hc]

theorem stamped_spl_insert (lc : Int) (base : List diag) (a : List Char) (b c : Int) (d : Bool) :
    ∀ s, stamped_with lc base s → stamped_with lc base (spl_insert a b c d s) :=
  fun s h => stamped_same lc base s _ rfl rfl h

theorem stamped_ent_ext_list_insert (lc : Int) (base : List diag) (a : List Char) (b : Bool)
    (c : Int) :
    ∀ s, stamped_with lc base s → stamped_with lc base (ent_ext_list_insert a b c s) := by
  intro s h
  refine stamped_same lc base s _ ?_ ?_ h
  · unfold ent_ext_list_insert
    split_ifs <;> rfl
  · unfold ent_ext_list_insert
    split_ifs <;> rfl

theorem stamped_input (lc : Int) (base : List diag) (s : session) (f : InFile)
    (h : stamped_with lc base s) : stamped_with lc base { s with intput_as := f } := h

theorem stamped_line {α : Type} (lc : Int) (base : List diag) {k : Int → M α}
    (h : preserves (stamped_with lc base) (k lc)) :
    preserves (stamped_with lc base) (query (fun s => s.line_count) >>= k) := by
  refine preserves_bind_query (fun a => a = lc) (fun _ hs => hs.1) ?_
  intro a ha
  rw [ha]
  exact h

/-! ### The unread text and the end of the line -/

theorem after_line_nil : after_line [] = [] := rfl

theorem after_line_newline (t : List Char) : after_line ('\n' :: t) = t := by
  simp [after_line]

theorem after_line_cons (c : Char) (t : List Char) (h : c ≠ '\n') :
    after_line (c :: t) = after_line t := by
  simp [after_line, h]

theorem after_line_dropWhile (p : Char → Bool) (hp : p '\n' = false) :
    ∀ l : List Char, after_line (l.dropWhile p) = after_line l
  | [] => rfl
  | c :: t => by
    by_cases h : p c = true
    · have hc : c ≠ '\n' := by
        intro e
        rw [e, hp] at h
        exact Bool.false_ne_true h
      rw [List.dropWhile_cons_of_pos h, after_line_cons c t hc]
      exact after_line_dropWhile p hp t
    · rw [List.dropWhile_cons_of_neg h]

theorem after_line_drop_one (l : List Char) (h : l.head? ≠ some '\n') :
    after_line (l.drop 1) = after_line l := by
  cases l with
  | nil => rfl
  | cons c t =>
    have hc : c ≠ '\n' := fun e => h (by rw [e]; rfl)
    rw [after_line_cons c t hc]
    rfl

theorem after_line_head_newline (l : List Char) (h : l.head? = some '\n' ∨ l.head? = none) :
    l.drop 1 = after_line l := by
  cases l with
  | nil => rfl
  | cons c t =>
    rcases h with h | h
    · have hc : c = '\n' := by simpa using h
      rw [hc, after_line_newline]
      rfl
    · simp at h

theorem getc_while_rest (p : Char → Bool) (eof : Bool) :
    ∀ l : List Char, (getc_while p eof l).2.2.buf = (l.dropWhile p).drop 1
  | [] => rfl
  | c :: t => by
    by_cases h : p c = true
    · rw [getc_while, if_pos h, List.dropWhile_cons_of_pos h]
      exact getc_while_rest p eof t
    · rw [getc_while, if_neg h, List.dropWhile_cons_of_neg h]
      rfl

theorem skip_line_buf (f : InFile) : (skip_line f).2.buf = after_line f.buf := by
  unfold skip_line after_line
  exact getc_while_rest _ _ _

theorem skip_whites_line (f : InFile) :
    after_line (skip_whites f).2.buf = after_line f.buf := by
  rw [(skip_whites_text f).2]
  exact after_line_dropWhile _ (by decide) _

theorem peek_next_char_line (f : InFile) :
    after_line (peek_next_char f).2.buf = after_line f.buf ∧
    (peek_next_char f).1 = (peek_next_char f).2.buf.head? := by
  rw [peek_next_char_eq]
  refine ⟨skip_whites_line f, ?_⟩
  rw [(skip_whites_text f).1, (skip_whites_text f).2]

theorem after_word_line (l : List Char) : after_line (after_word l) = after_line l := by
  unfold after_word
  rw [after_line_dropWhile _ (by decide)]
  split_ifs with h
  · rw [after_line_drop_one _ (by rw [h]; decide)]
    exact after_line_dropWhile _ (by decide) _
  · exact after_line_dropWhile _ (by decide) _

theorem read_next_string_line (c0 : Int) (f : InFile) :
    after_line (read_next_string c0 f).2.buf = after_line f.buf := by
  rw [(read_next_string_text c0 f).2.2]
  exact after_word_line _

theorem getc_line (f : InFile) (h : f.buf.head? ≠ some '\n') :
    after_line (getc f).2.buf = after_line f.buf := by
  rw [(getc_buf f).2]
  exact after_line_drop_one _ h

theorem getc_end_of_line (f : InFile) (h : f.buf.head? = some '\n' ∨ f.buf.head? = none) :
    (getc f).2.buf = after_line f.buf := by
  rw [(getc_buf f).2]
  exact after_line_head_newline _ h

theorem read_digits_line (sign : Int) (f : InFile) :
    after_line (read_digits sign f).2.buf = after_line f.buf := by
  have h : (read_digits sign f).2.buf = f.buf.dropWhile Char.isDigit :=
    (getc_while_takeWhile Char.isDigit f.eof f.buf).2
  rw [h]
  exact after_line_dropWhile _ (by decide) _

theorem read_next_number_line (dest : Int) (f : InFile) :
    after_line (read_next_number dest f).2.buf = after_line f.buf := by
  obtain ⟨buf, eof⟩ := f
  cases buf with
  | nil => simp [read_next_number, getc, ungetc, isdigit]
  | cons c rest =>
    cases rest with
    | nil =>
      unfold read_next_number
      simp only [getc, ungetc, isdigit, Bool.false_eq_true, and_false, if_false]
      split_ifs
      · rw [read_digits_line]
      · rfl
    | cons d t =>
      unfold read_next_number
      simp only [getc, ungetc]
      split_ifs with h1 h2 h3
      · rw [read_digits_line]
        have hc : c = '+' := by simpa using h1.1
        rw [hc]
        exact (after_line_cons '+' _ (by decide)).symm
      · rw [read_digits_line]
        have hc : c = '-' := by simpa using h2.1
        rw [hc]
        exact (after_line_cons '-' _ (by decide)).symm
      · rw [read_digits_line]
      · rfl

theorem detect_operand_type_line (t : hash_table) (f : InFile) :
    after_line (detect_operand_type t f).2.buf = after_line f.buf := by
  have h : (detect_operand_type t f).2.buf = f.buf.dropWhile in_operand :=
    (getc_while_takeWhile in_operand f.eof f.buf).2
  rw [h]
  exact after_line_dropWhile _ (by decide) _

/-! ### Rules for `triple` -/

theorem triple_bind {α β : Type} {P : session → Prop} (Q : α → session → Prop)
    {R : β → session → Prop} {m : M α} {k : α → M β}
    (hm : triple P m Q) (hk : ∀ a, triple (Q a) (k a) R) : triple P (m >>= k) R :=
  fun s hs => hk (m s).1 (m s).2 (hm s hs)

theorem triple_bind_same {α β : Type} {P : session → Prop} {R : β → session → Prop}
    {m : M α} {k : α → M β}
    (hm : preserves P m) (hk : ∀ a, triple P (k a) R) : triple P (m >>= k) R :=
  fun s hs => hk (m s).1 (m s).2 (hm s hs)

theorem triple_pure {α : Type} {P : session → Prop} {Q : α → session → Prop} {a : α}
    (h : ∀ s, P s → Q a s) : triple P (pure a : M α) Q := fun s hs => h s hs

theorem triple_ite {α : Type} {P : session → Prop} {Q : α → session → Prop} {c : Prop}
    [Decidable c] {a b : M α} (ha : c → triple P a Q) (hb : ¬ c → triple P b Q) :
    triple P (if c then a else b) Q := by
  split_ifs with h
  · exact ha h
  · exact hb h

theorem triple_update {P : session → Prop} {Q : Unit → session → Prop} {g : session → session}
    (h : ∀ s, P s → Q () (g s)) : triple P (update g) Q := fun s hs => h s hs

theorem triple_on_input {α : Type} {P : session → Prop} {Q : α → session → Prop}
    (g : InFile → α × InFile)
    (h : ∀ s, P s → Q (g s.intput_as).1 { s with intput_as := (g s.intput_as).2 }) :
    triple P (on_input g) Q := fun s hs => h s hs

theorem triple_of_preserves {α : Type} {P : session → Prop} {m : M α} (h : preserves P m) :
    triple P m (fun _ => P) := fun s hs => h s hs

theorem triple_pre {α : Type} {P P1 : session → Prop} {Q : α → session → Prop} {m : M α}
    (ht : triple P m Q) (h : ∀ s, P1 s → P s) : triple P1 m Q := fun s hs => ht s (h s hs)

theorem triple_post {α : Type} {P : session → Prop} {Q Q1 : α → session → Prop} {m : M α}
    (ht : triple P m Q) (h : ∀ a s, Q a s → Q1 a s) : triple P m Q1 :=
  fun s hs => h _ _ (ht s hs)

theorem preserves_ite_given {α : Type} {P : session → Prop} {c : Prop} [Decidable c]
    {a b : M α} (ha : c → preserves P a) (hb : ¬ c → preserves P b) :
    preserves P (if c then a else b) := by
  split_ifs with h
  · exact ha h
  · exact hb h

/-! ### Functions that leave the input stream alone -/

theorem preserves_of_input {α : Type} {m : M α} (h : kept (fun s => s.intput_as) m)
    (P : session → Prop) (hP : ∀ s s1 : session, s1.intput_as = s.intput_as → P s → P s1) :
    preserves P m := fun s hs => hP s _ (h s) hs

theorem open_of_input {α : Type} {m : M α} (h : kept (fun s => s.intput_as) m)
    (A : List Char) : preserves (line_open A) m :=
  preserves_of_input h _ (fun s s1 e hs => by
    unfold line_open at hs ⊢
    rw [e]
    exact hs)

theorem closed_of_input {α : Type} {m : M α} (h : kept (fun s => s.intput_as) m)
    (A : List Char) : preserves (line_closed A) m :=
  preserves_of_input h _ (fun s s1 e hs => by
    unfold line_closed at hs ⊢
    rw [e]
    exact hs)

theorem open_on_input {α : Type} (A : List Char) (g : InFile → α × InFile)
    (h : ∀ f, after_line (g f).2.buf = after_line f.buf) :
    preserves (line_open A) (on_input g) := fun s hs => (h s.intput_as).trans hs

theorem open_update (A : List Char) (g : session → session)
    (h : ∀ s, (g s).intput_as = s.intput_as) : preserves (line_open A) (update g) :=
  fun s hs => by
    unfold line_open at hs ⊢
    show after_line (g s).intput_as.buf = A
    rw [h s]
    exact hs

section
attribute [local irreducible] M.bind M.pure query update on_input kept

theorem is_legal_label_input (label : List Char) (b : Bool) :
    kept (fun s => s.intput_as) (is_legal_label label b) := by
  unfold is_legal_label
  repeat (first
    | exact kept_pure _ _
    | exact kept_query _ _
    | exact kept_update _ _ (input_print_error_string _ _ _)
    | exact kept_update _ _ (input_print_error_char _ _ _)
    | exact kept_update _ _ (input_print_error _ _)
    | exact kept_update _ _ (input_print_warning_int _ _ _)
    | exact kept_update _ _ (input_print_warning _ _)
    | exact kept_update _ _ (input_inst_insert _)
    | exact kept_update _ _ (input_data_insert _)
    | exact kept_update _ _ (input_insert_label _ _ _ _)
    | exact kept_update _ _ (input_spl_insert _ _ _ _)
    | exact kept_update _ _ (input_ent_ext_list_insert _ _ _)
    | apply kept_ite
    | apply kept_bind
    | intro _)

theorem pre_process_line_error_check_input (a b : List Char) (c : Bool) (o : Option node)
    (d : Bool) : kept (fun s => s.intput_as) (pre_process_line_error_check a b c o d) := by
  unfold pre_process_line_error_check
  repeat (first
    | exact kept_pure _ _
    | exact kept_query _ _
    | exact kept_update _ _ (input_print_error_string _ _ _)
    | exact kept_update _ _ (input_print_error_char _ _ _)
    | exact kept_update _ _ (input_print_error _ _)
    | exact kept_update _ _ (input_print_warning_int _ _ _)
    | exact kept_update _ _ (input_print_warning _ _)
    | exact kept_update _ _ (input_inst_insert _)
    | exact kept_update _ _ (input_data_insert _)
    | exact kept_update _ _ (input_insert_label _ _ _ _)
    | exact kept_update _ _ (input_spl_insert _ _ _ _)
    | exact kept_update _ _ (input_ent_ext_list_insert _ _ _)
    | apply kept_ite
    | apply kept_bind
    | intro _)

theorem detect_operands_error_check_input (a b : Int) (c : Option Char) (comma : Bool) :
    kept (fun s => s.intput_as) (detect_operands_error_check a b c comma) := by
  unfold detect_operands_error_check
  repeat (first
    | exact kept_pure _ _
    | exact kept_query _ _
    | exact kept_update _ _ (input_print_error_string _ _ _)
    | exact kept_update _ _ (input_print_error_char _ _ _)
    | exact kept_update _ _ (input_print_error _ _)
    | exact kept_update _ _ (input_print_warning_int _ _ _)
    | exact kept_update _ _ (input_print_warning _ _)
    | exact kept_update _ _ (input_inst_insert _)
    | exact kept_update _ _ (input_data_insert _)
    | exact kept_update _ _ (input_insert_label _ _ _ _)
    | exact kept_update _ _ (input_spl_insert _ _ _ _)
    | exact kept_update _ _ (input_ent_ext_list_insert _ _ _)
    | apply kept_ite
    | apply kept_bind
    | intro _)

theorem insert_characters_input_kept : ∀ l : List Char,
    kept (fun s => s.intput_as) (insert_characters l)
  | [] => kept_pure _ _
  | c :: rest => by
    unfold insert_characters
    apply kept_bind (kept_update _ _ (input_data_insert _))
    intro _
    exact insert_characters_input_kept rest

theorem process_struct_input (op : List Char) :
    kept (fun s => s.intput_as) (process_struct op) := by
  unfold process_struct
  repeat (first
    | exact kept_pure _ _
    | exact kept_query _ _
    | exact kept_update _ _ (input_print_error_string _ _ _)
    | exact kept_update _ _ (input_print_error_char _ _ _)
    | exact kept_update _ _ (input_print_error _ _)
    | exact kept_update _ _ (input_print_warning_int _ _ _)
    | exact kept_update _ _ (input_print_warning _ _)
    | exact kept_update _ _ (input_inst_insert _)
    | exact kept_update _ _ (input_data_insert _)
    | exact kept_update _ _ (input_insert_label _ _ _ _)
    | exact kept_update _ _ (input_spl_insert _ _ _ _)
    | exact kept_update _ _ (input_ent_ext_list_insert _ _ _)
    | exact is_legal_label_input _ _
    | apply kept_ite
    | apply kept_bind
    | intro _)

theorem process_immediate_input (op : List Char) :
    kept (fun s => s.intput_as) (process_immediate op) := by
  unfold process_immediate
  repeat (first
    | exact kept_pure _ _
    | exact kept_query _ _
    | exact kept_update _ _ (input_print_error_string _ _ _)
    | exact kept_update _ _ (input_print_error_char _ _ _)
    | exact kept_update _ _ (input_print_error _ _)
    | exact kept_update _ _ (input_print_warning_int _ _ _)
    | exact kept_update _ _ (input_print_warning _ _)
    | exact kept_update _ _ (input_inst_insert _)
    | exact kept_update _ _ (input_data_insert _)
    | exact kept_update _ _ (input_insert_label _ _ _ _)
    | exact kept_update _ _ (input_spl_insert _ _ _ _)
    | exact kept_update _ _ (input_ent_ext_list_insert _ _ _)
    | apply kept_ite
    | apply kept_bind
    | intro _)

theorem process_operand_input (t : Int) (op : List Char) (b : Bool) :
    kept (fun s => s.intput_as) (process_operand t op b) := by
  unfold process_operand
  apply kept_ite
  · repeat (first
      | exact kept_pure _ _
      | exact kept_query _ _
      | exact kept_update _ _ (input_inst_insert _)
      | exact kept_update _ _ (input_spl_insert _ _ _ _)
      | exact kept_update _ _ (input_ent_ext_list_insert _ _ _)
      | apply kept_ite
      | apply kept_bind
      | intro _)
  apply kept_ite
  · exact process_immediate_input _
  apply kept_ite
  · apply kept_bind (is_legal_label_input _ _)
    intro l
    repeat (first
      | exact kept_pure _ _
      | exact kept_query _ _
      | exact kept_update _ _ (input_inst_insert _)
      | exact kept_update _ _ (input_spl_insert _ _ _ _)
      | exact kept_update _ _ (input_ent_ext_list_insert _ _ _)
      | apply kept_ite
      | apply kept_bind
      | intro _)
  apply kept_ite
  · exact process_struct_input _
  · exact kept_pure _ _

theorem store_operands_input (data : instruction) (a b : Int) (op1 op2 : List Char) :
    kept (fun s => s.intput_as) (store_operands data a b op1 op2) := by
  unfold store_operands
  apply kept_ite
  · repeat (first
      | exact kept_pure _ _
      | exact kept_query _ _
      | exact kept_update _ _ (input_inst_insert _)
      | exact kept_update _ _ (input_spl_insert _ _ _ _)
      | exact kept_update _ _ (input_ent_ext_list_insert _ _ _)
      | apply kept_ite
      | apply kept_bind
      | intro _)
  apply kept_bind
  · exact kept_ite _ (process_operand_input _ _ _) (kept_pure _ _)
  intro status
  exact kept_ite _ (process_operand_input _ _ _) (kept_pure _ _)

end

/-! ### Reading within the line -/

theorem drop_one_read (A : List Char) (d : List Char) (h : after_line d = A) :
    (d.head? = some '\n' → d.drop 1 = A) ∧
    (d.head? = none → d.drop 1 = [] ∧ A = []) ∧
    (d.head? ≠ some '\n' → d.head? ≠ none → after_line (d.drop 1) = A) := by
  refine ⟨fun h1 => ?_, fun h1 => ?_, fun h1 _ => ?_⟩
  · rw [after_line_head_newline d (Or.inl h1)]
    exact h
  · cases d with
    | nil => exact ⟨rfl, h.symm⟩
    | cons c t => simp at h1
  · rw [after_line_drop_one d h1]
    exact h

theorem ungetc_line (c : Option Char) (h : c ≠ some '\n') (f : InFile) :
    after_line (ungetc c f).buf = after_line f.buf := by
  cases c with
  | none => rfl
  | some ch =>
    have hc : ch ≠ '\n' := fun e => h (by rw [e])
    exact after_line_cons ch _ hc

theorem peek_triple (A : List Char) :
    triple (line_open A) (on_input peek_next_char) (fun p s => line_at A p s) := by
  apply triple_on_input
  intro s hs
  exact ⟨(peek_next_char_line _).1.trans hs, (peek_next_char_line _).2.symm⟩

theorem getc_triple (A : List Char) :
    triple (line_open A) (on_input getc) (fun c s => line_read A c s) := by
  apply triple_on_input
  intro s hs
  have h := drop_one_read A s.intput_as.buf hs
  rw [← (getc_buf s.intput_as).1, ← (getc_buf s.intput_as).2] at h
  exact h

theorem getc_in_line (A : List Char) (c : Option Char) (hc : c ≠ some '\n') :
    triple (line_at A c) (on_input getc) (fun _ s => line_open A s) := by
  apply triple_on_input
  intro s hs
  have h := getc_line s.intput_as (by rw [hs.2]; exact hc)
  exact h.trans hs.1

theorem getc_closes (A : List Char) (c : Option Char) (hc : c = some '\n' ∨ c = none) :
    triple (line_at A c) (on_input getc) (fun _ s => line_closed A s) := by
  apply triple_on_input
  intro s hs
  have h := getc_end_of_line s.intput_as (by rw [hs.2]; exact hc)
  exact h.trans hs.1

theorem skip_line_closes (A : List Char) :
    triple (line_open A) (on_input skip_line) (fun _ s => line_closed A s) := by
  apply triple_on_input
  intro s hs
  exact (skip_line_buf _).trans hs

theorem line_at_open (A : List Char) (c : Option Char) (s : session) (h : line_at A c s) :
    line_open A s := h.1

theorem line_after_false (A : List Char) (s : session) (h : line_open A s) :
    line_after A false s := ⟨fun e => absurd e Bool.false_ne_true, fun _ => h⟩

theorem line_after_true (A : List Char) (s : session) (h : line_closed A s) :
    line_after A true s := ⟨fun _ => h, fun e => absurd e.symm Bool.false_ne_true⟩

theorem ungetc_read (A : List Char) (c : Option Char) (hc : c = some '\n' ∨ c = none) :
    triple (line_read A c) (on_input (fun f => ((), ungetc c f))) (fun _ s => line_open A s) := by
  apply triple_on_input
  intro s hs
  rcases hc with hc | hc
  · have h := hs.1 hc
    unfold line_closed at h
    subst hc
    show after_line ('\n' :: s.intput_as.buf) = A
    rw [after_line_newline]
    exact h
  · have h := hs.2.1 hc
    subst hc
    show after_line s.intput_as.buf = A
    rw [h.1, h.2]
    rfl

section
attribute [local irreducible] M.bind M.pure query update on_input

theorem is_comment_or_empty_line_open (A : List Char) :
    preserves (line_open A) is_comment_or_empty_line := by
  unfold is_comment_or_empty_line
  apply preserves_bind (open_on_input A _ skip_whites_line)
  intro _
  exact preserves_pure _

theorem pre_process_line_open (A : List Char) : preserves (line_open A) pre_process_line := by
  unfold pre_process_line
  repeat (first
    | exact preserves_pure _
    | exact preserves_query _
    | exact open_on_input A _ (read_next_string_line _)
    | exact open_of_input (is_legal_label_input _ _) A
    | exact open_of_input (pre_process_line_error_check_input _ _ _ _ _) A
    | apply preserves_ite
    | apply preserves_bind
    | intro _)

theorem read_numbers_list_error_check_open (A : List Char) (c : Option Char) (n : Int) :
    triple (line_at A c) (read_numbers_list_error_check c n) (fun _ s => line_open A s) := by
  unfold read_numbers_list_error_check
  refine triple_bind (fun _ s => line_at A c s) (triple_of_preserves (preserves_query _)) ?_
  intro lc
  apply triple_ite
  · intro _
    exact triple_update (fun s h => h.1)
  intro _
  apply triple_ite
  · intro _
    exact triple_update (fun s h => h.1)
  intro _
  apply triple_ite
  · intro _
    exact triple_update (fun s h => h.1)
  intro _
  apply triple_ite
  · intro hsign
    have hc : c ≠ some '\n' := by
      rcases hsign with e | e <;> rw [e] <;> decide
    refine triple_bind (fun _ s => line_open A s) (getc_in_line A c hc) ?_
    intro _
    apply triple_of_preserves
    apply preserves_bind (open_on_input A _ (fun f => (peek_next_char_line f).1))
    intro p
    apply preserves_bind
    · apply preserves_ite
      · exact open_update A _ (input_print_error _ _)
      · exact open_update A _ (input_print_error_char _ _ _)
    intro _
    exact open_on_input A _ (ungetc_line c hc)
  intro _
  apply triple_ite
  · intro _
    exact triple_update (fun s h => h.1)
  · intro _
    exact triple_pure (fun s h => h.1)

theorem read_numbers_list_end_open (A : List Char) (n : Int) :
    triple (line_open A) (read_numbers_list_end n) (fun a s => a = 0 ∧ line_open A s) := by
  unfold read_numbers_list_end
  refine triple_bind (fun p s => line_at A p s) (peek_triple A) ?_
  intro p
  refine triple_bind (fun _ s => line_open A s) (read_numbers_list_error_check_open A p n) ?_
  intro _
  exact triple_pure (fun s h => ⟨rfl, h⟩)

end

section
attribute [local irreducible] M.bind M.pure query update on_input

theorem read_numbers_loop_line (A : List Char) : ∀ (fuel : Nat) (n number : Int), 0 ≤ n →
    triple (line_open A) (read_numbers_loop fuel n number)
      (fun a s => line_after A (decide (a ≠ 0)) s)
  | 0, n, number, _ => by
    unfold read_numbers_loop
    refine triple_bind (fun _ s => line_open A s)
      (triple_of_preserves (open_on_input A _ (read_next_number_line _))) ?_
    intro _
    refine triple_post (read_numbers_list_end_open A n) ?_
    intro a s h
    rw [h.1]
    exact line_after_false A s h.2
  | fuel + 1, n, number, hn => by
    rw [read_numbers_loop_succ]
    refine triple_bind (fun _ s => line_open A s)
      (triple_of_preserves (open_on_input A _ (read_next_number_line _))) ?_
    intro r
    have hend : triple (line_open A) (read_numbers_list_end n)
        (fun a s => line_after A (decide (a ≠ 0)) s) := by
      refine triple_post (read_numbers_list_end_open A n) ?_
      intro a s h
      rw [h.1]
      exact line_after_false A s h.2
    have hend1 : triple (line_open A) (read_numbers_list_end (n + 1))
        (fun a s => line_after A (decide (a ≠ 0)) s) := by
      refine triple_post (read_numbers_list_end_open A (n + 1)) ?_
      intro a s h
      rw [h.1]
      exact line_after_false A s h.2
    apply triple_ite
    · intro _
      refine triple_bind (fun _ s => line_open A s) (triple_of_preserves (preserves_query _)) ?_
      intro lc
      refine triple_bind (fun _ s => line_open A s) (triple_of_preserves ?_) ?_
      · apply preserves_ite
        · exact open_update A _ (input_print_warning_int _ _ _)
        · exact preserves_pure _
      intro _
      refine triple_bind (fun _ s => line_open A s)
        (triple_of_preserves (open_update A _ (input_data_insert _))) ?_
      intro _
      refine triple_bind (fun p s => line_at A p s) (peek_triple A) ?_
      intro c
      apply triple_ite
      · intro hc
        refine triple_bind (fun _ s => line_closed A s) (getc_closes A c hc) ?_
        intro _
        apply triple_pure
        intro s hs
        have h1 : decide (n + 1 ≠ 0) = true := decide_eq_true (by omega)
        rw [h1]
        exact line_after_true A s hs
      intro _
      apply triple_ite
      · intro hc
        refine triple_bind (fun _ s => line_open A s)
          (getc_in_line A c (by rw [hc]; decide)) ?_
        intro _
        refine triple_bind (fun _ s => line_open A s)
          (triple_of_preserves (open_on_input A _ skip_whites_line)) ?_
        intro _
        exact read_numbers_loop_line A fuel (n + 1) r.2 (by omega)
      · intro _
        exact triple_pre hend1 (fun s h => h.1)
    · intro _
      exact hend

theorem read_numbers_list_line (A : List Char) :
    triple (line_open A) read_numbers_list (fun a s => line_after A (decide (a ≠ 0)) s) := by
  unfold read_numbers_list
  refine triple_bind (fun _ s => line_open A s) (triple_of_preserves (preserves_query _)) ?_
  intro fuel
  exact read_numbers_loop_line A fuel 0 0 (le_refl 0)

end

theorem string_loop_triple (A : List Char) :
    triple (line_open A)
      (on_input (fun f =>
        let w := getc_while (fun c => c ≠ '\n' ∧ c ≠ QUOTE) f.eof f.buf
        ((w.1, w.2.1), w.2.2)))
      (fun (r : List Char × Option Char) s => line_read A r.2 s) := by
  apply triple_on_input
  intro s hs
  have hd : after_line (s.intput_as.buf.dropWhile (fun c => c ≠ '\n' ∧ c ≠ QUOTE)) = A :=
    (after_line_dropWhile _ (by decide) _).trans hs
  have h := drop_one_read A _ hd
  rw [← getc_while_stop _ s.intput_as.eof, ← getc_while_rest _ s.intput_as.eof] at h
  exact h

theorem line_read_input (A : List Char) (c : Option Char) (s s1 : session)
    (e : s1.intput_as = s.intput_as) (h : line_read A c s) : line_read A c s1 := by
  unfold line_read line_closed line_open at h ⊢
  rw [e]
  exact h

theorem line_read_open (A : List Char) (c : Option Char) (s : session)
    (h1 : c ≠ some '\n') (h2 : c ≠ none) (h : line_read A c s) : line_open A s := h.2.2 h1 h2

section
attribute [local irreducible] M.bind M.pure query update on_input

theorem read_string_error_check_opened (A : List Char) (c : Option Char) (b d : Bool) :
    preserves (line_open A) (read_string_error_check c true b d) := by
  unfold read_string_error_check
  apply preserves_bind
  · exact preserves_query _
  intro lc
  apply preserves_ite_given
  · intro h
    exact absurd rfl h.1
  intro _
  repeat (first
    | exact preserves_pure _
    | exact open_update A _ (input_print_error _ _)
    | apply preserves_ite
    | intro _)

theorem read_string_error_check_start (A : List Char) (c : Option Char) (b d : Bool) :
    triple (line_read A c) (read_string_error_check c false b d)
      (fun _ s => line_open A s) := by
  unfold read_string_error_check
  refine triple_bind (fun _ s => line_read A c s) (triple_of_preserves (preserves_query _)) ?_
  intro lc
  apply triple_ite
  · intro h
    refine triple_bind (fun _ s => line_open A s) (ungetc_read A c h.2) ?_
    intro _
    exact triple_of_preserves (open_update A _ (input_print_error _ _))
  intro h
  have h1 : c ≠ some '\n' := fun e => h ⟨Bool.false_ne_true, Or.inl e⟩
  have h2 : c ≠ none := fun e => h ⟨Bool.false_ne_true, Or.inr e⟩
  apply triple_ite
  · intro _
    exact triple_update (fun s hs => hs.2.2 h1 h2)
  · intro h3
    exact absurd Bool.false_ne_true h3

theorem read_string_line (A : List Char) :
    triple (line_open A) read_string (fun a s => line_after A a s) := by
  unfold read_string
  refine triple_bind (fun c s => line_read A c s) (getc_triple A) ?_
  intro c0
  apply triple_ite
  · intro hq
    have h1 : c0 ≠ some '\n' := by rw [hq]; decide
    have h2 : c0 ≠ none := by rw [hq]; exact Option.some_ne_none _
    refine triple_pre ?_ (fun s hs => hs.2.2 h1 h2)
    refine triple_bind (fun (r : List Char × Option Char) s => line_read A r.2 s)
      (string_loop_triple A) ?_
    intro r
    refine triple_bind (fun _ s => line_read A r.2 s) (triple_of_preserves
      (preserves_of_input (insert_characters_input_kept r.1) _
        (fun s s1 e h => line_read_input A r.2 s s1 e h))) ?_
    intro _
    refine triple_bind (fun _ s => line_open A s) ?_ ?_
    · apply triple_ite
      · intro hc
        exact ungetc_read A r.2 hc
      · intro hc
        exact triple_pure (fun s hs => hs.2.2 (fun e => hc (Or.inl e)) (fun e => hc (Or.inr e)))
    intro _
    apply triple_ite
    · intro _
      refine triple_bind (fun p s => line_at A p s) (peek_triple A) ?_
      intro p
      apply triple_ite
      · intro _
        refine triple_bind (fun _ s => line_open A s)
          (triple_pre (triple_of_preserves (open_update A _ (input_data_insert _)))
            (fun s hs => hs.1)) ?_
        intro _
        refine triple_bind (fun _ s => line_closed A s) (skip_line_closes A) ?_
        intro _
        exact triple_pure (fun s hs => line_after_true A s hs)
      · intro _
        refine triple_bind (fun _ s => line_open A s) ?_ ?_
        · exact triple_pre (triple_of_preserves (read_string_error_check_opened A p true true))
            (fun s hs => hs.1)
        intro _
        exact triple_pure (fun s hs => line_after_false A s hs)
    · intro _
      refine triple_bind (fun _ s => line_open A s)
        (triple_of_preserves (read_string_error_check_opened A r.2 false true)) ?_
      intro _
      exact triple_pure (fun s hs => line_after_false A s hs)
  · intro _
    refine triple_bind (fun _ s => line_open A s)
      (read_string_error_check_start A c0 false false) ?_
    intro _
    exact triple_pure (fun s hs => line_after_false A s hs)

end

theorem process_directive_struct_line (A : List Char) :
    triple (line_open A) process_directive_struct (fun a s => line_after A a s) := by
  intro s hs
  have hr : after_line (read_next_number 0 s.intput_as).2.buf = A :=
    (read_next_number_line 0 s.intput_as).trans hs
  have hp := peek_next_char_line (read_next_number 0 s.intput_as).2
  have hpo : after_line (peek_next_char (read_next_number 0 s.intput_as).2).2.buf = A :=
    hp.1.trans hr
  rw [process_directive_struct_eq]
  by_cases h : (read_next_number 0 s.intput_as).1.1 ≠ 0
  · rw [if_pos h]
    by_cases hc : (peek_next_char (read_next_number 0 s.intput_as).2).1 = some ','
    · simp only [if_pos hc]
      apply read_string_line A
      show after_line (skip_whites (getc (peek_next_char
        (read_next_number 0 s.intput_as).2).2).2).2.buf = A
      rw [skip_whites_line, getc_line _ (by rw [← hp.2, hc]; decide)]
      exact hpo
    · simp only [if_neg hc]
      exact line_after_false A _ hpo
  · rw [if_neg h]
    exact line_after_false A _ hpo

section
attribute [local irreducible] M.bind M.pure query update on_input

theorem ext_ent_end_of_line_line (A : List Char) :
    triple (line_open A) ext_ent_end_of_line (fun a s => line_after A a s) := by
  unfold ext_ent_end_of_line
  refine triple_bind (fun _ s => line_open A s) (triple_of_preserves (preserves_query _)) ?_
  intro lc
  refine triple_bind (fun _ s => line_open A s)
    (triple_of_preserves (open_on_input A _ (fun f => (peek_next_char_line f).1))) ?_
  intro p1
  have hskip : triple (line_open A) (on_input skip_line >>= fun _ => (pure true : M Bool))
      (fun a s => line_after A a s) := by
    refine triple_bind (fun _ s => line_closed A s) (skip_line_closes A) ?_
    intro _
    exact triple_pure (fun s hs => line_after_true A s hs)
  apply triple_ite
  · intro _
    exact hskip
  intro _
  refine triple_bind (fun _ s => line_open A s)
    (triple_of_preserves (open_on_input A _ (fun f => (peek_next_char_line f).1))) ?_
  intro p2
  apply triple_ite
  · intro _
    exact hskip
  intro _
  refine triple_bind (fun _ s => line_open A s)
    (triple_of_preserves (open_update A _ (input_print_error _ _))) ?_
  intro _
  exact triple_pure (fun s hs => line_after_false A s hs)

theorem process_directive_ext_ent_line (A : List Char) (is_ext is_label : Bool) :
    triple (line_open A) (process_directive_ext_ent is_ext is_label)
      (fun a s => line_after A a s) := by
  unfold process_directive_ext_ent
  refine triple_bind (fun _ s => line_open A s) (triple_of_preserves (preserves_query _)) ?_
  intro lc
  refine triple_bind (fun _ s => line_open A s) (triple_of_preserves ?_) ?_
  · apply preserves_ite
    · exact open_update A _ (input_print_warning _ _)
    · exact preserves_pure _
  intro _
  refine triple_bind (fun _ s => line_open A s) (triple_of_preserves (preserves_query _)) ?_
  intro cc
  refine triple_bind (fun _ s => line_open A s)
    (triple_of_preserves (open_on_input A _ (read_next_string_line _))) ?_
  intro r
  apply triple_ite
  · intro _
    refine triple_bind (fun _ s => line_open A s)
      (triple_of_preserves (open_of_input (is_legal_label_input _ _) A)) ?_
    intro l
    apply triple_ite
    · intro _
      refine triple_bind (fun _ s => line_open A s) (triple_of_preserves (preserves_query _)) ?_
      intro found
      refine triple_bind (fun _ s => line_open A s) (triple_of_preserves (preserves_query _)) ?_
      intro in_entries
      apply triple_ite
      · intro _
        refine triple_bind (fun _ s => line_open A s)
          (triple_of_preserves (preserves_query _)) ?_
        intro dc
        refine triple_bind (fun _ s => line_open A s)
          (triple_of_preserves (open_update A _ (input_insert_label _ _ _ _))) ?_
        intro _
        exact ext_ent_end_of_line_line A
      intro _
      apply triple_ite
      · intro _
        refine triple_bind (fun _ s => line_open A s)
          (triple_of_preserves (open_update A _ (input_ent_ext_list_insert _ _ _))) ?_
        intro _
        exact ext_ent_end_of_line_line A
      · intro _
        refine triple_bind (fun _ s => line_open A s)
          (triple_of_preserves (open_update A _ (input_print_error_string _ _ _))) ?_
        intro _
        exact triple_pure (fun s hs => line_after_false A s hs)
    · intro _
      exact triple_pure (fun s hs => line_after_false A s hs)
  · intro _
    exact triple_pure (fun s hs => line_after_false A s hs)

theorem process_directive_line (A : List Char) (direct : node) (is_label : Bool)
    (label : List Char) (hkey : direct.key ∈ directive_names.map String.toList) :
    triple (line_open A) (process_directive direct is_label label)
      (fun _ s => line_closed A s) := by
  unfold process_directive
  refine triple_bind (fun a s => line_after A a s) ?_ ?_
  · apply triple_ite
    · intro _
      exact process_directive_ext_ent_line A _ _
    intro h1
    apply triple_ite
    · intro _
      exact process_directive_ext_ent_line A _ _
    intro h2
    refine triple_bind (fun _ s => line_open A s) (triple_of_preserves ?_) ?_
    · apply preserves_ite
      · refine preserves_bind (preserves_query _) ?_
        intro dc
        exact open_update A _ (input_insert_label _ _ _ _)
      · exact preserves_pure _
    intro _
    apply triple_ite
    · intro _
      refine triple_bind (fun a s => line_after A (decide (a ≠ 0)) s)
        (read_numbers_list_line A) ?_
      intro n
      exact triple_pure (fun s hs => hs)
    intro h3
    apply triple_ite
    · intro _
      exact read_string_line A
    intro h4
    apply triple_ite
    · intro _
      exact process_directive_struct_line A
    intro h5
    exfalso
    simp only [directive_names, List.map_cons, List.map_nil, List.mem_cons, List.mem_nil_iff,
      or_false] at hkey
    rcases hkey with h | h | h | h | h
    all_goals first
      | exact h1 h
      | exact h2 h
      | exact h3 h
      | exact h4 h
      | exact h5 h
  intro status
  apply triple_ite
  · intro hst
    have hf : status = false := by simpa using hst
    refine triple_bind (fun _ s => line_closed A s)
      (triple_pre (skip_line_closes A) (fun s hs => hs.2 hf)) ?_
    intro _
    exact triple_pure (fun s hs => hs)
  · intro hst
    have ht : status = true := by simpa using hst
    exact triple_pure (fun s hs => hs.1 ht)

end

theorem check_operands_types_line (A : List Char) (data : instruction) (a b : Int) :
    triple (line_closed A) (check_operands_types data a b) (fun st s => line_after A st s) := by
  intro s hs
  rcases check_operands_types_input data a b s with ⟨h1, h2⟩ | ⟨h1, h2⟩
  · rw [h1]
    apply line_after_true
    unfold line_closed at hs ⊢
    rw [h2]
    exact hs
  · rw [h1]
    apply line_after_false
    unfold line_closed at hs
    unfold line_open
    rw [h2]
    show after_line ('\n' :: s.intput_as.buf) = A
    rw [after_line_newline]
    exact hs

section
attribute [local irreducible] M.bind M.pure query update on_input

theorem detect_operands_and_types_line (A : List Char) (data : instruction) :
    triple (line_open A) (detect_operands_and_types data)
      (fun d s => line_after A d.status s) := by
  unfold detect_operands_and_types
  refine triple_bind (fun _ s => line_open A s) (triple_of_preserves (preserves_query _)) ?_
  intro table
  refine triple_bind (fun _ s => line_open A s) (triple_of_preserves ?_) ?_
  · apply preserves_ite
    · exact open_on_input A _ (detect_operand_type_line _)
    · exact preserves_pure _
  intro d1
  refine triple_bind (fun _ s => line_open A s) ?_ ?_
  · apply triple_ite
    · intro _
      refine triple_bind (fun _ s => line_open A s)
        (triple_of_preserves (open_on_input A _ skip_whites_line)) ?_
      intro _
      refine triple_bind (fun p s => line_at A p s) (peek_triple A) ?_
      intro p
      apply triple_ite
      · intro hp
        refine triple_bind (fun _ s => line_open A s)
          (getc_in_line A p (by rw [hp]; decide)) ?_
        intro _
        refine triple_bind (fun _ s => line_open A s)
          (triple_of_preserves (open_on_input A _ skip_whites_line)) ?_
        intro _
        exact triple_pure (fun s hs => hs)
      · intro _
        exact triple_pure (fun s hs => hs.1)
    · intro _
      exact triple_pure (fun s hs => hs)
  intro comma_detected
  refine triple_bind (fun _ s => line_open A s) (triple_of_preserves ?_) ?_
  · apply preserves_ite
    · exact open_on_input A _ (detect_operand_type_line _)
    · exact preserves_pure _
  intro d2
  apply triple_ite
  · intro _
    refine triple_bind (fun _ s => line_open A s)
      (triple_of_preserves (open_on_input A _ (fun f => (peek_next_char_line f).1))) ?_
    intro c
    apply triple_ite
    · intro _
      refine triple_bind (fun _ s => line_closed A s) (skip_line_closes A) ?_
      intro _
      exact triple_pure (fun s hs => line_after_true A s hs)
    · intro _
      refine triple_bind (fun _ s => line_open A s)
        (triple_of_preserves (open_of_input (detect_operands_error_check_input _ _ _ _) A)) ?_
      intro _
      exact triple_pure (fun s hs => line_after_false A s hs)
  · intro _
    refine triple_bind (fun _ s => line_open A s)
      (triple_of_preserves (open_of_input (detect_operands_error_check_input _ _ _ _) A)) ?_
    intro _
    exact triple_pure (fun s hs => line_after_false A s hs)

theorem process_instruction_line (A : List Char) (inst : node) (is_label : Bool)
    (label : List Char) :
    triple (line_open A) (process_instruction inst is_label label)
      (fun _ s => line_closed A s) := by
  unfold process_instruction
  refine triple_bind (fun _ s => line_open A s) (triple_of_preserves ?_) ?_
  · apply preserves_ite
    · refine preserves_bind (preserves_query _) ?_
      intro ic
      exact open_update A _ (input_insert_label _ _ _ _)
    · exact preserves_pure _
  intro _
  refine triple_bind (fun (d : operands) s => line_after A d.status s)
    (detect_operands_and_types_line A _) ?_
  intro d
  refine triple_bind (fun st s => line_after A st s) ?_ ?_
  · apply triple_ite
    · intro hd
      exact triple_pre (check_operands_types_line A _ _ _) (fun s hs => hs.1 hd)
    · intro hd
      have hf : d.status = false := by simpa using hd
      exact triple_pure (fun s hs => line_after_false A s (hs.2 hf))
  intro status
  apply triple_ite
  · intro hst
    have hf : status = false := by simpa using hst
    refine triple_bind (fun _ s => line_closed A s)
      (triple_pre (skip_line_closes A) (fun s hs => hs.2 hf)) ?_
    intro _
    exact triple_pure (fun s hs => hs)
  · intro hst
    have ht : status = true := by simpa using hst
    refine triple_pre ?_ (fun s hs => hs.1 ht)
    refine triple_bind (fun _ s => line_closed A s) (triple_of_preserves ?_) ?_
    · exact preserves_update (fun s hs => by
        unfold line_closed at hs ⊢
        rw [input_inst_insert]
        exact hs)
    intro _
    apply triple_ite
    · intro _
      exact triple_of_preserves (closed_of_input (store_operands_input _ _ _ _ _) A)
    · intro _
      exact triple_pure (fun s hs => hs)

end

/-! ### The directives of the symbol table -/

theorem triple_given {α : Type} {P : session → Prop} {Q : α → session → Prop} {m : M α}
    {F : Prop} (h : F → triple P m Q) : triple (fun s => P s ∧ F) m Q :=
  fun s hs => h hs.2 s hs.1

theorem preserves_and {α : Type} {P Q : session → Prop} {m : M α}
    (h1 : preserves P m) (h2 : preserves Q m) : preserves (fun s => P s ∧ Q s) m :=
  fun s hs => ⟨h1 s hs.1, h2 s hs.2⟩

theorem directs_of_core {α : Type} {m : M α} (h : kept session.core m) :
    preserves (fun s => directs_ok s.symbol_table) m := by
  intro s hs
  have e : (m s).2.symbol_table = s.symbol_table := congrArg (fun p => p.1) (h s)
  rw [e]
  exact hs

set_option maxRecDepth 1000000 in
theorem initial_directs : ∀ b ∈ initialize_symbol_table.array, ∀ n ∈ b,
    n.type = type.DIRECT → n.key ∈ directive_names.map String.toList := by
  decide

theorem directs_ok_initial : directs_ok initialize_symbol_table := by
  intro k n hk ht
  obtain ⟨b, hb, hn⟩ := hash_table_find_mem _ _ _ hk
  exact initial_directs b hb n hn ht

theorem directs_ok_insert (t : hash_table) (name : List Char) (counter : Int) (ty : type)
    (is_struct : Bool) (hty : ty ≠ type.DIRECT) (h : directs_ok t) :
    directs_ok (symbol_table_insert_label t name counter ty is_struct) := by
  intro k n hk ht
  unfold symbol_table_insert_label find_symbol at hk
  simp only at hk
  rcases hash_table_find_insert _ _ _ _ _ _ hk with h1 | h1
  · exfalso
    rw [h1] at ht
    exact hty ht
  · exact h k n h1 ht

theorem reach_directs_ok {s s1 : session} (h : reach s s1) (hd : directs_ok s.symbol_table) :
    directs_ok s1.symbol_table := by
  induction h with
  | refl => exact hd
  | tail _ hstep ih =>
    cases hstep with
    | other _ h1 _ => rw [h1]; exact ih
    | label name counter t is_struct _ ht =>
      refine directs_ok_insert _ _ _ _ _ ?_ ih
      rcases ht with e | e <;> rw [e] <;> decide
    | external name counter _ _ _ =>
      exact directs_ok_insert _ _ _ _ _ (by decide) ih
    | entry name line _ _ _ =>
      unfold ent_ext_list_insert
      exact ih

theorem command_node (t : hash_table) (w : List Char) (hd : directs_ok t)
    (h : command_name t w = true) :
    ∃ n, find_symbol t w = some n ∧
      (n.type = type.INST ∨
        (n.type = type.DIRECT ∧ n.key ∈ directive_names.map String.toList)) := by
  unfold command_name at h
  rcases Option.eq_none_or_eq_some (find_symbol t w) with hn | ⟨n, hn⟩
  · rw [hn] at h
    simp at h
  · refine ⟨n, hn, ?_⟩
    rw [hn] at h
    simp only [Option.map_some', Option.some.injEq, Bool.decide_or, Bool.or_eq_true,
      decide_eq_true_eq] at h
    rcases h with h | h
    · exact Or.inl h
    · exact Or.inr ⟨h, hd w n hn h⟩

theorem pre_process_line_command (s : session) (hd : directs_ok s.symbol_table)
    (hst : (pre_process_line s).1.status = true) :
    ∃ n, (pre_process_line s).1.symbol = some n ∧
      (n.type = type.INST ∨
        (n.type = type.DIRECT ∧ n.key ∈ directive_names.map String.toList)) := by
  obtain ⟨_, h1, h2⟩ := pre_process_line_spec s
  rcases Bool.eq_false_or_eq_true (command_name s.symbol_table (next_word s.intput_as.buf))
    with hc | hc
  · rw [(h1 hc).1]
    exact command_node _ _ hd hc
  · obtain ⟨hiff, hval, _⟩ := h2 hc
    obtain ⟨name, _, _, _, hcmd⟩ := hiff.mp hst
    obtain ⟨name1, _, _, hr, _⟩ := hval hst
    rw [hr]
    exact command_node _ _ hd hcmd

section
attribute [local irreducible] M.bind M.pure query update on_input

/-- A call of `process_line` reads the current line to its end and nothing
after it, when the DIRECT symbols of the table are the five directives. -/
theorem process_line_line (A : List Char) :
    triple (fun s => line_open A s ∧ directs_ok s.symbol_table) process_line
      (fun _ s => line_closed A s) := by
  unfold process_line
  have hskip : ∀ b : Bool, triple (line_open A)
      (on_input skip_line >>= fun _ => (pure b : M Bool)) (fun _ s => line_closed A s) := by
    intro b
    refine triple_bind (fun _ s => line_closed A s) (skip_line_closes A) ?_
    intro _
    exact triple_pure (fun s hs => hs)
  refine triple_bind (fun _ s => line_open A s ∧ directs_ok s.symbol_table)
    (triple_of_preserves (preserves_and (is_comment_or_empty_line_open A)
      (directs_of_core is_comment_or_empty_line_core))) ?_
  intro e
  refine triple_bind (fun _ s => line_open A s ∧ directs_ok s.symbol_table)
    (triple_of_preserves ?_) ?_
  · apply preserves_ite
    · exact preserves_pure _
    · apply preserves_bind
      · exact preserves_and (open_on_input A _ (fun f => (peek_next_char_line f).1))
          (directs_of_core (kept_on_input _ _ (fun _ _ => rfl)))
      · intro _
        exact preserves_pure _
  intro skip
  apply triple_ite
  · intro _
    exact triple_pre (hskip true) (fun s hs => hs.1)
  intro _
  refine triple_bind (fun (h : line_head) s => line_open A s ∧ (h.status = true →
      ∃ n, h.symbol = some n ∧ (n.type = type.INST ∨
        (n.type = type.DIRECT ∧ n.key ∈ directive_names.map String.toList)))) ?_ ?_
  · intro s hs
    exact ⟨pre_process_line_open A s hs.1, pre_process_line_command s hs.2⟩
  intro h
  apply triple_given
  intro hfact
  apply triple_ite
  · intro hst
    obtain ⟨n, hn, ht⟩ := hfact hst
    simp only [hn]
    apply triple_ite
    · intro _
      exact process_instruction_line A _ _ _
    intro h1
    apply triple_ite
    · intro _
      rcases ht with ht | ⟨_, hk⟩
      · exact absurd ht h1
      · exact process_directive_line A _ _ _ hk
    · intro h2
      rcases ht with ht | ⟨ht, _⟩
      · exact absurd ht h1
      · exact absurd ht h2
  · intro _
    exact hskip false

end

theorem process_line_reads_line (s : session) (hd : directs_ok s.symbol_table) :
    (process_line s).2.intput_as.buf = after_line s.intput_as.buf :=
  process_line_line (after_line s.intput_as.buf) s ⟨rfl, hd⟩

/-! ### The line number of the messages of a call of `process_line` -/

section
attribute [local irreducible] M.bind M.pure query update on_input

theorem is_legal_label_stamped (lc : Int) (base : List diag) (label : List Char) (b : Bool) :
    preserves (stamped_with lc base) (is_legal_label label b) := by
  unfold is_legal_label
  repeat (first
    | exact preserves_pure _
    | exact preserves_query _
    | exact preserves_on_input _ (stamped_input lc base)
    | exact preserves_update (stamped_print_error_string lc base _ _)
    | exact preserves_update (stamped_print_error_char lc base _ _)
    | exact preserves_update (stamped_print_error lc base _)
    | exact preserves_update (stamped_print_warning_int lc base _ _)
    | exact preserves_update (stamped_print_warning lc base _)
    | exact preserves_update (stamped_inst_insert lc base _)
    | exact preserves_update (stamped_data_insert lc base _)
    | exact preserves_update (stamped_insert_label lc base _ _ _ _)
    | exact preserves_update (stamped_spl_insert lc base _ _ _ _)
    | exact preserves_update (stamped_ent_ext_list_insert lc base _ _ _)
    | apply stamped_line
    | apply preserves_ite
    | apply preserves_bind
    | intro _)

theorem is_comment_or_empty_line_stamped (lc : Int) (base : List diag) :
    preserves (stamped_with lc base) (is_comment_or_empty_line) := by
  unfold is_comment_or_empty_line
  repeat (first
    | exact preserves_pure _
    | exact preserves_query _
    | exact preserves_on_input _ (stamped_input lc base)
    | exact preserves_update (stamped_print_error_string lc base _ _)
    | exact preserves_update (stamped_print_error_char lc base _ _)
    | exact preserves_update (stamped_print_error lc base _)
    | exact preserves_update (stamped_print_warning_int lc base _ _)
    | exact preserves_update (stamped_print_warning lc base _)
    | exact preserves_update (stamped_inst_insert lc base _)
    | exact preserves_update (stamped_data_insert lc base _)
    | exact preserves_update (stamped_insert_label lc base _ _ _ _)
    | exact preserves_update (stamped_spl_insert lc base _ _ _ _)
    | exact preserves_update (stamped_ent_ext_list_insert lc base _ _ _)
    | apply stamped_line
    | apply preserves_ite
    | apply preserves_bind
    | intro _)

theorem pre_process_line_error_check_stamped (lc : Int) (base : List diag) (a b : List Char) (c : Bool) (o : Option node) (d : Bool) :
    preserves (stamped_with lc base) (pre_process_line_error_check a b c o d) := by
  unfold pre_process_line_error_check
  repeat (first
    | exact preserves_pure _
    | exact preserves_query _
    | exact preserves_on_input _ (stamped_input lc base)
    | exact preserves_update (stamped_print_error_string lc base _ _)
    | exact preserves_update (stamped_print_error_char lc base _ _)
    | exact preserves_update (stamped_print_error lc base _)
    | exact preserves_update (stamped_print_warning_int lc base _ _)
    | exact preserves_update (stamped_print_warning lc base _)
    | exact preserves_update (stamped_inst_insert lc base _)
    | exact preserves_update (stamped_data_insert lc base _)
    | exact preserves_update (stamped_insert_label lc base _ _ _ _)
    | exact preserves_update (stamped_spl_insert lc base _ _ _ _)
    | exact preserves_update (stamped_ent_ext_list_insert lc base _ _ _)
    | apply stamped_line
    | apply preserves_ite
    | apply preserves_bind
    | intro _)

theorem pre_process_line_stamped (lc : Int) (base : List diag) :
    preserves (stamped_with lc base) (pre_process_line) := by
  unfold pre_process_line
  repeat (first
    | exact preserves_pure _
    | exact preserves_query _
    | exact preserves_on_input _ (stamped_input lc base)
    | exact preserves_update (stamped_print_error_string lc base _ _)
    | exact preserves_update (stamped_print_error_char lc base _ _)
    | exact preserves_update (stamped_print_error lc base _)
    | exact preserves_update (stamped_print_warning_int lc base _ _)
    | exact preserves_update (stamped_print_warning lc base _)
    | exact preserves_update (stamped_inst_insert lc base _)
    | exact preserves_update (stamped_data_insert lc base _)
    | exact preserves_update (stamped_insert_label lc base _ _ _ _)
    | exact preserves_update (stamped_spl_insert lc base _ _ _ _)
    | exact preserves_update (stamped_ent_ext_list_insert lc base _ _ _)
    | exact is_legal_label_stamped lc base _ _
    | exact pre_process_line_error_check_stamped lc base _ _ _ _ _
    | apply stamped_line
    | apply preserves_ite
    | apply preserves_bind
    | intro _)

theorem read_numbers_list_error_check_stamped (lc : Int) (base : List diag) (c : Option Char) (n : Int) :
    preserves (stamped_with lc base) (read_numbers_list_error_check c n) := by
  unfold read_numbers_list_error_check
  repeat (first
    | exact preserves_pure _
    | exact preserves_query _
    | exact preserves_on_input _ (stamped_input lc base)
    | exact preserves_update (stamped_print_error_string lc base _ _)
    | exact preserves_update (stamped_print_error_char lc base _ _)
    | exact preserves_update (stamped_print_error lc base _)
    | exact preserves_update (stamped_print_warning_int lc base _ _)
    | exact preserves_update (stamped_print_warning lc base _)
    | exact preserves_update (stamped_inst_insert lc base _)
    | exact preserves_update (stamped_data_insert lc base _)
    | exact preserves_update (stamped_insert_label lc base _ _ _ _)
    | exact preserves_update (stamped_spl_insert lc base _ _ _ _)
    | exact preserves_update (stamped_ent_ext_list_insert lc base _ _ _)
    | apply stamped_line
    | apply preserves_ite
    | apply preserves_bind
    | intro _)

theorem read_numbers_list_end_stamped (lc : Int) (base : List diag) (n : Int) :
    preserves (stamped_with lc base) (read_numbers_list_end n) := by
  unfold read_numbers_list_end
  repeat (first
    | exact preserves_pure _
    | exact preserves_query _
    | exact preserves_on_input _ (stamped_input lc base)
    | exact preserves_update (stamped_print_error_string lc base _ _)
    | exact preserves_update (stamped_print_error_char lc base _ _)
    | exact preserves_update (stamped_print_error lc base _)
    | exact preserves_update (stamped_print_warning_int lc base _ _)
    | exact preserves_update (stamped_print_warning lc base _)
    | exact preserves_update (stamped_inst_insert lc base _)
    | exact preserves_update (stamped_data_insert lc base _)
    | exact preserves_update (stamped_insert_label lc base _ _ _ _)
    | exact preserves_update (stamped_spl_insert lc base _ _ _ _)
    | exact preserves_update (stamped_ent_ext_list_insert lc base _ _ _)
    | exact read_numbers_list_error_check_stamped lc base _ _
    | apply stamped_line
    | apply preserves_ite
    | apply preserves_bind
    | intro _)

theorem read_numbers_loop_stamped (lc : Int) (base : List diag) : ∀ (fuel : Nat) (n number : Int),
    preserves (stamped_with lc base) (read_numbers_loop fuel n number)
  | 0, n, number => by
    unfold read_numbers_loop
    apply preserves_bind (preserves_on_input _ (stamped_input lc base))
    intro _
    exact read_numbers_list_end_stamped lc base _
  | fuel + 1, n, number => by
    rw [read_numbers_loop_succ]
    have ih := read_numbers_loop_stamped lc base fuel
    have hend1 := read_numbers_list_end_stamped lc base (n + 1)
    have hend := read_numbers_list_end_stamped lc base n
    repeat (first
      | exact preserves_pure _
      | exact preserves_query _
      | exact preserves_on_input _ (stamped_input lc base)
      | exact preserves_update (stamped_print_error_string lc base _ _)
      | exact preserves_update (stamped_print_error_char lc base _ _)
      | exact preserves_update (stamped_print_error lc base _)
      | exact preserves_update (stamped_print_warning_int lc base _ _)
      | exact preserves_update (stamped_print_warning lc base _)
      | exact preserves_update (stamped_inst_insert lc base _)
      | exact preserves_update (stamped_data_insert lc base _)
      | exact preserves_update (stamped_insert_label lc base _ _ _ _)
      | exact preserves_update (stamped_spl_insert lc base _ _ _ _)
      | exact preserves_update (stamped_ent_ext_list_insert lc base _ _ _)
      | exact hend
      | exact hend1
      | exact ih _ _
      | apply stamped_line
      | apply preserves_ite
      | apply preserves_bind
      | intro _)

theorem read_numbers_list_stamped (lc : Int) (base : List diag) :
    preserves (stamped_with lc base) (read_numbers_list) := by
  unfold read_numbers_list
  repeat (first
    | exact preserves_pure _
    | exact preserves_query _
    | exact preserves_on_input _ (stamped_input lc base)
    | exact preserves_update (stamped_print_error_string lc base _ _)
    | exact preserves_update (stamped_print_error_char lc base _ _)
    | exact preserves_update (stamped_print_error lc base _)
    | exact preserves_update (stamped_print_warning_int lc base _ _)
    | exact preserves_update (stamped_print_warning lc base _)
    | exact preserves_update (stamped_inst_insert lc base _)
    | exact preserves_update (stamped_data_insert lc base _)
    | exact preserves_update (stamped_insert_label lc base _ _ _ _)
    | exact preserves_update (stamped_spl_insert lc base _ _ _ _)
    | exact preserves_update (stamped_ent_ext_list_insert lc base _ _ _)
    | exact read_numbers_loop_stamped lc base _ _ _
    | apply stamped_line
    | apply preserves_ite
    | apply preserves_bind
    | intro _)

theorem read_string_error_check_stamped (lc : Int) (base : List diag) (c : Option Char) (a b d : Bool) :
    preserves (stamped_with lc base) (read_string_error_check c a b d) := by
  unfold read_string_error_check
  repeat (first
    | exact preserves_pure _
    | exact preserves_query _
    | exact preserves_on_input _ (stamped_input lc base)
    | exact preserves_update (stamped_print_error_string lc base _ _)
    | exact preserves_update (stamped_print_error_char lc base _ _)
    | exact preserves_update (stamped_print_error lc base _)
    | exact preserves_update (stamped_print_warning_int lc base _ _)
    | exact preserves_update (stamped_print_warning lc base _)
    | exact preserves_update (stamped_inst_insert lc base _)
    | exact preserves_update (stamped_data_insert lc base _)
    | exact preserves_update (stamped_insert_label lc base _ _ _ _)
    | exact preserves_update (stamped_spl_insert lc base _ _ _ _)
    | exact preserves_update (stamped_ent_ext_list_insert lc base _ _ _)
    | apply stamped_line
    | apply preserves_ite
    | apply preserves_bind
    | intro _)

theorem insert_characters_stamped (lc : Int) (base : List diag) : ∀ l : List Char,
    preserves (stamped_with lc base) (insert_characters l)
  | [] => preserves_pure _
  | c :: rest => by
    unfold insert_characters
    apply preserves_bind (preserves_update (stamped_data_insert lc base _))
    intro _
    exact insert_characters_stamped lc base rest

theorem read_string_stamped (lc : Int) (base : List diag) :
    preserves (stamped_with lc base) (read_string) := by
  unfold read_string
  repeat (first
    | exact preserves_pure _
    | exact preserves_query _
    | exact preserves_on_input _ (stamped_input lc base)
    | exact preserves_update (stamped_print_error_string lc base _ _)
    | exact preserves_update (stamped_print_error_char lc base _ _)
    | exact preserves_update (stamped_print_error lc base _)
    | exact preserves_update (stamped_print_warning_int lc base _ _)
    | exact preserves_update (stamped_print_warning lc base _)
    | exact preserves_update (stamped_inst_insert lc base _)
    | exact preserves_update (stamped_data_insert lc base _)
    | exact preserves_update (stamped_insert_label lc base _ _ _ _)
    | exact preserves_update (stamped_spl_insert lc base _ _ _ _)
    | exact preserves_update (stamped_ent_ext_list_insert lc base _ _ _)
    | exact insert_characters_stamped lc base _
    | exact read_string_error_check_stamped lc base _ _ _ _
    | apply stamped_line
    | apply preserves_ite
    | apply preserves_bind
    | intro _)

theorem struct_error_check_stamped (lc : Int) (base : List diag) (a b : Bool) :
    preserves (stamped_with lc base) (struct_error_check a b) := by
  unfold struct_error_check
  repeat (first
    | exact preserves_pure _
    | exact preserves_query _
    | exact preserves_on_input _ (stamped_input lc base)
    | exact preserves_update (stamped_print_error_string lc base _ _)
    | exact preserves_update (stamped_print_error_char lc base _ _)
    | exact preserves_update (stamped_print_error lc base _)
    | exact preserves_update (stamped_print_warning_int lc base _ _)
    | exact preserves_update (stamped_print_warning lc base _)
    | exact preserves_update (stamped_inst_insert lc base _)
    | exact preserves_update (stamped_data_insert lc base _)
    | exact preserves_update (stamped_insert_label lc base _ _ _ _)
    | exact preserves_update (stamped_spl_insert lc base _ _ _ _)
    | exact preserves_update (stamped_ent_ext_list_insert lc base _ _ _)
    | apply stamped_line
    | apply preserves_ite
    | apply preserves_bind
    | intro _)

theorem process_directive_struct_stamped (lc : Int) (base : List diag) :
    preserves (stamped_with lc base) (process_directive_struct) := by
  unfold process_directive_struct
  repeat (first
    | exact preserves_pure _
    | exact preserves_query _
    | exact preserves_on_input _ (stamped_input lc base)
    | exact preserves_update (stamped_print_error_string lc base _ _)
    | exact preserves_update (stamped_print_error_char lc base _ _)
    | exact preserves_update (stamped_print_error lc base _)
    | exact preserves_update (stamped_print_warning_int lc base _ _)
    | exact preserves_update (stamped_print_warning lc base _)
    | exact preserves_update (stamped_inst_insert lc base _)
    | exact preserves_update (stamped_data_insert lc base _)
    | exact preserves_update (stamped_insert_label lc base _ _ _ _)
    | exact preserves_update (stamped_spl_insert lc base _ _ _ _)
    | exact preserves_update (stamped_ent_ext_list_insert lc base _ _ _)
    | exact read_string_stamped lc base
    | exact struct_error_check_stamped lc base _ _
    | apply stamped_line
    | apply preserves_ite
    | apply preserves_bind
    | intro _)

theorem ext_ent_end_of_line_stamped (lc : Int) (base : List diag) :
    preserves (stamped_with lc base) (ext_ent_end_of_line) := by
  unfold ext_ent_end_of_line
  repeat (first
    | exact preserves_pure _
    | exact preserves_query _
    | exact preserves_on_input _ (stamped_input lc base)
    | exact preserves_update (stamped_print_error_string lc base _ _)
    | exact preserves_update (stamped_print_error_char lc base _ _)
    | exact preserves_update (stamped_print_error lc base _)
    | exact preserves_update (stamped_print_warning_int lc base _ _)
    | exact preserves_update (stamped_print_warning lc base _)
    | exact preserves_update (stamped_inst_insert lc base _)
    | exact preserves_update (stamped_data_insert lc base _)
    | exact preserves_update (stamped_insert_label lc base _ _ _ _)
    | exact preserves_update (stamped_spl_insert lc base _ _ _ _)
    | exact preserves_update (stamped_ent_ext_list_insert lc base _ _ _)
    | apply stamped_line
    | apply preserves_ite
    | apply preserves_bind
    | intro _)

theorem process_directive_ext_ent_stamped (lc : Int) (base : List diag) (a b : Bool) :
    preserves (stamped_with lc base) (process_directive_ext_ent a b) := by
  unfold process_directive_ext_ent
  repeat (first
    | exact preserves_pure _
    | exact preserves_query _
    | exact preserves_on_input _ (stamped_input lc base)
    | exact preserves_update (stamped_print_error_string lc base _ _)
    | exact preserves_update (stamped_print_error_char lc base _ _)
    | exact preserves_update (stamped_print_error lc base _)
    | exact preserves_update (stamped_print_warning_int lc base _ _)
    | exact preserves_update (stamped_print_warning lc base _)
    | exact preserves_update (stamped_inst_insert lc base _)
    | exact preserves_update (stamped_data_insert lc base _)
    | exact preserves_update (stamped_insert_label lc base _ _ _ _)
    | exact preserves_update (stamped_spl_insert lc base _ _ _ _)
    | exact preserves_update (stamped_ent_ext_list_insert lc base _ _ _)
    | exact is_legal_label_stamped lc base _ _
    | exact ext_ent_end_of_line_stamped lc base
    | apply stamped_line
    | apply preserves_ite
    | apply preserves_bind
    | intro _)

theorem process_directive_stamped (lc : Int) (base : List diag) (direct : node) (b : Bool) (label : List Char) :
    preserves (stamped_with lc base) (process_directive direct b label) := by
  unfold process_directive
  repeat (first
    | exact preserves_pure _
    | exact preserves_query _
    | exact preserves_on_input _ (stamped_input lc base)
    | exact preserves_update (stamped_print_error_string lc base _ _)
    | exact preserves_update (stamped_print_error_char lc base _ _)
    | exact preserves_update (stamped_print_error lc base _)
    | exact preserves_update (stamped_print_warning_int lc base _ _)
    | exact preserves_update (stamped_print_warning lc base _)
    | exact preserves_update (stamped_inst_insert lc base _)
    | exact preserves_update (stamped_data_insert lc base _)
    | exact preserves_update (stamped_insert_label lc base _ _ _ _)
    | exact preserves_update (stamped_spl_insert lc base _ _ _ _)
    | exact preserves_update (stamped_ent_ext_list_insert lc base _ _ _)
    | exact process_directive_ext_ent_stamped lc base _ _
    | exact read_numbers_list_stamped lc base
    | exact read_string_stamped lc base
    | exact process_directive_struct_stamped lc base
    | apply stamped_line
    | apply preserves_ite
    | apply preserves_bind
    | intro _)

theorem detect_operands_error_check_stamped (lc : Int) (base : List diag) (a b : Int) (c : Option Char) (d : Bool) :
    preserves (stamped_with lc base) (detect_operands_error_check a b c d) := by
  unfold detect_operands_error_check
  repeat (first
    | exact preserves_pure _
    | exact preserves_query _
    | exact preserves_on_input _ (stamped_input lc base)
    | exact preserves_update (stamped_print_error_string lc base _ _)
    | exact preserves_update (stamped_print_error_char lc base _ _)
    | exact preserves_update (stamped_print_error lc base _)
    | exact preserves_update (stamped_print_warning_int lc base _ _)
    | exact preserves_update (stamped_print_warning lc base _)
    | exact preserves_update (stamped_inst_insert lc base _)
    | exact preserves_update (stamped_data_insert lc base _)
    | exact preserves_update (stamped_insert_label lc base _ _ _ _)
    | exact preserves_update (stamped_spl_insert lc base _ _ _ _)
    | exact preserves_update (stamped_ent_ext_list_insert lc base _ _ _)
    | apply stamped_line
    | apply preserves_ite
    | apply preserves_bind
    | intro _)

theorem detect_operands_and_types_stamped (lc : Int) (base : List diag) (data : instruction) :
    preserves (stamped_with lc base) (detect_operands_and_types data) := by
  unfold detect_operands_and_types
  repeat (first
    | exact preserves_pure _
    | exact preserves_query _
    | exact preserves_on_input _ (stamped_input lc base)
    | exact preserves_update (stamped_print_error_string lc base _ _)
    | exact preserves_update (stamped_print_error_char lc base _ _)
    | exact preserves_update (stamped_print_error lc base _)
    | exact preserves_update (stamped_print_warning_int lc base _ _)
    | exact preserves_update (stamped_print_warning lc base _)
    | exact preserves_update (stamped_inst_insert lc base _)
    | exact preserves_update (stamped_data_insert lc base _)
    | exact preserves_update (stamped_insert_label lc base _ _ _ _)
    | exact preserves_update (stamped_spl_insert lc base _ _ _ _)
    | exact preserves_update (stamped_ent_ext_list_insert lc base _ _ _)
    | exact detect_operands_error_check_stamped lc base _ _ _ _
    | apply stamped_line
    | apply preserves_ite
    | apply preserves_bind
    | intro _)

theorem check_operands_types_stamped (lc : Int) (base : List diag) (data : instruction) (a b : Int) :
    preserves (stamped_with lc base) (check_operands_types data a b) := by
  unfold check_operands_types
  repeat (first
    | exact preserves_pure _
    | exact preserves_query _
    | exact preserves_on_input _ (stamped_input lc base)
    | exact preserves_update (stamped_print_error_string lc base _ _)
    | exact preserves_update (stamped_print_error_char lc base _ _)
    | exact preserves_update (stamped_print_error lc base _)
    | exact preserves_update (stamped_print_warning_int lc base _ _)
    | exact preserves_update (stamped_print_warning lc base _)
    | exact preserves_update (stamped_inst_insert lc base _)
    | exact preserves_update (stamped_data_insert lc base _)
    | exact preserves_update (stamped_insert_label lc base _ _ _ _)
    | exact preserves_update (stamped_spl_insert lc base _ _ _ _)
    | exact preserves_update (stamped_ent_ext_list_insert lc base _ _ _)
    | apply stamped_line
    | apply preserves_ite
    | apply preserves_bind
    | intro _)

theorem process_struct_stamped (lc : Int) (base : List diag) (op : List Char) :
    preserves (stamped_with lc base) (process_struct op) := by
  unfold process_struct
  repeat (first
    | exact preserves_pure _
    | exact preserves_query _
    | exact preserves_on_input _ (stamped_input lc base)
    | exact preserves_update (stamped_print_error_string lc base _ _)
    | exact preserves_update (stamped_print_error_char lc base _ _)
    | exact preserves_update (stamped_print_error lc base _)
    | exact preserves_update (stamped_print_warning_int lc base _ _)
    | exact preserves_update (stamped_print_warning lc base _)
    | exact preserves_update (stamped_inst_insert lc base _)
    | exact preserves_update (stamped_data_insert lc base _)
    | exact preserves_update (stamped_insert_label lc base _ _ _ _)
    | exact preserves_update (stamped_spl_insert lc base _ _ _ _)
    | exact preserves_update (stamped_ent_ext_list_insert lc base _ _ _)
    | exact is_legal_label_stamped lc base _ _
    | apply stamped_line
    | apply preserves_ite
    | apply preserves_bind
    | intro _)

theorem process_immediate_stamped (lc : Int) (base : List diag) (op : List Char) :
    preserves (stamped_with lc base) (process_immediate op) := by
  unfold process_immediate
  repeat (first
    | exact preserves_pure _
    | exact preserves_query _
    | exact preserves_on_input _ (stamped_input lc base)
    | exact preserves_update (stamped_print_error_string lc base _ _)
    | exact preserves_update (stamped_print_error_char lc base _ _)
    | exact preserves_update (stamped_print_error lc base _)
    | exact preserves_update (stamped_print_warning_int lc base _ _)
    | exact preserves_update (stamped_print_warning lc base _)
    | exact preserves_update (stamped_inst_insert lc base _)
    | exact preserves_update (stamped_data_insert lc base _)
    | exact preserves_update (stamped_insert_label lc base _ _ _ _)
    | exact preserves_update (stamped_spl_insert lc base _ _ _ _)
    | exact preserves_update (stamped_ent_ext_list_insert lc base _ _ _)
    | apply stamped_line
    | apply preserves_ite
    | apply preserves_bind
    | intro _)

theorem process_operand_stamped (lc : Int) (base : List diag) (t : Int) (op : List Char)
    (b : Bool) : preserves (stamped_with lc base) (process_operand t op b) := by
  unfold process_operand
  apply preserves_ite
  · repeat (first
      | exact preserves_pure _
      | exact preserves_query _
      | exact preserves_on_input _ (stamped_input lc base)
      | exact preserves_update (stamped_print_error_string lc base _ _)
      | exact preserves_update (stamped_print_error_char lc base _ _)
      | exact preserves_update (stamped_print_error lc base _)
      | exact preserves_update (stamped_print_warning_int lc base _ _)
      | exact preserves_update (stamped_print_warning lc base _)
      | exact preserves_update (stamped_inst_insert lc base _)
      | exact preserves_update (stamped_data_insert lc base _)
      | exact preserves_update (stamped_insert_label lc base _ _ _ _)
      | exact preserves_update (stamped_spl_insert lc base _ _ _ _)
      | exact preserves_update (stamped_ent_ext_list_insert lc base _ _ _)
      | apply stamped_line
      | apply preserves_ite
      | apply preserves_bind
      | intro _)
  apply preserves_ite
  · exact process_immediate_stamped lc base _
  apply preserves_ite
  · apply preserves_bind (is_legal_label_stamped lc base _ _)
    intro l
    repeat (first
      | exact preserves_pure _
      | exact preserves_query _
      | exact preserves_on_input _ (stamped_input lc base)
      | exact preserves_update (stamped_print_error_string lc base _ _)
      | exact preserves_update (stamped_print_error_char lc base _ _)
      | exact preserves_update (stamped_print_error lc base _)
      | exact preserves_update (stamped_print_warning_int lc base _ _)
      | exact preserves_update (stamped_print_warning lc base _)
      | exact preserves_update (stamped_inst_insert lc base _)
      | exact preserves_update (stamped_data_insert lc base _)
      | exact preserves_update (stamped_insert_label lc base _ _ _ _)
      | exact preserves_update (stamped_spl_insert lc base _ _ _ _)
      | exact preserves_update (stamped_ent_ext_list_insert lc base _ _ _)
      | apply stamped_line
      | apply preserves_ite
      | apply preserves_bind
      | intro _)
  apply preserves_ite
  · exact process_struct_stamped lc base _
  · exact preserves_pure _

theorem store_operands_stamped (lc : Int) (base : List diag) (data : instruction) (a b : Int)
    (op1 op2 : List Char) :
    preserves (stamped_with lc base) (store_operands data a b op1 op2) := by
  unfold store_operands
  apply preserves_ite
  · repeat (first
      | exact preserves_pure _
      | exact preserves_query _
      | exact preserves_on_input _ (stamped_input lc base)
      | exact preserves_update (stamped_print_error_string lc base _ _)
      | exact preserves_update (stamped_print_error_char lc base _ _)
      | exact preserves_update (stamped_print_error lc base _)
      | exact preserves_update (stamped_print_warning_int lc base _ _)
      | exact preserves_update (stamped_print_warning lc base _)
      | exact preserves_update (stamped_inst_insert lc base _)
      | exact preserves_update (stamped_data_insert lc base _)
      | exact preserves_update (stamped_insert_label lc base _ _ _ _)
      | exact preserves_update (stamped_spl_insert lc base _ _ _ _)
      | exact preserves_update (stamped_ent_ext_list_insert lc base _ _ _)
      | apply stamped_line
      | apply preserves_ite
      | apply preserves_bind
      | intro _)
  apply preserves_bind
  · exact preserves_ite (process_operand_stamped lc base _ _ _) (preserves_pure _)
  intro status
  exact preserves_ite (process_operand_stamped lc base _ _ _) (preserves_pure _)

theorem process_instruction_stamped (lc : Int) (base : List diag) (inst : node) (b : Bool) (label : List Char) :
    preserves (stamped_with lc base) (process_instruction inst b label) := by
  unfold process_instruction
  repeat (first
    | exact preserves_pure _
    | exact preserves_query _
    | exact preserves_on_input _ (stamped_input lc base)
    | exact preserves_update (stamped_print_error_string lc base _ _)
    | exact preserves_update (stamped_print_error_char lc base _ _)
    | exact preserves_update (stamped_print_error lc base _)
    | exact preserves_update (stamped_print_warning_int lc base _ _)
    | exact preserves_update (stamped_print_warning lc base _)
    | exact preserves_update (stamped_inst_insert lc base _)
    | exact preserves_update (stamped_data_insert lc base _)
    | exact preserves_update (stamped_insert_label lc base _ _ _ _)
    | exact preserves_update (stamped_spl_insert lc base _ _ _ _)
    | exact preserves_update (stamped_ent_ext_list_insert lc base _ _ _)
    | exact detect_operands_and_types_stamped lc base _
    | exact check_operands_types_stamped lc base _ _ _
    | exact store_operands_stamped lc base _ _ _ _ _
    | apply stamped_line
    | apply preserves_ite
    | apply preserves_bind
    | intro _)

theorem process_line_stamped (lc : Int) (base : List diag) :
    preserves (stamped_with lc base) process_line := by
  unfold process_line
  apply preserves_bind (is_comment_or_empty_line_stamped lc base)
  intro e
  apply preserves_bind
  · repeat (first
      | exact preserves_pure _
      | exact preserves_on_input _ (stamped_input lc base)
      | apply preserves_ite
      | apply preserves_bind
      | intro _)
  intro skip
  apply preserves_ite
  · repeat (first
      | exact preserves_pure _
      | exact preserves_on_input _ (stamped_input lc base)
      | apply preserves_bind
      | intro _)
  apply preserves_bind (pre_process_line_stamped lc base)
  intro h
  apply preserves_ite
  · cases h.symbol with
    | none => exact preserves_pure _
    | some symbol =>
      apply preserves_ite
      · exact process_instruction_stamped lc base _ _ _
      apply preserves_ite
      · exact process_directive_stamped lc base _ _ _
      · exact preserves_pure _
  · repeat (first
      | exact preserves_pure _
      | exact preserves_on_input _ (stamped_input lc base)
      | apply preserves_bind
      | intro _)

end

/-! ### One line per call of `process_line` -/

theorem line_step_reach (s : session) : reach s (line_step s) := by
  have h1 : reach s { s with line_count := s.line_count + 1 } := reach_other rfl rfl
  exact reach_trans h1 (process_line_steps _)

theorem line_steps_reach (s : session) : ∀ n : Nat, reach s (line_step^[n] s)
  | 0 => reach_refl s
  | n + 1 => by
    rw [Function.iterate_succ_apply']
    exact reach_trans (line_steps_reach s n) (line_step_reach _)

theorem process_line_messages (s : session) :
    (process_line s).2.line_count = s.line_count ∧
    ∃ l : List diag, (process_line s).2.stderr = s.stderr ++ l ∧
      ∀ d ∈ l, d.line = none ∨ d.line = some s.line_count := by
  have h := process_line_stamped s.line_count s.stderr s
    ⟨rfl, [], (List.append_nil _).symm, fun d hd => absurd hd (List.not_mem_nil d)⟩
  exact h

theorem line_step_spec (s : session) (hd : directs_ok s.symbol_table) :
    (line_step s).intput_as.buf = after_line s.intput_as.buf ∧
    (line_step s).line_count = s.line_count + 1 ∧
    ∃ l : List diag, (line_step s).stderr = s.stderr ++ l ∧
      ∀ d ∈ l, d.line = none ∨ d.line = some (s.line_count + 1) :=
  ⟨process_line_reads_line { s with line_count := s.line_count + 1 } hd,
    process_line_messages { s with line_count := s.line_count + 1 }⟩

theorem start_directs_ok (c : Int) (input : List Char) :
    directs_ok (session_start c input).symbol_table := by
  rw [session_start_table]
  exact directs_ok_initial

theorem line_steps_spec (c : Int) (input : List Char) : ∀ n : Nat,
    (line_step^[n] (session_start c input)).intput_as.buf = after_line^[n] input ∧
    (line_step^[n] (session_start c input)).line_count = (n : Int)
  | 0 => ⟨rfl, rfl⟩
  | n + 1 => by
    have ih := line_steps_spec c input n
    have hd := reach_directs_ok (line_steps_reach (session_start c input) n)
      (start_directs_ok c input)
    have h := line_step_spec _ hd
    rw [Function.iterate_succ_apply', Function.iterate_succ_apply']
    refine ⟨?_, ?_⟩
    · rw [h.1, ih.1]
    · rw [h.2.1, ih.2]
      push_cast
      rfl

theorem first_pass_loop_calls : ∀ (fuel : Nat) (status : Bool) (s : session),
    ∃ k : Nat, (first_pass_loop fuel status s).2 = line_step^[k] s
  | 0, status, s => ⟨0, rfl⟩
  | fuel + 1, status, s => by
    rw [first_pass_loop_succ]
    by_cases he : s.intput_as.eof = true
    · rw [if_pos he]
      exact ⟨0, rfl⟩
    · rw [if_neg he]
      obtain ⟨k, hk⟩ := first_pass_loop_calls fuel
        (if ¬ (process_line { s with line_count := s.line_count + 1 }).1 = true then false
         else status)
        (process_line { s with line_count := s.line_count + 1 }).2
      exact ⟨k + 1, hk.trans (Function.iterate_succ_apply line_step k s).symm⟩

set_option maxRecDepth 1000000 in
/-- The lines as the calls of `process_line` take them, as long as every token
fits the buffer it is stored in (the functions here give a token whatever its
length): a call of `process_line` leaves unread exactly the text after the
first newline of the text it found (nothing when the text has no newline),
whatever it returns, keeps `line_count`, and every message it prints that
carries a line number carries `line_count`; this holds in every session whose
DIRECT symbols are the five directives, which is every session the first pass
reaches. So after n iterations of the loop of the first pass on the text
`input` the unread text is `input` without its first n lines, `line_count` is
n, and the messages of iteration n + 1 carry the number n + 1; the first pass
ends in the session that k such iterations reach. -/
theorem process_line_reads_one_line :
    (∀ s : session, directs_ok s.symbol_table →
      (process_line s).2.intput_as.buf = after_line s.intput_as.buf ∧
      (process_line s).2.line_count = s.line_count ∧
      ∃ l : List diag, (process_line s).2.stderr = s.stderr ++ l ∧
        ∀ d ∈ l, d.line = none ∨ d.line = some s.line_count) ∧
    (∀ (c : Int) (input : List Char) (s : session), reach (session_start c input) s →
      directs_ok s.symbol_table) ∧
    (∀ (c : Int) (input : List Char) (n : Nat),
      reach (session_start c input) (line_step^[n] (session_start c input)) ∧
      (line_step^[n] (session_start c input)).intput_as.buf = after_line^[n] input ∧
      (line_step^[n] (session_start c input)).line_count = (n : Int) ∧
      ∃ l : List diag,
        (line_step^[n + 1] (session_start c input)).stderr =
          (line_step^[n] (session_start c input)).stderr ++ l ∧
        ∀ d ∈ l, d.line = none ∨ d.line = some ((n : Int) + 1)) ∧
    (∀ (fuel : Nat) (status : Bool) (s : session),
      first_pass_loop (fuel + 1) status s =
        if s.intput_as.eof = true then (status, s)
        else first_pass_loop fuel
          (if ¬ (process_line { s with line_count := s.line_count + 1 }).1 = true then false
           else status) (line_step s)) ∧
    (∀ (c : Int) (input : List Char),
      ∃ k : Nat, (first_pass_process (session_start c input)).2 =
        line_step^[k] (session_start c input)) ∧
    (first_pass_process (session_start 0
      "mov r1\n; note\n.data 1,,2\n\nlea #1, r2\nX: .string \"ab\nstop\nY: .entry\nprn #x".toList)).2.stderr
      = [.error 1 7, .error_char 3 15 (some ','), .error 5 8, .error 6 18, .warning 8 2,
         .error_string 9 10 "x".toList] ∧
    (first_pass_process (session_start 0
      "mov r1\n; note\n.data 1,,2\n\nlea #1, r2\nX: .string \"ab\nstop\nY: .entry\nprn #x".toList)).2.line_count
      = 9 := by
  refine ⟨fun s hd => ⟨process_line_reads_line s hd, process_line_messages s⟩,
    fun c input s h => reach_directs_ok h (start_directs_ok c input),
    fun c input n => ?_, fun fuel status s => first_pass_loop_succ fuel status s,
    fun c input => ?_, by decide, by decide⟩
  · have hr := line_steps_reach (session_start c input) n
    have hs := line_steps_spec c input n
    have h := line_step_spec _ (reach_directs_ok hr (start_directs_ok c input))
    refine ⟨hr, hs.1, hs.2, ?_⟩
    rw [Function.iterate_succ_apply', ← hs.2]
    exact h.2.2
  · exact first_pass_loop_calls _ _ _

/-! ### The tokens of a line and the buffers that hold them -/

theorem read_next_string_stored_eq (c0 : Int) (f : InFile) :
    read_next_string_stored f = (read_next_string c0 f).1.1.length + 1 := by
  have e : read_next_string_stored f =
      (getc_while in_word f.eof f.buf).1.length +
        (if (getc_while in_word f.eof f.buf).2.1 = some ':' then 1 else 0) + 1 := rfl
  have e2 : (read_next_string c0 f).1.1 =
      (if (getc_while in_word f.eof f.buf).2.1 = some ':'
        then (getc_while in_word f.eof f.buf).1 ++ [':']
        else (getc_while in_word f.eof f.buf).1) := rfl
  rw [e, e2]
  split_ifs
  · rw [List.length_append]
    rfl
  · rfl

theorem detect_operand_type_stored_eq (t : hash_table) (f : InFile) :
    detect_operand_type_stored f = (detect_operand_type t f).1.2.length + 1 := rfl

set_option maxRecDepth 1000000 in
/-- C39 (the code at the failing input): `read_next_string` and
`detect_operand_type` store the token and its terminating NUL in a buffer of
`MAX_BUFFER_SIZE` = 80 bytes with no test against that size, so a token of 80
characters or more (79 with the colon of a label) is written past the end of
the buffer. For the line that starts with a label of 112 characters the first
thing `process_line` does after the blanks is the call `read_next_string
(str1)`, which stores 114 bytes in the 80 of `str1`; what the program does
after that is undefined. Only with a buffer that holds the token does the call
go on to error 11 for the label and to the next line. The same happens within
a line of 80 characters: a label of 79 characters with its colon takes 81
bytes. An operand of 80 characters takes 81 bytes of `op2`; one of 76
characters, after `prn` in a line of 80, fits. -/
theorem c39_token_overflows_buffer :
    MAX_BUFFER_SIZE = 80 ∧
    (∀ (c0 : Int) (f : InFile),
      read_next_string_stored f = (read_next_string c0 f).1.1.length + 1 ∧
      (read_next_string c0 f).1.1 = next_word f.buf) ∧
    (∀ (t : hash_table) (f : InFile),
      detect_operand_type_stored f = (detect_operand_type t f).1.2.length + 1) ∧
    (∀ f : InFile, MAX_BUFFER_SIZE ≤ (next_word f.buf).length →
      MAX_BUFFER_SIZE < read_next_string_stored f) ∧
    (∀ f : InFile, (next_word f.buf).length < MAX_BUFFER_SIZE →
      read_next_string_stored f ≤ MAX_BUFFER_SIZE) ∧
    (∀ f : InFile, MAX_BUFFER_SIZE ≤ (f.buf.takeWhile in_operand).length →
      MAX_BUFFER_SIZE < detect_operand_type_stored f) ∧
    (read_next_string_stored (skip_whites
        { buf := List.replicate 112 'a' ++ ": stop\nstop\n".toList, eof := false }).2 = 114 ∧
      ((read_next_string 0 (skip_whites
        { buf := List.replicate 112 'a' ++ ": stop\nstop\n".toList, eof := false }).2).1.1.length
        = 113) ∧
      (process_line { session_start 0
          (List.replicate 112 'a' ++ ": stop\nstop\n".toList) with line_count := 1 }).2.stderr =
        [diag.error_string 1 11 "aaaaa...".toList]) ∧
    ((List.replicate 79 'a' ++ ":\n".toList).length = 81 ∧
      read_next_string_stored { buf := List.replicate 79 'a' ++ ":\n".toList, eof := false } = 81 ∧
      ("prn ".toList ++ List.replicate 76 'a').length = 80 ∧
      detect_operand_type_stored (read_next_string 0
        { buf := "prn ".toList ++ List.replicate 76 'a', eof := false }).2 = 77 ∧
      detect_operand_type_stored (read_next_string 0
        { buf := "prn ".toList ++ List.replicate 80 'a', eof := false }).2 = 81)
    := by
  refine ⟨rfl, fun c0 f => ⟨read_next_string_stored_eq c0 f, (read_next_string_text c0 f).1⟩,
    fun t f => detect_operand_type_stored_eq t f, fun f h => ?_, fun f h => ?_, fun f h => ?_,
    ⟨by decide, by decide, by decide⟩, by decide⟩
  · rw [read_next_string_stored_eq 0 f, (read_next_string_text 0 f).1]
    omega
  · rw [read_next_string_stored_eq 0 f, (read_next_string_text 0 f).1]
    omega
  · have e : detect_operand_type_stored f = (f.buf.takeWhile in_operand).length + 1 := by
      have htw := getc_while_takeWhile in_operand f.eof f.buf
      show (getc_while in_operand f.eof f.buf).1.length + 1 = _
      rw [htw.1]
    rw [e]
    omega

/-! ### Failures without a message, numbers beyond an `int`, lines beyond 511 -/

set_option maxRecDepth 1000000 in
/-- C4 (the code at the failing input): for the source `stop`, `.extern`, with
the counter of `read_next_string` starting from 0, the first pass prints
nothing at all, the second pass is not run and `memory_full_flag` is clear:
no error was reported and the memory is not full. Yet `file_process` writes
none of `.ob`, `.ent` and `.ext`, because the first pass returned 0 for the
second line. For every input the files are written exactly when both passes
return 1 with the flag clear, and then no numbered error has been printed;
that no error was printed does not make the passes return 1. -/
theorem c4_no_error_reported_and_no_output :
    ((first_pass_process (session_start 0 "stop\n.extern\n".toList)).1 = false ∧
      (first_pass_process (session_start 0 "stop\n.extern\n".toList)).2.stderr = [] ∧
      (file_process 0 "stop\n.extern\n".toList).final.stderr = [] ∧
      (file_process 0 "stop\n.extern\n".toList).final.mem.memory_full_flag = false ∧
      (file_process 0 "stop\n.extern\n".toList).status = false ∧
      (file_process 0 "stop\n.extern\n".toList).ob = none ∧
      (file_process 0 "stop\n.extern\n".toList).ent = none ∧
      (file_process 0 "stop\n.extern\n".toList).ext = none) ∧
    (∀ (c : Int) (input : List Char), (file_process c input).ob.isSome = true →
      (second_pass_process (first_pass_process (session_start c input)).2).2.errors = []) ∧
    (∀ (c : Int) (input : List Char), (file_process c input).ob.isSome = true ↔
      ((first_pass_process (session_start c input)).1 = true ∧
       (second_pass_process (first_pass_process (session_start c input)).2).1 = true ∧
       (second_pass_process (first_pass_process
          (session_start c input)).2).2.mem.memory_full_flag = false)) :=
  ⟨by decide, fun c input => (outputs_iff_passes_succeed c input).2.2.2,
    fun c input => (outputs_iff_passes_succeed c input).1⟩

set_option maxRecDepth 1000000 in
/-- C14 (the code at the failing input): `process_immediate` tests the `int`
that `atoi` returns, so for `#N`, N the text of a signed decimal integer,
warning 1 is printed exactly when that `int` is outside [-128, 127], and the
word stored is made from its low 8 bits. For digits that make a number beyond
an `int` the `int` is the number reduced modulo 2^32: for `prn #4294967296` it
is 0, the word stored is 0, nothing is printed and the run writes its files,
although 4294967296 is outside [-128, 127]. -/
theorem c14_large_immediate_gets_no_warning :
    (∀ (text : List Char) (s : session), signed_decimal text →
      process_immediate ('#' :: text) s =
        (true, (if atoi text > 127 ∨ atoi text < -128
          then print_warning_int s.line_count 1 (atoi text) else id)
          (s.instructions_array_insert (word_assign (int_shl (wrap8 (atoi text)) 2))))) ∧
    (∀ digits : List Char, digits ≠ [] → (∀ c ∈ digits, c.isDigit = true) →
      atoi digits = wrap32 (decimal_value digits)) ∧
    (decimal_value "4294967296".toList = 4294967296 ∧
      atoi "4294967296".toList = 0 ∧
      process_immediate "#4294967296".toList (session_start 0 []) =
        (true, (session_start 0 []).instructions_array_insert ⟨0⟩) ∧
      (file_process 0 "prn #4294967296\n".toList).status = true ∧
      (file_process 0 "prn #4294967296\n".toList).final.stderr = [] ∧
      (file_process 0 "prn #4294967296\n".toList).final.mem.instructions_array.take 2 =
        [⟨-256⟩, ⟨0⟩] ∧
      (file_process 0 "prn #4294967296\n".toList).ob = some "!#\t!!\n$%\to!\n$^\t!!".toList) := by
  refine ⟨fun text s h => ?_, fun digits hne hall => (atoi_signed_decimal digits hne hall).1,
    by decide⟩
  have hnum : is_number text = true := (is_number_iff text).mpr h
  rw [process_immediate_eq]
  simp only [List.drop_succ_cons, List.drop_zero, hnum, if_true, id]

set_option maxRecDepth 1000000 in
/-- C26 (the code at the failing input): `read_next_number` computes the
number in an `int`, and `read_numbers_list` tests that `int`. For the line
`.data 4294967297` the `int` is 1: one word, 1, is stored, warning 3 is not
printed and the run writes its files, although 4294967297 is outside
[-512, 511]. -/
theorem c26_large_number_gets_no_warning :
    decimal_value "4294967297".toList = 4294967297 ∧
    (read_next_number 0 { buf := "4294967297\n".toList, eof := false }).1 = (10, 1) ∧
    (read_numbers_list (session_start 0 "4294967297\n".toList)).1 = 1 ∧
    (read_numbers_list (session_start 0 "4294967297\n".toList)).2.stderr = [] ∧
    (read_numbers_list (session_start 0 "4294967297\n".toList)).2.mem.DC = 1 ∧
    (read_numbers_list (session_start 0 "4294967297\n".toList)).2.mem.data_array.take 1 =
      [⟨1⟩] ∧
    (file_process 0 ".data 4294967297\n".toList).status = true ∧
    (file_process 0 ".data 4294967297\n".toList).final.stderr = [] ∧
    (file_process 0 ".data 4294967297\n".toList).ob = some "!!\t!@\n$%\t!@".toList := by
  decide

set_option maxRecDepth 1000000 in
/-- C16 (the code at the failing input): `spl_insert` keeps the line number
of a patch site in a signed 10-bit field, so the site holds the line number
reduced to the range -512 .. 511. For an operand `X` on line 601 the site
holds -423: after 600 empty lines and the line `prn X` the list has the site
(X, index 1, line -423), and the second pass reports error 26 for X with the
line number -423. -/
theorem c16_site_line_is_cut_to_10_bits :
    wrap10 601 = -423 ∧
    (∀ (key : List Char) (i lc : Int) (b : Bool) (s : session),
      (spl_insert key i lc b s).second_pass_list =
        { node_construct key type.INST with
          index := wrap10 i,
          data := node_data.line { line_count := wrap10 lc, is_struct := b } } ::
          s.second_pass_list) ∧
    (process_operand ABSOLUTE "X".toList false
        { session_start 0 [] with line_count := 601 }).2.second_pass_list =
      [{ key := "X".toList, type := type.INST, index := 0,
         data := node_data.line { line_count := -423, is_struct := false } }] ∧
    ((first_pass_process (session_start 0
        (List.replicate 600 '\n' ++ "prn X\n".toList))).1 = true ∧
      (first_pass_process (session_start 0
        (List.replicate 600 '\n' ++ "prn X\n".toList))).2.second_pass_list =
        [{ key := "X".toList, type := type.INST, index := 1,
           data := node_data.line { line_count := -423, is_struct := false } }] ∧
      (file_process 0 (List.replicate 600 '\n' ++ "prn X\n".toList)).final.stderr =
        [diag.error_string (-423) 26 "X".toList]) := by
  refine ⟨by decide, fun key i lc b s => rfl, by decide, by decide!⟩

set_option maxRecDepth 1000000 in
/-- C29 (the code at the failing input): `ent_ext_list_insert` keeps the line
number of an entry request in the signed 10-bit field `index`, so the request
holds the line number reduced to the range -512 .. 511. For `.entry Q` on
line 601 the request holds -423: after 600 empty lines and the line
`.entry Q` the list has the request (Q, -423), and `create_entries_file`
reports error 29 for Q with the line number -423. -/
theorem c29_entry_line_is_cut_to_10_bits :
    wrap10 601 = -423 ∧
    (∀ (name : List Char) (lc : Int) (s : session),
      (ent_ext_list_insert name true lc s).entries_list =
        { node_construct name type.INST with index := wrap10 lc } :: s.entries_list) ∧
    (process_directive_ext_ent false false
        { session_start 0 "Q\n".toList with line_count := 601 }).2.entries_list =
      [{ key := "Q".toList, type := type.INST, index := -423, data := node_data.null }] ∧
    ((file_process 0 (List.replicate 600 '\n' ++ ".entry Q\n".toList)).status = true ∧
      (file_process 0 (List.replicate 600 '\n' ++ ".entry Q\n".toList)).final.entries_list =
        [{ key := "Q".toList, type := type.INST, index := -423, data := node_data.null }] ∧
      (file_process 0 (List.replicate 600 '\n' ++ ".entry Q\n".toList)).final.stderr =
        [diag.error_string (-423) 29 "Q".toList] ∧
      (file_process 0 (List.replicate 600 '\n' ++ ".entry Q\n".toList)).ent = none) := by
  refine ⟨by decide, fun name lc s => rfl, by decide, by decide!⟩

end Assembler
